import Mathlib

/-!
# The genome of `strategy/cnn_genome.cxx`

A shallow embedding of `CNN_Genome` (the graph of nodes and edges of one
candidate convolutional network) and of the operations on it.

* `CNN_Node*` is an address (`Nat`) into `CNN_Genome.heap`; two pointers are
  the same pointer exactly when the addresses are equal. The edges of a
  genome are held by value: the edge pointers of the edge list are taken to
  be pairwise distinct, so a write to one edge is a write at one position.
* `int`/`long` values are `Int`, and the increment `epoch++` of the training
  loop, which can leave the range of an `int`, goes through `int_wrap`;
  `double` values are `ℚ` (so no value is a NaN or an infinity), a
  `std::string` is the list of its characters.
* The bodies of the member functions of `CNN_Node` and `CNN_Edge` live in
  `cnn_node.cxx` / `cnn_edge.cxx`; the ones the genome calls are the fields
  of `Collaborators`, `Trainer`, `Builder` and `Evaluator`, and their stream
  operators the fields of `Codec`. What a theorem takes them to do is a
  hypothesis of the theorem.
* An `istream` is the list of the characters still to be extracted, with its
  `eofbit` and `failbit`; what `write` sends to its `ostream` is a list of
  characters.
-/

namespace ExactSho

/-! ## Data model -/

/-- The members of `CNN_Node` that `CNN_Genome` reads or writes through the
node's accessors; `values`, `errors` and `gradients` are the buffers behind
`get_value`, `set_value`, `set_error` and `set_gradient`. -/
structure CNN_Node where
  innovation_number : Int := 0
  depth : Int := 0
  size_x : Int := 1
  size_y : Int := 1
  total_inputs : Int := 0
  visited : Bool := false
  bias : List ℚ := []
  best_bias : List ℚ := []
  values : List (List ℚ) := []
  errors : List (List ℚ) := []
  gradients : List (List ℚ) := []
  deriving DecidableEq

/-- The members of `CNN_Edge` that `CNN_Genome` reads or writes through the
edge's accessors; `input_node` and `output_node` are node pointers. -/
structure CNN_Edge where
  innovation_number : Int := 0
  input_node : Nat := 0
  output_node : Nat := 0
  filter_x : Int := 1
  filter_y : Int := 1
  disabled : Bool := false
  weights : List ℚ := []
  best_weights : List ℚ := []
  deriving DecidableEq

/-- State of the genome's random source: `generator` (a `minstd_rand0`) and
`normal_distribution`. -/
structure RNG where
  generator : Nat := 1
  normal_distribution : Nat := 0
  deriving DecidableEq

/-- The members of `class CNN_Genome` (cnn_genome.hxx 23-85, with the vectors
`best_class_error` and `best_correct_predictions` that cnn_genome.cxx uses).
`heap` holds the node objects the pointers of the genome refer to; a string
is the list of its characters; `progress_function` is `none` for `NULL`. -/
structure CNN_Genome where
  version_str : List Char := []
  exact_id : Int := -1
  genome_id : Int := -1
  heap : Nat → CNN_Node := fun _ => {}
  nodes : List Nat := []
  edges : List CNN_Edge := []
  input_nodes : List Nat := []
  softmax_nodes : List Nat := []
  rng : RNG := {}
  velocity_reset : Int := 0
  input_dropout_probability : ℚ := 0
  hidden_dropout_probability : ℚ := 0
  initial_mu : ℚ := 0
  mu : ℚ := 0
  mu_delta : ℚ := 0
  initial_learning_rate : ℚ := 0
  learning_rate : ℚ := 0
  learning_rate_delta : ℚ := 0
  initial_weight_decay : ℚ := 0
  weight_decay : ℚ := 0
  weight_decay_delta : ℚ := 0
  epoch : Int := 0
  max_epochs : Int := 0
  reset_weights : Bool := false
  best_error : ℚ := 0
  best_predictions : Int := 0
  best_predictions_epoch : Int := 0
  best_error_epoch : Int := 0
  best_class_error : List ℚ := []
  best_correct_predictions : List Int := []
  started_from_checkpoint : Bool := false
  backprop_order : List Int := []
  generation_id : Int := 0
  name : List Char := []
  checkpoint_filename : List Char := []
  output_filename : List Char := []
  generated_by_disable_edge : Int := 0
  generated_by_enable_edge : Int := 0
  generated_by_split_edge : Int := 0
  generated_by_add_edge : Int := 0
  generated_by_change_size : Int := 0
  generated_by_change_size_x : Int := 0
  generated_by_change_size_y : Int := 0
  generated_by_crossover : Int := 0
  generated_by_reset_weights : Int := 0
  generated_by_add_node : Int := 0
  progress_function : Option Nat := none

/-- Member functions of `CNN_Edge` and `CNN_Node` called by the genome whose
bodies are not part of `cnn_genome.cxx`. -/
structure Collaborators where
  /-- The method `CNN_Edge::equals(CNN_Edge*)`. -/
  edge_equals : CNN_Edge → CNN_Edge → Bool
  /-- The method `CNN_Edge::is_filter_correct()`; it reads the two end nodes. -/
  is_filter_correct : (Nat → CNN_Node) → CNN_Edge → Bool
  /-- The method `CNN_Node::has_zero_bias()`. -/
  has_zero_bias : CNN_Node → Bool
  /-- The method `CNN_Edge::has_zero_weight()`. -/
  has_zero_weight : CNN_Edge → Bool
  /-- The values `CNN_Node::initialize_bias(generator, normal_distribution)`
  draws, with the state of the random source afterwards. -/
  draw_bias : RNG → CNN_Node → List ℚ × RNG
  /-- The values `CNN_Edge::initialize_weights(generator, normal_distribution)`
  draws, with the state of the random source afterwards. -/
  draw_weights : RNG → CNN_Edge → List ℚ × RNG

/-! ## `CNN_Genome::equals` (cnn_genome.cxx 544-590) -/

/-- Inner loop of the first pass of `equals` (552-562) for one enabled `edge`
of `this`, over the edges of `other`. `none` is the `return false` of line
560, `some found` is the value of `found` when the loop ends. -/
def equals_compare_loop (C : Collaborators) (edge : CNN_Edge) :
    List CNN_Edge → Bool → Option Bool
  | [], found => some found
  | other_edge :: rest, found =>
    if other_edge.disabled then equals_compare_loop C edge rest found
    else if edge.innovation_number = other_edge.innovation_number then
      if !C.edge_equals edge other_edge then none
      else equals_compare_loop C edge rest true
    else equals_compare_loop C edge rest found

/-- First pass of `equals` (545-565): `false` is a `return false`, `true`
means the loop ran to its end. -/
def equals_first_pass (C : Collaborators) (other_edges : List CNN_Edge) :
    List CNN_Edge → Bool
  | [] => true
  | edge :: rest =>
    if edge.disabled then equals_first_pass C other_edges rest
    else
      match equals_compare_loop C edge other_edges false with
      | none => false
      | some found =>
        if !found then false else equals_first_pass C other_edges rest

/-- Inner loop of the second pass of `equals` (576-584): the value of `found`
when the loop ends. -/
def equals_find_loop (other_edge : CNN_Edge) : List CNN_Edge → Bool → Bool
  | [], found => found
  | edge :: rest, found =>
    if edge.disabled then equals_find_loop other_edge rest found
    else if edge.innovation_number = other_edge.innovation_number then
      equals_find_loop other_edge rest true
    else equals_find_loop other_edge rest found

/-- Second pass of `equals` (569-587). -/
def equals_second_pass (this_edges : List CNN_Edge) : List CNN_Edge → Bool
  | [] => true
  | other_edge :: rest =>
    if other_edge.disabled then equals_second_pass this_edges rest
    else if !equals_find_loop other_edge this_edges false then false
    else equals_second_pass this_edges rest

/-- The method `bool CNN_Genome::equals(CNN_Genome *other) const`. -/
def CNN_Genome.equals (C : Collaborators) (this other : CNN_Genome) : Bool :=
  if !equals_first_pass C other.edges this.edges then false
  else if !equals_second_pass this.edges other.edges then false
  else true

/-- Innovation numbers of the enabled edges of a genome, in list order. -/
def enabled_innovation_numbers (g : CNN_Genome) : List Int :=
  (g.edges.filter (fun e => !e.disabled)).map (fun e => e.innovation_number)

/-- The first enabled edge of the genome carrying innovation number `n`. -/
def enabled_edge (g : CNN_Genome) (n : Int) : Option CNN_Edge :=
  g.edges.find? (fun e => !e.disabled && decide (e.innovation_number = n))

/-! ## `CNN_Genome::outputs_connected` (cnn_genome.cxx 932-958) -/

/-- Modelled from the spec: `CNN_Node::set_unvisited()` (the body is in
cnn_node.cxx) clears the visitation flag of the node object at address `a`. -/
def set_unvisited (heap : Nat → CNN_Node) (a : Nat) : Nat → CNN_Node :=
  Function.update heap a { heap a with visited := false }

/-- Modelled from the spec: `CNN_Node::visit()` (the body is in cnn_node.cxx)
sets the visitation flag of the node object at address `a`. -/
def visit (heap : Nat → CNN_Node) (a : Nat) : Nat → CNN_Node :=
  Function.update heap a { heap a with visited := true }

/-- Body of the loop over the edges (943-949) for one edge. -/
def propagate_visit (heap : Nat → CNN_Node) (e : CNN_Edge) : Nat → CNN_Node :=
  if !e.disabled then
    if (heap e.input_node).visited then visit heap e.output_node else heap
  else heap

/-- The last loop (951-955): `false` at the first softmax node that is not
visited. -/
def all_visited (heap : Nat → CNN_Node) : List Nat → Bool
  | [] => true
  | s :: rest => if !(heap s).visited then false else all_visited heap rest

/-- The node objects after the first two loops (935-941). -/
def CNN_Genome.seed_visits (g : CNN_Genome) : Nat → CNN_Node :=
  g.input_nodes.foldl visit (g.nodes.foldl set_unvisited g.heap)

/-- The node objects after the first `k` iterations of the loop over the
edges (943-949). -/
def CNN_Genome.sweep (g : CNN_Genome) (k : Nat) : Nat → CNN_Node :=
  (g.edges.take k).foldl propagate_visit g.seed_visits

/-- The method `bool CNN_Genome::outputs_connected() const`. -/
def CNN_Genome.outputs_connected (g : CNN_Genome) : Bool :=
  all_visited (g.edges.foldl propagate_visit g.seed_visits) g.softmax_nodes

/-- There is an enabled edge of `g` from node `x` to node `y`. -/
def enabled_step (g : CNN_Genome) (x y : Nat) : Prop :=
  ∃ e ∈ g.edges, e.disabled = false ∧ e.input_node = x ∧ e.output_node = y

/-- Node `s` is reachable from some input node of `g` along a path (of any
length, the empty one included) of enabled edges. -/
def reachable_from_input (g : CNN_Genome) (s : Nat) : Prop :=
  ∃ i ∈ g.input_nodes, Relation.ReflTransGen (enabled_step g) i s

/-- Node `s` is reachable from some input node of `g` along a path of at
least one enabled edge. -/
def reachable_by_edges (g : CNN_Genome) (s : Nat) : Prop :=
  ∃ i ∈ g.input_nodes, Relation.TransGen (enabled_step g) i s

/-! ## `CNN_Genome::sanity_check` (cnn_genome.cxx 771-930) -/

/-- The macro `#define SANITY_CHECK_BEFORE_INSERT 0` (cnn_genome.hxx 15). -/
def SANITY_CHECK_BEFORE_INSERT : Int := 0

/-- The macro `#define SANITY_CHECK_AFTER_GENERATION 1` (cnn_genome.hxx 16). -/
def SANITY_CHECK_AFTER_GENERATION : Int := 1

/-- Modelled from the spec: `CNN_Node::initialize_bias(generator,
normal_distribution)` (the body is in cnn_node.cxx) replaces the bias of the
node by freshly drawn values and advances the random source. -/
def initialize_bias (C : Collaborators) (r : RNG) (n : CNN_Node) : CNN_Node × RNG :=
  ({ n with bias := (C.draw_bias r n).1 }, (C.draw_bias r n).2)

/-- Modelled from the spec: `CNN_Node::save_best_bias()` (the body is in
cnn_node.cxx) records the current bias as the best bias. -/
def save_best_bias (n : CNN_Node) : CNN_Node := { n with best_bias := n.bias }

/-- Modelled from the spec: `CNN_Edge::initialize_weights(generator,
normal_distribution)` (the body is in cnn_edge.cxx) replaces the weights of
the edge by freshly drawn values and advances the random source. -/
def initialize_weights (C : Collaborators) (r : RNG) (e : CNN_Edge) : CNN_Edge × RNG :=
  ({ e with weights := (C.draw_weights r e).1 }, (C.draw_weights r e).2)

/-- Modelled from the spec: `CNN_Edge::save_best_weights()` (the body is in
cnn_edge.cxx) records the current weights as the best weights. -/
def save_best_weights (e : CNN_Edge) : CNN_Edge := { e with best_weights := e.weights }

/-- First loop of `sanity_check` (773-779): `false` is the `return false`. -/
def check_filters_correct (C : Collaborators) (heap : Nat → CNN_Node) :
    List CNN_Edge → Bool
  | [] => true
  | e :: rest =>
    if !C.is_filter_correct heap e then false
    else check_filters_correct C heap rest

/-- Second loop of `sanity_check` (782-803); `rest` holds the edges at the
positions `j > i` of the inner loop. -/
def check_edges : List CNN_Edge → Bool
  | [] => true
  | e :: rest =>
    if e.filter_x ≤ 0 || e.filter_x > 100 then false
    else if e.filter_y ≤ 0 || e.filter_y > 100 then false
    else if rest.any (fun e2 => e.innovation_number = e2.innovation_number) then false
    else check_edges rest

/-- Third loop of `sanity_check` (806-827) over the node pointers. -/
def check_nodes (heap : Nat → CNN_Node) : List Nat → Bool
  | [] => true
  | a :: rest =>
    if (heap a).size_x ≤ 0 || (heap a).size_x > 100 then false
    else if (heap a).size_y ≤ 0 || (heap a).size_y > 100 then false
    else if rest.any (fun b =>
        (heap a).innovation_number = (heap b).innovation_number) then false
    else check_nodes heap rest

/-- The loop over the nodes of the `SANITY_CHECK_AFTER_GENERATION` branch
(830-840). -/
def repair_nodes (C : Collaborators) :
    List Nat → (Nat → CNN_Node) → RNG → (Nat → CNN_Node) × RNG
  | [], heap, r => (heap, r)
  | a :: rest, heap, r =>
    if C.has_zero_bias (heap a) then
      repair_nodes C rest
        (Function.update heap a (save_best_bias (initialize_bias C r (heap a)).1))
        (initialize_bias C r (heap a)).2
    else repair_nodes C rest heap r

/-- The loop over the edges of the `SANITY_CHECK_AFTER_GENERATION` branch
(843-853). -/
def repair_edges (C : Collaborators) : List CNN_Edge → RNG → List CNN_Edge × RNG
  | [], r => ([], r)
  | e :: rest, r =>
    if C.has_zero_weight e then
      (save_best_weights (initialize_weights C r e).1 ::
          (repair_edges C rest (initialize_weights C r e).2).1,
        (repair_edges C rest (initialize_weights C r e).2).2)
    else (e :: (repair_edges C rest r).1, (repair_edges C rest r).2)

/-- The branch on `type` (829-883): only `SANITY_CHECK_AFTER_GENERATION` has
statements left in it. -/
def CNN_Genome.repair_zero_sums (C : Collaborators) (g : CNN_Genome) (type : Int) :
    CNN_Genome :=
  if type = SANITY_CHECK_AFTER_GENERATION then
    { g with
      heap := (repair_nodes C g.nodes g.heap g.rng).1
      edges := (repair_edges C g.edges (repair_nodes C g.nodes g.heap g.rng).2).1
      rng := (repair_edges C g.edges (repair_nodes C g.nodes g.heap g.rng).2).2 }
  else g

/-- Inner loop of the last loop of `sanity_check` (893-915) for the node
pointer `a`: `none` is the `return false` of line 909, `some counted` the
value of `counted_inputs` when the loop ends. -/
def count_inputs (heap : Nat → CNN_Node) (a : Nat) :
    List CNN_Edge → Int → Option Int
  | [], counted => some counted
  | e :: rest, counted =>
    if e.disabled then count_inputs heap a rest counted
    else if (heap e.output_node).innovation_number = (heap a).innovation_number then
      if e.output_node ≠ a then none
      else count_inputs heap a rest (counted + 1)
    else count_inputs heap a rest counted

/-- Last loop of `sanity_check` (887-927). -/
def check_input_counts (heap : Nat → CNN_Node) (edges : List CNN_Edge) :
    List Nat → Bool
  | [] => true
  | a :: rest =>
    match count_inputs heap a edges 0 with
    | none => false
    | some counted =>
      if counted ≠ (heap a).total_inputs then false
      else check_input_counts heap edges rest

/-- The method `bool CNN_Genome::sanity_check(int type)`: the returned boolean and the
genome as the call leaves it. -/
def CNN_Genome.sanity_check (C : Collaborators) (g : CNN_Genome) (type : Int) :
    Bool × CNN_Genome :=
  if !check_filters_correct C g.heap g.edges then (false, g)
  else if !check_edges g.edges then (false, g)
  else if !check_nodes g.heap g.nodes then (false, g)
  else if !check_input_counts (g.repair_zero_sums C type).heap
      (g.repair_zero_sums C type).edges (g.repair_zero_sums C type).nodes then
    (false, g.repair_zero_sums C type)
  else (true, g.repair_zero_sums C type)

/-- Number of enabled edges whose output node carries the innovation number of
the node at address `a`. -/
def enabled_inputs (g : CNN_Genome) (a : Nat) : Nat :=
  (g.edges.filter (fun e => !e.disabled &&
    decide ((g.heap e.output_node).innovation_number =
      (g.heap a).innovation_number))).length

/-! ## Text streams (`std::istream`, `std::ostream`) -/

/-- An input stream: the characters not yet extracted and the `eofbit` and
`failbit` of its state. -/
structure IStream where
  buf : List Char
  eof : Bool := false
  fail : Bool := false

/-- The method `istream::good()`. -/
def IStream.good (s : IStream) : Bool := !s.eof && !s.fail

/-- The function `isspace` in the "C" locale. -/
def is_space (c : Char) : Bool :=
  c = ' ' || c = '\n' || c = '\t' || c = '\r' || c = Char.ofNat 11 || c = Char.ofNat 12

/-- The call `std::getline(infile, str)`: a stream that is not good only gets its
`failbit` set and `str` is left alone; otherwise the characters up to the
next newline are stored and the newline is dropped; reaching the end of the
input sets `eofbit`, and `failbit` too when nothing was extracted. -/
def getline (s : IStream) (str : List Char) : List Char × IStream :=
  if !s.good then (str, { s with fail := true })
  else
    match s.buf.dropWhile (fun c => c != '\n') with
    | _ :: rest => (s.buf.takeWhile (fun c => c != '\n'), { s with buf := rest })
    | [] =>
      if s.buf.isEmpty then ([], { buf := [], eof := true, fail := true })
      else (s.buf, { buf := [], eof := true, fail := false })

/-- Value of a decimal digit character. -/
def digit_value (c : Char) : Nat := c.toNat - 48

/-- Value of a run of decimal digits. -/
def digits_value (ds : List Char) : Nat :=
  ds.foldl (fun acc c => acc * 10 + digit_value c) 0

/-- The extraction `infile >> x` for an integer `x` of a type with values `lo .. hi`
(`std::num_get`, C++11): a stream that is not good only gets its `failbit`
set; leading white space is skipped; an optional sign and the longest run of
digits are extracted; without a digit `x` becomes 0 and `failbit` is set; a
value out of range is clamped and sets `failbit`. -/
def extract_int (lo hi : Int) (s : IStream) (x : Int) : Int × IStream :=
  if !s.good then (x, { s with fail := true })
  else
    match s.buf.dropWhile is_space with
    | [] => (x, { buf := [], eof := true, fail := true })
    | c :: cs =>
      let body := if c = '-' || c = '+' then cs else c :: cs
      let ds := body.takeWhile Char.isDigit
      let rest := body.dropWhile Char.isDigit
      let v : Int := if c = '-' then -(digits_value ds : Int) else (digits_value ds : Int)
      if ds.isEmpty then (0, { buf := rest, eof := rest.isEmpty, fail := true })
      else if v < lo then (lo, { buf := rest, eof := rest.isEmpty, fail := true })
      else if v > hi then (hi, { buf := rest, eof := rest.isEmpty, fail := true })
      else (v, { buf := rest, eof := rest.isEmpty, fail := false })

/-- The insertion `outfile << n` for an unsigned integer. -/
def print_nat (n : Nat) : List Char :=
  if n = 0 then ['0']
  else (Nat.digits 10 n).reverse.map (fun d => Char.ofNat (48 + d))

/-- The insertion `outfile << n` for a signed integer. -/
def print_int (n : Int) : List Char :=
  if n < 0 then '-' :: print_nat n.natAbs else print_nat n.natAbs

/-! ## `CNN_Genome::write` (cnn_genome.cxx 1388-1497) -/

/-- Stream operators of the collaborators that `write` and `read` call and
whose bodies are not part of `cnn_genome.cxx`: `write_hexfloat` and
`read_hexfloat`, `operator<<` and `operator>>` of `double`, of
`NormalDistribution`, of `CNN_Node*` and of `CNN_Edge*` (the printed edge may
mention its end nodes), and `CNN_Edge::set_nodes`, which is `none` when it
returns false. An extraction gets the value the variable held before. -/
structure Codec where
  write_hexfloat : ℚ → List Char
  read_hexfloat : IStream → ℚ × IStream
  write_double : ℚ → List Char
  read_double : IStream → ℚ → ℚ × IStream
  write_normal_distribution : Nat → List Char
  read_normal_distribution : IStream → Nat → Nat × IStream
  write_node : CNN_Node → List Char
  read_node : IStream → CNN_Node × IStream
  write_edge : (Nat → CNN_Node) → CNN_Edge → List Char
  read_edge : IStream → CNN_Edge × IStream
  set_nodes : (Nat → CNN_Node) → List Nat → CNN_Edge → Option CNN_Edge

/-- The macro `#define EXACT_VERSION "0.19"` (cnn_genome.cxx 1385). -/
def EXACT_VERSION : List Char := ['0', '.', '1', '9']

/-- The value `read` stores in `version_str` when a section label is not the
expected one (cnn_genome.cxx 1617). -/
def INALID : List Char := ['I', 'N', 'A', 'L', 'I', 'D']

/-- Smallest `int`. -/
def INT_MIN : Int := -2147483648

/-- Largest `int`. -/
def INT_MAX : Int := 2147483647

/-- Smallest `long`. -/
def LONG_MIN : Int := -9223372036854775808

/-- Largest `long`. -/
def LONG_MAX : Int := 9223372036854775807

/-- Largest value of the state of a `minstd_rand0` (`uint_fast32_t`, 64 bits
wide). -/
def UINT_FAST32_MAX : Int := 18446744073709551615

/-- The insertion `outfile << item << endl`, followed by what is written afterwards. -/
def line (item rest : List Char) : List Char := item ++ '\n' :: rest

/-- The insertion `outfile << b` for a `bool`. -/
def print_bool (b : Bool) : List Char := print_nat (if b then 1 else 0)

/-- Lines 1390-1443 of `write`: the scalar members. -/
def write_header (K : Codec) (g : CNN_Genome) (rest : List Char) : List Char :=
  line (print_int g.exact_id) <|
  line (print_int g.genome_id) <|
  line (K.write_hexfloat g.initial_mu) <|
  line (K.write_hexfloat g.mu) <|
  line (K.write_hexfloat g.mu_delta) <|
  line (K.write_hexfloat g.initial_learning_rate) <|
  line (K.write_hexfloat g.learning_rate) <|
  line (K.write_hexfloat g.learning_rate_delta) <|
  line (K.write_hexfloat g.initial_weight_decay) <|
  line (K.write_hexfloat g.weight_decay) <|
  line (K.write_hexfloat g.weight_decay_delta) <|
  line (K.write_hexfloat g.input_dropout_probability) <|
  line (K.write_hexfloat g.hidden_dropout_probability) <|
  line (print_int g.velocity_reset) <|
  line (print_int g.epoch) <|
  line (print_int g.max_epochs) <|
  line (print_bool g.reset_weights) <|
  line (print_int g.best_predictions) <|
  line (K.write_hexfloat g.best_error) <|
  line (print_int g.best_predictions_epoch) <|
  line (print_int g.best_error_epoch) <|
  line (print_int g.generated_by_disable_edge) <|
  line (print_int g.generated_by_enable_edge) <|
  line (print_int g.generated_by_split_edge) <|
  line (print_int g.generated_by_add_edge) <|
  line (print_int g.generated_by_change_size) <|
  line (print_int g.generated_by_change_size_x) <|
  line (print_int g.generated_by_change_size_y) <|
  line (print_int g.generated_by_crossover) <|
  line (print_int g.generated_by_reset_weights) <|
  line (print_int g.generated_by_add_node) <|
  line (print_int g.generation_id) rest

/-- Lines 1444-1449 of `write`: the distribution and the generator. -/
def write_random (K : Codec) (g : CNN_Genome) (rest : List Char) : List Char :=
  line (K.write_normal_distribution g.rng.normal_distribution) <|
  line (print_nat g.rng.generator) rest

/-- The loop of lines 1453-1455. -/
def write_node_loop (K : Codec) (heap : Nat → CNN_Node) :
    List Nat → List Char → List Char
  | [], rest => rest
  | a :: nodes, rest => line (K.write_node (heap a)) (write_node_loop K heap nodes rest)

/-- The loop of lines 1459-1461. -/
def write_edge_loop (K : Codec) (heap : Nat → CNN_Node) :
    List CNN_Edge → List Char → List Char
  | [], rest => rest
  | e :: edges, rest => line (K.write_edge heap e) (write_edge_loop K heap edges rest)

/-- The loops of lines 1465-1467 and 1470-1472. -/
def write_innovation_loop (heap : Nat → CNN_Node) : List Nat → List Char → List Char
  | [], rest => rest
  | a :: nodes, rest =>
    line (print_int (heap a).innovation_number) (write_innovation_loop heap nodes rest)

/-- The loops of lines 1476-1479, 1484-1487 and 1492-1495: the entries from
position `i` on, each but the one at position 0 after a blank. -/
def write_spaced {α : Type} (print : α → List Char) :
    Nat → List α → List Char → List Char
  | _, [], rest => rest
  | i, x :: xs, rest =>
    (if i > 0 then [' '] else []) ++ (print x ++ write_spaced print (i + 1) xs rest)

/-- Lines 1490-1496 of `write`: the section `BEST_CORRECT_PREDICTIONS`. -/
def write_predictions (g : CNN_Genome) (rest : List Char) : List Char :=
  line "BEST_CORRECT_PREDICTIONS".toList <|
  line (print_nat g.best_correct_predictions.length) <|
  write_spaced print_int 0 g.best_correct_predictions <| '\n' :: rest

/-- Lines 1482-1488 of `write`: the section `BEST_CLASS_ERROR`. -/
def write_errors (K : Codec) (g : CNN_Genome) (rest : List Char) : List Char :=
  line "BEST_CLASS_ERROR".toList <|
  line (print_nat g.best_class_error.length) <|
  write_spaced K.write_double 0 g.best_class_error <| '\n' :: rest

/-- Lines 1474-1480 of `write`: the section `BACKPROP_ORDER`. -/
def write_order (g : CNN_Genome) (rest : List Char) : List Char :=
  line "BACKPROP_ORDER".toList <|
  line (print_nat g.backprop_order.length) <|
  write_spaced print_int 0 g.backprop_order <| '\n' :: rest

/-- Lines 1463-1472 of `write`: the section `INNOVATION_NUMBERS`. -/
def write_innovation (g : CNN_Genome) (rest : List Char) : List Char :=
  line "INNOVATION_NUMBERS".toList <|
  line (print_nat g.input_nodes.length) <|
  write_innovation_loop g.heap g.input_nodes <|
  line (print_nat g.softmax_nodes.length) <|
  write_innovation_loop g.heap g.softmax_nodes rest

/-- Lines 1457-1461 of `write`: the section `EDGES`. -/
def write_edges (K : Codec) (g : CNN_Genome) (rest : List Char) : List Char :=
  line ['E', 'D', 'G', 'E', 'S'] <|
  line (print_nat g.edges.length) <|
  write_edge_loop K g.heap g.edges rest

/-- Lines 1451-1455 of `write`: the section `NODES`. -/
def write_nodes (K : Codec) (g : CNN_Genome) (rest : List Char) : List Char :=
  line ['N', 'O', 'D', 'E', 'S'] <|
  line (print_nat g.nodes.length) <|
  write_node_loop K g.heap g.nodes rest

/-- The method `void CNN_Genome::write(ostream &outfile)`: the characters it sends to
`outfile`. -/
def CNN_Genome.write (K : Codec) (g : CNN_Genome) : List Char :=
  line ('v' :: EXACT_VERSION) <|
  write_header K g <| write_random K g <| write_nodes K g <| write_edges K g <|
  write_innovation g <| write_order g <| write_errors K g <| write_predictions g []

/-! ## `CNN_Genome::read` (cnn_genome.cxx 1499-1769) -/

/-- How a call of `read` ends: it returns and leaves the genome `g`, or the
process ends in `exit(1)`, or `std::out_of_range` leaves the function. -/
inductive Outcome where
  | returned (g : CNN_Genome)
  | exited
  | thrown

/-- The extraction `infile >> b` for a `bool` (`std::num_get` without `boolalpha`): a `long`
is extracted, 0 and 1 are stored, any other value stores `true` and sets
`failbit`. -/
def extract_bool (s : IStream) (b : Bool) : Bool × IStream :=
  if !s.good then (b, { s with fail := true })
  else if (extract_int LONG_MIN LONG_MAX s (-1)).1 = 0 then
    (false, (extract_int LONG_MIN LONG_MAX s (-1)).2)
  else if (extract_int LONG_MIN LONG_MAX s (-1)).1 = 1 then
    (true, (extract_int LONG_MIN LONG_MAX s (-1)).2)
  else (true, { (extract_int LONG_MIN LONG_MAX s (-1)).2 with fail := true })

/-- Conversion of a `double` to `int`: the fractional part is discarded. -/
def double_to_int (q : ℚ) : Int := if 0 ≤ q then ⌊q⌋ else ⌈q⌉

/-- Lines 1513-1585 of `read`: each local is the pair of the extracted value
and the stream after the extraction. -/
def read_header (K : Codec) (this : CNN_Genome) (infile : IStream) :
    CNN_Genome × IStream :=
  let exact_id := extract_int INT_MIN INT_MAX infile this.exact_id
  let genome_id := extract_int INT_MIN INT_MAX exact_id.2 this.genome_id
  let initial_mu := K.read_hexfloat genome_id.2
  let mu := K.read_hexfloat initial_mu.2
  let mu_delta := K.read_hexfloat mu.2
  let initial_learning_rate := K.read_hexfloat mu_delta.2
  let learning_rate := K.read_hexfloat initial_learning_rate.2
  let learning_rate_delta := K.read_hexfloat learning_rate.2
  let initial_weight_decay := K.read_hexfloat learning_rate_delta.2
  let weight_decay := K.read_hexfloat initial_weight_decay.2
  let weight_decay_delta := K.read_hexfloat weight_decay.2
  let input_dropout_probability := K.read_hexfloat weight_decay_delta.2
  let hidden_dropout_probability := K.read_hexfloat input_dropout_probability.2
  let velocity_reset :=
    extract_int INT_MIN INT_MAX hidden_dropout_probability.2 this.velocity_reset
  let epoch := extract_int INT_MIN INT_MAX velocity_reset.2 this.epoch
  let max_epochs := extract_int INT_MIN INT_MAX epoch.2 this.max_epochs
  let reset_weights := extract_bool max_epochs.2 this.reset_weights
  let best_predictions :=
    extract_int INT_MIN INT_MAX reset_weights.2 this.best_predictions
  let best_error := K.read_hexfloat best_predictions.2
  let best_predictions_epoch :=
    extract_int INT_MIN INT_MAX best_error.2 this.best_predictions_epoch
  let best_error_epoch :=
    extract_int INT_MIN INT_MAX best_predictions_epoch.2 this.best_error_epoch
  let generated_by_disable_edge :=
    extract_int INT_MIN INT_MAX best_error_epoch.2 this.generated_by_disable_edge
  let generated_by_enable_edge :=
    extract_int INT_MIN INT_MAX generated_by_disable_edge.2 this.generated_by_enable_edge
  let generated_by_split_edge :=
    extract_int INT_MIN INT_MAX generated_by_enable_edge.2 this.generated_by_split_edge
  let generated_by_add_edge :=
    extract_int INT_MIN INT_MAX generated_by_split_edge.2 this.generated_by_add_edge
  let generated_by_change_size :=
    extract_int INT_MIN INT_MAX generated_by_add_edge.2 this.generated_by_change_size
  let generated_by_change_size_x :=
    extract_int INT_MIN INT_MAX generated_by_change_size.2 this.generated_by_change_size_x
  let generated_by_change_size_y :=
    extract_int INT_MIN INT_MAX generated_by_change_size_x.2 this.generated_by_change_size_y
  let generated_by_crossover :=
    extract_int INT_MIN INT_MAX generated_by_change_size_y.2 this.generated_by_crossover
  let generated_by_reset_weights :=
    extract_int INT_MIN INT_MAX generated_by_crossover.2 this.generated_by_reset_weights
  let generated_by_add_node :=
    extract_int INT_MIN INT_MAX generated_by_reset_weights.2 this.generated_by_add_node
  let generation_id :=
    extract_int INT_MIN INT_MAX generated_by_add_node.2 this.generation_id
  ({ this with
      exact_id := exact_id.1
      genome_id := genome_id.1
      initial_mu := initial_mu.1
      mu := mu.1
      mu_delta := mu_delta.1
      initial_learning_rate := initial_learning_rate.1
      learning_rate := learning_rate.1
      learning_rate_delta := learning_rate_delta.1
      initial_weight_decay := initial_weight_decay.1
      weight_decay := weight_decay.1
      weight_decay_delta := weight_decay_delta.1
      input_dropout_probability := input_dropout_probability.1
      hidden_dropout_probability := hidden_dropout_probability.1
      velocity_reset := velocity_reset.1
      epoch := epoch.1
      max_epochs := max_epochs.1
      reset_weights := reset_weights.1
      best_predictions := best_predictions.1
      best_error := best_error.1
      best_predictions_epoch := best_predictions_epoch.1
      best_error_epoch := best_error_epoch.1
      generated_by_disable_edge := generated_by_disable_edge.1
      generated_by_enable_edge := generated_by_enable_edge.1
      generated_by_split_edge := generated_by_split_edge.1
      generated_by_add_edge := generated_by_add_edge.1
      generated_by_change_size := generated_by_change_size.1
      generated_by_change_size_x := generated_by_change_size_x.1
      generated_by_change_size_y := generated_by_change_size_y.1
      generated_by_crossover := generated_by_crossover.1
      generated_by_reset_weights := generated_by_reset_weights.1
      generated_by_add_node := generated_by_add_node.1
      generation_id := generation_id.1 },
    generation_id.2)

/-- The extraction `generator_iss >> generator` for a `minstd_rand0` (the
`operator>>` of `linear_congruential_engine` in libstdc++): the flags of the
stream are `dec` alone during the extraction, so leading white space is not
skipped; the state is an unsigned integer of 64 bits, for which `std::num_get`
takes an optional sign and the longest run of digits and negates the value
modulo 2^64 after a minus sign; without a digit the state becomes 0 and
`failbit` is set; a run of digits above the largest value leaves that value
and sets `failbit`. -/
def extract_generator (s : IStream) (x : Nat) : Nat × IStream :=
  if !s.good then (x, { s with fail := true })
  else
    match s.buf with
    | [] => (0, { buf := [], eof := true, fail := true })
    | c :: cs =>
      let body := if c = '-' || c = '+' then cs else c :: cs
      let ds := body.takeWhile Char.isDigit
      let rest := body.dropWhile Char.isDigit
      if ds.isEmpty then (0, { buf := rest, eof := rest.isEmpty, fail := true })
      else if digits_value ds > UINT_FAST32_MAX.toNat then
        (UINT_FAST32_MAX.toNat, { buf := rest, eof := rest.isEmpty, fail := true })
      else if c = '-' then
        ((UINT_FAST32_MAX.toNat + 1 - digits_value ds) % (UINT_FAST32_MAX.toNat + 1),
          { buf := rest, eof := rest.isEmpty, fail := false })
      else (digits_value ds, { buf := rest, eof := rest.isEmpty, fail := false })

/-- Lines 1590-1600 of `read`: the distribution, then the generator from the
second line fetched with `getline`, through an `istringstream` of its own. -/
def read_random (K : Codec) (this : CNN_Genome) (infile : IStream) :
    CNN_Genome × IStream :=
  let normal_distribution :=
    K.read_normal_distribution infile this.rng.normal_distribution
  let generator_str := getline normal_distribution.2 []
  let generator_str2 := getline generator_str.2 generator_str.1
  let generator := extract_generator { buf := generator_str2.1 } this.rng.generator
  ({ this with rng := { generator := generator.1,
                        normal_distribution := normal_distribution.1 } },
    generator_str2.2)

/-- The loop of lines 1625-1631; the `k`-th `new CNN_Node()` of the call
yields the address `fresh k`. -/
def read_node_loop (K : Codec) (fresh : Nat → Nat) :
    Nat → CNN_Genome → IStream → CNN_Genome × IStream
  | 0, this, infile => (this, infile)
  | k + 1, this, infile =>
    read_node_loop K fresh k
      { this with
        heap := Function.update this.heap (fresh this.nodes.length) (K.read_node infile).1
        nodes := this.nodes ++ [fresh this.nodes.length] }
      (K.read_node infile).2

/-- The loop of lines 1647-1659; `none` is the `exit(1)` of line 1655. -/
def read_edge_loop (K : Codec) :
    Nat → CNN_Genome → IStream → Option (CNN_Genome × IStream)
  | 0, this, infile => some (this, infile)
  | k + 1, this, infile =>
    match K.set_nodes this.heap this.nodes (K.read_edge infile).1 with
    | none => none
    | some edge =>
      read_edge_loop K k { this with edges := this.edges ++ [edge] }
        (K.read_edge infile).2

/-- The inner loops of lines 1679-1685 and 1698-1704: the first node of the
list with the given innovation number. -/
def find_node (heap : Nat → CNN_Node) (nodes : List Nat) (n : Int) : Option Nat :=
  nodes.find? (fun a => decide ((heap a).innovation_number = n))

/-- The loop of lines 1674-1686. The local `input_node_innovation_number` is
declared in the body of the loop without a value: C++ defines none, and its
storage is taken to hold what the pass before left there, 0 before the first
pass, which is the value the second argument carries. An extraction from a
stream that is not good leaves it as it is. -/
def read_input_loop : Nat → Int → CNN_Genome → IStream → CNN_Genome × IStream
  | 0, _, this, infile => (this, infile)
  | k + 1, number, this, infile =>
    match find_node this.heap this.nodes
        (extract_int INT_MIN INT_MAX infile number).1 with
    | some a =>
      read_input_loop k (extract_int INT_MIN INT_MAX infile number).1
        { this with input_nodes := this.input_nodes ++ [a] }
        (extract_int INT_MIN INT_MAX infile number).2
    | none =>
      read_input_loop k (extract_int INT_MIN INT_MAX infile number).1 this
        (extract_int INT_MIN INT_MAX infile number).2

/-- The loop of lines 1693-1705, with the local `softmax_node_innovation_number`
as in `read_input_loop`. -/
def read_softmax_loop : Nat → Int → CNN_Genome → IStream → CNN_Genome × IStream
  | 0, _, this, infile => (this, infile)
  | k + 1, number, this, infile =>
    match find_node this.heap this.nodes
        (extract_int INT_MIN INT_MAX infile number).1 with
    | some a =>
      read_softmax_loop k (extract_int INT_MIN INT_MAX infile number).1
        { this with softmax_nodes := this.softmax_nodes ++ [a] }
        (extract_int INT_MIN INT_MAX infile number).2
    | none =>
      read_softmax_loop k (extract_int INT_MIN INT_MAX infile number).1 this
        (extract_int INT_MIN INT_MAX infile number).2

/-- The loop of lines 1721-1726 (for `order_size` below 2^32), with the local
`order` as in `read_input_loop`: when the stream is not good any more, the entry
of the pass before is stored again. -/
def read_order_loop : Nat → Int → CNN_Genome → IStream → CNN_Genome × IStream
  | 0, _, this, infile => (this, infile)
  | k + 1, order, this, infile =>
    read_order_loop k (extract_int LONG_MIN LONG_MAX infile order).1
      { this with backprop_order :=
          this.backprop_order ++ [(extract_int LONG_MIN LONG_MAX infile order).1] }
      (extract_int LONG_MIN LONG_MAX infile order).2

/-- The loop of lines 1744-1748, with the local `error` as in
`read_input_loop`. -/
def read_error_loop (K : Codec) :
    Nat → ℚ → CNN_Genome → IStream → CNN_Genome × IStream
  | 0, _, this, infile => (this, infile)
  | k + 1, error, this, infile =>
    read_error_loop K k (K.read_double infile error).1
      { this with best_class_error :=
          this.best_class_error ++ [(K.read_double infile error).1] }
      (K.read_double infile error).2

/-- The loop of lines 1764-1768, with the local `predictions` as in
`read_input_loop`. -/
def read_predictions_loop (K : Codec) :
    Nat → ℚ → CNN_Genome → IStream → CNN_Genome × IStream
  | 0, _, this, infile => (this, infile)
  | k + 1, predictions, this, infile =>
    read_predictions_loop K k (K.read_double infile predictions).1
      { this with best_correct_predictions :=
          this.best_correct_predictions ++
            [double_to_int (K.read_double infile predictions).1] }
      (K.read_double infile predictions).2

/-- Lines 1755-1768 of `read`; `line` is the line fetched last. -/
def read_predictions_section (K : Codec) (this : CNN_Genome) (infile : IStream)
    (line : List Char) : Outcome :=
  if line ≠ "BEST_CORRECT_PREDICTIONS".toList then
    Outcome.returned { this with version_str := INALID }
  else
    Outcome.returned (read_predictions_loop K
      (extract_int INT_MIN INT_MAX infile 0).1.toNat 0
      { this with best_correct_predictions := [] }
      (extract_int INT_MIN INT_MAX infile 0).2).1

/-- Lines 1734-1754 of `read`; `line` is the line fetched last. -/
def read_error_section (K : Codec) (this : CNN_Genome) (infile : IStream)
    (line : List Char) : Outcome :=
  if line ≠ "BEST_CLASS_ERROR".toList then
    Outcome.returned { this with version_str := INALID }
  else
    let error_size := extract_int INT_MIN INT_MAX infile 0
    let errors := read_error_loop K error_size.1.toNat 0
      { this with best_class_error := [] } error_size.2
    let skip := if error_size.1 = 0 then getline errors.2 line else (line, errors.2)
    let line1 := getline skip.2 skip.1
    let line2 := getline line1.2 line1.1
    read_predictions_section K errors.1 line2.2 line2.1

/-- Lines 1711-1733 of `read`; `line` is the line fetched last. -/
def read_order_section (K : Codec) (this : CNN_Genome) (infile : IStream)
    (line : List Char) : Outcome :=
  if line ≠ "BACKPROP_ORDER".toList then
    Outcome.returned { this with version_str := INALID }
  else
    let order_size := extract_int LONG_MIN LONG_MAX infile 0
    let order := read_order_loop order_size.1.toNat 0
      { this with backprop_order := [] } order_size.2
    let skip := if order_size.1 = 0 then getline order.2 line else (line, order.2)
    let line1 := getline skip.2 skip.1
    let line2 := getline line1.2 line1.1
    read_error_section K order.1 line2.2 line2.1

/-- Lines 1663-1710 of `read`; `line` is the line fetched last. -/
def read_innovation_section (K : Codec) (this : CNN_Genome) (infile : IStream)
    (line : List Char) : Outcome :=
  if line ≠ "INNOVATION_NUMBERS".toList then
    Outcome.returned { this with version_str := INALID }
  else
    let number_input_nodes := extract_int INT_MIN INT_MAX infile 0
    let inputs := read_input_loop number_input_nodes.1.toNat 0
      { this with input_nodes := [] } number_input_nodes.2
    let number_softmax_nodes := extract_int INT_MIN INT_MAX inputs.2 0
    let softmax := read_softmax_loop number_softmax_nodes.1.toNat 0
      { inputs.1 with softmax_nodes := [] } number_softmax_nodes.2
    let line1 := getline softmax.2 line
    let line2 := getline line1.2 line1.1
    read_order_section K softmax.1 line2.2 line2.1

/-- Lines 1637-1662 of `read`; `line` is the line fetched last; the `exit(1)`
of line 1655 ends the process. -/
def read_edges_section (K : Codec) (this : CNN_Genome) (infile : IStream)
    (line : List Char) : Outcome :=
  if line ≠ ['E', 'D', 'G', 'E', 'S'] then
    Outcome.returned { this with version_str := INALID }
  else
    match read_edge_loop K (extract_int INT_MIN INT_MAX infile 0).1.toNat
        { this with edges := [] } (extract_int INT_MIN INT_MAX infile 0).2 with
    | none => Outcome.exited
    | some edges =>
      read_innovation_section K edges.1
        (getline (getline edges.2 line).2 (getline edges.2 line).1).2
        (getline (getline edges.2 line).2 (getline edges.2 line).1).1

/-- Lines 1615-1636 of `read`; `line` is the line fetched last. -/
def read_nodes_section (K : Codec) (fresh : Nat → Nat) (this : CNN_Genome)
    (infile : IStream) (line : List Char) : Outcome :=
  if line ≠ ['N', 'O', 'D', 'E', 'S'] then
    Outcome.returned { this with version_str := INALID }
  else
    let number_nodes := extract_int INT_MIN INT_MAX infile 0
    let nodes := read_node_loop K fresh number_nodes.1.toNat
      { this with nodes := [] } number_nodes.2
    let line1 := getline nodes.2 line
    let line2 := getline line1.2 line1.1
    read_edges_section K nodes.1 line2.2 line2.1

/-- Lines 1508-1613 of `read`, `version_str` being read already.
`version_str.substr(1,4)` throws `std::out_of_range` when the string is
empty. -/
def read_versioned (K : Codec) (fresh : Nat → Nat) (this : CNN_Genome)
    (infile : IStream) : Outcome :=
  if this.version_str.length < 1 then Outcome.thrown
  else if (this.version_str.drop 1).take 4 ≠ EXACT_VERSION then Outcome.returned this
  else
    let header := read_header K this infile
    let random := read_random K header.1 header.2
    let line := getline random.2 []
    read_nodes_section K fresh random.1 line.2 line.1

/-- The method `void CNN_Genome::read(istream &infile)` on the genome `this`. -/
def CNN_Genome.read (K : Codec) (fresh : Nat → Nat) (this : CNN_Genome)
    (infile : IStream) : Outcome :=
  read_versioned K fresh
    { this with progress_function := none,
                version_str := (getline infile this.version_str).1 }
    (getline infile this.version_str).2

/-! ## What the stream operators of the collaborators are assumed to do -/

/-- The node that `operator>>` builds from the text of `n`. -/
def Codec.node_image (K : Codec) (n : CNN_Node) : CNN_Node :=
  (K.read_node { buf := '\n' :: line (K.write_node n) [] }).1

/-- The edge that `operator>>` builds from the text of `e`. -/
def Codec.edge_image (K : Codec) (heap : Nat → CNN_Node) (e : CNN_Edge) : CNN_Edge :=
  (K.read_edge { buf := '\n' :: line (K.write_edge heap e) [] }).1

/-- The `double` that `operator>>` builds from the text of `q`. -/
def Codec.double_image (K : Codec) (q : ℚ) : ℚ :=
  (K.read_double { buf := '\n' :: line (K.write_double q) [] } 0).1

/-- The edge `e2` stands for the edge `e`: same innovation number, same
`disabled` flag, and `CNN_Edge::equals` does not tell them apart. -/
def same_edge (C : Collaborators) (e2 e : CNN_Edge) : Prop :=
  e2.innovation_number = e.innovation_number ∧ e2.disabled = e.disabled ∧
  ∀ x, C.edge_equals e2 x = C.edge_equals e x ∧ C.edge_equals x e2 = C.edge_equals x e

/-- The contract of the stream operators of the collaborators: an extraction
that starts at the end of the previous line reads back what the matching
insertion wrote ahead of a newline or blank, and stops in front of it.
`read_hexfloat` returns the value written; a node keeps its innovation
number; an edge read back, also after `set_nodes`, stands for the edge
written; a `double` written with `operator<<` is read back as some `double`,
and the decimal text of an `int` as that number. -/
structure Codec.Lawful (C : Collaborators) (K : Codec) : Prop where
  hexfloat : ∀ (q : ℚ) (rest : List Char),
    K.read_hexfloat { buf := '\n' :: line (K.write_hexfloat q) rest } =
      (q, { buf := '\n' :: rest })
  normal_distribution : ∀ (d x : Nat) (rest : List Char),
    K.read_normal_distribution
      { buf := '\n' :: line (K.write_normal_distribution d) rest } x =
      (d, { buf := '\n' :: rest })
  node : ∀ (n : CNN_Node) (rest : List Char),
    K.read_node { buf := '\n' :: line (K.write_node n) rest } =
      (K.node_image n, { buf := '\n' :: rest })
  node_innovation_number : ∀ n : CNN_Node,
    (K.node_image n).innovation_number = n.innovation_number
  edge : ∀ (heap : Nat → CNN_Node) (e : CNN_Edge) (rest : List Char),
    K.read_edge { buf := '\n' :: line (K.write_edge heap e) rest } =
      (K.edge_image heap e, { buf := '\n' :: rest })
  edge_same : ∀ (heap : Nat → CNN_Node) (e : CNN_Edge),
    same_edge C (K.edge_image heap e) e
  set_nodes_same : ∀ (heap : Nat → CNN_Node) (nodes : List Nat) (e e2 : CNN_Edge),
    K.set_nodes heap nodes e = some e2 → same_edge C e2 e
  double : ∀ (q x : ℚ) (sep term : Char) (rest : List Char),
    (sep = ' ' ∨ sep = '\n') → (term = ' ' ∨ term = '\n') →
    K.read_double { buf := sep :: (K.write_double q ++ term :: rest) } x =
      (K.double_image q, { buf := term :: rest })
  double_int : ∀ (n : Int) (x : ℚ) (sep term : Char) (rest : List Char),
    INT_MIN ≤ n → n ≤ INT_MAX →
    (sep = ' ' ∨ sep = '\n') → (term = ' ' ∨ term = '\n') →
    K.read_double { buf := sep :: (print_int n ++ term :: rest) } x =
      ((n : ℚ), { buf := term :: rest })

/-- The node objects after the loop of lines 1625-1631 has read the nodes at
the addresses `nodes` of `heap`, when `m` nodes were allocated before and the
objects were `h` then. -/
def loaded_heap (K : Codec) (fresh : Nat → Nat) (heap : Nat → CNN_Node) :
    List Nat → Nat → (Nat → CNN_Node) → (Nat → CNN_Node)
  | [], _, h => h
  | a :: nodes, m, h =>
    loaded_heap K fresh heap nodes (m + 1)
      (Function.update h (fresh m) (K.node_image (heap a)))

/-- The addresses of `len` nodes allocated after `m` earlier ones. -/
def loaded_nodes (fresh : Nat → Nat) (m len : Nat) : List Nat :=
  (List.range len).map (fun i => fresh (m + i))

/-- The edges after the loop of lines 1647-1659 has read `edges`, written
with the node objects `heap`, against the node objects `heap2` and the node
list `nodes2`. -/
def loaded_edges (K : Codec) (heap : Nat → CNN_Node) (heap2 : Nat → CNN_Node)
    (nodes2 : List Nat) (edges : List CNN_Edge) : List CNN_Edge :=
  edges.filterMap (fun e => K.set_nodes heap2 nodes2 (K.edge_image heap e))

/-- The node pointers found by the loops of lines 1674-1686 and 1693-1705 for
the innovation numbers of the nodes `view` of `heap`. -/
def loaded_view (heap : Nat → CNN_Node) (view : List Nat) (heap2 : Nat → CNN_Node)
    (nodes2 : List Nat) : List Nat :=
  view.filterMap (fun a => find_node heap2 nodes2 (heap a).innovation_number)

/-- The text of `xs` with a blank in front of every entry, followed by
`rest`. -/
def blank_items {α : Type} (print : α → List Char) (xs : List α)
    (rest : List Char) : List Char :=
  xs.foldr (fun x acc => ' ' :: (print x ++ acc)) rest

/-- The genome that `read`, called on `this`, builds from the text of `g`:
the members that `write` prints are those of `g`, the nodes are new objects,
and the members that are not part of the text stay as they are in `this`. -/
def CNN_Genome.loaded (K : Codec) (fresh : Nat → Nat) (this g : CNN_Genome) :
    CNN_Genome :=
  { g with
    version_str := 'v' :: EXACT_VERSION
    heap := loaded_heap K fresh g.heap g.nodes 0 this.heap
    nodes := loaded_nodes fresh 0 g.nodes.length
    edges := loaded_edges K g.heap (loaded_heap K fresh g.heap g.nodes 0 this.heap)
      (loaded_nodes fresh 0 g.nodes.length) g.edges
    input_nodes := loaded_view g.heap g.input_nodes
      (loaded_heap K fresh g.heap g.nodes 0 this.heap)
      (loaded_nodes fresh 0 g.nodes.length)
    softmax_nodes := loaded_view g.heap g.softmax_nodes
      (loaded_heap K fresh g.heap g.nodes 0 this.heap)
      (loaded_nodes fresh 0 g.nodes.length)
    best_class_error := g.best_class_error.map K.double_image
    started_from_checkpoint := this.started_from_checkpoint
    name := this.name
    checkpoint_filename := this.checkpoint_filename
    output_filename := this.output_filename
    progress_function := none }

/-- The method `CNN_Edge::set_nodes` accepts every edge of `g` when it is read back
against the nodes of `g` read back. -/
@[reducible] def CNN_Genome.edges_fit (K : Codec) (fresh : Nat → Nat)
    (g this : CNN_Genome) : Prop :=
  ∀ e ∈ g.edges,
    (K.set_nodes (loaded_heap K fresh g.heap g.nodes 0 this.heap)
      (loaded_nodes fresh 0 g.nodes.length) (K.edge_image g.heap e)).isSome = true

/-- The genome `g2` agrees with `g` on what `write` prints: `g2` is not marked
invalid; the members written in hexadecimal floating point are the same; the
`int` and `bool` members and the ten counters of the mutation operators are
the same; there are as many nodes and as many edges; the innovation numbers
of the input nodes and of the softmax nodes are the same lists; and
`backprop_order` is the same. -/
def same_serialized_members (g g2 : CNN_Genome) : Prop :=
  g2.version_str ≠ INALID ∧
  (g2.initial_mu = g.initial_mu ∧ g2.mu = g.mu ∧ g2.mu_delta = g.mu_delta ∧
    g2.initial_learning_rate = g.initial_learning_rate ∧
    g2.learning_rate = g.learning_rate ∧
    g2.learning_rate_delta = g.learning_rate_delta ∧
    g2.initial_weight_decay = g.initial_weight_decay ∧
    g2.weight_decay = g.weight_decay ∧
    g2.weight_decay_delta = g.weight_decay_delta ∧
    g2.input_dropout_probability = g.input_dropout_probability ∧
    g2.hidden_dropout_probability = g.hidden_dropout_probability ∧
    g2.best_error = g.best_error) ∧
  (g2.exact_id = g.exact_id ∧ g2.genome_id = g.genome_id ∧
    g2.velocity_reset = g.velocity_reset ∧ g2.epoch = g.epoch ∧
    g2.max_epochs = g.max_epochs ∧ g2.reset_weights = g.reset_weights ∧
    g2.best_predictions = g.best_predictions ∧
    g2.best_predictions_epoch = g.best_predictions_epoch ∧
    g2.best_error_epoch = g.best_error_epoch ∧
    g2.generation_id = g.generation_id) ∧
  (g2.generated_by_disable_edge = g.generated_by_disable_edge ∧
    g2.generated_by_enable_edge = g.generated_by_enable_edge ∧
    g2.generated_by_split_edge = g.generated_by_split_edge ∧
    g2.generated_by_add_edge = g.generated_by_add_edge ∧
    g2.generated_by_change_size = g.generated_by_change_size ∧
    g2.generated_by_change_size_x = g.generated_by_change_size_x ∧
    g2.generated_by_change_size_y = g.generated_by_change_size_y ∧
    g2.generated_by_crossover = g.generated_by_crossover ∧
    g2.generated_by_reset_weights = g.generated_by_reset_weights ∧
    g2.generated_by_add_node = g.generated_by_add_node) ∧
  (g2.nodes.length = g.nodes.length ∧ g2.edges.length = g.edges.length) ∧
  (g2.input_nodes.map (fun a => (g2.heap a).innovation_number) =
      g.input_nodes.map (fun a => (g.heap a).innovation_number) ∧
    g2.softmax_nodes.map (fun a => (g2.heap a).innovation_number) =
      g.softmax_nodes.map (fun a => (g.heap a).innovation_number)) ∧
  g2.backprop_order = g.backprop_order

/-- The values of `int` type that `write` prints for `g`: the `int` members,
the sizes read back into an `int`, the innovation numbers of the input and
softmax nodes, and the entries of `best_correct_predictions`. -/
def CNN_Genome.int_members (g : CNN_Genome) : List Int :=
  [g.exact_id, g.genome_id, g.velocity_reset, g.epoch, g.max_epochs,
    g.best_predictions, g.best_predictions_epoch, g.best_error_epoch,
    g.generated_by_disable_edge, g.generated_by_enable_edge,
    g.generated_by_split_edge, g.generated_by_add_edge, g.generated_by_change_size,
    g.generated_by_change_size_x, g.generated_by_change_size_y,
    g.generated_by_crossover, g.generated_by_reset_weights, g.generated_by_add_node,
    g.generation_id, g.nodes.length, g.edges.length, g.input_nodes.length,
    g.softmax_nodes.length, g.best_class_error.length,
    g.best_correct_predictions.length] ++
  g.input_nodes.map (fun a => (g.heap a).innovation_number) ++
  g.softmax_nodes.map (fun a => (g.heap a).innovation_number) ++
  g.best_correct_predictions

/-- The members of `g` hold values of their C++ types: the `int` values are
in the range of `int`, the entries and the size of `backprop_order` in the
range of `long`, the state of the generator in the range of its type. -/
@[reducible] def CNN_Genome.representable (g : CNN_Genome) : Prop :=
  (∀ n ∈ g.int_members, INT_MIN ≤ n ∧ n ≤ INT_MAX) ∧
  (∀ n ∈ g.backprop_order, LONG_MIN ≤ n ∧ n ≤ LONG_MAX) ∧
  (g.backprop_order.length : Int) ≤ LONG_MAX ∧
  (g.rng.generator : Int) ≤ UINT_FAST32_MAX

/-- The input and softmax nodes of `g` are nodes of its node list. -/
@[reducible] def CNN_Genome.views_in_nodes (g : CNN_Genome) : Prop :=
  (∀ a ∈ g.input_nodes, a ∈ g.nodes) ∧ (∀ a ∈ g.softmax_nodes, a ∈ g.nodes)

/-! ## Training: `evaluate`, `save_to_best`, `set_to_best`,
`stochastic_backpropagation` (cnn_genome.cxx 1090-1108, 1169-1218, 1235-1366) -/

/-- The macro `#define EXACT_MAX_DOUBLE 10000000` (cnn_genome.hxx 19). -/
def EXACT_MAX_DOUBLE : ℚ := 10000000

/-- One `Image` of the data set (image_tools/image_set.hxx): the class it is
labelled with, and the pixel data, which only the input nodes look at. -/
structure Image where
  classification : Int := 0
  pixels : List ℚ := []

/-- The part of `class Images` (image_tools/image_set.hxx) that the genome
uses: the number of classes and the images. -/
structure Images where
  number_classes : Nat := 0
  images : List Image := []

/-- The method `Images::get_number_images()`. -/
def Images.get_number_images (images : Images) : Nat := images.images.length

/-- The method `Images::get_image(i)`; an index outside the data set, for which C++
defines no result, yields a blank image. -/
def Images.get_image (images : Images) (i : Int) : Image :=
  if 0 ≤ i then images.images.getD i.toNat {} else {}

/-- What one call of `evaluate_image` leaves behind: the class it returns,
the node objects, the edges and the state of the generator, and its two
reference arguments `class_error` and `total_error`. -/
structure Image_Evaluation where
  predicted_class : Int
  heap : Nat → CNN_Node
  edges : List CNN_Edge
  generator : Nat
  class_error : List ℚ
  total_error : ℚ

/-- What the training loop calls: `needs_init`, `has_nan` and `reset_velocities` of
`CNN_Node` and `CNN_Edge` (cnn_node.cxx, cnn_edge.cxx), `fisher_yates_shuffle`
(common/random.hxx), `std::sort` with `sort_CNN_Edges_by_depth` (cnn_edge.hxx), which
this development does not look into, and `evaluate_image` (cnn_genome.cxx
960-1088) as a function of the genome, the image, `class_error`,
`perform_backprop`, `perform_dropout` and `total_error`: it assigns to no scalar
member of the genome, and it is `none` when one of its `exit(1)` statements
ends the process. The embedding `CNN_Genome.evaluate_image` below is put in its
place by `Trainer.with_evaluator`. -/
structure Trainer where
  node_needs_init : CNN_Node → Bool
  node_has_nan : CNN_Node → Bool
  edge_needs_init : CNN_Edge → Bool
  edge_has_nan : CNN_Edge → Bool
  node_reset_velocities : CNN_Node → CNN_Node
  edge_reset_velocities : CNN_Edge → CNN_Edge
  fisher_yates_shuffle : Nat → List Int → List Int × Nat
  sort_by_depth : (Nat → CNN_Node) → List CNN_Edge → List CNN_Edge
  evaluate_image :
    CNN_Genome → Image → List ℚ → Bool → Bool → ℚ → Option Image_Evaluation

/-- The reference arguments `class_error`, `correct_predictions`,
`total_error` and `total_predictions` of `evaluate`. -/
structure Evaluation where
  class_error : List ℚ
  correct_predictions : List Int
  total_error : ℚ
  total_predictions : Int

/-- The statement `correct_predictions[expected_class]++` (1208); an index
outside the vector, for which C++ defines no result, changes nothing. -/
def increment (correct_predictions : List Int) (expected_class : Int) : List Int :=
  if 0 ≤ expected_class then correct_predictions.modify (· + 1) expected_class.toNat
  else correct_predictions

/-- Lines 1173-1178 of `evaluate`. -/
def perform_dropout (perform_backprop : Bool) : Bool :=
  if perform_backprop then true else false

/-- The two loops of lines 1188-1194. -/
def CNN_Genome.reset_velocities (T : Trainer) (g : CNN_Genome) : CNN_Genome :=
  { g with
    edges := g.edges.map T.edge_reset_velocities
    heap := g.nodes.foldl
      (fun heap a => Function.update heap a (T.node_reset_velocities (heap a))) g.heap }

/-- The genome after the image at position `j` of `backprop_order` (1183,
1187-1195): what `evaluate_image` left, and the velocities reset when due. -/
def after_image (T : Trainer) (perform_backprop : Bool) (j : Nat) (g : CNN_Genome)
    (out : Image_Evaluation) : CNN_Genome :=
  if perform_backprop && decide (g.velocity_reset > 0) && decide (j > 0) &&
      decide ((j : Int) % g.velocity_reset = 0) then
    CNN_Genome.reset_velocities T
      { g with heap := out.heap, edges := out.edges,
               rng := { g.rng with generator := out.generator } }
  else
    { g with heap := out.heap, edges := out.edges,
             rng := { g.rng with generator := out.generator } }

/-- The reference arguments after one image (1183-1184, 1207-1210). -/
def count_prediction (expected_class : Int) (out : Image_Evaluation) (r : Evaluation) :
    Evaluation :=
  if out.predicted_class = expected_class then
    { class_error := out.class_error
      correct_predictions := increment r.correct_predictions expected_class
      total_error := out.total_error
      total_predictions := r.total_predictions + 1 }
  else { r with class_error := out.class_error, total_error := out.total_error }

/-- The loop of lines 1182-1211 from position `j` on, over the entries of
`backprop_order` that are left; `none` when `evaluate_image` ends the
process. -/
def evaluate_loop (T : Trainer) (images : Images) (perform_backprop : Bool) :
    Nat → List Int → CNN_Genome → Evaluation → Option (CNN_Genome × Evaluation)
  | _, [], g, r => some (g, r)
  | j, o :: order, g, r =>
    match T.evaluate_image g (images.get_image o) r.class_error perform_backprop
        (perform_dropout perform_backprop) r.total_error with
    | none => none
    | some out =>
      evaluate_loop T images perform_backprop (j + 1) order
        (after_image T perform_backprop j g out)
        (count_prediction (images.get_image o).classification out r)

/-- The method `void CNN_Genome::evaluate(images, class_error, correct_predictions,
total_error, total_predictions, perform_backprop)` (1169-1218): the genome
and the reference arguments as the call leaves them. -/
def CNN_Genome.evaluate (T : Trainer) (g : CNN_Genome) (images : Images)
    (perform_backprop : Bool) : Option (CNN_Genome × Evaluation) :=
  evaluate_loop T images perform_backprop 0 g.backprop_order g
    { class_error := List.replicate images.number_classes 0
      correct_predictions := List.replicate images.number_classes 0
      total_error := 0
      total_predictions := 0 }

/-- Modelled from the spec: `CNN_Edge::set_weights_to_best()` (the body is in
cnn_edge.cxx) rolls the weights back to the best weights saved last. -/
def set_weights_to_best (e : CNN_Edge) : CNN_Edge := { e with weights := e.best_weights }

/-- Modelled from the spec: `CNN_Node::set_bias_to_best()` (the body is in
cnn_node.cxx) rolls the bias back to the best bias saved last. -/
def set_bias_to_best (n : CNN_Node) : CNN_Node := { n with bias := n.best_bias }

/-- The method `void CNN_Genome::save_to_best()` (1090-1098). -/
def CNN_Genome.save_to_best (g : CNN_Genome) : CNN_Genome :=
  { g with
    edges := g.edges.map save_best_weights
    heap := g.nodes.foldl
      (fun heap a => Function.update heap a (save_best_bias (heap a))) g.heap }

/-- The method `void CNN_Genome::set_to_best()` (1100-1108). -/
def CNN_Genome.set_to_best (g : CNN_Genome) : CNN_Genome :=
  { g with
    edges := g.edges.map set_weights_to_best
    heap := g.nodes.foldl
      (fun heap a => Function.update heap a (set_bias_to_best (heap a))) g.heap }

/-- What a call of `stochastic_backpropagation` does to the world outside the
genome: a call of `print_progress` (with the genome whose members it prints),
a call of `write_to_file` (with the genome that `write` then prints), and a
call of the progress callback. -/
inductive Effect where
  | print_progress (g : CNN_Genome) (total_predictions : Int) (total_error : ℚ)
  | write_to_file (filename : List Char) (g : CNN_Genome)
  | progress_function (progress : Option ℚ)

/-- The genome during a call of `stochastic_backpropagation`, with the effects
of the call so far, oldest first. -/
structure Training where
  genome : CNN_Genome
  effects : List Effect := []

/-- Quotient of two `double` values; `none` stands for the infinity or NaN that
a zero divisor yields. -/
def double_div (a b : ℚ) : Option ℚ := if b = 0 then none else some (a / b)

/-- Lines 1309-1315: the new best record. -/
def record_best (g : CNN_Genome) (r : Evaluation) : CNN_Genome :=
  { g with
    best_error := r.total_error
    best_error_epoch := g.epoch
    best_predictions := r.total_predictions
    best_predictions_epoch := g.epoch
    best_class_error := r.class_error
    best_correct_predictions := r.correct_predictions }

/-- The statements `if (filename.compare("") != 0) write_to_file(filename)` of
lines 1317-1319 and 1353-1355. -/
def write_if_named (filename : List Char) (g : CNN_Genome) (effects : List Effect) :
    List Effect :=
  if filename ≠ [] then effects ++ [Effect.write_to_file filename g] else effects

/-- Lines 1307-1340, after the two passes of the epoch left the genome of `s`
and the reference arguments `r`: with an improvement the best record is
set, the genome is written to the output file and `save_to_best` runs;
`print_progress` is called; without an improvement `set_to_best` runs. -/
def improve_or_roll_back (s : Training) (r : Evaluation) : Training :=
  if r.total_error < s.genome.best_error then
    { genome := (record_best s.genome r).save_to_best
      effects :=
        write_if_named s.genome.output_filename (record_best s.genome r) s.effects ++
          [Effect.print_progress (record_best s.genome r).save_to_best
            r.total_predictions r.total_error] }
  else
    { genome := s.genome.set_to_best
      effects :=
        s.effects ++ [Effect.print_progress s.genome r.total_predictions r.total_error] }

/-- The value an `int` holds after an arithmetic result `x` that may lie outside
its range. C++ defines no result for a signed overflow; the embedding takes
the two's-complement value that the usual targets leave, so that
`INT_MAX + 1` is `INT_MIN`. A result within the range is kept. -/
def int_wrap (x : Int) : Int := (x + 2147483648) % 4294967296 - 2147483648

/-- Lines 1342-1351: the hyperparameters decay and the epoch counter, an `int`
(cnn_genome.hxx 57), goes up by `epoch++`. -/
def advance_epoch (g : CNN_Genome) : CNN_Genome :=
  { g with
    mu := 99 / 100 - ((99 / 100 - g.mu) * g.mu_delta)
    learning_rate := g.learning_rate * g.learning_rate_delta
    weight_decay := g.weight_decay * g.weight_decay_delta
    epoch := int_wrap (g.epoch + 1) }

/-- Lines 1357-1360: the progress callback, when there is one. -/
def report_progress (g : CNN_Genome) (effects : List Effect) : List Effect :=
  match g.progress_function with
  | none => effects
  | some _ =>
    effects ++ [Effect.progress_function (double_div g.epoch ((g.max_epochs : ℚ) + 1))]

/-- Lines 1307-1360 of the loop body. -/
def conclude_epoch (s : Training) (r : Evaluation) : Training :=
  { genome := advance_epoch (improve_or_roll_back s r).genome
    effects :=
      report_progress (advance_epoch (improve_or_roll_back s r).genome)
        (write_if_named (improve_or_roll_back s r).genome.checkpoint_filename
          (advance_epoch (improve_or_roll_back s r).genome)
          (improve_or_roll_back s r).effects) }

/-- The call `fisher_yates_shuffle(generator, backprop_order)` of lines 1273 and 1302. -/
def CNN_Genome.shuffle_order (T : Trainer) (g : CNN_Genome) : CNN_Genome :=
  { g with
    backprop_order := (T.fisher_yates_shuffle g.rng.generator g.backprop_order).1
    rng := { g.rng with
      generator := (T.fisher_yates_shuffle g.rng.generator g.backprop_order).2 } }

/-- Lines 1302-1305: the shuffle, the pass that updates the weights, and the
pass that only measures; the genome and the reference arguments after the
second pass. -/
def measure_epoch (T : Trainer) (images : Images) (g : CNN_Genome) :
    Option (CNN_Genome × Evaluation) :=
  match (g.shuffle_order T).evaluate T images true with
  | none => none
  | some trained => trained.1.evaluate T images false

/-- One pass through the body of the `do` loop up to its `break` test
(1300-1361); `none` when `evaluate_image` ends the process. -/
def epoch (T : Trainer) (images : Images) (s : Training) : Option Training :=
  match measure_epoch T images s.genome with
  | none => none
  | some m => some (conclude_epoch { s with genome := m.1 } m.2)

/-- How a call of `stochastic_backpropagation` ends: it returns, or `exit(1)`
ends the process, or the loop is still running after as many passes as the
count allowed. -/
inductive Run where
  | returned (s : Training)
  | exited
  | unfinished

/-- The loop `do ... while (true)` of lines 1300-1365, for at most as many
passes through its body as the first argument says. -/
def epoch_loop (T : Trainer) (images : Images) : Nat → Training → Run
  | 0, _ => Run.unfinished
  | fuel + 1, s =>
    match epoch T images s with
    | none => Run.exited
    | some s1 =>
      if s1.genome.epoch > s1.genome.max_epochs then Run.returned s1
      else epoch_loop T images fuel s1

/-- The two loops of lines 1236-1260: `false` when one of them reaches
`exit(1)`. -/
def entry_checks (T : Trainer) (g : CNN_Genome) : Bool :=
  g.nodes.all (fun a => !T.node_needs_init (g.heap a) && !T.node_has_nan (g.heap a)) &&
  g.edges.all (fun e => !T.edge_needs_init e && !T.edge_has_nan e)

/-- One call `generator()` of the `minstd_rand0`: the next state, which is
also the value returned. -/
def minstd_rand0 (x : Nat) : Nat := 16807 * x % 2147483647

/-- The call `v.resize(n)` for a `vector<long>`. -/
def resize (n : Nat) (v : List Int) : List Int :=
  (v ++ List.replicate (n - v.length) 0).take n

/-- Lines 1262-1278: without a checkpoint the order is built anew and
shuffled, the generator is called once before and once after the shuffle for
the two diagnostic lines, and `best_error` is reset. -/
def CNN_Genome.fresh_start (T : Trainer) (g : CNN_Genome) (images : Images) :
    CNN_Genome :=
  if g.started_from_checkpoint then g
  else
    { g with
      backprop_order :=
        (T.fisher_yates_shuffle (minstd_rand0 g.rng.generator)
          ((List.range images.get_number_images).map Int.ofNat)).1
      rng := { g.rng with
        generator := minstd_rand0
          (T.fisher_yates_shuffle (minstd_rand0 g.rng.generator)
            ((List.range images.get_number_images).map Int.ofNat)).2 }
      best_error := EXACT_MAX_DOUBLE }

/-- Lines 1262-1282: the fresh start, `backprop_order.resize(2000)` and the sort
of the edges. (The vector `class_sizes` of lines 1284-1287 is not used
afterwards.) -/
def CNN_Genome.prepare (T : Trainer) (g : CNN_Genome) (images : Images) : CNN_Genome :=
  { g.fresh_start T images with
    backprop_order := resize 2000 (g.fresh_start T images).backprop_order
    edges := T.sort_by_depth (g.fresh_start T images).heap (g.fresh_start T images).edges }

/-- Lines 1262-1298: the state in which the `do` loop is entered, after the
evaluation of the initial weights and its `print_progress`; `none` when
`evaluate_image` ends the process. -/
def CNN_Genome.loop_entry (T : Trainer) (this : CNN_Genome) (images : Images) :
    Option Training :=
  match (this.prepare T images).evaluate T images false with
  | none => none
  | some first =>
    some { genome := first.1
           effects := [Effect.print_progress first.1 first.2.total_predictions
             first.2.total_error] }

/-- The method `void CNN_Genome::stochastic_backpropagation(const Images &images)`, with a
bound on the number of passes through its loop. -/
def CNN_Genome.stochastic_backpropagation (T : Trainer) (fuel : Nat)
    (this : CNN_Genome) (images : Images) : Run :=
  if !entry_checks T this then Run.exited
  else
    match this.loop_entry T images with
    | none => Run.exited
    | some s => epoch_loop T images fuel s

/-- The state after `n` passes through the body of the loop. -/
def epochs (T : Trainer) (images : Images) : Nat → Training → Option Training
  | 0, s => some s
  | n + 1, s =>
    match epoch T images s with
    | none => none
    | some s1 => epochs T images n s1

/-- The values of `total_error` that the measuring passes of the next `n`
epochs leave, first epoch first. -/
def unbiased_errors (T : Trainer) (images : Images) : Nat → Training → List ℚ
  | 0, _ => []
  | n + 1, s =>
    match measure_epoch T images s.genome with
    | none => []
    | some m =>
      m.2.total_error ::
        unbiased_errors T images n (conclude_epoch { s with genome := m.1 } m.2)

/-- The arguments of the calls of the progress callback among the effects,
oldest first. -/
def progress_values : List Effect → List (Option ℚ)
  | [] => []
  | Effect.progress_function p :: rest => p :: progress_values rest
  | Effect.print_progress _ _ _ :: rest => progress_values rest
  | Effect.write_to_file _ _ :: rest => progress_values rest

/-- The genome `g2` is the genome `g` but for its node objects, its edges,
its random source and its `backprop_order`. -/
def same_settings (g g2 : CNN_Genome) : Prop :=
  ∃ heap edges rng backprop_order,
    g2 = { g with heap := heap, edges := edges, rng := rng,
                  backprop_order := backprop_order }

/-- No call of `evaluate_image` on a genome with the given list of output nodes
ends the process. -/
def Trainer.never_exits (T : Trainer) (softmax_nodes : List Nat) : Prop :=
  ∀ g : CNN_Genome, g.softmax_nodes = softmax_nodes →
    ∀ image class_error perform_backprop dropout total_error,
      (T.evaluate_image g image class_error perform_backprop dropout
        total_error).isSome = true

/-- The calls into the nodes and edges during an evaluation leave the saved
best values alone: `evaluate_image` keeps the edges in their places, with
their best weights, and the best bias of every node; `reset_velocities`
keeps the best weights of an edge and the best bias of a node. -/
structure Trainer.keeps_best (T : Trainer) : Prop where
  evaluate_image : ∀ g image class_error perform_backprop dropout total_error out,
    T.evaluate_image g image class_error perform_backprop dropout total_error = some out →
    out.edges.map CNN_Edge.best_weights = g.edges.map CNN_Edge.best_weights ∧
    ∀ a, (out.heap a).best_bias = (g.heap a).best_bias
  edge_reset_velocities : ∀ e, (T.edge_reset_velocities e).best_weights = e.best_weights
  node_reset_velocities : ∀ n, (T.node_reset_velocities n).best_bias = n.best_bias

/-- The contract of `fisher_yates_shuffle` (common/random.hxx): the vector it
leaves is a rearrangement of the vector it was given. -/
def Trainer.shuffles (T : Trainer) : Prop :=
  ∀ generator order, (T.fisher_yates_shuffle generator order).1.Perm order

/-! ## Graph construction: the template constructor, `add_node`, `add_edge`
and `disable_edge` (cnn_genome.cxx 432-516, 721-753) -/

/-- The loop of the standard library's `std::upper_bound(first, last, value, comp)`,
a binary search: `first` is an index into `v`, `len` the number of elements
still in question; the element in the middle is compared with
`comp(value, middle)`, and the search goes on in the left half when that
holds, behind the middle otherwise. The first argument bounds the number of
passes; `len` passes are enough. -/
def upper_bound_loop {α : Type} (comp : α → α → Bool) (v : List α) (value : α) :
    Nat → Nat → Nat → Nat
  | 0, first, _ => first
  | fuel + 1, first, len =>
    if len = 0 then first
    else
      match v[first + len / 2]? with
      | none => first
      | some middle =>
        if comp value middle then upper_bound_loop comp v value fuel first (len / 2)
        else
          upper_bound_loop comp v value fuel (first + len / 2 + 1) (len - len / 2 - 1)

/-- The call `upper_bound(v.begin(), v.end(), value, comp)`: the position found,
as an index into `v`. -/
def upper_bound {α : Type} (comp : α → α → Bool) (v : List α) (value : α) : Nat :=
  upper_bound_loop comp v value v.length 0 v.length

/-- The call `v.insert(v.begin() + k, x)`. -/
def insert_at {α : Type} (v : List α) (k : Nat) (x : α) : List α :=
  v.take k ++ x :: v.drop k

/-- What the graph construction calls and this development does not look
into: the comparators `sort_CNN_Nodes_by_depth` (cnn_node.hxx), which gets two
node pointers, and `sort_CNN_Edges_by_depth` (cnn_edge.hxx), which gets two edge
pointers and may look at their end nodes; `copy`, `is_input` and `is_softmax`
of `CNN_Node`; `copy` and `disable` of `CNN_Edge`. -/
structure Builder where
  sort_CNN_Nodes_by_depth : CNN_Node → CNN_Node → Bool
  sort_CNN_Edges_by_depth : (Nat → CNN_Node) → CNN_Edge → CNN_Edge → Bool
  node_copy : CNN_Node → CNN_Node
  is_input : CNN_Node → Bool
  is_softmax : CNN_Node → Bool
  edge_copy : CNN_Edge → CNN_Edge
  disable : CNN_Edge → CNN_Edge

/-- The method `void CNN_Genome::add_node(CNN_Node* node)` (721-724). -/
def CNN_Genome.add_node (B : Builder) (g : CNN_Genome) (node : Nat) : CNN_Genome :=
  { g with
    nodes := insert_at g.nodes
      (upper_bound (fun n1 n2 => B.sort_CNN_Nodes_by_depth (g.heap n1) (g.heap n2))
        g.nodes node) node }

/-- The method `void CNN_Genome::add_edge(CNN_Edge* edge)` (726-728). -/
def CNN_Genome.add_edge (B : Builder) (g : CNN_Genome) (edge : CNN_Edge) : CNN_Genome :=
  { g with
    edges := insert_at g.edges
      (upper_bound (B.sort_CNN_Edges_by_depth g.heap) g.edges edge) edge }

/-- The method `bool CNN_Genome::disable_edge(int edge_position)` (730-753): the value
returned and the genome afterwards; `none` when `edges.at(edge_position)`
throws `std::out_of_range`. -/
def CNN_Genome.disable_edge (B : Builder) (g : CNN_Genome) (edge_position : Int) :
    Option (Bool × CNN_Genome) :=
  if 0 ≤ edge_position then
    match g.edges[edge_position.toNat]? with
    | none => none
    | some edge =>
      if edge.disabled then some (true, g)
      else
        some (true, { g with edges := g.edges.set edge_position.toNat (B.disable edge) })
  else none

/-- The standard library's constructor `minstd_rand0(seed)`: the `int` is
converted to the unsigned 64-bit `result_type`, reduced modulo 2147483647,
and a state of 0 is replaced by 1. -/
def seed_generator (seed : Int) : Nat :=
  if (seed % 18446744073709551616).toNat % 2147483647 = 0 then 1
  else (seed % 18446744073709551616).toNat % 2147483647

/-- The loop of lines 484-500 over the nodes of the template that are left;
the `k`-th copy of the call has the address `fresh k`. -/
def construct_node_loop (B : Builder) (fresh : Nat → Nat) :
    List CNN_Node → CNN_Genome → CNN_Genome
  | [], this => this
  | node :: rest, this =>
    construct_node_loop B fresh rest
      { this with
        heap := Function.update this.heap (fresh this.nodes.length) (B.node_copy node)
        input_nodes :=
          if B.is_input (B.node_copy node) then
            this.input_nodes ++ [fresh this.nodes.length]
          else this.input_nodes
        softmax_nodes :=
          if B.is_softmax (B.node_copy node) then
            this.softmax_nodes ++ [fresh this.nodes.length]
          else this.softmax_nodes
        nodes := this.nodes ++ [fresh this.nodes.length] }

/-- The loop of lines 502-511 over the edges of the template that are left;
`none` is the `exit(1)` of line 508. -/
def construct_edge_loop (B : Builder) (K : Codec) :
    List CNN_Edge → CNN_Genome → Option CNN_Genome
  | [], this => some this
  | edge :: rest, this =>
    match K.set_nodes this.heap this.nodes (B.edge_copy edge) with
    | none => none
    | some edge_copy =>
      construct_edge_loop B K rest { this with edges := this.edges ++ [edge_copy] }

/-- The constructor `CNN_Genome::CNN_Genome(_generation_id, seed, _max_epochs,
_reset_weights, _velocity_reset, _mu, _mu_delta, _learning_rate, _learning_rate_delta,
_weight_decay, _weight_decay_delta, _input_dropout_probability,
_hidden_dropout_probability, _nodes, _edges)` (432-512); `_nodes` holds the node
objects that the pointers of the template refer to. -/
def CNN_Genome.construct (B : Builder) (K : Codec) (fresh : Nat → Nat)
    (_generation_id seed _max_epochs : Int) (_reset_weights : Bool) (_velocity_reset : Int)
    (_mu _mu_delta _learning_rate _learning_rate_delta _weight_decay _weight_decay_delta
      _input_dropout_probability _hidden_dropout_probability : ℚ)
    (_nodes : List CNN_Node) (_edges : List CNN_Edge) : Option CNN_Genome :=
  construct_edge_loop B K _edges
    (construct_node_loop B fresh _nodes
      { exact_id := -1
        genome_id := -1
        started_from_checkpoint := false
        rng := { generator := seed_generator seed }
        progress_function := none
        velocity_reset := _velocity_reset
        input_dropout_probability := _input_dropout_probability
        hidden_dropout_probability := _hidden_dropout_probability
        mu := _mu
        initial_mu := _mu
        mu_delta := _mu_delta
        learning_rate := _learning_rate
        initial_learning_rate := _learning_rate
        learning_rate_delta := _learning_rate_delta
        weight_decay := _weight_decay
        initial_weight_decay := _weight_decay
        weight_decay_delta := _weight_decay_delta
        epoch := 0
        max_epochs := _max_epochs
        reset_weights := _reset_weights
        best_predictions := 0
        best_error := EXACT_MAX_DOUBLE
        best_predictions_epoch := 0
        best_error_epoch := 0
        generation_id := _generation_id
        generated_by_disable_edge := 0
        generated_by_enable_edge := 0
        generated_by_split_edge := 0
        generated_by_add_edge := 0
        generated_by_change_size := 0
        generated_by_change_size_x := 0
        generated_by_change_size_y := 0
        generated_by_crossover := 0
        generated_by_reset_weights := 0
        generated_by_add_node := 0
        name := []
        output_filename := []
        checkpoint_filename := []
        nodes := []
        input_nodes := []
        softmax_nodes := [] })

/-- The node sequence of the genome is sorted by depth. -/
def nodes_sorted (g : CNN_Genome) : Prop :=
  g.nodes.Pairwise (fun a b => (g.heap a).depth ≤ (g.heap b).depth)

/-- The edge sequence of the genome is sorted by the depth of the input nodes
of the edges. -/
def edges_sorted (g : CNN_Genome) : Prop :=
  g.edges.Pairwise
    (fun e1 e2 => (g.heap e1.input_node).depth ≤ (g.heap e2.input_node).depth)

instance (g : CNN_Genome) : Decidable (nodes_sorted g) :=
  inferInstanceAs
    (Decidable (g.nodes.Pairwise (fun a b => (g.heap a).depth ≤ (g.heap b).depth)))

instance (g : CNN_Genome) : Decidable (edges_sorted g) :=
  inferInstanceAs
    (Decidable (g.edges.Pairwise
      (fun (e1 e2 : CNN_Edge) =>
        (g.heap e1.input_node).depth ≤ (g.heap e2.input_node).depth)))

/-- What the collaborators of the graph construction are taken to do: the two
comparators say whether the depth of the first node, or of the input node of
the first edge, is below that of the second; a copy of a node has the depth
of the node; `disable` leaves the input node of the edge. -/
structure Builder.Lawful (B : Builder) : Prop where
  nodes_by_depth : ∀ n1 n2,
    B.sort_CNN_Nodes_by_depth n1 n2 = decide (n1.depth < n2.depth)
  edges_by_depth : ∀ heap e1 e2,
    B.sort_CNN_Edges_by_depth heap e1 e2 =
      decide ((heap e1.input_node).depth < (heap e2.input_node).depth)
  node_copy_depth : ∀ n, (B.node_copy n).depth = n.depth
  disable_input_node : ∀ e, (B.disable e).input_node = e.input_node

/-! ## `CNN_Genome::evaluate_image` (cnn_genome.cxx 960-1088) -/

/-- What `CNN_Edge::propagate_forward` leaves: the edge, the two node objects
it reaches through its pointers, and the state of the generator. -/
structure Forward where
  edge : CNN_Edge
  input_node : CNN_Node
  output_node : CNN_Node
  generator : Nat

/-- What `CNN_Edge::propagate_backward` leaves: the edge and the two node objects
it reaches through its pointers. -/
structure Backward where
  edge : CNN_Edge
  input_node : CNN_Node
  output_node : CNN_Node

/-- What `evaluate_image` calls and this development does not look into:
`get_rows` and `get_cols` of `Image` (image_tools/image_set.hxx); `reset`,
`set_values`, `get_value(0,0)`, `set_value(0,0,v)`, `set_error(0,0,v)`,
`set_gradient(0,0,v)` and `propagate_bias` of `CNN_Node` (cnn_node.cxx);
`propagate_forward`, `propagate_backward` and `update_weights` of `CNN_Edge`
(cnn_edge.cxx); `exact_exp` (common/exp.hxx) and `log` of the C library. A
method that draws random numbers gets the state of the generator and yields
the new state. -/
structure Evaluator where
  get_rows : Image → Int
  get_cols : Image → Int
  reset : CNN_Node → CNN_Node
  set_values : Image → Nat → Int → Int → Bool → Nat → ℚ → CNN_Node → CNN_Node × Nat
  propagate_forward : Bool → Nat → ℚ → CNN_Edge → CNN_Node → CNN_Node → Forward
  get_value : CNN_Node → ℚ
  set_value : ℚ → CNN_Node → CNN_Node
  set_error : ℚ → CNN_Node → CNN_Node
  set_gradient : ℚ → CNN_Node → CNN_Node
  exact_exp : ℚ → ℚ
  log : ℚ → ℚ
  propagate_backward : CNN_Edge → CNN_Node → CNN_Node → Backward
  update_weights : ℚ → ℚ → ℚ → CNN_Edge → CNN_Edge
  propagate_bias : ℚ → ℚ → ℚ → CNN_Node → CNN_Node

/-- The value `numeric_limits<double>::max()`. -/
def DBL_MAX : ℚ := 2 ^ 1024 - 2 ^ 971

/-- The loop of lines 964-966. -/
def reset_nodes (E : Evaluator) (nodes : List Nat) (heap : Nat → CNN_Node) :
    Nat → CNN_Node :=
  nodes.foldl (fun heap a => Function.update heap a (E.reset (heap a))) heap

/-- The loop of lines 968-971 from the given channel on, over the input nodes
that are left; the state is the node objects and the generator. -/
def set_input_values (E : Evaluator) (image : Image) (perform_dropout : Bool)
    (input_dropout_probability : ℚ) :
    Nat → List Nat → (Nat → CNN_Node) × Nat → (Nat → CNN_Node) × Nat
  | _, [], s => s
  | channel, a :: rest, s =>
    set_input_values E image perform_dropout input_dropout_probability (channel + 1) rest
      (Function.update s.1 a
        (E.set_values image channel (E.get_rows image) (E.get_cols image) perform_dropout
          s.2 input_dropout_probability (s.1 a)).1,
       (E.set_values image channel (E.get_rows image) (E.get_cols image) perform_dropout
          s.2 input_dropout_probability (s.1 a)).2)

/-- The state of the loop of lines 973-975: the edges it is done with, the
node objects and the generator. -/
structure Forward_State where
  edges : List CNN_Edge
  heap : Nat → CNN_Node
  generator : Nat

/-- One pass through the loop of lines 973-975: `propagate_forward` of one
edge; the two node objects are written back, the output node last. -/
def forward_edge (E : Evaluator) (perform_dropout : Bool) (hidden_dropout_probability : ℚ)
    (s : Forward_State) (e : CNN_Edge) : Forward_State :=
  { edges := s.edges ++
      [(E.propagate_forward perform_dropout s.generator hidden_dropout_probability e
        (s.heap e.input_node) (s.heap e.output_node)).edge]
    heap := Function.update
      (Function.update s.heap e.input_node
        (E.propagate_forward perform_dropout s.generator hidden_dropout_probability e
          (s.heap e.input_node) (s.heap e.output_node)).input_node)
      e.output_node
      (E.propagate_forward perform_dropout s.generator hidden_dropout_probability e
        (s.heap e.input_node) (s.heap e.output_node)).output_node
    generator :=
      (E.propagate_forward perform_dropout s.generator hidden_dropout_probability e
        (s.heap e.input_node) (s.heap e.output_node)).generator }

/-- Lines 964-975: the nodes are reset, the image is put into the input
nodes, and every edge propagates forward. -/
def forward_pass (E : Evaluator) (g : CNN_Genome) (image : Image) (perform_dropout : Bool) :
    Forward_State :=
  g.edges.foldl (forward_edge E perform_dropout g.hidden_dropout_probability)
    { edges := []
      heap := (set_input_values E image perform_dropout g.input_dropout_probability 0
        g.input_nodes (reset_nodes E g.nodes g.heap, g.rng.generator)).1
      generator := (set_input_values E image perform_dropout g.input_dropout_probability 0
        g.input_nodes (reset_nodes E g.nodes g.heap, g.rng.generator)).2 }

/-- The loop of lines 978-983 over the output nodes that are left. -/
def softmax_max_loop (E : Evaluator) (heap : Nat → CNN_Node) : List Nat → ℚ → ℚ
  | [], softmax_max => softmax_max
  | a :: rest, softmax_max =>
    softmax_max_loop E heap rest
      (if E.get_value (heap a) > softmax_max then E.get_value (heap a) else softmax_max)

/-- The loop of lines 985-1018 over the output nodes that are left; the state
is the node objects and `softmax_sum`. A `double` is a rational number here,
so `isnan` is false and the three exits of the loop are not reached. -/
def exponentiate (E : Evaluator) (softmax_max : ℚ) :
    List Nat → (Nat → CNN_Node) × ℚ → (Nat → CNN_Node) × ℚ
  | [], s => s
  | a :: rest, s =>
    exponentiate E softmax_max rest
      (Function.update s.1 a
        (E.set_value (E.exact_exp (E.get_value (s.1 a) - softmax_max)) (s.1 a)),
       s.2 + E.exact_exp (E.get_value (s.1 a) - softmax_max))

/-- The state of the loop of lines 1026-1070: the node objects, the reference
arguments `class_error` and `total_error`, and the locals `predicted_class` and
`max_value`. -/
structure Softmax_State where
  heap : Nat → CNN_Node
  class_error : List ℚ
  total_error : ℚ
  predicted_class : Int
  max_value : ℚ

/-- The local `target` of lines 1038-1041. -/
def target (i : Nat) (expected_class : Int) : ℚ :=
  if (i : Int) = expected_class then 1 else 0

/-- One pass through the loop of lines 1026-1070, for the output node `a` at
index `i`; `isnan` is false, and an index outside `class_error`, for which C++
defines no result, changes nothing. -/
def normalise_node (E : Evaluator) (softmax_sum : ℚ) (expected_class : Int) (i : Nat)
    (a : Nat) (s : Softmax_State) : Softmax_State :=
  { heap := Function.update s.heap a
      (E.set_gradient
        (E.get_value (s.heap a) / softmax_sum * (1 - E.get_value (s.heap a) / softmax_sum))
        (E.set_error (E.get_value (s.heap a) / softmax_sum - target i expected_class)
          (E.set_value (E.get_value (s.heap a) / softmax_sum) (s.heap a))))
    class_error := s.class_error.modify
      (· + abs (E.get_value (s.heap a) / softmax_sum - target i expected_class)) i
    total_error := s.total_error -
      target i expected_class * E.log (E.get_value (s.heap a) / softmax_sum)
    predicted_class :=
      if E.get_value (s.heap a) / softmax_sum > s.max_value then (i : Int)
      else s.predicted_class
    max_value :=
      if E.get_value (s.heap a) / softmax_sum > s.max_value then
        E.get_value (s.heap a) / softmax_sum
      else s.max_value }

/-- The loop of lines 1026-1070 from index `i` on, over the output nodes that
are left. -/
def normalise (E : Evaluator) (softmax_sum : ℚ) (expected_class : Int) :
    Nat → List Nat → Softmax_State → Softmax_State
  | _, [], s => s
  | i, a :: rest, s =>
    normalise E softmax_sum expected_class (i + 1) rest
      (normalise_node E softmax_sum expected_class i a s)

/-- One pass through the loop of lines 1074-1076: `propagate_backward` of one
edge; the state is the edges the loop is done with, last first, and the node
objects, and the two node objects are written back, the output node last. -/
def backward_edge (E : Evaluator) (s : List CNN_Edge × (Nat → CNN_Node)) (e : CNN_Edge) :
    List CNN_Edge × (Nat → CNN_Node) :=
  ((E.propagate_backward e (s.2 e.input_node) (s.2 e.output_node)).edge :: s.1,
   Function.update
     (Function.update s.2 e.input_node
       (E.propagate_backward e (s.2 e.input_node) (s.2 e.output_node)).input_node)
     e.output_node
     (E.propagate_backward e (s.2 e.input_node) (s.2 e.output_node)).output_node)

/-- Lines 1073-1085: the edges propagate backward, last edge first, then the
weights of every edge and the bias of every node are updated. -/
def backpropagate (E : Evaluator) (g : CNN_Genome) (edges : List CNN_Edge)
    (heap : Nat → CNN_Node) : List CNN_Edge × (Nat → CNN_Node) :=
  ((edges.reverse.foldl (backward_edge E) ([], heap)).1.map
      (E.update_weights g.mu g.learning_rate g.weight_decay),
   g.nodes.foldl
     (fun heap a =>
       Function.update heap a (E.propagate_bias g.mu g.learning_rate g.weight_decay (heap a)))
     (edges.reverse.foldl (backward_edge E) ([], heap)).2)

/-- Lines 1073-1087, after the loop of lines 1026-1070 left the state `s`. -/
def conclude_image (E : Evaluator) (g : CNN_Genome) (perform_backprop : Bool)
    (edges : List CNN_Edge) (generator : Nat) (s : Softmax_State) : Image_Evaluation :=
  if perform_backprop then
    { predicted_class := s.predicted_class
      heap := (backpropagate E g edges s.heap).2
      edges := (backpropagate E g edges s.heap).1
      generator := generator
      class_error := s.class_error
      total_error := s.total_error }
  else
    { predicted_class := s.predicted_class
      heap := s.heap
      edges := edges
      generator := generator
      class_error := s.class_error
      total_error := s.total_error }

/-- Lines 1020-1087, after the loop of lines 985-1018 left the node objects
and the sum `exponentials`; `none` is the `exit(1)` of line 1023. -/
def classify (E : Evaluator) (g : CNN_Genome) (image : Image) (class_error : List ℚ)
    (perform_backprop : Bool) (total_error : ℚ) (edges : List CNN_Edge) (generator : Nat)
    (exponentials : (Nat → CNN_Node) × ℚ) : Option Image_Evaluation :=
  if exponentials.2 = 0 then none
  else
    some (conclude_image E g perform_backprop edges generator
      (normalise E exponentials.2 image.classification 0 g.softmax_nodes
        { heap := exponentials.1
          class_error := class_error
          total_error := total_error
          predicted_class := -1
          max_value := -DBL_MAX }))

/-- Lines 977-1087, after the forward pass left the state `s`; without an
output node, where `softmax_nodes[0]` has no defined result and the sum stays
0, the result is that of the `exit(1)` of line 1023. -/
def evaluate_output (E : Evaluator) (g : CNN_Genome) (image : Image) (class_error : List ℚ)
    (perform_backprop : Bool) (total_error : ℚ) (s : Forward_State) :
    Option Image_Evaluation :=
  match g.softmax_nodes with
  | [] => none
  | first :: rest =>
    classify E g image class_error perform_backprop total_error s.edges s.generator
      (exponentiate E (softmax_max_loop E s.heap rest (E.get_value (s.heap first)))
        g.softmax_nodes (s.heap, 0))

/-- The method `int CNN_Genome::evaluate_image(image, class_error, perform_backprop,
perform_dropout, total_error)` (960-1088): the class returned, with the node
objects, the edges, the generator and the two reference arguments as the
call leaves them; `none` when `exit(1)` ends the process. -/
def CNN_Genome.evaluate_image (E : Evaluator) (g : CNN_Genome) (image : Image)
    (class_error : List ℚ) (perform_backprop perform_dropout : Bool) (total_error : ℚ) :
    Option Image_Evaluation :=
  evaluate_output E g image class_error perform_backprop total_error
    (forward_pass E g image perform_dropout)

/-- The collaborators of the training loop with `evaluate_image` as embedded
above. -/
def Trainer.with_evaluator (T : Trainer) (E : Evaluator) : Trainer :=
  { T with
    evaluate_image := fun g image class_error perform_backprop perform_dropout total_error =>
      g.evaluate_image E image class_error perform_backprop perform_dropout total_error }

/-! ### The arithmetic of the output normalisation (977-1036) on the list of
the values of the output nodes -/

/-- Lines 977-983: `softmax_max` starts as the first value and is replaced by
every later value that is greater. -/
def softmax_max {F : Type} [LinearOrder F] (first : F) (rest : List F) : F :=
  rest.foldl (fun m x => if x > m then x else m) first

/-- Line 1000 for every value: `exact_exp(value - softmax_max)`. -/
def softmax_exponentials {F : Type} [Sub F] (exp : F → F) (m : F) (xs : List F) : List F :=
  xs.map (fun x => exp (x - m))

/-- Lines 985 and 1010: `softmax_sum` starts as 0 and every exponential is
added to it in turn. -/
def softmax_sum {F : Type} [Add F] [Zero F] (es : List F) : F :=
  es.foldl (fun sum e => sum + e) 0

/-- Line 1027 for every output node: the exponential divided by
`softmax_sum`. The list is empty when there is no value. -/
def softmax_outputs {F : Type} [LinearOrderedField F] (exp : F → F) : List F → List F
  | [] => []
  | first :: rest =>
    (softmax_exponentials exp (softmax_max first rest) (first :: rest)).map
      (fun e => e /
        softmax_sum (softmax_exponentials exp (softmax_max first rest) (first :: rest)))

/-- Lines 1024-1025 and 1063-1066 on the list of the normalised values, from
index `i` on: the pair of `predicted_class` and `max_value`. -/
def predict {F : Type} [LinearOrder F] : Nat → List F → Int × F → Int × F
  | _, [], s => s
  | i, y :: rest, s => predict (i + 1) rest (if y > s.2 then ((i : Int), y) else s)

/-- What the output normalisation relies on: the value `get_value(0,0)` of a
node is what `set_value(0,0,v)` stored last, `set_error` and `set_gradient` leave
it, and `exact_exp` is positive and increasing. -/
structure Evaluator.Lawful (E : Evaluator) : Prop where
  get_set_value : ∀ v n, E.get_value (E.set_value v n) = v
  get_set_error : ∀ v n, E.get_value (E.set_error v n) = E.get_value n
  get_set_gradient : ∀ v n, E.get_value (E.set_gradient v n) = E.get_value n
  exp_pos : ∀ x, 0 < E.exact_exp x
  exp_mono : ∀ x y, x ≤ y → E.exact_exp x ≤ E.exact_exp y

/-- The methods of the forward pass, called with the given dropout flag, and
the stores into the output nodes leave the member `p` of every node and the
member `q` of every edge as they are: `reset`, `set_values`, `set_value`,
`set_error`, `set_gradient` and `propagate_forward`. -/
structure Evaluator.keeps (E : Evaluator) (dropout : Bool) {α β : Type}
    (p : CNN_Node → α) (q : CNN_Edge → β) : Prop where
  reset : ∀ n, p (E.reset n) = p n
  set_values : ∀ image channel rows cols generator probability n,
    p (E.set_values image channel rows cols dropout generator probability n).1 = p n
  set_value : ∀ v n, p (E.set_value v n) = p n
  set_error : ∀ v n, p (E.set_error v n) = p n
  set_gradient : ∀ v n, p (E.set_gradient v n) = p n
  forward_input : ∀ generator probability e a b,
    p (E.propagate_forward dropout generator probability e a b).input_node = p a
  forward_output : ∀ generator probability e a b,
    p (E.propagate_forward dropout generator probability e a b).output_node = p b
  forward_edge : ∀ generator probability e a b,
    q (E.propagate_forward dropout generator probability e a b).edge = q e

/-- What the determinism of the forward pass relies on: `reset` erases what
the methods of the forward pass without dropout and the stores into the
output nodes write into a node, and such a forward pass leaves the edge as it
is; and without dropout `set_values` and `propagate_forward` neither look at the
generator nor change it. -/
structure Evaluator.Deterministic (E : Evaluator) : Prop where
  keeps : E.keeps false E.reset (fun e => e)
  set_values_generator : ∀ image channel rows cols generator generator2 probability n,
    E.set_values image channel rows cols false generator probability n =
      ((E.set_values image channel rows cols false generator2 probability n).1, generator)
  forward_generator : ∀ generator generator2 probability e a b,
    E.propagate_forward false generator probability e a b =
      { E.propagate_forward false generator2 probability e a b with generator := generator }

/-! ## Concrete collaborators and genomes used as examples -/

/-- One concrete choice of the collaborators: edges are equal when their
weights are, a filter is correct when its extent is the difference of the
extents of its end nodes plus one, a bias or weight vector is zero when all
its entries are zero, and a draw yields the single value `1` and advances the
generator by one `minstd_rand0` step. -/
def sample_collaborators : Collaborators where
  edge_equals e1 e2 := decide (e1.weights = e2.weights)
  is_filter_correct heap e :=
    decide (e.filter_x = (heap e.input_node).size_x - (heap e.output_node).size_x + 1) &&
    decide (e.filter_y = (heap e.input_node).size_y - (heap e.output_node).size_y + 1)
  has_zero_bias n := n.bias.all (fun b => decide (b = 0))
  has_zero_weight e := e.weights.all (fun w => decide (w = 0))
  draw_bias r _ := ([1], { r with generator := r.generator * 16807 % 2147483647 })
  draw_weights r _ := ([1], { r with generator := r.generator * 16807 % 2147483647 })

/-- A genome with two enabled edges (innovation numbers 1 and 2). -/
def genome_two_edges : CNN_Genome :=
  { edges := [{ innovation_number := 1, weights := [3] },
              { innovation_number := 2, weights := [5] }] }

/-- The edges of `genome_two_edges` in the other order, with a disabled edge
that reuses innovation number 1 in between. -/
def genome_two_edges_extra : CNN_Genome :=
  { edges := [{ innovation_number := 2, weights := [5] },
              { innovation_number := 1, weights := [7], disabled := true },
              { innovation_number := 1, weights := [3] }] }

/-- The node objects of the two-node genomes: an input node at address 0 and
an output node, one level deeper, at address 1. -/
def two_node_heap : Nat → CNN_Node := fun a =>
  if a = 0 then { innovation_number := 0, depth := 0 }
  else { innovation_number := 1, depth := 1 }

/-- An input node and an output node; the only edge between them is
disabled. -/
def genome_disconnected : CNN_Genome :=
  { heap := two_node_heap, nodes := [0, 1], input_nodes := [0],
    softmax_nodes := [1],
    edges := [{ innovation_number := 1, input_node := 0, output_node := 1,
                disabled := true }] }

/-- The genome `genome_disconnected` with one enabled edge from the input
node to the output node added. -/
def genome_connected : CNN_Genome :=
  { heap := two_node_heap, nodes := [0, 1], input_nodes := [0],
    softmax_nodes := [1],
    edges := [{ innovation_number := 1, input_node := 0, output_node := 1,
                disabled := true },
              { innovation_number := 2, input_node := 0, output_node := 1 }] }

/-- The node objects of the examples for `sanity_check`: a 100 x 100 input
node at address 0; every other address holds a 1 x 1 node with innovation
number 1 that records one input. -/
def sane_heap : Nat → CNN_Node := fun a =>
  if a = 0 then { innovation_number := 0, size_x := 100, size_y := 100, bias := [2] }
  else { innovation_number := 1, depth := 1, total_inputs := 1, bias := [2] }

/-- An input node, an output node and one enabled edge between them whose
filter is `filter_x` x 100 and whose output node is the object at address
`out`. -/
def genome_one_edge (filter_x : Int) (out : Nat) : CNN_Genome :=
  { heap := sane_heap, nodes := [0, 1], input_nodes := [0], softmax_nodes := [1],
    edges := [{ innovation_number := 5, input_node := 0, output_node := out,
                filter_x := filter_x, filter_y := 100, weights := [2] }] }

/-- The genome `genome_one_edge 100 1` with a second, disabled edge that
reuses innovation number 5. -/
def genome_duplicate_edge : CNN_Genome :=
  { genome_one_edge 100 1 with
    edges := [{ innovation_number := 5, input_node := 0, output_node := 1,
                filter_x := 100, filter_y := 100, weights := [2] },
              { innovation_number := 5, input_node := 0, output_node := 1,
                filter_x := 100, filter_y := 100, weights := [2],
                disabled := true }] }

/-- The genome `genome_one_edge 100 1` with the object at address 2, which
also carries innovation number 1, as a third entry of its node list. -/
def genome_duplicate_node : CNN_Genome :=
  { genome_one_edge 100 1 with nodes := [0, 1, 2] }

/-- Node objects for the examples of the repair: the node at address 0 has
an all-zero bias, the node at every other address has not. -/
def zero_bias_heap : Nat → CNN_Node := fun a =>
  if a = 0 then { innovation_number := 0, bias := [0], best_bias := [3] }
  else { innovation_number := 1, depth := 1, total_inputs := 2, bias := [4],
         best_bias := [5] }

/-- A genome that passes every check, with one zero-bias node and one
zero-weight edge next to a node and an edge that are not zero. -/
def genome_zero_sums : CNN_Genome :=
  { heap := zero_bias_heap, nodes := [0, 1], input_nodes := [0],
    softmax_nodes := [1],
    edges := [{ innovation_number := 7, input_node := 0, output_node := 1,
                weights := [0], best_weights := [6] },
              { innovation_number := 8, input_node := 0, output_node := 1,
                weights := [9], best_weights := [10] }] }

/-- The genome `genome_zero_sums` with the filter of its first edge set to
0 x 1. -/
def genome_zero_sums_bad_filter : CNN_Genome :=
  { genome_zero_sums with
    edges := [{ innovation_number := 7, input_node := 0, output_node := 1,
                filter_x := 0, weights := [0], best_weights := [6] },
              { innovation_number := 8, input_node := 0, output_node := 1,
                weights := [9], best_weights := [10] }] }

/-- Extraction of an integer of any size: `extract_int` between bounds that
a number with no more digits than the stream has characters cannot reach. -/
def scan (s : IStream) : Int × IStream :=
  extract_int (-((10 ^ s.buf.length : Nat) : Int)) ((10 ^ s.buf.length : Nat) : Int) s 0

/-- A rational number as numerator, slash, denominator. -/
def print_rational (q : ℚ) : List Char := print_int q.num ++ '/' :: print_nat q.den

/-- Extraction of an integer or, when a slash follows it, of a rational
number as `print_rational` writes it. -/
def scan_rational (s : IStream) : ℚ × IStream :=
  if (scan s).2.buf.head? = some '/' then
    (Rat.divInt (scan s).1 (scan { (scan s).2 with buf := (scan s).2.buf.drop 1 }).1,
      (scan { (scan s).2 with buf := (scan s).2.buf.drop 1 }).2)
  else (((scan s).1 : ℚ), (scan s).2)

/-- One concrete choice of the stream operators: numbers in decimal,
`double` values as exact fractions, a node as its innovation number, an edge
as its innovation number, its `disabled` flag and its `filter_x`; `set_nodes`
accepts every edge. -/
def sample_codec : Codec where
  write_hexfloat := print_rational
  read_hexfloat s := scan_rational s
  write_double := print_rational
  read_double s _ := scan_rational s
  write_normal_distribution := print_nat
  read_normal_distribution s _ := ((scan s).1.toNat, (scan s).2)
  write_node n := print_int n.innovation_number
  read_node s := ({ innovation_number := (scan s).1 }, (scan s).2)
  write_edge _ e :=
    print_int e.innovation_number ++ ' ' ::
      (print_bool e.disabled ++ ' ' :: print_int e.filter_x)
  read_edge s :=
    ({ innovation_number := (scan s).1,
       disabled := decide ((scan (scan s).2).1 = 1),
       filter_x := (scan (scan (scan s).2).2).1 },
      (scan (scan (scan s).2).2).2)
  set_nodes _ _ e := some e

/-- The collaborators that go with `sample_codec`: two edges are equal when
their `filter_x` is the same. -/
def codec_collaborators : Collaborators :=
  { sample_collaborators with
    edge_equals := fun e1 e2 => decide (e1.filter_x = e2.filter_x) }

/-- A genome in the middle of a training run: two nodes, an enabled and a
disabled edge, non-trivial hyperparameters, and the three trailing lists
empty. -/
def genome_checkpoint : CNN_Genome :=
  { heap := sane_heap, nodes := [0, 1], input_nodes := [0], softmax_nodes := [1],
    edges := [{ innovation_number := 5, input_node := 0, output_node := 1,
                filter_x := 100, filter_y := 100 },
              { innovation_number := 6, input_node := 0, output_node := 1,
                filter_x := 3, disabled := true }],
    exact_id := 4, genome_id := -1, rng := { generator := 16807, normal_distribution := 2 },
    velocity_reset := 1000, input_dropout_probability := 1 / 5,
    hidden_dropout_probability := 1 / 2, initial_mu := 1 / 2, mu := 3 / 4,
    mu_delta := 19 / 20, initial_learning_rate := 1 / 100, learning_rate := 1 / 200,
    learning_rate_delta := 19 / 20, initial_weight_decay := 1 / 1000,
    weight_decay := 1 / 2000, weight_decay_delta := 19 / 20, epoch := 3,
    max_epochs := 10, reset_weights := true, best_error := 10000000,
    best_predictions := 7, best_predictions_epoch := 2, best_error_epoch := 2,
    generation_id := 12, generated_by_split_edge := 1, generated_by_add_node := 2 }

/-- The genome `genome_checkpoint` with a `backprop_order`, a
`best_class_error` and a `best_correct_predictions` of two entries each. -/
def genome_checkpoint_lists : CNN_Genome :=
  { genome_checkpoint with
    backprop_order := [1, 0], best_class_error := [1 / 4, 3],
    best_correct_predictions := [5, 2] }

/-- The text `write` produces for `genome_checkpoint` up to the end of its
node list, continued with the line `EDGE` where the label `EDGES` belongs and
with an edge count of 0. -/
def checkpoint_wrong_label : List Char :=
  line ('v' :: EXACT_VERSION) <| write_header sample_codec genome_checkpoint <|
  write_random sample_codec genome_checkpoint <|
  write_nodes sample_codec genome_checkpoint <|
  line ['E', 'D', 'G', 'E'] <| line (print_nat 0) []

/-- A text whose version line names the format version 0.18. -/
def older_version_text : List Char :=
  line ['v', '0', '.', '1', '8'] <| line (print_int 4) <| line (print_int 7) []

/-- The backward pass of `sample_trainer` on one edge: every weight becomes
the learning rate. -/
def sample_step (learning_rate : ℚ) (e : CNN_Edge) : CNN_Edge :=
  { e with weights := e.weights.map (fun _ => learning_rate) }

/-- The sum of all weights of all edges: what `sample_trainer` adds to the
total error for one image. -/
def sample_error (edges : List CNN_Edge) : ℚ :=
  (edges.map (fun e => e.weights.sum)).sum

/-- One concrete choice of what the training loop calls: a node or an edge
needs initialising when it has no bias or no weight at all, and never holds a
NaN; resetting velocities leaves an object as it is; the shuffle reverses the
order and advances the generator by one step; the edges are sorted by the
depth of their input nodes; `evaluate_image` never ends the process, predicts
the class after the one of the image, moves every weight to the learning
rate when it performs backpropagation, and adds the sum of all weights to
the total error. This `evaluate_image` is not the method of the source: it
gives concrete numbers in examples of theorems that hold for every
`Trainer`. The examples of the theorems about the embedded
`CNN_Genome.evaluate_image` replace it by `Trainer.with_evaluator`. -/
def sample_trainer : Trainer where
  node_needs_init n := decide (n.bias = [])
  node_has_nan _ := false
  edge_needs_init e := decide (e.weights = [])
  edge_has_nan _ := false
  node_reset_velocities n := n
  edge_reset_velocities e := e
  fisher_yates_shuffle generator order := (order.reverse, minstd_rand0 generator)
  sort_by_depth heap edges :=
    edges.insertionSort
      (fun e1 e2 => (heap e1.input_node).depth ≤ (heap e2.input_node).depth)
  evaluate_image g image class_error perform_backprop _ total_error :=
    some { predicted_class := image.classification + 1
           heap := g.heap
           edges :=
             if perform_backprop then g.edges.map (sample_step g.learning_rate)
             else g.edges
           generator := g.rng.generator
           class_error := class_error
           total_error := total_error + sample_error g.edges }

/-- A data set of two classes with three images. -/
def sample_images : Images :=
  { number_classes := 2
    images := [{ classification := 0 }, { classification := 1 }, { classification := 1 }] }

/-- A genome about to be trained: an input and an output node with a bias
and a different saved best bias, one edge with the weight 5 and the saved
best weight 4, one image in its `backprop_order`, a learning rate that
doubles with every epoch, a progress callback and an output file name. -/
def genome_training : CNN_Genome :=
  { heap := fun a =>
      if a = 0 then { innovation_number := 0, bias := [2], best_bias := [3] }
      else { innovation_number := 1, depth := 1, total_inputs := 1, bias := [6],
             best_bias := [7] }
    nodes := [0, 1], input_nodes := [0], softmax_nodes := [1]
    edges := [{ innovation_number := 5, input_node := 0, output_node := 1,
                weights := [5], best_weights := [4] }]
    mu := 1 / 2, mu_delta := 1 / 2
    learning_rate := 1 / 10, learning_rate_delta := 2
    weight_decay := 1 / 1000, weight_decay_delta := 9 / 10
    epoch := 0, max_epochs := 0
    best_error := 1, best_error_epoch := -1, best_predictions := 3
    best_predictions_epoch := -1
    backprop_order := [0]
    progress_function := some 0
    output_filename := ['b', 'e', 's', 't'] }

/-- The genome `genome_training` with a `best_error` of 1/20, which is below
the error that its next epoch measures. -/
def genome_training_behind : CNN_Genome :=
  { genome_training with best_error := 1 / 20 }

/-- The genome `genome_training` resumed from a checkpoint whose epoch counter
5 is above its `max_epochs` of 0. -/
def genome_resumed : CNN_Genome :=
  { genome_training with epoch := 5, started_from_checkpoint := true }

/-- The genome `genome_training` with room for three epochs. -/
def genome_three_epochs : CNN_Genome :=
  { genome_training with max_epochs := 2 }

/-- An input node 0, a hidden node 1 and an output node 2 with the enabled
edges 1 -> 2 and 0 -> 1, in this order: the edge list is not ordered by the
depth of the input nodes. -/
def genome_unsorted_edges : CNN_Genome :=
  { heap := fun a => { innovation_number := a, depth := a }
    nodes := [0, 1, 2], input_nodes := [0], softmax_nodes := [2]
    edges := [{ innovation_number := 2, input_node := 1, output_node := 2 },
              { innovation_number := 1, input_node := 0, output_node := 1 }] }

/-- One concrete choice of the collaborators of the graph construction: the
comparators compare depths, a copy equals its original, a node of depth 0 is
an input and a node of depth 2 an output, and `disable` sets the flag. -/
def sample_builder : Builder where
  sort_CNN_Nodes_by_depth n1 n2 := decide (n1.depth < n2.depth)
  sort_CNN_Edges_by_depth heap e1 e2 :=
    decide ((heap e1.input_node).depth < (heap e2.input_node).depth)
  node_copy n := n
  is_input n := decide (n.depth = 0)
  is_softmax n := decide (n.depth = 2)
  edge_copy e := e
  disable e := { e with disabled := true }

/-- A genome with sorted sequences: the node at address `a` has depth `a / 2`;
the nodes 0, 1, 2, 4 and 5 are listed, with the edges 0 → 2, 2 → 4 and 4 → 5. -/
def genome_sorted : CNN_Genome :=
  { heap := fun a => { innovation_number := a, depth := (a / 2 : Nat) }
    nodes := [0, 1, 2, 4, 5]
    input_nodes := [0, 1]
    softmax_nodes := [4, 5]
    edges := [{ innovation_number := 1, input_node := 0, output_node := 2 },
              { innovation_number := 2, input_node := 2, output_node := 4 },
              { innovation_number := 3, input_node := 4, output_node := 5 }] }

/-- A rational stand-in for the exponential function: `1 + x` from 0 on and
`1 / (1 - x)` below 0; it is positive and increasing. -/
def sample_exp (x : ℚ) : ℚ := if 0 ≤ x then 1 + x else 1 / (1 - x)

/-- One concrete choice of what `evaluate_image` calls: a node holds one value,
one error and one gradient; `reset` empties the three buffers; `set_values`
stores the pixel of the channel; `propagate_forward` adds the value of the
input node, times the first weight of the edge, to the value of the output
node; a call with dropout advances the generator by one step; `exact_exp` is
`sample_exp` and `log x` is `x - 1`; `propagate_backward` and `propagate_bias` change
nothing, and `update_weights` moves every weight to the learning rate. -/
def sample_evaluator : Evaluator where
  get_rows _ := 1
  get_cols _ := 1
  reset n := { n with values := [], errors := [], gradients := [] }
  set_values image channel _ _ perform_dropout generator _ n :=
    ({ n with values := [[image.pixels.getD channel 0]] },
      if perform_dropout then minstd_rand0 generator else generator)
  propagate_forward perform_dropout generator _ e input output :=
    { edge := e
      input_node := input
      output_node :=
        { output with
          values := [[(output.values.headD []).headD 0 +
            e.weights.headD 0 * (input.values.headD []).headD 0]] }
      generator := if perform_dropout then minstd_rand0 generator else generator }
  get_value n := (n.values.headD []).headD 0
  set_value v n := { n with values := [[v]] }
  set_error v n := { n with errors := [[v]] }
  set_gradient v n := { n with gradients := [[v]] }
  exact_exp := sample_exp
  log x := x - 1
  propagate_backward e input output :=
    { edge := e, input_node := input, output_node := output }
  update_weights _ learning_rate _ e := sample_step learning_rate e
  propagate_bias _ _ _ n := n

/-- A genome with three input nodes 0, 1, 2 and three output nodes 3, 4, 5, and
an edge of weight 1 from each input node to the output node three places
on. -/
def genome_softmax : CNN_Genome :=
  { heap := fun a =>
      { innovation_number := a, depth := if a < 3 then 0 else 1, bias := [0],
        best_bias := [0] }
    nodes := [0, 1, 2, 3, 4, 5]
    input_nodes := [0, 1, 2]
    softmax_nodes := [3, 4, 5]
    edges := [{ innovation_number := 1, input_node := 0, output_node := 3, weights := [1],
                best_weights := [1] },
              { innovation_number := 2, input_node := 1, output_node := 4, weights := [1],
                best_weights := [1] },
              { innovation_number := 3, input_node := 2, output_node := 5, weights := [1],
                best_weights := [1] }]
    mu := 1 / 2
    learning_rate := 1 / 10
    weight_decay := 1 / 1000
    backprop_order := [0, 0] }

/-- An image of class 0 with the three channel values 2, 1 and 1/10. -/
def image_softmax : Image := { classification := 0, pixels := [2, 1, 1 / 10] }

/-- The genome `genome_training` with its epoch counter at the largest `int`. -/
def genome_last_epoch : CNN_Genome :=
  { genome_training with epoch := 2147483647 }

/-- The genome `genome_training` with `max_epochs` at the largest `int` and its
epoch counter one below. -/
def genome_unbounded : CNN_Genome :=
  { genome_training with epoch := 2147483646, max_epochs := 2147483647 }

/-! ## Theorems -/

/-! ### `equals` -/

theorem equals_compare_loop_eq (C : Collaborators) (edge : CNN_Edge)
    (l : List CNN_Edge) (found : Bool) :
    equals_compare_loop C edge l found =
      if ∀ oe ∈ l, oe.disabled = false →
          edge.innovation_number = oe.innovation_number →
          C.edge_equals edge oe = true
      then some (found || l.any (fun oe => !oe.disabled &&
          decide (edge.innovation_number = oe.innovation_number)))
      else none := by
  induction l generalizing found with
  | nil => simp [equals_compare_loop]
  | cons oe rest ih =>
    unfold equals_compare_loop
    by_cases hd : oe.disabled = true
    · simp [hd, ih]
    · simp only [Bool.not_eq_true] at hd
      by_cases hn : edge.innovation_number = oe.innovation_number
      · by_cases he : C.edge_equals edge oe = true
        · simp [hd, hn, he, ih]
        · simp only [Bool.not_eq_true] at he
          simp [hd, hn, he]
      · simp [hd, hn, ih]

theorem equals_first_pass_iff (C : Collaborators) (other_edges l : List CNN_Edge) :
    equals_first_pass C other_edges l = true ↔
      ∀ e ∈ l, e.disabled = false →
        (∀ oe ∈ other_edges, oe.disabled = false →
          e.innovation_number = oe.innovation_number →
          C.edge_equals e oe = true) ∧
        ∃ oe ∈ other_edges, oe.disabled = false ∧
          e.innovation_number = oe.innovation_number := by
  induction l with
  | nil => simp [equals_first_pass]
  | cons e rest ih =>
    unfold equals_first_pass
    by_cases hd : e.disabled = true
    · simp [hd, ih]
    · simp only [Bool.not_eq_true] at hd
      rw [equals_compare_loop_eq]
      by_cases hall : ∀ oe ∈ other_edges, oe.disabled = false →
          e.innovation_number = oe.innovation_number →
          C.edge_equals e oe = true
      · by_cases hex : ∃ oe ∈ other_edges, oe.disabled = false ∧
            e.innovation_number = oe.innovation_number
        · have hany : other_edges.any (fun oe => !oe.disabled &&
              decide (e.innovation_number = oe.innovation_number)) = true := by
            obtain ⟨oe, hmem, hoe, hn⟩ := hex
            exact List.any_eq_true.mpr ⟨oe, hmem, by simp [hoe, hn]⟩
          simp only [if_pos hall, hd, Bool.false_or, hany, List.mem_cons,
            forall_eq_or_imp]
          simp only [Bool.false_eq_true, if_false, Bool.not_true, true_implies]
          rw [ih]
          exact ⟨fun h => ⟨⟨hall, hex⟩, h⟩, fun h => h.2⟩
        · have hany : other_edges.any (fun oe => !oe.disabled &&
              decide (e.innovation_number = oe.innovation_number)) = false := by
            rw [Bool.eq_false_iff]
            intro h
            obtain ⟨oe, hmem, hp⟩ := List.any_eq_true.mp h
            simp only [Bool.and_eq_true, Bool.not_eq_true', decide_eq_true_eq] at hp
            exact hex ⟨oe, hmem, hp.1, hp.2⟩
          simp only [if_pos hall, hd, Bool.false_or, hany, List.mem_cons,
            forall_eq_or_imp]
          simp only [Bool.false_eq_true, if_false, Bool.not_false, if_true,
            true_implies, false_iff]
          exact fun h => hex h.1.2
      · simp only [if_neg hall, hd, List.mem_cons, forall_eq_or_imp]
        simp only [Bool.false_eq_true, if_false, true_implies, false_iff]
        exact fun h => hall h.1.1

theorem equals_find_loop_eq (other_edge : CNN_Edge) (l : List CNN_Edge)
    (found : Bool) :
    equals_find_loop other_edge l found =
      (found || l.any (fun e => !e.disabled &&
        decide (e.innovation_number = other_edge.innovation_number))) := by
  induction l generalizing found with
  | nil => simp [equals_find_loop]
  | cons e rest ih =>
    unfold equals_find_loop
    by_cases hd : e.disabled = true
    · simp [hd, ih]
    · simp only [Bool.not_eq_true] at hd
      by_cases hn : e.innovation_number = other_edge.innovation_number
      · simp [hd, hn, ih]
      · simp [hd, hn, ih]

theorem equals_second_pass_iff (this_edges l : List CNN_Edge) :
    equals_second_pass this_edges l = true ↔
      ∀ oe ∈ l, oe.disabled = false →
        ∃ e ∈ this_edges, e.disabled = false ∧
          e.innovation_number = oe.innovation_number := by
  induction l with
  | nil => simp [equals_second_pass]
  | cons oe rest ih =>
    unfold equals_second_pass
    by_cases hd : oe.disabled = true
    · simp [hd, ih]
    · simp only [Bool.not_eq_true] at hd
      rw [equals_find_loop_eq]
      simp only [hd, Bool.false_or, List.mem_cons, forall_eq_or_imp, true_implies]
      by_cases hany : this_edges.any (fun e => !e.disabled &&
          decide (e.innovation_number = oe.innovation_number)) = true
      · have hex : ∃ e ∈ this_edges, e.disabled = false ∧
            e.innovation_number = oe.innovation_number := by
          obtain ⟨e, hmem, hp⟩ := List.any_eq_true.mp hany
          simp only [Bool.and_eq_true, Bool.not_eq_true', decide_eq_true_eq] at hp
          exact ⟨e, hmem, hp.1, hp.2⟩
        simp only [hany, Bool.not_true, Bool.false_eq_true, if_false]
        rw [ih]
        exact ⟨fun h => ⟨hex, h⟩, fun h => h.2⟩
      · have hex : ¬ ∃ e ∈ this_edges, e.disabled = false ∧
            e.innovation_number = oe.innovation_number := by
          rintro ⟨e, hmem, h1, h2⟩
          exact hany (List.any_eq_true.mpr ⟨e, hmem, by simp [h1, h2]⟩)
        simp only [Bool.not_eq_true] at hany
        simp only [hany, Bool.not_false, if_true, if_false, Bool.false_eq_true,
          false_iff]
        exact fun h => hex h.1

/-- What `equals` decides, with no assumption on the two genomes. -/
theorem equals_iff (C : Collaborators) (a b : CNN_Genome) :
    a.equals C b = true ↔
      (∀ e ∈ a.edges, e.disabled = false →
        (∀ oe ∈ b.edges, oe.disabled = false →
          e.innovation_number = oe.innovation_number →
          C.edge_equals e oe = true) ∧
        ∃ oe ∈ b.edges, oe.disabled = false ∧
          e.innovation_number = oe.innovation_number) ∧
      (∀ oe ∈ b.edges, oe.disabled = false →
        ∃ e ∈ a.edges, e.disabled = false ∧
          e.innovation_number = oe.innovation_number) := by
  unfold CNN_Genome.equals
  rw [← equals_first_pass_iff, ← equals_second_pass_iff]
  cases equals_first_pass C b.edges a.edges <;>
    cases equals_second_pass a.edges b.edges <;> simp

theorem mem_enabled_innovation_numbers (g : CNN_Genome) (n : Int) :
    n ∈ enabled_innovation_numbers g ↔
      ∃ e ∈ g.edges, e.disabled = false ∧ e.innovation_number = n := by
  simp [enabled_innovation_numbers, and_assoc]

theorem enabled_edge_some_iff (g : CNN_Genome)
    (hg : (enabled_innovation_numbers g).Nodup) (n : Int) (e : CNN_Edge) :
    enabled_edge g n = some e ↔
      e ∈ g.edges ∧ e.disabled = false ∧ e.innovation_number = n := by
  constructor
  · intro h
    have h1 := List.find?_some h
    have h2 := List.mem_of_find?_eq_some h
    simp only [Bool.and_eq_true, Bool.not_eq_true', decide_eq_true_eq] at h1
    exact ⟨h2, h1.1, h1.2⟩
  · rintro ⟨hmem, hd, hn⟩
    have hsome : (enabled_edge g n).isSome = true := by
      unfold enabled_edge
      rw [List.find?_isSome]
      exact ⟨e, hmem, by simp [hd, hn]⟩
    obtain ⟨e2, he2⟩ := Option.isSome_iff_exists.mp hsome
    have h1 := List.find?_some he2
    have h2 := List.mem_of_find?_eq_some he2
    simp only [Bool.and_eq_true, Bool.not_eq_true', decide_eq_true_eq] at h1
    have hinj := List.inj_on_of_nodup_map hg
    have hm : e ∈ g.edges.filter (fun e => !e.disabled) := by
      simp [List.mem_filter, hmem, hd]
    have hm2 : e2 ∈ g.edges.filter (fun e => !e.disabled) := by
      simp [List.mem_filter, h2, h1.1]
    have : e2 = e := hinj hm2 hm (by rw [h1.2, hn])
    rw [he2, this]

/-- C1: for two genomes whose enabled edges carry pairwise distinct
innovation numbers, `a.equals(b)` is true exactly when the sets of innovation
numbers of the enabled edges agree and, for each such number, the enabled
edge of `a` with that number is `CNN_Edge::equals` to the one of `b`. -/
theorem equals_iff_same_enabled_edges (C : Collaborators) (a b : CNN_Genome)
    (ha : (enabled_innovation_numbers a).Nodup)
    (hb : (enabled_innovation_numbers b).Nodup) :
    a.equals C b = true ↔
      (enabled_innovation_numbers a).toFinset =
          (enabled_innovation_numbers b).toFinset ∧
      ∀ n ∈ enabled_innovation_numbers a,
        ∃ ea eb, enabled_edge a n = some ea ∧ enabled_edge b n = some eb ∧
          C.edge_equals ea eb = true := by
  rw [equals_iff]
  constructor
  · rintro ⟨h1, h2⟩
    refine ⟨?_, ?_⟩
    · ext n
      simp only [List.mem_toFinset, mem_enabled_innovation_numbers]
      constructor
      · rintro ⟨e, hmem, hd, hn⟩
        obtain ⟨oe, hoe, hod, hon⟩ := (h1 e hmem hd).2
        exact ⟨oe, hoe, hod, by rw [← hon, hn]⟩
      · rintro ⟨oe, hmem, hd, hn⟩
        obtain ⟨e, he, hed, hen⟩ := h2 oe hmem hd
        exact ⟨e, he, hed, by rw [hen, hn]⟩
    · intro n hn
      obtain ⟨e, hmem, hd, hen⟩ := (mem_enabled_innovation_numbers a n).mp hn
      obtain ⟨oe, hoe, hod, hon⟩ := (h1 e hmem hd).2
      refine ⟨e, oe, (enabled_edge_some_iff a ha n e).mpr ⟨hmem, hd, hen⟩,
        (enabled_edge_some_iff b hb n oe).mpr ⟨hoe, hod, by rw [← hon, hen]⟩,
        (h1 e hmem hd).1 oe hoe hod hon⟩
  · rintro ⟨hset, hpair⟩
    refine ⟨?_, ?_⟩
    · intro e hmem hd
      have hn : e.innovation_number ∈ enabled_innovation_numbers a :=
        (mem_enabled_innovation_numbers a _).mpr ⟨e, hmem, hd, rfl⟩
      obtain ⟨ea, eb, hea, heb, heq⟩ := hpair _ hn
      have hea2 := (enabled_edge_some_iff a ha _ e).mpr ⟨hmem, hd, rfl⟩
      have he : ea = e := Option.some.inj (hea.symm.trans hea2)
      have hb2 := (enabled_edge_some_iff b hb _ eb).mp heb
      refine ⟨?_, eb, hb2.1, hb2.2.1, hb2.2.2.symm⟩
      intro oe hoe hod hon
      have hoe2 := (enabled_edge_some_iff b hb e.innovation_number oe).mpr
        ⟨hoe, hod, hon.symm⟩
      have : eb = oe := Option.some.inj (heb.symm.trans hoe2)
      rw [← this, ← he]
      exact heq
    · intro oe hmem hd
      have hn : oe.innovation_number ∈ (enabled_innovation_numbers b).toFinset :=
        List.mem_toFinset.mpr
          ((mem_enabled_innovation_numbers b _).mpr ⟨oe, hmem, hd, rfl⟩)
      rw [← hset, List.mem_toFinset, mem_enabled_innovation_numbers] at hn
      exact hn

/-- C1 at `genome_two_edges` and `genome_two_edges_extra`, which are equal. -/
theorem equals_iff_same_enabled_edges_witness :
    (enabled_innovation_numbers genome_two_edges).Nodup ∧
    (enabled_innovation_numbers genome_two_edges_extra).Nodup ∧
    genome_two_edges.equals sample_collaborators genome_two_edges_extra = true ∧
    (genome_two_edges.equals sample_collaborators genome_two_edges_extra = true ↔
      (enabled_innovation_numbers genome_two_edges).toFinset =
          (enabled_innovation_numbers genome_two_edges_extra).toFinset ∧
      ∀ n ∈ enabled_innovation_numbers genome_two_edges,
        ∃ ea eb, enabled_edge genome_two_edges n = some ea ∧
          enabled_edge genome_two_edges_extra n = some eb ∧
          sample_collaborators.edge_equals ea eb = true) :=
  ⟨by decide, by decide, by decide,
    equals_iff_same_enabled_edges sample_collaborators genome_two_edges
      genome_two_edges_extra (by decide) (by decide)⟩

/-- C2: with a symmetric `CNN_Edge::equals`, `a.equals(b)` and `b.equals(a)`
return the same boolean. -/
theorem equals_symmetric (C : Collaborators)
    (hsymm : ∀ x y, C.edge_equals x y = C.edge_equals y x)
    (a b : CNN_Genome) :
    a.equals C b = b.equals C a := by
  rw [Bool.eq_iff_iff, equals_iff, equals_iff]
  constructor
  · rintro ⟨h1, h2⟩
    refine ⟨fun oe hoe hod => ⟨?_, ?_⟩, fun e he hed => ?_⟩
    · intro e he hed hn
      rw [hsymm]
      exact (h1 e he hed).1 oe hoe hod hn.symm
    · obtain ⟨e, he, hed, hn⟩ := h2 oe hoe hod
      exact ⟨e, he, hed, hn.symm⟩
    · obtain ⟨oe, hoe, hod, hn⟩ := (h1 e he hed).2
      exact ⟨oe, hoe, hod, hn.symm⟩
  · rintro ⟨h1, h2⟩
    refine ⟨fun oe hoe hod => ⟨?_, ?_⟩, fun e he hed => ?_⟩
    · intro e he hed hn
      rw [hsymm]
      exact (h1 e he hed).1 oe hoe hod hn.symm
    · obtain ⟨e, he, hed, hn⟩ := h2 oe hoe hod
      exact ⟨e, he, hed, hn.symm⟩
    · obtain ⟨oe, hoe, hod, hn⟩ := (h1 e he hed).2
      exact ⟨oe, hoe, hod, hn.symm⟩

/-- C2 at the sample collaborators, whose edge equality compares weights. -/
theorem equals_symmetric_witness :
    (∀ x y, sample_collaborators.edge_equals x y =
      sample_collaborators.edge_equals y x) ∧
    genome_two_edges.equals sample_collaborators genome_two_edges_extra =
      genome_two_edges_extra.equals sample_collaborators genome_two_edges :=
  ⟨fun x y => by simp [sample_collaborators, eq_comm],
    equals_symmetric sample_collaborators
      (fun x y => by simp [sample_collaborators, eq_comm])
      genome_two_edges genome_two_edges_extra⟩

/-- The result of `equals` only depends on which enabled edges the two edge
lists hold. -/
theorem equals_congr (C : Collaborators) (a a2 b b2 : CNN_Genome)
    (ha : ∀ e, e.disabled = false → (e ∈ a.edges ↔ e ∈ a2.edges))
    (hb : ∀ e, e.disabled = false → (e ∈ b.edges ↔ e ∈ b2.edges)) :
    a.equals C b = a2.equals C b2 := by
  rw [Bool.eq_iff_iff, equals_iff, equals_iff]
  constructor
  · rintro ⟨h1, h2⟩
    refine ⟨fun e he hed => ⟨?_, ?_⟩, fun oe hoe hod => ?_⟩
    · intro oe hoe hod hn
      exact (h1 e ((ha e hed).mpr he) hed).1 oe ((hb oe hod).mpr hoe) hod hn
    · obtain ⟨oe, hoe, hod, hn⟩ := (h1 e ((ha e hed).mpr he) hed).2
      exact ⟨oe, (hb oe hod).mp hoe, hod, hn⟩
    · obtain ⟨e, he, hed, hn⟩ := h2 oe ((hb oe hod).mpr hoe) hod
      exact ⟨e, (ha e hed).mp he, hed, hn⟩
  · rintro ⟨h1, h2⟩
    refine ⟨fun e he hed => ⟨?_, ?_⟩, fun oe hoe hod => ?_⟩
    · intro oe hoe hod hn
      exact (h1 e ((ha e hed).mp he) hed).1 oe ((hb oe hod).mp hoe) hod hn
    · obtain ⟨oe, hoe, hod, hn⟩ := (h1 e ((ha e hed).mp he) hed).2
      exact ⟨oe, (hb oe hod).mpr hoe, hod, hn⟩
    · obtain ⟨e, he, hed, hn⟩ := h2 oe ((hb oe hod).mp hoe) hod
      exact ⟨e, (ha e hed).mpr he, hed, hn⟩

theorem mem_insert_disabled (d : CNN_Edge) (hd : d.disabled = true)
    (l₁ l₂ : List CNN_Edge) (e : CNN_Edge) (he : e.disabled = false) :
    e ∈ l₁ ++ l₂ ↔ e ∈ l₁ ++ d :: l₂ := by
  have hne : e ≠ d := by
    rintro rfl
    rw [hd] at he
    exact Bool.noConfusion he
  simp [hne]

/-- C3: inserting a disabled edge `d` (with any innovation number) at any
position of the edge list of `a` or of `b` leaves `a.equals(b)` unchanged; in
particular a genome that equals itself also equals, in both directions, the
genome with the extra disabled edge. -/
theorem equals_ignores_disabled_edge (C : Collaborators) (a b : CNN_Genome)
    (d : CNN_Edge) (hd : d.disabled = true) (l₁ l₂ : List CNN_Edge) :
    (a.edges = l₁ ++ l₂ →
      CNN_Genome.equals C { a with edges := l₁ ++ d :: l₂ } b = a.equals C b) ∧
    (b.edges = l₁ ++ l₂ →
      a.equals C { b with edges := l₁ ++ d :: l₂ } = a.equals C b) ∧
    (a.edges = l₁ ++ l₂ → a.equals C a = true →
      CNN_Genome.equals C { a with edges := l₁ ++ d :: l₂ } a = true ∧
      a.equals C { a with edges := l₁ ++ d :: l₂ } = true) := by
  have hA : a.edges = l₁ ++ l₂ →
      CNN_Genome.equals C { a with edges := l₁ ++ d :: l₂ } b = a.equals C b := by
    intro h
    refine (equals_congr C a _ b b (fun e he => ?_) (fun _ _ => Iff.rfl)).symm
    rw [h]
    exact mem_insert_disabled d hd l₁ l₂ e he
  have hB : ∀ x : CNN_Genome, x.edges = l₁ ++ l₂ →
      a.equals C { x with edges := l₁ ++ d :: l₂ } = a.equals C x := by
    intro x h
    refine (equals_congr C a a x _ (fun _ _ => Iff.rfl) (fun e he => ?_)).symm
    rw [h]
    exact mem_insert_disabled d hd l₁ l₂ e he
  refine ⟨hA, hB b, fun h hself => ⟨?_, ?_⟩⟩
  · refine Eq.trans (equals_congr C _ a a a (fun e he => ?_) (fun _ _ => Iff.rfl)) hself
    rw [h]
    exact (mem_insert_disabled d hd l₁ l₂ e he).symm
  · rw [hB a h]
    exact hself

/-- C3 at `genome_two_edges`: a disabled edge that reuses innovation number 1
is put between its two edges. -/
theorem equals_ignores_disabled_edge_witness :
    (({ innovation_number := 1, weights := [7], disabled := true } : CNN_Edge).disabled
      = true) ∧
    genome_two_edges.equals sample_collaborators genome_two_edges = true ∧
    CNN_Genome.equals sample_collaborators
      { genome_two_edges with edges :=
          [{ innovation_number := 1, weights := [3] }] ++
            { innovation_number := 1, weights := [7], disabled := true } ::
            [{ innovation_number := 2, weights := [5] }] }
      genome_two_edges = true ∧
    genome_two_edges.equals sample_collaborators
      { genome_two_edges with edges :=
          [{ innovation_number := 1, weights := [3] }] ++
            { innovation_number := 1, weights := [7], disabled := true } ::
            [{ innovation_number := 2, weights := [5] }] } = true :=
  ⟨rfl, by decide,
    (equals_ignores_disabled_edge sample_collaborators genome_two_edges
      genome_two_edges { innovation_number := 1, weights := [7], disabled := true }
      rfl [{ innovation_number := 1, weights := [3] }]
      [{ innovation_number := 2, weights := [5] }]).2.2 rfl (by decide)⟩

/-! ### `outputs_connected` -/

theorem visit_visited (h : Nat → CNN_Node) (b a : Nat) :
    (visit h b a).visited = (decide (a = b) || (h a).visited) := by
  unfold visit
  by_cases hab : a = b
  · subst hab; simp
  · simp [Function.update_noteq hab, hab]

theorem set_unvisited_visited (h : Nat → CNN_Node) (b a : Nat) :
    (set_unvisited h b a).visited = (!decide (a = b) && (h a).visited) := by
  unfold set_unvisited
  by_cases hab : a = b
  · subst hab; simp
  · simp [Function.update_noteq hab, hab]

theorem foldl_visit_visited (l : List Nat) (h : Nat → CNN_Node) (a : Nat) :
    (l.foldl visit h a).visited = (decide (a ∈ l) || (h a).visited) := by
  induction l generalizing h with
  | nil => simp
  | cons b rest ih =>
    rw [List.foldl_cons, ih, visit_visited]
    by_cases h1 : a = b <;> by_cases h2 : a ∈ rest <;> simp [h1, h2]

theorem foldl_set_unvisited_visited (l : List Nat) (h : Nat → CNN_Node) (a : Nat) :
    (l.foldl set_unvisited h a).visited = (!decide (a ∈ l) && (h a).visited) := by
  induction l generalizing h with
  | nil => simp
  | cons b rest ih =>
    rw [List.foldl_cons, ih, set_unvisited_visited]
    by_cases h1 : a = b <;> by_cases h2 : a ∈ rest <;> simp [h1, h2]

theorem seed_visits_visited (g : CNN_Genome) (a : Nat) (ha : a ∈ g.nodes) :
    (g.seed_visits a).visited = decide (a ∈ g.input_nodes) := by
  unfold CNN_Genome.seed_visits
  rw [foldl_visit_visited, foldl_set_unvisited_visited]
  simp [ha]

theorem all_visited_iff (h : Nat → CNN_Node) (l : List Nat) :
    all_visited h l = true ↔ ∀ s ∈ l, (h s).visited = true := by
  induction l with
  | nil => simp [all_visited]
  | cons s rest ih =>
    unfold all_visited
    by_cases hs : (h s).visited = true
    · simp [hs, ih]
    · simp [hs]

theorem sweep_zero (g : CNN_Genome) : g.sweep 0 = g.seed_visits := by
  simp [CNN_Genome.sweep]

theorem sweep_succ (g : CNN_Genome) (k : Nat) (hk : k < g.edges.length) :
    g.sweep (k + 1) = propagate_visit (g.sweep k) (g.edges.get ⟨k, hk⟩) := by
  unfold CNN_Genome.sweep
  rw [List.take_succ, List.foldl_append]
  simp [List.getElem?_eq_getElem hk]

theorem sweep_length (g : CNN_Genome) :
    g.sweep g.edges.length = g.edges.foldl propagate_visit g.seed_visits := by
  simp [CNN_Genome.sweep]

theorem outputs_connected_iff_sweep (g : CNN_Genome) :
    g.outputs_connected = true ↔
      ∀ s ∈ g.softmax_nodes, (g.sweep g.edges.length s).visited = true := by
  unfold CNN_Genome.outputs_connected
  rw [all_visited_iff, sweep_length]

theorem propagate_visit_visited (h : Nat → CNN_Node) (e : CNN_Edge) (a : Nat) :
    (propagate_visit h e a).visited =
      ((h a).visited || (!e.disabled && (h e.input_node).visited &&
        decide (a = e.output_node))) := by
  unfold propagate_visit
  cases hd : e.disabled <;> cases hv : (h e.input_node).visited <;>
    simp [visit_visited, Bool.or_comm]

theorem sweep_mono (g : CNN_Genome) (a : Nat) (k d : Nat)
    (hk : k + d ≤ g.edges.length) (hv : (g.sweep k a).visited = true) :
    (g.sweep (k + d) a).visited = true := by
  induction d with
  | zero => exact hv
  | succ d ih =>
    have hlt : k + d < g.edges.length := by omega
    rw [← Nat.add_assoc, sweep_succ g (k + d) hlt, propagate_visit_visited,
      ih (by omega)]
    rfl

/-- Whatever the order of the edges, a node of the node list that the sweep
has marked lies on a path of enabled edges from an input node. -/
theorem sweep_visited_reachable (g : CNN_Genome)
    (hedges : ∀ e ∈ g.edges, e.disabled = false → e.input_node ∈ g.nodes)
    (k : Nat) (hk : k ≤ g.edges.length) (a : Nat) (ha : a ∈ g.nodes)
    (hv : (g.sweep k a).visited = true) : reachable_from_input g a := by
  induction k generalizing a with
  | zero =>
    rw [sweep_zero, seed_visits_visited g a ha, decide_eq_true_eq] at hv
    exact ⟨a, hv, Relation.ReflTransGen.refl⟩
  | succ k ih =>
    have hlt : k < g.edges.length := by omega
    rw [sweep_succ g k hlt, propagate_visit_visited, Bool.or_eq_true] at hv
    rcases hv with hv | hv
    · exact ih (by omega) a ha hv
    · simp only [Bool.and_eq_true, Bool.not_eq_true', decide_eq_true_eq] at hv
      obtain ⟨⟨hd, hin⟩, hout⟩ := hv
      have hmem : g.edges.get ⟨k, hlt⟩ ∈ g.edges := List.get_mem _ _ _
      obtain ⟨i, hi, hpath⟩ := ih (by omega) _ (hedges _ hmem hd) hin
      exact ⟨i, hi, hpath.tail ⟨_, hmem, hd, rfl, hout.symm⟩⟩

/-- With depth-sorted edges, every node on a path of enabled edges from an
input node is marked by the sweep, and it is marked before the sweep reaches
an enabled edge that leaves it. -/
theorem reachable_sweep_visited (g : CNN_Genome)
    (hdeeper : ∀ e ∈ g.edges, e.disabled = false →
      (g.heap e.input_node).depth < (g.heap e.output_node).depth)
    (hsorted : g.edges.Pairwise (fun e1 e2 =>
      (g.heap e1.input_node).depth ≤ (g.heap e2.input_node).depth))
    (i : Nat) (hi : i ∈ g.input_nodes) (x : Nat)
    (hpath : Relation.ReflTransGen (enabled_step g) i x) :
    ∃ k, k ≤ g.edges.length ∧ (g.sweep k x).visited = true ∧
      ∀ j (hj : j < g.edges.length), (g.edges.get ⟨j, hj⟩).disabled = false →
        (g.edges.get ⟨j, hj⟩).input_node = x → k ≤ j := by
  induction hpath with
  | refl =>
    refine ⟨0, Nat.zero_le _, ?_, fun j _ _ _ => Nat.zero_le j⟩
    rw [sweep_zero]
    unfold CNN_Genome.seed_visits
    rw [foldl_visit_visited]
    simp [hi]
  | @tail x y _ hstep ih =>
    obtain ⟨k, hk, hvis, hbefore⟩ := ih
    obtain ⟨e0, hmem, hd0, hin0, hout0⟩ := hstep
    obtain ⟨j0, hj0, hget⟩ := List.getElem_of_mem hmem
    have hget2 : g.edges.get ⟨j0, hj0⟩ = e0 := hget
    have hkj : k ≤ j0 := hbefore j0 hj0 (by rw [hget2]; exact hd0)
      (by rw [hget2]; exact hin0)
    have hxv : (g.sweep j0 x).visited = true := by
      have := sweep_mono g x k (j0 - k) (by omega) hvis
      rwa [Nat.add_sub_cancel' hkj] at this
    have hlt := hdeeper e0 hmem hd0
    rw [hin0, hout0] at hlt
    refine ⟨j0 + 1, hj0, ?_, ?_⟩
    · rw [sweep_succ g j0 hj0, propagate_visit_visited, hget2, hd0, hin0, hxv,
        hout0]
      simp
    · intro j hj hdj hinj
      by_contra hcon
      have hle : j ≤ j0 := by omega
      rcases Nat.lt_or_eq_of_le hle with hlt2 | heq
      · have hrel := (List.pairwise_iff_getElem.mp hsorted) j j0 hj hj0 hlt2
        have h1 : (g.edges[j]).input_node = y := hinj
        have h2 : (g.edges[j0]).input_node = x := by rw [hget]; exact hin0
        rw [h1, h2] at hrel
        omega
      · subst heq
        have h1 : (g.edges.get ⟨j, hj⟩).input_node = x := by rw [hget2]; exact hin0
        rw [h1] at hinj
        rw [hinj] at hlt
        omega

/-- Whatever the order of the edges, `outputs_connected` only answers true
when every softmax node is reachable. -/
theorem outputs_connected_sound (g : CNN_Genome)
    (hedges : ∀ e ∈ g.edges, e.disabled = false → e.input_node ∈ g.nodes)
    (hsoftmax : ∀ s ∈ g.softmax_nodes, s ∈ g.nodes)
    (h : g.outputs_connected = true) :
    ∀ s ∈ g.softmax_nodes, reachable_from_input g s := by
  rw [outputs_connected_iff_sweep] at h
  intro s hs
  exact sweep_visited_reachable g hedges _ (le_refl _) s (hsoftmax s hs) (h s hs)

/-- With depth-sorted edges `outputs_connected` answers true when every
softmax node is reachable. -/
theorem outputs_connected_complete (g : CNN_Genome)
    (hdeeper : ∀ e ∈ g.edges, e.disabled = false →
      (g.heap e.input_node).depth < (g.heap e.output_node).depth)
    (hsorted : g.edges.Pairwise (fun e1 e2 =>
      (g.heap e1.input_node).depth ≤ (g.heap e2.input_node).depth))
    (h : ∀ s ∈ g.softmax_nodes, reachable_from_input g s) :
    g.outputs_connected = true := by
  rw [outputs_connected_iff_sweep]
  intro s hs
  obtain ⟨i, hi, hpath⟩ := h s hs
  obtain ⟨k, hk, hvis, _⟩ := reachable_sweep_visited g hdeeper hsorted i hi s hpath
  have := sweep_mono g s k (g.edges.length - k) (by omega) hvis
  rwa [Nat.add_sub_cancel' hk] at this

theorem reachable_from_input_iff (g : CNN_Genome) (s : Nat) (hs : s ∉ g.input_nodes) :
    reachable_from_input g s ↔ reachable_by_edges g s := by
  constructor
  · rintro ⟨i, hi, hpath⟩
    rcases (Relation.reflTransGen_iff_eq_or_transGen.mp hpath) with heq | htrans
    · exact absurd (heq ▸ hi) hs
    · exact ⟨i, hi, htrans⟩
  · rintro ⟨i, hi, hpath⟩
    exact ⟨i, hi, hpath.to_reflTransGen⟩

/-- C4: for a genome whose edge endpoints, input nodes and softmax nodes are
in its node list, whose enabled edges go to a strictly deeper node and whose
edges are ordered by the depth of their input node, `outputs_connected`
returns true exactly when every softmax node is reachable from an input node
along a path of enabled edges. An input node counts as reachable from itself;
when no softmax node is an input node, the paths have at least one edge. -/
theorem outputs_connected_iff_reachable (g : CNN_Genome)
    (hedges : ∀ e ∈ g.edges, e.input_node ∈ g.nodes ∧ e.output_node ∈ g.nodes)
    (_hinputs : ∀ i ∈ g.input_nodes, i ∈ g.nodes)
    (hsoftmax : ∀ s ∈ g.softmax_nodes, s ∈ g.nodes)
    (hdeeper : ∀ e ∈ g.edges, e.disabled = false →
      (g.heap e.input_node).depth < (g.heap e.output_node).depth)
    (hsorted : g.edges.Pairwise (fun e1 e2 =>
      (g.heap e1.input_node).depth ≤ (g.heap e2.input_node).depth)) :
    (g.outputs_connected = true ↔
      ∀ s ∈ g.softmax_nodes, reachable_from_input g s) ∧
    ((∀ s ∈ g.softmax_nodes, s ∉ g.input_nodes) →
      (g.outputs_connected = true ↔
        ∀ s ∈ g.softmax_nodes, reachable_by_edges g s)) := by
  have h : g.outputs_connected = true ↔
      ∀ s ∈ g.softmax_nodes, reachable_from_input g s :=
    ⟨outputs_connected_sound g (fun e he _ => (hedges e he).1) hsoftmax,
      outputs_connected_complete g hdeeper hsorted⟩
  refine ⟨h, fun hdisj => h.trans ?_⟩
  constructor
  · intro hr s hs
    exact (reachable_from_input_iff g s (hdisj s hs)).mp (hr s hs)
  · intro hr s hs
    exact (reachable_from_input_iff g s (hdisj s hs)).mpr (hr s hs)

/-- C4 at the two-node genomes: without an enabled edge the result is false
and the output node is not reachable, with one enabled edge from the input to
the output the result is true and the output node is reachable, by a path
with an edge in it. -/
theorem outputs_connected_iff_reachable_witness :
    (genome_disconnected.outputs_connected = false ∧
      ¬ ∀ s ∈ genome_disconnected.softmax_nodes,
        reachable_from_input genome_disconnected s) ∧
    (genome_connected.outputs_connected = true ∧
      (∀ s ∈ genome_connected.softmax_nodes,
        reachable_from_input genome_connected s) ∧
      ∀ s ∈ genome_connected.softmax_nodes,
        reachable_by_edges genome_connected s) :=
  ⟨⟨by decide,
    fun h => absurd
      ((outputs_connected_iff_reachable genome_disconnected (by decide)
        (by decide) (by decide) (by decide) (by decide)).1.mpr h) (by decide)⟩,
   ⟨by decide,
    (outputs_connected_iff_reachable genome_connected (by decide) (by decide)
      (by decide) (by decide) (by decide)).1.mp (by decide),
    ((outputs_connected_iff_reachable genome_connected (by decide) (by decide)
      (by decide) (by decide) (by decide)).2 (by decide)).mp (by decide)⟩⟩

/-! ### `sanity_check` -/

theorem check_filters_correct_iff (C : Collaborators) (heap : Nat → CNN_Node)
    (l : List CNN_Edge) :
    check_filters_correct C heap l = true ↔
      ∀ e ∈ l, C.is_filter_correct heap e = true := by
  induction l with
  | nil => simp [check_filters_correct]
  | cons e rest ih =>
    unfold check_filters_correct
    by_cases h : C.is_filter_correct heap e = true
    · simp [h, ih]
    · simp [h]

theorem check_edges_iff (l : List CNN_Edge) :
    check_edges l = true ↔
      (∀ e ∈ l, (0 < e.filter_x ∧ e.filter_x ≤ 100) ∧
        (0 < e.filter_y ∧ e.filter_y ≤ 100)) ∧
      (l.map (fun e => e.innovation_number)).Nodup := by
  induction l with
  | nil => simp [check_edges]
  | cons e rest ih =>
    unfold check_edges
    by_cases hx : 0 < e.filter_x ∧ e.filter_x ≤ 100
    · by_cases hy : 0 < e.filter_y ∧ e.filter_y ≤ 100
      · by_cases hdup : ∃ e2 ∈ rest, e.innovation_number = e2.innovation_number
        · have hany : rest.any (fun e2 =>
              decide (e.innovation_number = e2.innovation_number)) = true := by
            obtain ⟨e2, h2, h3⟩ := hdup
            exact List.any_eq_true.mpr ⟨e2, h2, by simp [h3]⟩
          have h1 : ¬ (e.filter_x ≤ 0) := by omega
          have h2 : ¬ (e.filter_x > 100) := by omega
          have h3 : ¬ (e.filter_y ≤ 0) := by omega
          have h4 : ¬ (e.filter_y > 100) := by omega
          simp only [h1, h2, h3, h4, hany, decide_False, Bool.or_false,
            Bool.false_eq_true, if_false, if_true, List.map_cons,
            List.nodup_cons, List.mem_map, false_iff]
          rintro ⟨_, hnot, _⟩
          obtain ⟨e2, h5, h6⟩ := hdup
          exact hnot ⟨e2, h5, h6.symm⟩
        · have hany : rest.any (fun e2 =>
              decide (e.innovation_number = e2.innovation_number)) = false := by
            rw [Bool.eq_false_iff]
            intro h
            obtain ⟨e2, h2, h3⟩ := List.any_eq_true.mp h
            exact hdup ⟨e2, h2, by simpa using h3⟩
          have h1 : ¬ (e.filter_x ≤ 0) := by omega
          have h2 : ¬ (e.filter_x > 100) := by omega
          have h3 : ¬ (e.filter_y ≤ 0) := by omega
          have h4 : ¬ (e.filter_y > 100) := by omega
          simp only [h1, h2, h3, h4, hany, decide_False, Bool.or_false,
            Bool.false_eq_true, if_false, List.map_cons, List.nodup_cons,
            List.mem_map, List.mem_cons, forall_eq_or_imp, ih]
          constructor
          · rintro ⟨h5, h6⟩
            refine ⟨⟨⟨hx, hy⟩, h5⟩, ?_, h6⟩
            rintro ⟨e2, h7, h8⟩
            exact hdup ⟨e2, h7, h8.symm⟩
          · rintro ⟨⟨_, h5⟩, _, h6⟩
            exact ⟨h5, h6⟩
      · have h1 : ¬ (e.filter_x ≤ 0) := by omega
        have h2 : ¬ (e.filter_x > 100) := by omega
        have h3 : e.filter_y ≤ 0 ∨ e.filter_y > 100 := by omega
        have h4 : (decide (e.filter_y ≤ 0) || decide (e.filter_y > 100)) = true := by
          rcases h3 with h3 | h3 <;> simp [h3]
        simp only [h1, h2, h4, decide_False, Bool.or_false, Bool.false_eq_true,
          if_false, if_true, false_iff]
        rintro ⟨h5, _⟩
        exact hy (h5 e (List.mem_cons_self _ _)).2
    · have h3 : e.filter_x ≤ 0 ∨ e.filter_x > 100 := by omega
      have h4 : (decide (e.filter_x ≤ 0) || decide (e.filter_x > 100)) = true := by
        rcases h3 with h3 | h3 <;> simp [h3]
      simp only [h4, if_true, Bool.false_eq_true, false_iff]
      rintro ⟨h5, _⟩
      exact hx (h5 e (List.mem_cons_self _ _)).1

/-- The loop over the nodes performs on sizes what the loop over the edges
performs on filter extents. -/
theorem check_nodes_eq_check_edges (heap : Nat → CNN_Node) (l : List Nat) :
    check_nodes heap l = check_edges (l.map (fun a =>
      { innovation_number := (heap a).innovation_number,
        filter_x := (heap a).size_x, filter_y := (heap a).size_y })) := by
  induction l with
  | nil => simp [check_nodes, check_edges]
  | cons a rest ih =>
    have hany : ∀ (l : List Nat) (p : CNN_Edge → Bool) (f : Nat → CNN_Edge),
        (l.map f).any p = l.any (fun b => p (f b)) := by
      intro l p f
      induction l with
      | nil => rfl
      | cons b l ihl => simp only [List.map_cons, List.any_cons, ihl]
    simp only [check_nodes, check_edges, List.map_cons, ih, hany]

theorem check_nodes_iff (heap : Nat → CNN_Node) (l : List Nat) :
    check_nodes heap l = true ↔
      (∀ a ∈ l, (0 < (heap a).size_x ∧ (heap a).size_x ≤ 100) ∧
        (0 < (heap a).size_y ∧ (heap a).size_y ≤ 100)) ∧
      (l.map (fun a => (heap a).innovation_number)).Nodup := by
  rw [check_nodes_eq_check_edges, check_edges_iff]
  simp [List.map_map, Function.comp_def]

theorem count_inputs_eq (heap : Nat → CNN_Node) (a : Nat) (l : List CNN_Edge)
    (counted : Int) :
    count_inputs heap a l counted =
      if ∀ e ∈ l, e.disabled = false →
          (heap e.output_node).innovation_number = (heap a).innovation_number →
          e.output_node = a
      then some (counted + ((l.filter (fun e => !e.disabled &&
        decide ((heap e.output_node).innovation_number =
          (heap a).innovation_number))).length : Int))
      else none := by
  induction l generalizing counted with
  | nil => simp [count_inputs]
  | cons e rest ih =>
    unfold count_inputs
    by_cases hd : e.disabled = true
    · simp [hd, ih]
    · simp only [Bool.not_eq_true] at hd
      by_cases hn : (heap e.output_node).innovation_number = (heap a).innovation_number
      · by_cases hp : e.output_node = a
        · simp [hd, hn, hp, ih, add_assoc, add_comm]
        · simp [hd, hn, hp]
      · simp [hd, hn, ih]

theorem check_input_counts_iff (heap : Nat → CNN_Node) (edges : List CNN_Edge)
    (l : List Nat) :
    check_input_counts heap edges l = true ↔
      ∀ a ∈ l,
        (∀ e ∈ edges, e.disabled = false →
          (heap e.output_node).innovation_number = (heap a).innovation_number →
          e.output_node = a) ∧
        (((edges.filter (fun e => !e.disabled &&
          decide ((heap e.output_node).innovation_number =
            (heap a).innovation_number))).length : Int) = (heap a).total_inputs) := by
  induction l with
  | nil => simp [check_input_counts]
  | cons a rest ih =>
    unfold check_input_counts
    rw [count_inputs_eq]
    by_cases hp : ∀ e ∈ edges, e.disabled = false →
        (heap e.output_node).innovation_number = (heap a).innovation_number →
        e.output_node = a
    · by_cases hc : (((edges.filter (fun e => !e.disabled &&
          decide ((heap e.output_node).innovation_number =
            (heap a).innovation_number))).length : Int) = (heap a).total_inputs)
      · simp only [if_pos hp, zero_add, hc, ne_eq, not_true_eq_false, if_false,
          List.mem_cons, forall_eq_or_imp]
        rw [ih]
        exact ⟨fun h => ⟨⟨hp, trivial⟩, h⟩, fun h => h.2⟩
      · simp only [if_pos hp, zero_add, ne_eq, hc, not_false_eq_true, if_true,
          Bool.false_eq_true, List.mem_cons, forall_eq_or_imp, false_iff]
        exact fun h => h.1.2
    · simp only [if_neg hp, Bool.false_eq_true, List.mem_cons, forall_eq_or_imp,
        false_iff]
      exact fun h => hp h.1.1

theorem count_inputs_congr (heap heap2 : Nat → CNN_Node)
    (hh : ∀ a, (heap2 a).innovation_number = (heap a).innovation_number)
    (a : Nat) (l l2 : List CNN_Edge)
    (hl : List.Forall₂ (fun e e2 : CNN_Edge =>
      e2.disabled = e.disabled ∧ e2.output_node = e.output_node) l l2)
    (c : Int) :
    count_inputs heap2 a l2 c = count_inputs heap a l c := by
  induction hl generalizing c with
  | nil => rfl
  | cons hhead _ ih =>
    unfold count_inputs
    simp only [hhead.1, hhead.2, hh, ih]

theorem check_input_counts_congr (heap heap2 : Nat → CNN_Node)
    (hh : ∀ a, (heap2 a).innovation_number = (heap a).innovation_number)
    (ht : ∀ a, (heap2 a).total_inputs = (heap a).total_inputs)
    (edges edges2 : List CNN_Edge)
    (hl : List.Forall₂ (fun e e2 : CNN_Edge =>
      e2.disabled = e.disabled ∧ e2.output_node = e.output_node) edges edges2)
    (l : List Nat) :
    check_input_counts heap2 edges2 l = check_input_counts heap edges l := by
  induction l with
  | nil => rfl
  | cons a rest ih =>
    unfold check_input_counts
    rw [count_inputs_congr heap heap2 hh a edges edges2 hl, ht, ih]

/-- The repair of the nodes only writes `bias` and `best_bias`. -/
theorem repair_nodes_frame (C : Collaborators) (l : List Nat)
    (heap : Nat → CNN_Node) (r : RNG) (a : Nat) :
    (repair_nodes C l heap r).1 a =
      { heap a with bias := ((repair_nodes C l heap r).1 a).bias,
                    best_bias := ((repair_nodes C l heap r).1 a).best_bias } := by
  induction l generalizing heap r with
  | nil => rfl
  | cons b rest ih =>
    unfold repair_nodes
    by_cases hz : C.has_zero_bias (heap b) = true
    · simp only [hz, if_true]
      rw [ih]
      by_cases hab : a = b
      · subst hab
        simp [save_best_bias, initialize_bias]
      · simp [Function.update_noteq hab]
    · simp only [hz, Bool.false_eq_true, if_false]
      exact ih heap r

/-- The repair of the edges only writes `weights` and `best_weights`, of the
edges whose weights are zero, and leaves the other edges as they are. -/
theorem repair_edges_forall₂ (C : Collaborators) (l : List CNN_Edge) (r : RNG) :
    List.Forall₂ (fun e e2 : CNN_Edge =>
        if C.has_zero_weight e = true then
          ∃ r2, e2 = save_best_weights (initialize_weights C r2 e).1
        else e2 = e)
      l (repair_edges C l r).1 := by
  induction l generalizing r with
  | nil => exact List.Forall₂.nil
  | cons e rest ih =>
    unfold repair_edges
    by_cases hz : C.has_zero_weight e = true
    · simp only [hz, if_true]
      exact List.Forall₂.cons (by simp [hz]; exact ⟨r, rfl⟩) (ih _)
    · simp only [hz, Bool.false_eq_true, if_false]
      exact List.Forall₂.cons (by simp [hz]) (ih _)

theorem repair_edges_frame (C : Collaborators) (l : List CNN_Edge) (r : RNG) :
    List.Forall₂ (fun e e2 : CNN_Edge =>
      e2.disabled = e.disabled ∧ e2.output_node = e.output_node)
      l (repair_edges C l r).1 := by
  refine List.Forall₂.imp ?_ (repair_edges_forall₂ C l r)
  intro e e2 h
  by_cases hz : C.has_zero_weight e = true
  · rw [if_pos hz] at h
    obtain ⟨r2, rfl⟩ := h
    exact ⟨rfl, rfl⟩
  · rw [if_neg hz] at h
    rw [h]
    exact ⟨rfl, rfl⟩

theorem repair_zero_sums_nodes (C : Collaborators) (g : CNN_Genome) (type : Int) :
    (g.repair_zero_sums C type).nodes = g.nodes := by
  unfold CNN_Genome.repair_zero_sums
  split <;> rfl

/-- The input-count loop gives the same verdict on the repaired genome as on
the genome before the repair. -/
theorem check_input_counts_repair (C : Collaborators) (g : CNN_Genome) (type : Int) :
    check_input_counts (g.repair_zero_sums C type).heap
      (g.repair_zero_sums C type).edges (g.repair_zero_sums C type).nodes =
    check_input_counts g.heap g.edges g.nodes := by
  rw [repair_zero_sums_nodes]
  unfold CNN_Genome.repair_zero_sums
  split
  · refine check_input_counts_congr _ _ (fun a => ?_) (fun a => ?_) _ _
      (repair_edges_frame C _ _) _
    · show ((repair_nodes C g.nodes g.heap g.rng).1 a).innovation_number = _
      rw [repair_nodes_frame]
    · show ((repair_nodes C g.nodes g.heap g.rng).1 a).total_inputs = _
      rw [repair_nodes_frame]
  · rfl

/-- The boolean returned by `sanity_check`, in either mode, in terms of its
four checking loops on the genome as it is when the call starts. -/
theorem sanity_check_eq (C : Collaborators) (g : CNN_Genome) (type : Int) :
    (g.sanity_check C type).1 =
      (check_filters_correct C g.heap g.edges && check_edges g.edges &&
        check_nodes g.heap g.nodes && check_input_counts g.heap g.edges g.nodes) := by
  unfold CNN_Genome.sanity_check
  rw [check_input_counts_repair]
  cases check_filters_correct C g.heap g.edges <;> cases check_edges g.edges <;>
    cases check_nodes g.heap g.nodes <;>
    cases check_input_counts g.heap g.edges g.nodes <;> rfl

/-- What `sanity_check` decides, in either mode. -/
theorem sanity_check_iff (C : Collaborators) (g : CNN_Genome) (type : Int) :
    (g.sanity_check C type).1 = true ↔
      (∀ e ∈ g.edges, C.is_filter_correct g.heap e = true) ∧
      ((∀ e ∈ g.edges, (0 < e.filter_x ∧ e.filter_x ≤ 100) ∧
          (0 < e.filter_y ∧ e.filter_y ≤ 100)) ∧
        (g.edges.map (fun e => e.innovation_number)).Nodup) ∧
      ((∀ a ∈ g.nodes, (0 < (g.heap a).size_x ∧ (g.heap a).size_x ≤ 100) ∧
          (0 < (g.heap a).size_y ∧ (g.heap a).size_y ≤ 100)) ∧
        (g.nodes.map (fun a => (g.heap a).innovation_number)).Nodup) ∧
      ∀ a ∈ g.nodes,
        (∀ e ∈ g.edges, e.disabled = false →
          (g.heap e.output_node).innovation_number = (g.heap a).innovation_number →
          e.output_node = a) ∧
        ((enabled_inputs g a : Int) = (g.heap a).total_inputs) := by
  rw [sanity_check_eq, Bool.and_eq_true, Bool.and_eq_true, Bool.and_eq_true,
    check_filters_correct_iff, check_edges_iff, check_nodes_iff,
    check_input_counts_iff]
  unfold enabled_inputs
  tauto

theorem nodup_map_index {α β : Type} (f : α → β) (l : List α)
    (h : (l.map f).Nodup) (i j : Nat) (hi : i < l.length) (hj : j < l.length)
    (hf : f (l.get ⟨i, hi⟩) = f (l.get ⟨j, hj⟩)) : i = j := by
  have hi2 : i < (l.map f).length := by simpa using hi
  have hj2 : j < (l.map f).length := by simpa using hj
  refine (@List.Nodup.getElem_inj_iff _ _ h i hi2 j hj2).mp ?_
  simpa using hf

/-- C5: in either mode `sanity_check` returns false when some edge, enabled
or not, has `filter_x` or `filter_y` outside `(0, 100]` or some node has
`size_x` or `size_y` outside `(0, 100]`; and it returns true for a genome
that passes every other check as soon as every `filter_x` is in `(0, 100]`,
100 included. -/
theorem sanity_check_extent_bounds (C : Collaborators) (g : CNN_Genome) (type : Int) :
    ((∃ e ∈ g.edges, e.filter_x ≤ 0 ∨ e.filter_x > 100 ∨
        e.filter_y ≤ 0 ∨ e.filter_y > 100) →
      (g.sanity_check C type).1 = false) ∧
    ((∃ a ∈ g.nodes, (g.heap a).size_x ≤ 0 ∨ (g.heap a).size_x > 100 ∨
        (g.heap a).size_y ≤ 0 ∨ (g.heap a).size_y > 100) →
      (g.sanity_check C type).1 = false) ∧
    ((∀ e ∈ g.edges, 0 < e.filter_x ∧ e.filter_x ≤ 100) →
      (∀ e ∈ g.edges, C.is_filter_correct g.heap e = true) →
      (∀ e ∈ g.edges, 0 < e.filter_y ∧ e.filter_y ≤ 100) →
      (g.edges.map (fun e => e.innovation_number)).Nodup →
      (∀ a ∈ g.nodes, (0 < (g.heap a).size_x ∧ (g.heap a).size_x ≤ 100) ∧
        (0 < (g.heap a).size_y ∧ (g.heap a).size_y ≤ 100)) →
      (g.nodes.map (fun a => (g.heap a).innovation_number)).Nodup →
      (∀ a ∈ g.nodes,
        (∀ e ∈ g.edges, e.disabled = false →
          (g.heap e.output_node).innovation_number = (g.heap a).innovation_number →
          e.output_node = a) ∧
        ((enabled_inputs g a : Int) = (g.heap a).total_inputs)) →
      (g.sanity_check C type).1 = true) := by
  refine ⟨?_, ?_, ?_⟩
  · rintro ⟨e, he, hbad⟩
    rw [Bool.eq_false_iff]
    intro h
    have h2 := ((sanity_check_iff C g type).mp h).2.1.1 e he
    omega
  · rintro ⟨a, ha, hbad⟩
    rw [Bool.eq_false_iff]
    intro h
    have h2 := ((sanity_check_iff C g type).mp h).2.2.1.1 a ha
    omega
  · intro hx hc hy hne hs hnn hin
    exact (sanity_check_iff C g type).mpr
      ⟨hc, ⟨fun e he => ⟨hx e he, hy e he⟩, hne⟩, ⟨hs, hnn⟩, hin⟩

/-- C5 at a genome with one edge: with `filter_x` 0 or 101 the check fails in
both modes, with `filter_x` exactly 100 it passes in both modes. -/
theorem sanity_check_extent_bounds_witness :
    ((genome_one_edge 0 1).sanity_check sample_collaborators
        SANITY_CHECK_BEFORE_INSERT).1 = false ∧
    ((genome_one_edge 101 1).sanity_check sample_collaborators
        SANITY_CHECK_AFTER_GENERATION).1 = false ∧
    ((genome_one_edge 100 1).sanity_check sample_collaborators
        SANITY_CHECK_BEFORE_INSERT).1 = true ∧
    ((genome_one_edge 100 1).sanity_check sample_collaborators
        SANITY_CHECK_AFTER_GENERATION).1 = true :=
  ⟨(sanity_check_extent_bounds sample_collaborators (genome_one_edge 0 1)
      SANITY_CHECK_BEFORE_INSERT).1 (by decide),
   (sanity_check_extent_bounds sample_collaborators (genome_one_edge 101 1)
      SANITY_CHECK_AFTER_GENERATION).1 (by decide),
   (sanity_check_extent_bounds sample_collaborators (genome_one_edge 100 1)
      SANITY_CHECK_BEFORE_INSERT).2.2 (by decide) (by decide) (by decide)
      (by decide) (by decide) (by decide) (by decide),
   (sanity_check_extent_bounds sample_collaborators (genome_one_edge 100 1)
      SANITY_CHECK_AFTER_GENERATION).2.2 (by decide) (by decide) (by decide)
      (by decide) (by decide) (by decide) (by decide)⟩

/-- C6: in either mode `sanity_check` returns false when two distinct
positions of the edge list hold the same innovation number (disabled edges
included) or two distinct positions of the node list do; so when it returns
true the innovation numbers of the edges are pairwise distinct and so are
those of the nodes. -/
theorem sanity_check_rejects_duplicates (C : Collaborators) (g : CNN_Genome)
    (type : Int) :
    ((∃ i j, ∃ (hi : i < g.edges.length) (hj : j < g.edges.length), i ≠ j ∧
        (g.edges.get ⟨i, hi⟩).innovation_number =
          (g.edges.get ⟨j, hj⟩).innovation_number) →
      (g.sanity_check C type).1 = false) ∧
    ((∃ i j, ∃ (hi : i < g.nodes.length) (hj : j < g.nodes.length), i ≠ j ∧
        (g.heap (g.nodes.get ⟨i, hi⟩)).innovation_number =
          (g.heap (g.nodes.get ⟨j, hj⟩)).innovation_number) →
      (g.sanity_check C type).1 = false) ∧
    ((g.sanity_check C type).1 = true →
      (g.edges.map (fun e => e.innovation_number)).Nodup ∧
      (g.nodes.map (fun a => (g.heap a).innovation_number)).Nodup) := by
  refine ⟨?_, ?_, ?_⟩
  · rintro ⟨i, j, hi, hj, hne, heq⟩
    rw [Bool.eq_false_iff]
    intro h
    have h2 := ((sanity_check_iff C g type).mp h).2.1.2
    exact hne (nodup_map_index _ g.edges h2 i j hi hj heq)
  · rintro ⟨i, j, hi, hj, hne, heq⟩
    rw [Bool.eq_false_iff]
    intro h
    have h2 := ((sanity_check_iff C g type).mp h).2.2.1.2
    exact hne (nodup_map_index _ g.nodes h2 i j hi hj heq)
  · intro h
    have h2 := (sanity_check_iff C g type).mp h
    exact ⟨h2.2.1.2, h2.2.2.1.2⟩

/-- C6 at three genomes: a disabled edge that repeats an innovation number
and a node that repeats one make the check fail; the genome without them
passes and its innovation numbers are distinct. -/
theorem sanity_check_rejects_duplicates_witness :
    (genome_duplicate_edge.sanity_check sample_collaborators
        SANITY_CHECK_BEFORE_INSERT).1 = false ∧
    (genome_duplicate_node.sanity_check sample_collaborators
        SANITY_CHECK_AFTER_GENERATION).1 = false ∧
    (((genome_one_edge 100 1).sanity_check sample_collaborators
        SANITY_CHECK_AFTER_GENERATION).1 = true ∧
      ((genome_one_edge 100 1).edges.map (fun e => e.innovation_number)).Nodup ∧
      ((genome_one_edge 100 1).nodes.map
        (fun a => ((genome_one_edge 100 1).heap a).innovation_number)).Nodup) :=
  ⟨(sanity_check_rejects_duplicates sample_collaborators genome_duplicate_edge
      SANITY_CHECK_BEFORE_INSERT).1 ⟨0, 1, by decide, by decide, by decide, by decide⟩,
   (sanity_check_rejects_duplicates sample_collaborators genome_duplicate_node
      SANITY_CHECK_AFTER_GENERATION).2.1
      ⟨1, 2, by decide, by decide, by decide, by decide⟩,
   by decide,
   (sanity_check_rejects_duplicates sample_collaborators (genome_one_edge 100 1)
      SANITY_CHECK_AFTER_GENERATION).2.2 (by decide)⟩

/-- C7: when `sanity_check` returns true, for every node of the node list the
number of enabled edges whose output node carries the node's innovation
number is the node's recorded input count, and the output node of each such
edge is that very node object; and `sanity_check` returns false when for some
node the count differs or such an edge points at another object. The fields
read here are not written by the repair of the after-generation mode. -/
theorem sanity_check_input_counts (C : Collaborators) (g : CNN_Genome) (type : Int) :
    ((g.sanity_check C type).1 = true →
      ∀ a ∈ g.nodes,
        (enabled_inputs g a : Int) = (g.heap a).total_inputs ∧
        ∀ e ∈ g.edges, e.disabled = false →
          (g.heap e.output_node).innovation_number = (g.heap a).innovation_number →
          e.output_node = a) ∧
    ((∃ a ∈ g.nodes,
        (enabled_inputs g a : Int) ≠ (g.heap a).total_inputs ∨
        ∃ e ∈ g.edges, e.disabled = false ∧
          (g.heap e.output_node).innovation_number = (g.heap a).innovation_number ∧
          e.output_node ≠ a) →
      (g.sanity_check C type).1 = false) := by
  refine ⟨?_, ?_⟩
  · intro h a ha
    have h2 := ((sanity_check_iff C g type).mp h).2.2.2 a ha
    exact ⟨h2.2, h2.1⟩
  · rintro ⟨a, ha, hbad⟩
    rw [Bool.eq_false_iff]
    intro h
    have h2 := ((sanity_check_iff C g type).mp h).2.2.2 a ha
    rcases hbad with hbad | ⟨e, he, hd, hn, hp⟩
    · exact hbad h2.2
    · exact hp (h2.1 e he hd hn)

/-- C7 at three genomes: the genome whose edge ends at the output node of the
list passes; an edge that ends at another object with the same innovation
number and a genome whose only edge is disabled (so that the count is 0, not
the recorded 1) fail. -/
theorem sanity_check_input_counts_witness :
    (∀ a ∈ (genome_one_edge 100 1).nodes,
      (enabled_inputs (genome_one_edge 100 1) a : Int) =
        ((genome_one_edge 100 1).heap a).total_inputs ∧
      ∀ e ∈ (genome_one_edge 100 1).edges, e.disabled = false →
        ((genome_one_edge 100 1).heap e.output_node).innovation_number =
          ((genome_one_edge 100 1).heap a).innovation_number →
        e.output_node = a) ∧
    ((genome_one_edge 100 2).sanity_check sample_collaborators
        SANITY_CHECK_BEFORE_INSERT).1 = false ∧
    (CNN_Genome.sanity_check sample_collaborators
        { genome_one_edge 100 1 with
          edges := [{ innovation_number := 5, input_node := 0, output_node := 1,
                      filter_x := 100, filter_y := 100, weights := [2],
                      disabled := true }] }
        SANITY_CHECK_AFTER_GENERATION).1 = false :=
  ⟨(sanity_check_input_counts sample_collaborators (genome_one_edge 100 1)
      SANITY_CHECK_BEFORE_INSERT).1 (by decide),
   (sanity_check_input_counts sample_collaborators (genome_one_edge 100 2)
      SANITY_CHECK_BEFORE_INSERT).2
      ⟨1, by decide, Or.inr ⟨_, List.mem_cons_self _ _, by decide, by decide, by decide⟩⟩,
   (sanity_check_input_counts sample_collaborators _
      SANITY_CHECK_AFTER_GENERATION).2 ⟨1, by decide, Or.inl (by decide)⟩⟩

/-- The method `sanity_check` never reads the lists of input and softmax nodes. -/
theorem sanity_check_views (C : Collaborators) (g : CNN_Genome) (type : Int)
    (ins outs : List Nat) :
    (CNN_Genome.sanity_check C
      { g with input_nodes := ins, softmax_nodes := outs } type).1 =
    (g.sanity_check C type).1 := by
  rw [sanity_check_eq, sanity_check_eq]

/-- C8, as stated, fails: the two-node genome without an enabled edge passes
`sanity_check` in both modes although its output node is not reachable. -/
theorem sanity_check_passes_unreachable_output :
    (genome_disconnected.sanity_check sample_collaborators
        SANITY_CHECK_BEFORE_INSERT).1 = true ∧
    (genome_disconnected.sanity_check sample_collaborators
        SANITY_CHECK_AFTER_GENERATION).1 = true ∧
    ¬ ∀ s ∈ genome_disconnected.softmax_nodes,
        reachable_from_input genome_disconnected s :=
  ⟨by decide, by decide,
    fun h => absurd
      (outputs_connected_complete genome_disconnected (by decide) (by decide) h)
      (by decide)⟩

/-- C8, amended: the boolean returned by `sanity_check` does not depend on
the lists of input and softmax nodes, so connectivity is not part of it; the
connectivity invariant holds when, besides `sanity_check`, the separate
routine `outputs_connected` returns true, for a genome whose edge endpoints
and softmax nodes are in its node list. -/
theorem sanity_check_with_outputs_connected (C : Collaborators) (g : CNN_Genome)
    (type : Int) :
    (∀ ins outs : List Nat,
      (CNN_Genome.sanity_check C
        { g with input_nodes := ins, softmax_nodes := outs } type).1 =
      (g.sanity_check C type).1) ∧
    ((∀ e ∈ g.edges, e.input_node ∈ g.nodes ∧ e.output_node ∈ g.nodes) →
      (∀ s ∈ g.softmax_nodes, s ∈ g.nodes) →
      (g.sanity_check C type).1 = true →
      g.outputs_connected = true →
      ∀ s ∈ g.softmax_nodes, reachable_from_input g s) :=
  ⟨sanity_check_views C g type,
    fun hedges hsoftmax _ hconn =>
      outputs_connected_sound g (fun e he _ => (hedges e he).1) hsoftmax hconn⟩

/-- C8, amended, at `genome_zero_sums`, which passes both routines. -/
theorem sanity_check_with_outputs_connected_witness :
    (∀ e ∈ genome_zero_sums.edges,
      e.input_node ∈ genome_zero_sums.nodes ∧ e.output_node ∈ genome_zero_sums.nodes) ∧
    (genome_zero_sums.sanity_check sample_collaborators
        SANITY_CHECK_BEFORE_INSERT).1 = true ∧
    genome_zero_sums.outputs_connected = true ∧
    ∀ s ∈ genome_zero_sums.softmax_nodes, reachable_from_input genome_zero_sums s :=
  ⟨by decide, by decide, by decide,
    (sanity_check_with_outputs_connected sample_collaborators genome_zero_sums
      SANITY_CHECK_BEFORE_INSERT).2 (by decide) (by decide) (by decide) (by decide)⟩

theorem repair_nodes_not_mem (C : Collaborators) (l : List Nat)
    (heap : Nat → CNN_Node) (r : RNG) (a : Nat) (ha : a ∉ l) :
    (repair_nodes C l heap r).1 a = heap a := by
  induction l generalizing heap r with
  | nil => rfl
  | cons b rest ih =>
    have hab : a ≠ b := fun h => ha (h ▸ List.mem_cons_self _ _)
    have har : a ∉ rest := fun h => ha (List.mem_cons_of_mem _ h)
    unfold repair_nodes
    by_cases hz : C.has_zero_bias (heap b) = true
    · simp only [hz, if_true]
      rw [ih _ _ har, Function.update_noteq hab]
    · simp only [hz, Bool.false_eq_true, if_false]
      exact ih heap r har

/-- Over distinct node pointers the repair loop reinitialises and saves
exactly the nodes whose bias is zero. -/
theorem repair_nodes_spec (C : Collaborators) (l : List Nat) (hl : l.Nodup)
    (heap : Nat → CNN_Node) (r : RNG) (a : Nat) (ha : a ∈ l) :
    if C.has_zero_bias (heap a) = true then
      ∃ r2, (repair_nodes C l heap r).1 a =
        save_best_bias (initialize_bias C r2 (heap a)).1
    else (repair_nodes C l heap r).1 a = heap a := by
  induction l generalizing heap r with
  | nil => exact absurd ha (List.not_mem_nil a)
  | cons b rest ih =>
    have hb : b ∉ rest := (List.nodup_cons.mp hl).1
    have hrest : rest.Nodup := (List.nodup_cons.mp hl).2
    unfold repair_nodes
    rcases List.mem_cons.mp ha with hab | har
    · subst hab
      by_cases hz : C.has_zero_bias (heap a) = true
      · simp only [hz, if_true]
        rw [repair_nodes_not_mem C rest _ _ a hb, Function.update_same]
        exact ⟨r, rfl⟩
      · simp only [hz, Bool.false_eq_true, if_false]
        exact repair_nodes_not_mem C rest heap r a hb
    · have hab : a ≠ b := fun h => hb (h ▸ har)
      by_cases hz : C.has_zero_bias (heap b) = true
      · simp only [hz, if_true]
        have h2 := ih hrest
          (Function.update heap b (save_best_bias (initialize_bias C r (heap b)).1))
          (initialize_bias C r (heap b)).2 har
        rw [Function.update_noteq hab] at h2
        exact h2
      · simp only [hz, Bool.false_eq_true, if_false]
        exact ih hrest heap r har

/-- C9, as stated, fails: `genome_zero_sums_bad_filter` has a node with zero
bias and an edge with zero weight, and the after-generation check returns
false at the extent test without reinitialising either: the node keeps its
zero bias and the edge list is the one the call started with. -/
theorem sanity_check_returns_before_repair :
    (genome_zero_sums_bad_filter.sanity_check sample_collaborators
        SANITY_CHECK_AFTER_GENERATION).1 = false ∧
    (genome_zero_sums_bad_filter.sanity_check sample_collaborators
        SANITY_CHECK_AFTER_GENERATION).2.edges = genome_zero_sums_bad_filter.edges ∧
    (∃ e ∈ genome_zero_sums_bad_filter.edges,
      sample_collaborators.has_zero_weight e = true) ∧
    ¬ ∀ a ∈ genome_zero_sums_bad_filter.nodes,
        if sample_collaborators.has_zero_bias (genome_zero_sums_bad_filter.heap a) = true
        then
          ∃ r, (genome_zero_sums_bad_filter.sanity_check sample_collaborators
              SANITY_CHECK_AFTER_GENERATION).2.heap a =
            save_best_bias (initialize_bias sample_collaborators r
              (genome_zero_sums_bad_filter.heap a)).1
        else (genome_zero_sums_bad_filter.sanity_check sample_collaborators
            SANITY_CHECK_AFTER_GENERATION).2.heap a =
          genome_zero_sums_bad_filter.heap a := by
  refine ⟨by decide, by decide, by decide, fun h => ?_⟩
  have h0 := h 0 (by decide)
  rw [if_pos (by decide)] at h0
  obtain ⟨r, hr⟩ := h0
  have hl : ((genome_zero_sums_bad_filter.sanity_check sample_collaborators
      SANITY_CHECK_AFTER_GENERATION).2.heap 0).bias = [0] := by decide
  have hr2 : (save_best_bias (initialize_bias sample_collaborators r
      (genome_zero_sums_bad_filter.heap 0)).1).bias = [1] := rfl
  rw [hr, hr2] at hl
  exact absurd hl (by decide)

/-- C9, amended: the two modes return the same boolean on every genome; and
in the after-generation mode, once the filter, extent and duplicate checks
that precede the repair have passed, each node of the node list with zero
bias and each edge with zero weight is reinitialised and then saved as best,
while the other nodes and edges are left exactly as they were. -/
theorem sanity_check_repairs_zero_sums (C : Collaborators) (g : CNN_Genome) :
    (g.sanity_check C SANITY_CHECK_AFTER_GENERATION).1 =
      (g.sanity_check C SANITY_CHECK_BEFORE_INSERT).1 ∧
    ((∀ e ∈ g.edges, C.is_filter_correct g.heap e = true) →
      (∀ e ∈ g.edges, (0 < e.filter_x ∧ e.filter_x ≤ 100) ∧
        (0 < e.filter_y ∧ e.filter_y ≤ 100)) →
      (g.edges.map (fun e => e.innovation_number)).Nodup →
      (∀ a ∈ g.nodes, (0 < (g.heap a).size_x ∧ (g.heap a).size_x ≤ 100) ∧
        (0 < (g.heap a).size_y ∧ (g.heap a).size_y ≤ 100)) →
      (g.nodes.map (fun a => (g.heap a).innovation_number)).Nodup →
      (∀ a ∈ g.nodes,
        if C.has_zero_bias (g.heap a) = true then
          ∃ r, (g.sanity_check C SANITY_CHECK_AFTER_GENERATION).2.heap a =
            save_best_bias (initialize_bias C r (g.heap a)).1
        else (g.sanity_check C SANITY_CHECK_AFTER_GENERATION).2.heap a = g.heap a) ∧
      List.Forall₂ (fun e e2 : CNN_Edge =>
          if C.has_zero_weight e = true then
            ∃ r, e2 = save_best_weights (initialize_weights C r e).1
          else e2 = e)
        g.edges (g.sanity_check C SANITY_CHECK_AFTER_GENERATION).2.edges) := by
  refine ⟨by rw [sanity_check_eq, sanity_check_eq], ?_⟩
  intro hf he hen hn hnn
  have h1 : check_filters_correct C g.heap g.edges = true :=
    (check_filters_correct_iff C g.heap g.edges).mpr hf
  have h2 : check_edges g.edges = true := (check_edges_iff g.edges).mpr ⟨he, hen⟩
  have h3 : check_nodes g.heap g.nodes = true :=
    (check_nodes_iff g.heap g.nodes).mpr ⟨hn, hnn⟩
  have hstate : (g.sanity_check C SANITY_CHECK_AFTER_GENERATION).2 =
      g.repair_zero_sums C SANITY_CHECK_AFTER_GENERATION := by
    unfold CNN_Genome.sanity_check
    simp only [h1, h2, h3, Bool.not_true, Bool.false_eq_true, if_false]
    split <;> rfl
  rw [hstate]
  unfold CNN_Genome.repair_zero_sums
  simp only [if_true]
  exact ⟨fun a ha => repair_nodes_spec C g.nodes (List.Nodup.of_map _ hnn) g.heap
      g.rng a ha, repair_edges_forall₂ C g.edges _⟩

/-- C9, amended, at `genome_zero_sums`: the zero-bias node and the
zero-weight edge come out with the drawn value `1` as current and as best
value, the other node and edge are unchanged, and both modes return true. -/
theorem sanity_check_repairs_zero_sums_witness :
    ((genome_zero_sums.sanity_check sample_collaborators
        SANITY_CHECK_AFTER_GENERATION).1 = true ∧
      (genome_zero_sums.sanity_check sample_collaborators
        SANITY_CHECK_BEFORE_INSERT).1 = true) ∧
    ((genome_zero_sums.sanity_check sample_collaborators
        SANITY_CHECK_AFTER_GENERATION).2.heap 0 =
        { innovation_number := 0, bias := [1], best_bias := [1] } ∧
      (genome_zero_sums.sanity_check sample_collaborators
        SANITY_CHECK_AFTER_GENERATION).2.heap 1 = genome_zero_sums.heap 1 ∧
      (genome_zero_sums.sanity_check sample_collaborators
        SANITY_CHECK_AFTER_GENERATION).2.edges =
        [{ innovation_number := 7, input_node := 0, output_node := 1,
           weights := [1], best_weights := [1] },
         { innovation_number := 8, input_node := 0, output_node := 1,
           weights := [9], best_weights := [10] }]) ∧
    ((∀ a ∈ genome_zero_sums.nodes,
        if sample_collaborators.has_zero_bias (genome_zero_sums.heap a) = true then
          ∃ r, (genome_zero_sums.sanity_check sample_collaborators
              SANITY_CHECK_AFTER_GENERATION).2.heap a =
            save_best_bias
              (initialize_bias sample_collaborators r (genome_zero_sums.heap a)).1
        else (genome_zero_sums.sanity_check sample_collaborators
            SANITY_CHECK_AFTER_GENERATION).2.heap a = genome_zero_sums.heap a) ∧
      List.Forall₂ (fun e e2 : CNN_Edge =>
          if sample_collaborators.has_zero_weight e = true then
            ∃ r, e2 = save_best_weights
              (initialize_weights sample_collaborators r e).1
          else e2 = e)
        genome_zero_sums.edges
        (genome_zero_sums.sanity_check sample_collaborators
          SANITY_CHECK_AFTER_GENERATION).2.edges) :=
  ⟨⟨by decide, by decide⟩, by decide,
    (sanity_check_repairs_zero_sums sample_collaborators genome_zero_sums).2
      (by decide) (by decide) (by decide) (by decide) (by decide)⟩

/-! ### Text streams -/

theorem digit_char (d : Nat) (hd : d < 10) :
    (Char.ofNat (48 + d)).isDigit = true ∧ digit_value (Char.ofNat (48 + d)) = d ∧
    is_space (Char.ofNat (48 + d)) = false ∧ Char.ofNat (48 + d) ≠ '-' ∧
    Char.ofNat (48 + d) ≠ '+' ∧ Char.ofNat (48 + d) ≠ '\n' := by
  interval_cases d <;> decide

theorem digits_value_append (l : List Char) (c : Char) :
    digits_value (l ++ [c]) = digits_value l * 10 + digit_value c := by
  simp [digits_value, List.foldl_append]

theorem digits_value_digits (L : List Nat) (hL : ∀ d ∈ L, d < 10) :
    digits_value (L.reverse.map (fun d => Char.ofNat (48 + d))) = Nat.ofDigits 10 L := by
  induction L with
  | nil => rfl
  | cons d L ih =>
    rw [List.reverse_cons, List.map_append, List.map_cons, List.map_nil,
      digits_value_append, ih (fun x hx => hL x (List.mem_cons_of_mem _ hx)),
      (digit_char d (hL d (List.mem_cons_self _ _))).2.1, Nat.ofDigits_cons]
    ring

theorem print_nat_ne_nil (n : Nat) : print_nat n ≠ [] := by
  unfold print_nat
  split
  · simp
  · rename_i h
    have : Nat.digits 10 n ≠ [] := by
      intro h0
      exact h (by simpa using (Nat.digits_eq_nil_iff_eq_zero.mp h0))
    simpa using this

theorem print_nat_digits (n : Nat) : ∀ c ∈ print_nat n, c.isDigit = true := by
  unfold print_nat
  split
  · intro c hc
    simp at hc
    subst hc
    decide
  · intro c hc
    simp only [List.mem_map, List.mem_reverse] at hc
    obtain ⟨d, hd, rfl⟩ := hc
    exact (digit_char d (Nat.digits_lt_base (by norm_num) hd)).1

theorem digits_value_print_nat (n : Nat) : digits_value (print_nat n) = n := by
  unfold print_nat
  split
  · rename_i h
    subst h
    rfl
  · rw [digits_value_digits _ (fun d hd => Nat.digits_lt_base (by norm_num) hd),
      Nat.ofDigits_digits]

theorem getline_line (line rest str : List Char) (hline : ∀ c ∈ line, c ≠ '\n') :
    getline { buf := line ++ '\n' :: rest } str = (line, { buf := rest }) := by
  have hp : ∀ c ∈ line, (c != '\n') = true := fun c hc => by simpa using hline c hc
  unfold getline
  simp only [IStream.good, Bool.not_false, Bool.and_self, Bool.not_true,
    Bool.false_eq_true, if_false]
  rw [List.dropWhile_append_of_pos hp, List.takeWhile_append_of_pos hp]
  simp

theorem dropWhile_space_print (ws body : List Char) (c : Char)
    (hws : ∀ x ∈ ws, is_space x = true) (hc : is_space c = false) :
    (ws ++ c :: body).dropWhile is_space = c :: body := by
  rw [List.dropWhile_append_of_pos hws, List.dropWhile_cons_of_neg (by simp [hc])]

theorem extract_nat_print (lo hi : Int) (n : Nat) (hlo : lo ≤ n) (hhi : (n : Int) ≤ hi)
    (ws : List Char) (hws : ∀ x ∈ ws, is_space x = true)
    (c : Char) (hc : c.isDigit = false) (rest : List Char) (x : Int) :
    extract_int lo hi { buf := ws ++ (print_nat n ++ c :: rest) } x =
      ((n : Int), { buf := c :: rest }) := by
  obtain ⟨d, t, hdt⟩ := List.exists_cons_of_ne_nil (print_nat_ne_nil n)
  have hall := print_nat_digits n
  have hd : d.isDigit = true := hall d (by rw [hdt]; exact List.mem_cons_self _ _)
  have hdsp : is_space d = false := by
    rcases Bool.eq_false_or_eq_true (is_space d) with h | h
    · exfalso
      simp only [is_space, Bool.or_eq_true, decide_eq_true_eq] at h
      rcases h with ((((h | h) | h) | h) | h) | h <;> (rw [h] at hd; revert hd; decide)
    · exact h
  have hdm : d ≠ '-' := by rintro rfl; revert hd; decide
  have hdp : d ≠ '+' := by rintro rfl; revert hd; decide
  have hval := digits_value_print_nat n
  unfold extract_int
  simp only [IStream.good, Bool.not_false, Bool.and_self, Bool.not_true,
    Bool.false_eq_true, if_false]
  rw [hdt, List.cons_append, dropWhile_space_print ws _ d hws hdsp]
  simp only [hdm, hdp, decide_False, Bool.or_self, Bool.false_eq_true, if_false]
  rw [← List.cons_append, ← hdt, List.takeWhile_append_of_pos hall,
    List.dropWhile_append_of_pos hall, List.takeWhile_cons_of_neg (by simp [hc]),
    List.dropWhile_cons_of_neg (by simp [hc]), List.append_nil, hval]
  have hne : (print_nat n).isEmpty = false := by
    rw [hdt]; rfl
  have h1 : ¬ ((n : Int) < lo) := by omega
  have h2 : ¬ ((n : Int) > hi) := by omega
  simp [hne, h1, h2]

theorem extract_generator_print_end (n : Nat) (hhi : (n : Int) ≤ UINT_FAST32_MAX)
    (x : Nat) :
    extract_generator { buf := print_nat n } x =
      (n, { buf := [], eof := true, fail := false }) := by
  obtain ⟨d, t, hdt⟩ := List.exists_cons_of_ne_nil (print_nat_ne_nil n)
  have hall := print_nat_digits n
  have hd : d.isDigit = true := hall d (by rw [hdt]; exact List.mem_cons_self _ _)
  have hdm : d ≠ '-' := by rintro rfl; revert hd; decide
  have hdp : d ≠ '+' := by rintro rfl; revert hd; decide
  have hval := digits_value_print_nat n
  have htake : (print_nat n).takeWhile Char.isDigit = print_nat n := by
    have := @List.takeWhile_append_of_pos Char Char.isDigit (print_nat n) [] hall
    simpa using this
  have hdrop : (print_nat n).dropWhile Char.isDigit = [] := by
    have := @List.dropWhile_append_of_pos Char Char.isDigit (print_nat n) [] hall
    simpa using this
  unfold extract_generator
  simp only [IStream.good, Bool.not_false, Bool.and_self, Bool.not_true,
    Bool.false_eq_true, if_false]
  rw [hdt]
  simp only [hdm, hdp, decide_False, Bool.or_self, Bool.false_eq_true, if_false]
  rw [← hdt, htake, hdrop, hval]
  have hne : (print_nat n).isEmpty = false := by
    rw [hdt]; rfl
  have h1 : ¬ (n > UINT_FAST32_MAX.toNat) := by
    unfold UINT_FAST32_MAX at hhi ⊢
    omega
  simp [hne, h1]

theorem extract_int_print (lo hi : Int) (n : Int) (hlo : lo ≤ n) (hhi : n ≤ hi)
    (ws : List Char) (hws : ∀ x ∈ ws, is_space x = true)
    (c : Char) (hc : c.isDigit = false) (rest : List Char) (x : Int) :
    extract_int lo hi { buf := ws ++ (print_int n ++ c :: rest) } x =
      (n, { buf := c :: rest }) := by
  unfold print_int
  by_cases hn : n < 0
  · have hall := print_nat_digits n.natAbs
    have hval := digits_value_print_nat n.natAbs
    obtain ⟨d, t, hdt⟩ := List.exists_cons_of_ne_nil (print_nat_ne_nil n.natAbs)
    simp only [hn, if_true]
    unfold extract_int
    simp only [IStream.good, Bool.not_false, Bool.and_self, Bool.not_true,
      Bool.false_eq_true, if_false]
    rw [List.cons_append, dropWhile_space_print ws _ '-' hws (by decide)]
    simp only [decide_True, Bool.true_or, if_true]
    rw [List.takeWhile_append_of_pos hall, List.dropWhile_append_of_pos hall,
      List.takeWhile_cons_of_neg (by simp [hc]),
      List.dropWhile_cons_of_neg (by simp [hc]), List.append_nil, hval]
    have hne : (print_nat n.natAbs).isEmpty = false := by
      rw [hdt]; rfl
    have hv : -(n.natAbs : Int) = n := by omega
    have h1 : ¬ (n < lo) := by omega
    have h2 : ¬ (n > hi) := by omega
    rw [hv]
    simp only [hne, h1, h2, Bool.false_eq_true, if_false, List.isEmpty_cons]
  · simp only [hn, if_false]
    have hcast : ((n.natAbs : Nat) : Int) = n := by omega
    have := extract_nat_print lo hi n.natAbs (by omega) (by omega) ws hws c hc rest x
    rw [hcast] at this
    exact this

/-! ### `write` followed by `read` -/

theorem getline_of_line (item rest str : List Char) (hitem : ∀ c ∈ item, c ≠ '\n') :
    getline { buf := line item rest } str = (item, { buf := rest }) :=
  getline_line item rest str hitem

theorem getline_empty_line (rest str : List Char) :
    getline { buf := '\n' :: rest } str = ([], { buf := rest }) :=
  getline_line [] rest str (fun _ h => absurd h (List.not_mem_nil _))

theorem extract_int_first (lo hi n : Int) (hn : lo ≤ n ∧ n ≤ hi)
    (rest : List Char) (x : Int) :
    extract_int lo hi { buf := line (print_int n) rest } x =
      (n, { buf := '\n' :: rest }) := by
  have := extract_int_print lo hi n hn.1 hn.2 [] (fun _ h => absurd h (List.not_mem_nil _))
    '\n' (by decide) rest x
  simpa [line] using this

theorem extract_int_next (lo hi n : Int) (hn : lo ≤ n ∧ n ≤ hi)
    (rest : List Char) (x : Int) :
    extract_int lo hi { buf := '\n' :: line (print_int n) rest } x =
      (n, { buf := '\n' :: rest }) := by
  have := extract_int_print lo hi n hn.1 hn.2 ['\n']
    (fun c h => by rw [List.mem_singleton.mp h]; decide) '\n' (by decide) rest x
  simpa [line] using this

theorem extract_nat_next (lo hi : Int) (n : Nat) (hn : lo ≤ n ∧ (n : Int) ≤ hi)
    (rest : List Char) (x : Int) :
    extract_int lo hi { buf := '\n' :: line (print_nat n) rest } x =
      ((n : Int), { buf := '\n' :: rest }) := by
  have := extract_nat_print lo hi n hn.1 hn.2 ['\n']
    (fun c h => by rw [List.mem_singleton.mp h]; decide) '\n' (by decide) rest x
  simpa [line] using this

theorem extract_nat_first (lo hi : Int) (n : Nat) (hn : lo ≤ n ∧ (n : Int) ≤ hi)
    (rest : List Char) (x : Int) :
    extract_int lo hi { buf := line (print_nat n) rest } x =
      ((n : Int), { buf := '\n' :: rest }) := by
  have := extract_nat_print lo hi n hn.1 hn.2 [] (fun _ h => absurd h (List.not_mem_nil _))
    '\n' (by decide) rest x
  simpa [line] using this

theorem extract_bool_next (b : Bool) (rest : List Char) (x : Bool) :
    extract_bool { buf := '\n' :: line (print_bool b) rest } x =
      (b, { buf := '\n' :: rest }) := by
  unfold extract_bool print_bool
  cases b
  · have h := extract_nat_next LONG_MIN LONG_MAX 0 (by decide) rest (-1)
    simp only [Bool.false_eq_true, if_false]
    rw [h]
    simp [IStream.good]
  · have h := extract_nat_next LONG_MIN LONG_MAX 1 (by decide) rest (-1)
    simp only [if_true]
    rw [h]
    simp [IStream.good]

/-- The scalar members of `this` after `read_header` has read the text of
the scalar members of `g`. -/
theorem read_header_write_header (C : Collaborators) (K : Codec) (hK : K.Lawful C)
    (this g : CNN_Genome) (hrep : g.representable) (rest : List Char) :
    read_header K this { buf := write_header K g rest } =
      ({ this with
        exact_id := g.exact_id
        genome_id := g.genome_id
        initial_mu := g.initial_mu
        mu := g.mu
        mu_delta := g.mu_delta
        initial_learning_rate := g.initial_learning_rate
        learning_rate := g.learning_rate
        learning_rate_delta := g.learning_rate_delta
        initial_weight_decay := g.initial_weight_decay
        weight_decay := g.weight_decay
        weight_decay_delta := g.weight_decay_delta
        input_dropout_probability := g.input_dropout_probability
        hidden_dropout_probability := g.hidden_dropout_probability
        velocity_reset := g.velocity_reset
        epoch := g.epoch
        max_epochs := g.max_epochs
        reset_weights := g.reset_weights
        best_predictions := g.best_predictions
        best_error := g.best_error
        best_predictions_epoch := g.best_predictions_epoch
        best_error_epoch := g.best_error_epoch
        generated_by_disable_edge := g.generated_by_disable_edge
        generated_by_enable_edge := g.generated_by_enable_edge
        generated_by_split_edge := g.generated_by_split_edge
        generated_by_add_edge := g.generated_by_add_edge
        generated_by_change_size := g.generated_by_change_size
        generated_by_change_size_x := g.generated_by_change_size_x
        generated_by_change_size_y := g.generated_by_change_size_y
        generated_by_crossover := g.generated_by_crossover
        generated_by_reset_weights := g.generated_by_reset_weights
        generated_by_add_node := g.generated_by_add_node
        generation_id := g.generation_id },
        { buf := '\n' :: rest }) := by
  have hi : ∀ n ∈ g.int_members, INT_MIN ≤ n ∧ n ≤ INT_MAX := hrep.1
  simp only [read_header, write_header,
    extract_int_first _ _ g.exact_id (hi _ (by simp [CNN_Genome.int_members])),
    extract_int_next _ _ g.genome_id (hi _ (by simp [CNN_Genome.int_members])),
    extract_int_next _ _ g.velocity_reset (hi _ (by simp [CNN_Genome.int_members])),
    extract_int_next _ _ g.epoch (hi _ (by simp [CNN_Genome.int_members])),
    extract_int_next _ _ g.max_epochs (hi _ (by simp [CNN_Genome.int_members])),
    extract_int_next _ _ g.best_predictions (hi _ (by simp [CNN_Genome.int_members])),
    extract_int_next _ _ g.best_predictions_epoch (hi _ (by simp [CNN_Genome.int_members])),
    extract_int_next _ _ g.best_error_epoch (hi _ (by simp [CNN_Genome.int_members])),
    extract_int_next _ _ g.generated_by_disable_edge (hi _ (by simp [CNN_Genome.int_members])),
    extract_int_next _ _ g.generated_by_enable_edge (hi _ (by simp [CNN_Genome.int_members])),
    extract_int_next _ _ g.generated_by_split_edge (hi _ (by simp [CNN_Genome.int_members])),
    extract_int_next _ _ g.generated_by_add_edge (hi _ (by simp [CNN_Genome.int_members])),
    extract_int_next _ _ g.generated_by_change_size (hi _ (by simp [CNN_Genome.int_members])),
    extract_int_next _ _ g.generated_by_change_size_x (hi _ (by simp [CNN_Genome.int_members])),
    extract_int_next _ _ g.generated_by_change_size_y (hi _ (by simp [CNN_Genome.int_members])),
    extract_int_next _ _ g.generated_by_crossover (hi _ (by simp [CNN_Genome.int_members])),
    extract_int_next _ _ g.generated_by_reset_weights (hi _ (by simp [CNN_Genome.int_members])),
    extract_int_next _ _ g.generated_by_add_node (hi _ (by simp [CNN_Genome.int_members])),
    extract_int_next _ _ g.generation_id (hi _ (by simp [CNN_Genome.int_members])),
    hK.hexfloat, extract_bool_next]

theorem print_nat_no_newline (n : Nat) : ∀ c ∈ print_nat n, c ≠ '\n' := by
  intro c hc h
  have := print_nat_digits n c hc
  rw [h] at this
  revert this
  decide

/-- The random source of `this` after `read_random` has read the text of the
random source of `g`. -/
theorem read_random_write_random (C : Collaborators) (K : Codec) (hK : K.Lawful C)
    (this g : CNN_Genome) (hrep : g.representable) (rest : List Char) :
    read_random K this { buf := '\n' :: write_random K g rest } =
      ({ this with rng := g.rng }, { buf := rest }) := by
  simp only [read_random, write_random, hK.normal_distribution, getline_empty_line,
    getline_of_line _ _ _ (print_nat_no_newline g.rng.generator),
    extract_generator_print_end g.rng.generator hrep.2.2.2]

theorem loaded_nodes_succ (fresh : Nat → Nat) (m len : Nat) :
    loaded_nodes fresh m (len + 1) = fresh m :: loaded_nodes fresh (m + 1) len := by
  unfold loaded_nodes
  rw [List.range_succ_eq_map, List.map_cons, List.map_map]
  simp [Function.comp_def, Nat.add_assoc, Nat.add_comm 1]

theorem read_node_loop_write (C : Collaborators) (K : Codec) (hK : K.Lawful C)
    (fresh : Nat → Nat) (heap : Nat → CNN_Node) (l : List Nat)
    (this : CNN_Genome) (rest : List Char) :
    read_node_loop K fresh l.length this
        { buf := '\n' :: write_node_loop K heap l rest } =
      ({ this with
          heap := loaded_heap K fresh heap l this.nodes.length this.heap
          nodes := this.nodes ++ loaded_nodes fresh this.nodes.length l.length },
        { buf := '\n' :: rest }) := by
  induction l generalizing this with
  | nil => simp [read_node_loop, write_node_loop, loaded_heap, loaded_nodes]
  | cons a l ih =>
    simp only [List.length_cons, read_node_loop, write_node_loop, hK.node, ih,
      loaded_heap, loaded_nodes_succ, List.length_append, List.length_singleton,
      List.append_assoc, List.singleton_append, List.length_nil, Nat.zero_add]

theorem read_edge_loop_write (C : Collaborators) (K : Codec) (hK : K.Lawful C)
    (heap : Nat → CNN_Node) (l : List CNN_Edge) (this : CNN_Genome)
    (hfit : ∀ e ∈ l, (K.set_nodes this.heap this.nodes (K.edge_image heap e)).isSome = true)
    (rest : List Char) :
    read_edge_loop K l.length this { buf := '\n' :: write_edge_loop K heap l rest } =
      some ({ this with
          edges := this.edges ++ loaded_edges K heap this.heap this.nodes l },
        { buf := '\n' :: rest }) := by
  induction l generalizing this with
  | nil => simp [read_edge_loop, write_edge_loop, loaded_edges]
  | cons e l ih =>
    obtain ⟨e2, he2⟩ := Option.isSome_iff_exists.mp (hfit e (List.mem_cons_self _ _))
    simp only [List.length_cons, read_edge_loop, write_edge_loop, hK.edge, he2]
    rw [ih { this with edges := this.edges ++ [e2] }
      (fun x hx => hfit x (List.mem_cons_of_mem _ hx))]
    simp [loaded_edges, List.filterMap_cons, he2]

theorem read_input_loop_write (heap : Nat → CNN_Node) (l : List Nat)
    (hl : ∀ a ∈ l, INT_MIN ≤ (heap a).innovation_number ∧
      (heap a).innovation_number ≤ INT_MAX)
    (number : Int) (this : CNN_Genome) (rest : List Char) :
    read_input_loop l.length number this { buf := '\n' :: write_innovation_loop heap l rest } =
      ({ this with
          input_nodes := this.input_nodes ++ loaded_view heap l this.heap this.nodes },
        { buf := '\n' :: rest }) := by
  induction l generalizing this number with
  | nil => simp [read_input_loop, write_innovation_loop, loaded_view]
  | cons a l ih =>
    have ha := hl a (List.mem_cons_self _ _)
    have hl2 : ∀ b ∈ l, INT_MIN ≤ (heap b).innovation_number ∧
        (heap b).innovation_number ≤ INT_MAX :=
      fun b hb => hl b (List.mem_cons_of_mem _ hb)
    simp only [List.length_cons, read_input_loop, write_innovation_loop,
      extract_int_next _ _ _ ha]
    cases hf : find_node this.heap this.nodes (heap a).innovation_number with
    | none =>
      simp only [ih hl2]
      simp [loaded_view, List.filterMap_cons, hf]
    | some b =>
      simp only [ih hl2]
      simp [loaded_view, List.filterMap_cons, hf]

theorem read_softmax_loop_write (heap : Nat → CNN_Node) (l : List Nat)
    (hl : ∀ a ∈ l, INT_MIN ≤ (heap a).innovation_number ∧
      (heap a).innovation_number ≤ INT_MAX)
    (number : Int) (this : CNN_Genome) (rest : List Char) :
    read_softmax_loop l.length number this { buf := '\n' :: write_innovation_loop heap l rest } =
      ({ this with
          softmax_nodes := this.softmax_nodes ++ loaded_view heap l this.heap this.nodes },
        { buf := '\n' :: rest }) := by
  induction l generalizing this number with
  | nil => simp [read_softmax_loop, write_innovation_loop, loaded_view]
  | cons a l ih =>
    have ha := hl a (List.mem_cons_self _ _)
    have hl2 : ∀ b ∈ l, INT_MIN ≤ (heap b).innovation_number ∧
        (heap b).innovation_number ≤ INT_MAX :=
      fun b hb => hl b (List.mem_cons_of_mem _ hb)
    simp only [List.length_cons, read_softmax_loop, write_innovation_loop,
      extract_int_next _ _ _ ha]
    cases hf : find_node this.heap this.nodes (heap a).innovation_number with
    | none =>
      simp only [ih hl2]
      simp [loaded_view, List.filterMap_cons, hf]
    | some b =>
      simp only [ih hl2]
      simp [loaded_view, List.filterMap_cons, hf]

theorem write_spaced_succ {α : Type} (print : α → List Char) (i : Nat)
    (xs : List α) (rest : List Char) :
    write_spaced print (i + 1) xs rest = blank_items print xs rest := by
  induction xs generalizing i with
  | nil => rfl
  | cons x xs ih =>
    have h := ih (i + 1)
    simp only [write_spaced, blank_items, List.foldr_cons] at h ⊢
    rw [h]
    simp

theorem write_spaced_zero_cons {α : Type} (print : α → List Char) (x : α)
    (xs : List α) (rest : List Char) :
    write_spaced print 0 (x :: xs) rest = print x ++ blank_items print xs rest := by
  simp [write_spaced, write_spaced_succ]

theorem blank_items_head {α : Type} (print : α → List Char) (xs : List α)
    (rest : List Char) :
    ∃ c r, blank_items print xs ('\n' :: rest) = c :: r ∧ (c = ' ' ∨ c = '\n') := by
  cases xs with
  | nil => exact ⟨'\n', rest, rfl, Or.inr rfl⟩
  | cons x xs => exact ⟨' ', _, rfl, Or.inl rfl⟩

theorem extract_int_item (lo hi n : Int) (hn : lo ≤ n ∧ n ≤ hi) (sep term : Char)
    (hsep : sep = ' ' ∨ sep = '\n') (hterm : term = ' ' ∨ term = '\n')
    (rest : List Char) (x : Int) :
    extract_int lo hi { buf := sep :: (print_int n ++ term :: rest) } x =
      (n, { buf := term :: rest }) := by
  have := extract_int_print lo hi n hn.1 hn.2 [sep]
    (fun c h => by
      rw [List.mem_singleton.mp h]
      rcases hsep with h | h <;> (rw [h]; decide))
    term (by rcases hterm with h | h <;> (rw [h]; decide)) rest x
  simpa using this

theorem read_order_loop_items (xs : List Int)
    (hxs : ∀ n ∈ xs, LONG_MIN ≤ n ∧ n ≤ LONG_MAX) (order : Int) (this : CNN_Genome)
    (rest : List Char) :
    read_order_loop xs.length order this { buf := blank_items print_int xs ('\n' :: rest) } =
      ({ this with backprop_order := this.backprop_order ++ xs },
        { buf := '\n' :: rest }) := by
  induction xs generalizing this order with
  | nil => simp [read_order_loop, blank_items]
  | cons x xs ih =>
    obtain ⟨c, r, hcr, hc⟩ := blank_items_head print_int xs rest
    have hstep : blank_items print_int (x :: xs) ('\n' :: rest) =
        ' ' :: (print_int x ++ c :: r) := by
      rw [← hcr]; rfl
    simp only [List.length_cons, read_order_loop, hstep,
      extract_int_item _ _ x (hxs x (List.mem_cons_self _ _)) ' ' c (Or.inl rfl) hc]
    rw [← hcr, ih (fun n hn => hxs n (List.mem_cons_of_mem _ hn))]
    simp

theorem read_order_loop_write (xs : List Int)
    (hxs : ∀ n ∈ xs, LONG_MIN ≤ n ∧ n ≤ LONG_MAX) (order : Int) (this : CNN_Genome)
    (rest : List Char) :
    read_order_loop xs.length order this
        { buf := '\n' :: write_spaced print_int 0 xs ('\n' :: rest) } =
      ({ this with backprop_order := this.backprop_order ++ xs },
        { buf := if xs.length = 0 then '\n' :: '\n' :: rest else '\n' :: rest }) := by
  cases xs with
  | nil => simp [read_order_loop, write_spaced]
  | cons x xs =>
    obtain ⟨c, r, hcr, hc⟩ := blank_items_head print_int xs rest
    simp only [List.length_cons, read_order_loop, write_spaced_zero_cons, hcr,
      extract_int_item _ _ x (hxs x (List.mem_cons_self _ _)) '\n' c (Or.inr rfl) hc]
    rw [← hcr, read_order_loop_items xs (fun n hn => hxs n (List.mem_cons_of_mem _ hn))]
    simp

theorem read_error_loop_items (C : Collaborators) (K : Codec) (hK : K.Lawful C)
    (xs : List ℚ) (error : ℚ) (this : CNN_Genome) (rest : List Char) :
    read_error_loop K xs.length error this
        { buf := blank_items K.write_double xs ('\n' :: rest) } =
      ({ this with best_class_error := this.best_class_error ++ xs.map K.double_image },
        { buf := '\n' :: rest }) := by
  induction xs generalizing this error with
  | nil => simp [read_error_loop, blank_items]
  | cons x xs ih =>
    obtain ⟨c, r, hcr, hc⟩ := blank_items_head K.write_double xs rest
    have hstep : blank_items K.write_double (x :: xs) ('\n' :: rest) =
        ' ' :: (K.write_double x ++ c :: r) := by
      rw [← hcr]; rfl
    simp only [List.length_cons, read_error_loop, hstep,
      hK.double x error ' ' c r (Or.inl rfl) hc]
    rw [← hcr, ih]
    simp

theorem read_error_loop_write (C : Collaborators) (K : Codec) (hK : K.Lawful C)
    (xs : List ℚ) (error : ℚ) (this : CNN_Genome) (rest : List Char) :
    read_error_loop K xs.length error this
        { buf := '\n' :: write_spaced K.write_double 0 xs ('\n' :: rest) } =
      ({ this with best_class_error := this.best_class_error ++ xs.map K.double_image },
        { buf := if xs.length = 0 then '\n' :: '\n' :: rest else '\n' :: rest }) := by
  cases xs with
  | nil => simp [read_error_loop, write_spaced]
  | cons x xs =>
    obtain ⟨c, r, hcr, hc⟩ := blank_items_head K.write_double xs rest
    simp only [List.length_cons, read_error_loop, write_spaced_zero_cons, hcr,
      hK.double x error '\n' c r (Or.inr rfl) hc]
    rw [← hcr, read_error_loop_items C K hK xs]
    simp

theorem double_to_int_cast (n : Int) : double_to_int (n : ℚ) = n := by
  unfold double_to_int
  split <;> simp

theorem read_predictions_loop_items (C : Collaborators) (K : Codec) (hK : K.Lawful C)
    (xs : List Int) (hxs : ∀ n ∈ xs, INT_MIN ≤ n ∧ n ≤ INT_MAX)
    (predictions : ℚ) (this : CNN_Genome) (rest : List Char) :
    read_predictions_loop K xs.length predictions this
        { buf := blank_items print_int xs ('\n' :: rest) } =
      ({ this with best_correct_predictions := this.best_correct_predictions ++ xs },
        { buf := '\n' :: rest }) := by
  induction xs generalizing this predictions with
  | nil => simp [read_predictions_loop, blank_items]
  | cons x xs ih =>
    obtain ⟨c, r, hcr, hc⟩ := blank_items_head print_int xs rest
    have hx := hxs x (List.mem_cons_self _ _)
    have hstep : blank_items print_int (x :: xs) ('\n' :: rest) =
        ' ' :: (print_int x ++ c :: r) := by
      rw [← hcr]; rfl
    simp only [List.length_cons, read_predictions_loop, hstep,
      hK.double_int x predictions ' ' c r hx.1 hx.2 (Or.inl rfl) hc, double_to_int_cast]
    rw [← hcr, ih (fun n hn => hxs n (List.mem_cons_of_mem _ hn))]
    simp

theorem read_predictions_loop_write (C : Collaborators) (K : Codec) (hK : K.Lawful C)
    (xs : List Int) (hxs : ∀ n ∈ xs, INT_MIN ≤ n ∧ n ≤ INT_MAX)
    (predictions : ℚ) (this : CNN_Genome) (rest : List Char) :
    (read_predictions_loop K xs.length predictions this
        { buf := '\n' :: write_spaced print_int 0 xs ('\n' :: rest) }).1 =
      { this with best_correct_predictions := this.best_correct_predictions ++ xs } := by
  cases xs with
  | nil => simp [read_predictions_loop, write_spaced]
  | cons x xs =>
    obtain ⟨c, r, hcr, hc⟩ := blank_items_head print_int xs rest
    have hx := hxs x (List.mem_cons_self _ _)
    simp only [List.length_cons, read_predictions_loop, write_spaced_zero_cons, hcr,
      hK.double_int x predictions '\n' c r hx.1 hx.2 (Or.inr rfl) hc, double_to_int_cast]
    rw [← hcr, read_predictions_loop_items C K hK xs
      (fun n hn => hxs n (List.mem_cons_of_mem _ hn))]
    simp

theorem read_predictions_section_write (C : Collaborators) (K : Codec)
    (hK : K.Lawful C) (this g : CNN_Genome) (hrep : g.representable)
    (str : List Char) :
    read_predictions_section K this
        (getline (IStream.mk (write_predictions g []) false false) str).2
        (getline (IStream.mk (write_predictions g []) false false) str).1 =
      Outcome.returned { this with
        best_correct_predictions := g.best_correct_predictions } := by
  have hi : ∀ n ∈ g.int_members, INT_MIN ≤ n ∧ n ≤ INT_MAX := hrep.1
  have h2 := hi g.best_correct_predictions.length (by simp [CNN_Genome.int_members])
  have h3 : ∀ n ∈ g.best_correct_predictions, INT_MIN ≤ n ∧ n ≤ INT_MAX :=
    fun n hn => hi n (by simp [CNN_Genome.int_members, hn])
  simp only [write_predictions, read_predictions_section,
    getline_of_line "BEST_CORRECT_PREDICTIONS".toList _ _ (by decide),
    ne_eq, not_true_eq_false, if_false, extract_nat_first _ _ _ h2, Int.toNat_ofNat,
    read_predictions_loop_write C K hK _ h3, List.nil_append]

theorem read_error_section_write (C : Collaborators) (K : Codec)
    (hK : K.Lawful C) (this g : CNN_Genome) (hrep : g.representable)
    (str : List Char) :
    read_error_section K this
        (getline (IStream.mk (write_errors K g (write_predictions g [])) false false)
          str).2
        (getline (IStream.mk (write_errors K g (write_predictions g [])) false false)
          str).1 =
      Outcome.returned { this with
        best_class_error := g.best_class_error.map K.double_image
        best_correct_predictions := g.best_correct_predictions } := by
  have hi : ∀ n ∈ g.int_members, INT_MIN ≤ n ∧ n ≤ INT_MAX := hrep.1
  have h1 := hi g.best_class_error.length (by simp [CNN_Genome.int_members])
  simp only [write_errors, read_error_section,
    getline_of_line "BEST_CLASS_ERROR".toList _ _ (by decide),
    ne_eq, not_true_eq_false, if_false, extract_nat_first _ _ _ h1, Int.toNat_ofNat,
    read_error_loop_write C K hK, List.nil_append]
  by_cases hlen : g.best_class_error.length = 0
  · simp only [hlen, Nat.cast_zero, if_true, getline_empty_line]
    exact read_predictions_section_write C K hK _ g hrep _
  · have hlen2 : ¬ ((g.best_class_error.length : Int) = 0) := by omega
    simp only [hlen, hlen2, if_false, getline_empty_line]
    exact read_predictions_section_write C K hK _ g hrep _

theorem read_order_section_write (C : Collaborators) (K : Codec)
    (hK : K.Lawful C) (this g : CNN_Genome) (hrep : g.representable)
    (str : List Char) :
    read_order_section K this
        (getline (IStream.mk
          (write_order g (write_errors K g (write_predictions g []))) false false)
          str).2
        (getline (IStream.mk
          (write_order g (write_errors K g (write_predictions g []))) false false)
          str).1 =
      Outcome.returned { this with
        backprop_order := g.backprop_order
        best_class_error := g.best_class_error.map K.double_image
        best_correct_predictions := g.best_correct_predictions } := by
  have h5 : LONG_MIN ≤ (g.backprop_order.length : Int) ∧
      (g.backprop_order.length : Int) ≤ LONG_MAX :=
    ⟨le_trans (by decide : LONG_MIN ≤ 0) (Int.natCast_nonneg _), hrep.2.2.1⟩
  simp only [write_order, read_order_section,
    getline_of_line "BACKPROP_ORDER".toList _ _ (by decide),
    ne_eq, not_true_eq_false, if_false, extract_nat_first _ _ _ h5, Int.toNat_ofNat,
    read_order_loop_write _ hrep.2.1, List.nil_append]
  by_cases hlen : g.backprop_order.length = 0
  · simp only [hlen, Nat.cast_zero, if_true, getline_empty_line]
    exact read_error_section_write C K hK _ g hrep _
  · have hlen2 : ¬ ((g.backprop_order.length : Int) = 0) := by omega
    simp only [hlen, hlen2, if_false, getline_empty_line]
    exact read_error_section_write C K hK _ g hrep _

theorem read_innovation_section_write (C : Collaborators) (K : Codec)
    (hK : K.Lawful C) (this g : CNN_Genome) (hrep : g.representable)
    (str : List Char) :
    read_innovation_section K this
        (getline (IStream.mk (write_innovation g
          (write_order g (write_errors K g (write_predictions g [])))) false false)
          str).2
        (getline (IStream.mk (write_innovation g
          (write_order g (write_errors K g (write_predictions g [])))) false false)
          str).1 =
      Outcome.returned { this with
        input_nodes := loaded_view g.heap g.input_nodes this.heap this.nodes
        softmax_nodes := loaded_view g.heap g.softmax_nodes this.heap this.nodes
        backprop_order := g.backprop_order
        best_class_error := g.best_class_error.map K.double_image
        best_correct_predictions := g.best_correct_predictions } := by
  have hi : ∀ n ∈ g.int_members, INT_MIN ≤ n ∧ n ≤ INT_MAX := hrep.1
  have h1 := hi g.input_nodes.length (by simp [CNN_Genome.int_members])
  have h2 := hi g.softmax_nodes.length (by simp [CNN_Genome.int_members])
  have h3 : ∀ a ∈ g.input_nodes, INT_MIN ≤ (g.heap a).innovation_number ∧
      (g.heap a).innovation_number ≤ INT_MAX :=
    fun a ha => hi (g.heap a).innovation_number (by
      simp only [CNN_Genome.int_members, List.mem_append, List.mem_map]
      exact Or.inl (Or.inl (Or.inr ⟨a, ha, rfl⟩)))
  have h4 : ∀ a ∈ g.softmax_nodes, INT_MIN ≤ (g.heap a).innovation_number ∧
      (g.heap a).innovation_number ≤ INT_MAX :=
    fun a ha => hi (g.heap a).innovation_number (by
      simp only [CNN_Genome.int_members, List.mem_append, List.mem_map]
      exact Or.inl (Or.inr ⟨a, ha, rfl⟩))
  simp only [write_innovation, read_innovation_section,
    getline_of_line "INNOVATION_NUMBERS".toList _ _ (by decide),
    ne_eq, not_true_eq_false, if_false, extract_nat_first _ _ _ h1, Int.toNat_ofNat,
    read_input_loop_write g.heap g.input_nodes h3, extract_nat_next _ _ _ h2,
    read_softmax_loop_write g.heap g.softmax_nodes h4, getline_empty_line,
    List.nil_append]
  exact read_order_section_write C K hK _ g hrep _

theorem read_edges_section_write (C : Collaborators) (K : Codec)
    (hK : K.Lawful C) (this g : CNN_Genome) (hrep : g.representable)
    (hfit : ∀ e ∈ g.edges,
      (K.set_nodes this.heap this.nodes (K.edge_image g.heap e)).isSome = true)
    (str : List Char) :
    read_edges_section K this
        (getline (IStream.mk (write_edges K g (write_innovation g
          (write_order g (write_errors K g (write_predictions g []))))) false false)
          str).2
        (getline (IStream.mk (write_edges K g (write_innovation g
          (write_order g (write_errors K g (write_predictions g []))))) false false)
          str).1 =
      Outcome.returned { this with
        edges := loaded_edges K g.heap this.heap this.nodes g.edges
        input_nodes := loaded_view g.heap g.input_nodes this.heap this.nodes
        softmax_nodes := loaded_view g.heap g.softmax_nodes this.heap this.nodes
        backprop_order := g.backprop_order
        best_class_error := g.best_class_error.map K.double_image
        best_correct_predictions := g.best_correct_predictions } := by
  have hi : ∀ n ∈ g.int_members, INT_MIN ≤ n ∧ n ≤ INT_MAX := hrep.1
  have h1 := hi g.edges.length (by simp [CNN_Genome.int_members])
  simp only [write_edges, read_edges_section,
    getline_of_line ['E', 'D', 'G', 'E', 'S'] _ _ (by decide),
    ne_eq, not_true_eq_false, if_false, extract_nat_first _ _ _ h1, Int.toNat_ofNat]
  rw [read_edge_loop_write C K hK g.heap g.edges { this with edges := [] } hfit]
  simp only [getline_empty_line, List.nil_append]
  exact read_innovation_section_write C K hK _ g hrep _

theorem read_nodes_section_write (C : Collaborators) (K : Codec)
    (hK : K.Lawful C) (fresh : Nat → Nat) (this g : CNN_Genome)
    (hrep : g.representable) (hfit : g.edges_fit K fresh this) (str : List Char) :
    read_nodes_section K fresh this
        (getline (IStream.mk (write_nodes K g (write_edges K g (write_innovation g
          (write_order g (write_errors K g (write_predictions g [])))))) false false)
          str).2
        (getline (IStream.mk (write_nodes K g (write_edges K g (write_innovation g
          (write_order g (write_errors K g (write_predictions g [])))))) false false)
          str).1 =
      Outcome.returned { this with
        heap := loaded_heap K fresh g.heap g.nodes 0 this.heap
        nodes := loaded_nodes fresh 0 g.nodes.length
        edges := loaded_edges K g.heap (loaded_heap K fresh g.heap g.nodes 0 this.heap)
          (loaded_nodes fresh 0 g.nodes.length) g.edges
        input_nodes := loaded_view g.heap g.input_nodes
          (loaded_heap K fresh g.heap g.nodes 0 this.heap)
          (loaded_nodes fresh 0 g.nodes.length)
        softmax_nodes := loaded_view g.heap g.softmax_nodes
          (loaded_heap K fresh g.heap g.nodes 0 this.heap)
          (loaded_nodes fresh 0 g.nodes.length)
        backprop_order := g.backprop_order
        best_class_error := g.best_class_error.map K.double_image
        best_correct_predictions := g.best_correct_predictions } := by
  have hi : ∀ n ∈ g.int_members, INT_MIN ≤ n ∧ n ≤ INT_MAX := hrep.1
  have h1 := hi g.nodes.length (by simp [CNN_Genome.int_members])
  simp only [write_nodes, read_nodes_section,
    getline_of_line ['N', 'O', 'D', 'E', 'S'] _ _ (by decide),
    ne_eq, not_true_eq_false, if_false, extract_nat_first _ _ _ h1, Int.toNat_ofNat,
    read_node_loop_write C K hK, getline_empty_line, List.nil_append, List.length_nil]
  refine read_edges_section_write C K hK _ g hrep ?_ _
  exact hfit

/-- What `read` makes of the text that `write` produced: it returns, and the
genome it leaves is `loaded`. -/
theorem read_write_eq (C : Collaborators) (K : Codec) (hK : K.Lawful C)
    (fresh : Nat → Nat) (this g : CNN_Genome) (hrep : g.representable)
    (hfit : g.edges_fit K fresh this) :
    this.read K fresh { buf := g.write K } =
      Outcome.returned (CNN_Genome.loaded K fresh this g) := by
  have hv1 : ¬ (('v' :: EXACT_VERSION).length < 1) := by decide
  have hv2 : (('v' :: EXACT_VERSION).drop 1).take 4 = EXACT_VERSION := by decide
  unfold CNN_Genome.read CNN_Genome.write
  rw [getline_of_line ('v' :: EXACT_VERSION) _ _ (by decide)]
  unfold read_versioned
  dsimp only
  rw [if_neg hv1, if_neg (not_not.mpr hv2), read_header_write_header C K hK _ g hrep]
  dsimp only
  rw [read_random_write_random C K hK _ g hrep]
  refine read_nodes_section_write C K hK fresh _ g hrep ?_ _
  exact hfit

/-! ### The genome read back -/

theorem loaded_heap_other (K : Codec) (fresh : Nat → Nat) (heap : Nat → CNN_Node)
    (l : List Nat) (m : Nat) (h : Nat → CNN_Node) (b : Nat)
    (hb : ∀ j, j < l.length → b ≠ fresh (m + j)) :
    loaded_heap K fresh heap l m h b = h b := by
  induction l generalizing m h with
  | nil => rfl
  | cons a l ih =>
    unfold loaded_heap
    rw [ih (m + 1) _ (fun j hj => by
      have := hb (j + 1) (by simpa using hj)
      rwa [show m + (j + 1) = m + 1 + j by omega] at this)]
    exact Function.update_noteq (by simpa using hb 0 (by simp)) _ _

theorem loaded_heap_get (K : Codec) (fresh : Nat → Nat)
    (hfresh : Function.Injective fresh) (heap : Nat → CNN_Node) (l : List Nat)
    (m : Nat) (h : Nat → CNN_Node) (i : Nat) (hi : i < l.length) :
    loaded_heap K fresh heap l m h (fresh (m + i)) =
      K.node_image (heap (l.get ⟨i, hi⟩)) := by
  induction l generalizing m h i with
  | nil => exact absurd hi (Nat.not_lt_zero _)
  | cons a l ih =>
    unfold loaded_heap
    cases i with
    | zero =>
      rw [loaded_heap_other K fresh heap l (m + 1) _ (fresh (m + 0)) (fun j _ hj => by
        have := hfresh hj
        omega)]
      simp
    | succ i =>
      have := ih (m + 1) (Function.update h (fresh m) (K.node_image (heap a))) i
        (by simpa using hi)
      rw [show m + (i + 1) = m + 1 + i by omega]
      simpa using this

theorem mem_loaded_nodes (fresh : Nat → Nat) (len i : Nat) (hi : i < len) :
    fresh i ∈ loaded_nodes fresh 0 len := by
  unfold loaded_nodes
  exact List.mem_map.mpr ⟨i, List.mem_range.mpr hi, by simp⟩

/-- Every node of the node list of `g` is found again, by its innovation
number, among the nodes read back. -/
theorem find_node_loaded (C : Collaborators) (K : Codec) (hK : K.Lawful C)
    (fresh : Nat → Nat) (hfresh : Function.Injective fresh) (g : CNN_Genome)
    (h : Nat → CNN_Node) (a : Nat) (ha : a ∈ g.nodes) :
    ∃ b, find_node (loaded_heap K fresh g.heap g.nodes 0 h)
        (loaded_nodes fresh 0 g.nodes.length) (g.heap a).innovation_number = some b ∧
      (loaded_heap K fresh g.heap g.nodes 0 h b).innovation_number =
        (g.heap a).innovation_number := by
  obtain ⟨i, hi, hget⟩ := List.getElem_of_mem ha
  have hget2 : g.nodes.get ⟨i, hi⟩ = a := hget
  have himg := loaded_heap_get K fresh hfresh g.heap g.nodes 0 h i hi
  rw [Nat.zero_add, hget2] at himg
  have hsome : (find_node (loaded_heap K fresh g.heap g.nodes 0 h)
      (loaded_nodes fresh 0 g.nodes.length) (g.heap a).innovation_number).isSome = true := by
    unfold find_node
    rw [List.find?_isSome]
    refine ⟨fresh i, mem_loaded_nodes fresh _ i hi, ?_⟩
    rw [himg, hK.node_innovation_number]
    simp
  obtain ⟨b, hb⟩ := Option.isSome_iff_exists.mp hsome
  refine ⟨b, hb, ?_⟩
  have := List.find?_some hb
  simpa using this

theorem loaded_view_innovation_numbers (C : Collaborators) (K : Codec)
    (hK : K.Lawful C) (fresh : Nat → Nat) (hfresh : Function.Injective fresh)
    (g : CNN_Genome) (h : Nat → CNN_Node) (view : List Nat)
    (hview : ∀ a ∈ view, a ∈ g.nodes) :
    (loaded_view g.heap view (loaded_heap K fresh g.heap g.nodes 0 h)
        (loaded_nodes fresh 0 g.nodes.length)).map
      (fun b => (loaded_heap K fresh g.heap g.nodes 0 h b).innovation_number) =
    view.map (fun a => (g.heap a).innovation_number) := by
  induction view with
  | nil => rfl
  | cons a view ih =>
    obtain ⟨b, hb, hbn⟩ := find_node_loaded C K hK fresh hfresh g h a
      (hview a (List.mem_cons_self _ _))
    have ih2 := ih (fun x hx => hview x (List.mem_cons_of_mem _ hx))
    unfold loaded_view at ih2 ⊢
    rw [List.filterMap_cons, hb]
    simp only [List.map_cons, hbn, ih2]

/-- When `set_nodes` accepts them, the edges read back stand, one by one,
for the edges written. -/
theorem loaded_edges_same (C : Collaborators) (K : Codec) (hK : K.Lawful C)
    (heap heap2 : Nat → CNN_Node) (nodes2 : List Nat) (l : List CNN_Edge)
    (hfit : ∀ e ∈ l, (K.set_nodes heap2 nodes2 (K.edge_image heap e)).isSome = true) :
    List.Forall₂ (fun e e2 => same_edge C e2 e) l
      (loaded_edges K heap heap2 nodes2 l) := by
  induction l with
  | nil => exact List.Forall₂.nil
  | cons e l ih =>
    obtain ⟨e2, he2⟩ := Option.isSome_iff_exists.mp (hfit e (List.mem_cons_self _ _))
    unfold loaded_edges
    rw [List.filterMap_cons, he2]
    refine List.Forall₂.cons ?_ (ih (fun x hx => hfit x (List.mem_cons_of_mem _ hx)))
    have h1 := hK.set_nodes_same heap2 nodes2 _ e2 he2
    have h2 := hK.edge_same heap e
    exact ⟨h1.1.trans h2.1, h1.2.1.trans h2.2.1,
      fun x => ⟨((h1.2.2 x).1).trans ((h2.2.2 x).1), ((h1.2.2 x).2).trans ((h2.2.2 x).2)⟩⟩

theorem forall₂_same_mem (C : Collaborators) (l l2 : List CNN_Edge)
    (h : List.Forall₂ (fun e e2 => same_edge C e2 e) l l2) :
    (∀ e2 ∈ l2, ∃ e ∈ l, same_edge C e2 e) ∧ (∀ e ∈ l, ∃ e2 ∈ l2, same_edge C e2 e) := by
  induction h with
  | nil => simp
  | cons hhead _ ih =>
    refine ⟨fun e2 he2 => ?_, fun e he => ?_⟩
    · rcases List.mem_cons.mp he2 with rfl | hmem
      · exact ⟨_, List.mem_cons_self _ _, hhead⟩
      · obtain ⟨e, he, hs⟩ := ih.1 e2 hmem
        exact ⟨e, List.mem_cons_of_mem _ he, hs⟩
    · rcases List.mem_cons.mp he with rfl | hmem
      · exact ⟨_, List.mem_cons_self _ _, hhead⟩
      · obtain ⟨e2, he2, hs⟩ := ih.2 e hmem
        exact ⟨e2, List.mem_cons_of_mem _ he2, hs⟩

/-- When every edge of `a2` stands for an edge of `a` and every edge of `a` has
an edge of `a2` standing for it, `equals` does not tell `a2` from `a`, on
either side of the call. -/
theorem equals_iff_of_same (C : Collaborators) (a a2 b : CNN_Genome)
    (h1 : ∀ e2 ∈ a2.edges, ∃ e ∈ a.edges, same_edge C e2 e)
    (h2 : ∀ e ∈ a.edges, ∃ e2 ∈ a2.edges, same_edge C e2 e) :
    a2.equals C b = a.equals C b ∧ b.equals C a2 = b.equals C a := by
  constructor
  · rw [Bool.eq_iff_iff, equals_iff, equals_iff]
    constructor
    · rintro ⟨p, q⟩
      refine ⟨fun e he hed => ?_, fun oe hoe hod => ?_⟩
      · obtain ⟨e2, he2, hs⟩ := h2 e he
        have hp := p e2 he2 (hs.2.1.trans hed)
        refine ⟨fun oe hoe hod hn => ?_, ?_⟩
        · rw [← (hs.2.2 oe).1]
          exact hp.1 oe hoe hod (hs.1.trans hn)
        · obtain ⟨oe, hoe, hod, hn⟩ := hp.2
          exact ⟨oe, hoe, hod, hs.1.symm.trans hn⟩
      · obtain ⟨e2, he2, hd2, hn2⟩ := q oe hoe hod
        obtain ⟨e, he, hs⟩ := h1 e2 he2
        exact ⟨e, he, hs.2.1.symm.trans hd2, hs.1.symm.trans hn2⟩
    · rintro ⟨p, q⟩
      refine ⟨fun e2 he2 hed => ?_, fun oe hoe hod => ?_⟩
      · obtain ⟨e, he, hs⟩ := h1 e2 he2
        have hp := p e he (hs.2.1.symm.trans hed)
        refine ⟨fun oe hoe hod hn => ?_, ?_⟩
        · rw [(hs.2.2 oe).1]
          exact hp.1 oe hoe hod (hs.1.symm.trans hn)
        · obtain ⟨oe, hoe, hod, hn⟩ := hp.2
          exact ⟨oe, hoe, hod, hs.1.trans hn⟩
      · obtain ⟨e, he, hd, hn⟩ := q oe hoe hod
        obtain ⟨e2, he2, hs⟩ := h2 e he
        exact ⟨e2, he2, hs.2.1.trans hd, hs.1.trans hn⟩
  · rw [Bool.eq_iff_iff, equals_iff, equals_iff]
    constructor
    · rintro ⟨p, q⟩
      refine ⟨fun oe hoe hod => ?_, fun e he hed => ?_⟩
      · have hp := p oe hoe hod
        refine ⟨fun e he hed hn => ?_, ?_⟩
        · obtain ⟨e2, he2, hs⟩ := h2 e he
          rw [← (hs.2.2 oe).2]
          exact hp.1 e2 he2 (hs.2.1.trans hed) (hn.trans hs.1.symm)
        · obtain ⟨e2, he2, hd2, hn2⟩ := hp.2
          obtain ⟨e, he, hs⟩ := h1 e2 he2
          exact ⟨e, he, hs.2.1.symm.trans hd2, hn2.trans hs.1⟩
      · obtain ⟨e2, he2, hs⟩ := h2 e he
        obtain ⟨oe, hoe, hod, hn⟩ := q e2 he2 (hs.2.1.trans hed)
        exact ⟨oe, hoe, hod, hn.trans hs.1⟩
    · rintro ⟨p, q⟩
      refine ⟨fun oe hoe hod => ?_, fun e2 he2 hed => ?_⟩
      · have hp := p oe hoe hod
        refine ⟨fun e2 he2 hed hn => ?_, ?_⟩
        · obtain ⟨e, he, hs⟩ := h1 e2 he2
          rw [(hs.2.2 oe).2]
          exact hp.1 e he (hs.2.1.symm.trans hed) (hn.trans hs.1)
        · obtain ⟨e, he, hd, hn⟩ := hp.2
          obtain ⟨e2, he2, hs⟩ := h2 e he
          exact ⟨e2, he2, hs.2.1.trans hd, hn.trans hs.1.symm⟩
      · obtain ⟨e, he, hs⟩ := h1 e2 he2
        obtain ⟨oe, hoe, hod, hn⟩ := q e he (hs.2.1.symm.trans hed)
        exact ⟨oe, hoe, hod, hn.trans hs.1.symm⟩

/-! ### The sample stream operators keep the contract -/

theorem print_nat_length_bound (n : Nat) : n < 10 ^ (print_nat n).length := by
  unfold print_nat
  split
  · rename_i h
    subst h
    decide
  · have := @Nat.lt_base_pow_length_digits 10 n (by norm_num)
    simpa using this

theorem print_int_natCast (n : Nat) : print_int (n : Int) = print_nat n := by
  unfold print_int
  have : ¬ ((n : Int) < 0) := by omega
  simp [this]

theorem print_int_length_bound (n : Int) : n.natAbs < 10 ^ (print_int n).length := by
  have h1 := print_nat_length_bound n.natAbs
  have h2 : (print_nat n.natAbs).length ≤ (print_int n).length := by
    unfold print_int
    split <;> simp
  exact lt_of_lt_of_le h1 (Nat.pow_le_pow_right (by norm_num) h2)

theorem scan_print (n : Int) (ws : List Char) (hws : ∀ x ∈ ws, is_space x = true)
    (c : Char) (hc : c.isDigit = false) (rest : List Char) :
    scan { buf := ws ++ (print_int n ++ c :: rest) } = (n, { buf := c :: rest }) := by
  unfold scan
  dsimp only
  have h1 := print_int_length_bound n
  have h2 : (print_int n).length ≤ (ws ++ (print_int n ++ c :: rest)).length := by
    simp only [List.length_append]
    omega
  have h3 : n.natAbs < 10 ^ (ws ++ (print_int n ++ c :: rest)).length :=
    lt_of_lt_of_le h1 (Nat.pow_le_pow_right (by norm_num) h2)
  exact extract_int_print _ _ n (by omega) (by omega) ws hws c hc rest 0

theorem scan_print_nat (n : Nat) (ws : List Char) (hws : ∀ x ∈ ws, is_space x = true)
    (c : Char) (hc : c.isDigit = false) (rest : List Char) :
    scan { buf := ws ++ (print_nat n ++ c :: rest) } = ((n : Int), { buf := c :: rest }) := by
  rw [← print_int_natCast]
  exact scan_print n ws hws c hc rest

theorem is_space_sep (sep : Char) (hsep : sep = ' ' ∨ sep = '\n') :
    ∀ x ∈ [sep], is_space x = true := by
  intro x hx
  rw [List.mem_singleton.mp hx]
  rcases hsep with h | h <;> (rw [h]; decide)

theorem scan_rational_print (q : ℚ) (sep term : Char)
    (hsep : sep = ' ' ∨ sep = '\n') (hterm : term = ' ' ∨ term = '\n')
    (rest : List Char) :
    scan_rational { buf := sep :: (print_rational q ++ term :: rest) } =
      (q, { buf := term :: rest }) := by
  have hterm2 : term.isDigit = false := by
    rcases hterm with h | h <;> (rw [h]; decide)
  have h1 : scan { buf := sep :: (print_rational q ++ term :: rest) } =
      (q.num, { buf := '/' :: (print_nat q.den ++ term :: rest) }) := by
    have := scan_print q.num [sep] (is_space_sep sep hsep) '/' (by decide)
      (print_nat q.den ++ term :: rest)
    simpa [print_rational] using this
  have h2 : scan { buf := print_nat q.den ++ term :: rest } =
      ((q.den : Int), { buf := term :: rest }) := by
    have := scan_print_nat q.den [] (fun _ h => absurd h (List.not_mem_nil _)) term
      hterm2 rest
    simpa using this
  unfold scan_rational
  rw [h1]
  simp only [List.head?_cons, if_true, List.drop_succ_cons, List.drop_zero, h2]
  rw [Rat.divInt_self]

theorem scan_rational_print_int (n : Int) (sep term : Char)
    (hsep : sep = ' ' ∨ sep = '\n') (hterm : term = ' ' ∨ term = '\n')
    (rest : List Char) :
    scan_rational { buf := sep :: (print_int n ++ term :: rest) } =
      ((n : ℚ), { buf := term :: rest }) := by
  have hterm2 : term.isDigit = false := by
    rcases hterm with h | h <;> (rw [h]; decide)
  have hterm3 : term ≠ '/' := by
    rcases hterm with h | h <;> (rw [h]; decide)
  have h1 : scan { buf := sep :: (print_int n ++ term :: rest) } =
      (n, { buf := term :: rest }) := by
    have := scan_print n [sep] (is_space_sep sep hsep) term hterm2 rest
    simpa using this
  unfold scan_rational
  rw [h1]
  simp [hterm3]

theorem sample_read_node (n : CNN_Node) (rest : List Char) :
    sample_codec.read_node { buf := '\n' :: line (sample_codec.write_node n) rest } =
      ({ innovation_number := n.innovation_number }, { buf := '\n' :: rest }) := by
  have h := scan_print n.innovation_number ['\n'] (is_space_sep '\n' (Or.inr rfl)) '\n'
    (by decide) rest
  simp only [List.singleton_append] at h
  simp only [sample_codec, line, h]

theorem sample_read_edge (heap : Nat → CNN_Node) (e : CNN_Edge) (rest : List Char) :
    sample_codec.read_edge
        { buf := '\n' :: line (sample_codec.write_edge heap e) rest } =
      ({ innovation_number := e.innovation_number, disabled := e.disabled,
         filter_x := e.filter_x }, { buf := '\n' :: rest }) := by
  have h1 := scan_print e.innovation_number ['\n'] (is_space_sep '\n' (Or.inr rfl)) ' '
    (by decide) (print_bool e.disabled ++ ' ' :: (print_int e.filter_x ++ '\n' :: rest))
  have h2 := scan_print_nat (if e.disabled then 1 else 0) [' ']
    (is_space_sep ' ' (Or.inl rfl)) ' ' (by decide) (print_int e.filter_x ++ '\n' :: rest)
  have h3 := scan_print e.filter_x [' '] (is_space_sep ' ' (Or.inl rfl)) '\n'
    (by decide) rest
  simp only [List.singleton_append, print_bool] at h1 h2 h3
  have hd : decide (((if e.disabled = true then 1 else 0 : Nat) : Int) = 1) = e.disabled := by
    cases e.disabled <;> rfl
  simp only [sample_codec, line, print_bool, List.append_assoc, List.cons_append, h1, h2,
    h3, hd]

/-- The sample stream operators, with the sample collaborators, keep the
contract `Codec.Lawful`. -/
theorem sample_codec_lawful : sample_codec.Lawful codec_collaborators where
  hexfloat q rest := scan_rational_print q '\n' '\n' (Or.inr rfl) (Or.inr rfl) rest
  normal_distribution d x rest := by
    have h := scan_print_nat d ['\n'] (is_space_sep '\n' (Or.inr rfl)) '\n' (by decide) rest
    simp only [List.singleton_append] at h
    simp only [sample_codec, line, h, Int.toNat_ofNat]
  node n rest := by
    rw [sample_read_node, Codec.node_image, sample_read_node]
  node_innovation_number n := by
    rw [Codec.node_image, sample_read_node]
  edge heap e rest := by
    rw [sample_read_edge, Codec.edge_image, sample_read_edge]
  edge_same heap e := by
    rw [Codec.edge_image, sample_read_edge]
    exact ⟨rfl, rfl, fun x => ⟨rfl, rfl⟩⟩
  set_nodes_same heap nodes e e2 h := by
    have : e = e2 := Option.some.inj h
    rw [this]
    exact ⟨rfl, rfl, fun x => ⟨rfl, rfl⟩⟩
  double q x sep term rest hsep hterm := by
    have h1 := scan_rational_print q sep term hsep hterm rest
    have h2 := scan_rational_print q '\n' '\n' (Or.inr rfl) (Or.inr rfl) []
    simp only [Codec.double_image, sample_codec, line] at h1 h2 ⊢
    rw [h1, h2]
  double_int n x sep term rest _ _ hsep hterm :=
    scan_rational_print_int n sep term hsep hterm rest

/-! ### The round trip -/

/-- What `read` makes of the text of `g`: it returns; the genome it leaves
agrees with `g` on the serialized members; and `equals` between it and `g`, in
either direction, returns what `g.equals(g)` returns. -/
theorem read_write_properties (C : Collaborators) (K : Codec) (hK : K.Lawful C)
    (fresh : Nat → Nat) (hfresh : Function.Injective fresh) (this g : CNN_Genome)
    (hrep : g.representable) (hviews : g.views_in_nodes)
    (hfit : g.edges_fit K fresh this) :
    this.read K fresh { buf := g.write K } =
      Outcome.returned (CNN_Genome.loaded K fresh this g) ∧
    same_serialized_members g (CNN_Genome.loaded K fresh this g) ∧
    (CNN_Genome.loaded K fresh this g).equals C g = g.equals C g ∧
    g.equals C (CNN_Genome.loaded K fresh this g) = g.equals C g := by
  have hsame := loaded_edges_same C K hK g.heap
    (loaded_heap K fresh g.heap g.nodes 0 this.heap)
    (loaded_nodes fresh 0 g.nodes.length) g.edges hfit
  have hmem := forall₂_same_mem C _ _ hsame
  refine ⟨read_write_eq C K hK fresh this g hrep hfit, ?_,
    equals_iff_of_same C g (CNN_Genome.loaded K fresh this g) g hmem.1 hmem.2⟩
  have hversion : ('v' :: EXACT_VERSION) ≠ INALID := by decide
  refine ⟨hversion, ⟨rfl, rfl, rfl, rfl, rfl, rfl, rfl, rfl, rfl, rfl, rfl, rfl⟩,
    ⟨rfl, rfl, rfl, rfl, rfl, rfl, rfl, rfl, rfl, rfl⟩,
    ⟨rfl, rfl, rfl, rfl, rfl, rfl, rfl, rfl, rfl, rfl⟩, ⟨?_, ?_⟩, ⟨?_, ?_⟩, rfl⟩
  · simp [CNN_Genome.loaded, loaded_nodes]
  · exact hsame.length_eq.symm
  · exact loaded_view_innovation_numbers C K hK fresh hfresh g this.heap g.input_nodes
      hviews.1
  · exact loaded_view_innovation_numbers C K hK fresh hfresh g this.heap
      g.softmax_nodes hviews.2

/-- A genome whose enabled edges carry pairwise distinct innovation numbers
equals itself, when `CNN_Edge::equals` finds an edge equal to itself. -/
theorem equals_self (C : Collaborators) (hrefl : ∀ e, C.edge_equals e e = true)
    (g : CNN_Genome) (hunique : (enabled_innovation_numbers g).Nodup) :
    g.equals C g = true := by
  rw [equals_iff]
  refine ⟨fun e he hd => ⟨fun oe hoe hod hn => ?_, e, he, hd, rfl⟩,
    fun oe hoe hod => ⟨oe, hoe, hod, rfl⟩⟩
  have h1 := (enabled_edge_some_iff g hunique e.innovation_number e).mpr ⟨he, hd, rfl⟩
  have h2 := (enabled_edge_some_iff g hunique e.innovation_number oe).mpr
    ⟨hoe, hod, hn.symm⟩
  rw [h1] at h2
  rw [← Option.some.inj h2]
  exact hrefl e

/-- C10: for every genome `g` whose members hold values of their C++ types,
whose input and softmax nodes are nodes of its node list, whose edges
`set_nodes` accepts again and whose enabled edges carry pairwise distinct
innovation numbers (the uniqueness that `sanity_check` enforces), with stream
operators of the collaborators that keep their contract and a
`CNN_Edge::equals` that finds an edge equal to itself: `read`, on any genome and
with fresh node objects, returns on the text `write` produced for `g`, also
when `backprop_order`, `best_class_error` or `best_correct_predictions` are
empty; the genome `g2` it leaves is not marked invalid and agrees with `g` on
the hexadecimal floating point members, the integer members, the counters,
the node and edge counts, the innovation numbers of the input and softmax
nodes and `backprop_order`; and both `g2.equals(g)` and `g.equals(g2)` return
true. -/
theorem read_write_round_trip (C : Collaborators) (K : Codec) (hK : K.Lawful C)
    (hrefl : ∀ e, C.edge_equals e e = true)
    (fresh : Nat → Nat) (hfresh : Function.Injective fresh) (this g : CNN_Genome)
    (hrep : g.representable) (hviews : g.views_in_nodes)
    (hfit : g.edges_fit K fresh this)
    (hunique : (enabled_innovation_numbers g).Nodup) :
    ∃ g2, this.read K fresh { buf := g.write K } = Outcome.returned g2 ∧
      same_serialized_members g g2 ∧
      g2.equals C g = true ∧ g.equals C g2 = true := by
  have h := read_write_properties C K hK fresh hfresh this g hrep hviews hfit
  have hself := equals_self C hrefl g hunique
  exact ⟨_, h.1, h.2.1, h.2.2.1.trans hself, h.2.2.2.trans hself⟩

/-- C10 at `genome_checkpoint`, whose three trailing lists are empty, and at
`genome_checkpoint_lists`, where they are not; the enabled edge of each is the
only one with its innovation number. -/
theorem read_write_round_trip_witness :
    (∀ e, codec_collaborators.edge_equals e e = true) ∧
    (enabled_innovation_numbers genome_checkpoint).Nodup ∧
    (enabled_innovation_numbers genome_checkpoint_lists).Nodup ∧
    (∃ g2, CNN_Genome.read sample_codec id {} { buf := genome_checkpoint.write sample_codec } =
        Outcome.returned g2 ∧
      same_serialized_members genome_checkpoint g2 ∧
      g2.equals codec_collaborators genome_checkpoint = true ∧
      genome_checkpoint.equals codec_collaborators g2 = true) ∧
    (∃ g2, CNN_Genome.read sample_codec id {}
          { buf := genome_checkpoint_lists.write sample_codec } =
        Outcome.returned g2 ∧
      same_serialized_members genome_checkpoint_lists g2 ∧
      g2.equals codec_collaborators genome_checkpoint_lists = true ∧
      genome_checkpoint_lists.equals codec_collaborators g2 = true) :=
  ⟨fun _ => decide_eq_true rfl, by decide, by decide,
    read_write_round_trip codec_collaborators sample_codec sample_codec_lawful
      (fun _ => decide_eq_true rfl) id Function.injective_id {} genome_checkpoint
      (by decide) (by decide) (fun _ _ => rfl) (by decide),
    read_write_round_trip codec_collaborators sample_codec sample_codec_lawful
      (fun _ => decide_eq_true rfl) id Function.injective_id {} genome_checkpoint_lists
      (by decide) (by decide) (fun _ _ => rfl) (by decide)⟩

/-! ### `read` on a text that is not a genome -/

/-- A label other than `NODES` ends `read_nodes_section` at once. -/
theorem read_nodes_section_mismatch (K : Codec) (fresh : Nat → Nat) (this : CNN_Genome)
    (infile : IStream) (label : List Char) (h : label ≠ ['N', 'O', 'D', 'E', 'S']) :
    read_nodes_section K fresh this infile label =
      Outcome.returned { this with version_str := INALID } := by
  unfold read_nodes_section
  rw [if_pos h]

/-- A label other than `EDGES` ends `read_edges_section` at once. -/
theorem read_edges_section_mismatch (K : Codec) (this : CNN_Genome)
    (infile : IStream) (label : List Char) (h : label ≠ ['E', 'D', 'G', 'E', 'S']) :
    read_edges_section K this infile label =
      Outcome.returned { this with version_str := INALID } := by
  unfold read_edges_section
  rw [if_pos h]

/-- A label other than `INNOVATION_NUMBERS` ends `read_innovation_section` at
once. -/
theorem read_innovation_section_mismatch (K : Codec) (this : CNN_Genome)
    (infile : IStream) (label : List Char) (h : label ≠ "INNOVATION_NUMBERS".toList) :
    read_innovation_section K this infile label =
      Outcome.returned { this with version_str := INALID } := by
  unfold read_innovation_section
  rw [if_pos h]

/-- A label other than `BACKPROP_ORDER` ends `read_order_section` at once. -/
theorem read_order_section_mismatch (K : Codec) (this : CNN_Genome)
    (infile : IStream) (label : List Char) (h : label ≠ "BACKPROP_ORDER".toList) :
    read_order_section K this infile label =
      Outcome.returned { this with version_str := INALID } := by
  unfold read_order_section
  rw [if_pos h]

/-- A label other than `BEST_CLASS_ERROR` ends `read_error_section` at once. -/
theorem read_error_section_mismatch (K : Codec) (this : CNN_Genome)
    (infile : IStream) (label : List Char) (h : label ≠ "BEST_CLASS_ERROR".toList) :
    read_error_section K this infile label =
      Outcome.returned { this with version_str := INALID } := by
  unfold read_error_section
  rw [if_pos h]

/-- A label other than `BEST_CORRECT_PREDICTIONS` ends
`read_predictions_section` at once. -/
theorem read_predictions_section_mismatch (K : Codec) (this : CNN_Genome)
    (infile : IStream) (label : List Char)
    (h : label ≠ "BEST_CORRECT_PREDICTIONS".toList) :
    read_predictions_section K this infile label =
      Outcome.returned { this with version_str := INALID } := by
  unfold read_predictions_section
  rw [if_pos h]

/-- What `read` makes of a text that carries the version line, the scalar
members, the random source and the node list of `g` and then the line `label`
where `EDGES` belongs: it returns; the version string is `INALID`; the nodes
are those read; the edges and everything the later sections hold are as they
were in `this`. -/
theorem read_wrong_edges_label (C : Collaborators) (K : Codec) (hK : K.Lawful C)
    (fresh : Nat → Nat) (this g : CNN_Genome) (hrep : g.representable)
    (label rest : List Char) (hlabel : label ≠ ['E', 'D', 'G', 'E', 'S'])
    (hnl : ∀ c ∈ label, c ≠ '\n') :
    ∃ g2, this.read K fresh
        { buf := line ('v' :: EXACT_VERSION) (write_header K g (write_random K g
          (write_nodes K g (line label rest)))) } = Outcome.returned g2 ∧
      g2.version_str = INALID ∧ g2.epoch = g.epoch ∧
      g2.nodes = loaded_nodes fresh 0 g.nodes.length ∧
      g2.edges = this.edges ∧ g2.input_nodes = this.input_nodes ∧
      g2.softmax_nodes = this.softmax_nodes ∧
      g2.backprop_order = this.backprop_order ∧
      g2.best_class_error = this.best_class_error ∧
      g2.best_correct_predictions = this.best_correct_predictions := by
  have hv1 : ¬ (('v' :: EXACT_VERSION).length < 1) := by decide
  have hv2 : (('v' :: EXACT_VERSION).drop 1).take 4 = EXACT_VERSION := by decide
  have hi : ∀ n ∈ g.int_members, INT_MIN ≤ n ∧ n ≤ INT_MAX := hrep.1
  have h1 := hi g.nodes.length (by simp [CNN_Genome.int_members])
  unfold CNN_Genome.read
  rw [getline_of_line ('v' :: EXACT_VERSION) _ _ (by decide)]
  unfold read_versioned
  dsimp only
  rw [if_neg hv1, if_neg (not_not.mpr hv2), read_header_write_header C K hK _ g hrep]
  dsimp only
  rw [read_random_write_random C K hK _ g hrep]
  simp only [write_nodes, read_nodes_section,
    getline_of_line ['N', 'O', 'D', 'E', 'S'] _ _ (by decide),
    ne_eq, not_true_eq_false, if_false, extract_nat_first _ _ _ h1, Int.toNat_ofNat,
    read_node_loop_write C K hK, getline_empty_line, List.nil_append, List.length_nil,
    getline_of_line label _ _ hnl]
  rw [read_edges_section_mismatch K _ _ label hlabel]
  exact ⟨_, rfl, rfl, rfl, rfl, rfl, rfl, rfl, rfl, rfl, rfl⟩

/-- C11 (the code misses the claim by a slip): on `checkpoint_wrong_label`,
whose line after the node list is `EDGE` instead of `EDGES`, `read` returns
at that line: the two nodes were read, the edges and the lists of the later
sections are as they were before the call. The version string it leaves is
the six characters `INALID` of line 1639, which is not the sentinel `INVALID`
of the claim. -/
theorem read_wrong_label_leaves_inalid :
    ∃ g2, CNN_Genome.read sample_codec id genome_two_edges
        { buf := checkpoint_wrong_label } = Outcome.returned g2 ∧
      g2.version_str = ['I', 'N', 'A', 'L', 'I', 'D'] ∧
      g2.version_str ≠ "INVALID".toList ∧
      g2.nodes.length = 2 ∧ g2.edges = genome_two_edges.edges ∧
      g2.input_nodes = [] ∧ g2.softmax_nodes = [] ∧ g2.backprop_order = [] ∧
      g2.best_class_error = [] ∧ g2.best_correct_predictions = [] := by
  obtain ⟨g2, h, hv, _, hn, he, hin, hsm, hbo, hce, hcp⟩ :=
    read_wrong_edges_label codec_collaborators sample_codec sample_codec_lawful id
      genome_two_edges genome_checkpoint (by decide) ['E', 'D', 'G', 'E']
      (line (print_nat 0) []) (by decide) (by decide)
  refine ⟨g2, h, hv, ?_, ?_, he, hin, hsm, hbo, hce, hcp⟩
  · rw [hv]
    decide
  · rw [hn]
    decide

/-- What `read` does when the version line is not empty and its characters 1
to 4 are not the format version: it returns, with the line as version string
and no other member read. -/
theorem read_of_version_mismatch (K : Codec) (fresh : Nat → Nat) (this : CNN_Genome)
    (infile : IStream) (h1 : (getline infile this.version_str).1 ≠ [])
    (h2 : ((getline infile this.version_str).1.drop 1).take 4 ≠ EXACT_VERSION) :
    this.read K fresh infile =
      Outcome.returned { this with
        progress_function := none
        version_str := (getline infile this.version_str).1 } := by
  have h3 : ¬ ((getline infile this.version_str).1.length < 1) := by
    intro h
    exact h1 (List.length_eq_zero.mp (by omega))
  unfold CNN_Genome.read read_versioned
  dsimp only
  rw [if_neg h3, if_pos h2]

/-- C12, as stated, fails: on a text whose version line is `v0.18`, `read`
returns with the version string `v0.18`, which is neither the value a
section-label mismatch leaves nor the sentinel `INVALID`. -/
theorem read_old_version_keeps_line :
    ∃ g2, CNN_Genome.read sample_codec id genome_checkpoint
        { buf := older_version_text } = Outcome.returned g2 ∧
      g2.version_str = ['v', '0', '.', '1', '8'] ∧ g2.version_str ≠ INALID ∧
      g2.version_str ≠ "INVALID".toList := by
  have hline : getline { buf := older_version_text } genome_checkpoint.version_str =
      (['v', '0', '.', '1', '8'], { buf := line (print_int 4) (line (print_int 7) []) }) :=
    getline_of_line _ _ _ (by decide)
  have h := read_of_version_mismatch sample_codec id genome_checkpoint
    { buf := older_version_text } (by rw [hline]; decide) (by rw [hline]; decide)
  rw [hline] at h
  exact ⟨_, h, rfl, by decide, by decide⟩

/-- C12, amended: when the version line of the input is not empty and its
characters 1 to 4 are not the format version, `read` returns and has read no
further field: every member is as before the call, except that
`progress_function` is `NULL` and the version string holds the line that was
read (not a sentinel). Characters 1 to 4 of that version string differ from
the format version, and so do those of the value a section-label mismatch
leaves, so one comparison detects both failures. -/
theorem read_version_mismatch_reads_nothing (K : Codec) (fresh : Nat → Nat)
    (this : CNN_Genome) (infile : IStream)
    (h1 : (getline infile this.version_str).1 ≠ [])
    (h2 : ((getline infile this.version_str).1.drop 1).take 4 ≠ EXACT_VERSION) :
    this.read K fresh infile =
      Outcome.returned { this with
        progress_function := none
        version_str := (getline infile this.version_str).1 } ∧
    (INALID.drop 1).take 4 ≠ EXACT_VERSION :=
  ⟨read_of_version_mismatch K fresh this infile h1 h2, by decide⟩

/-- C12, amended, on `older_version_text`, read into `genome_checkpoint`. -/
theorem read_version_mismatch_reads_nothing_witness :
    (getline { buf := older_version_text } genome_checkpoint.version_str).1 ≠ [] ∧
    ((getline { buf := older_version_text } genome_checkpoint.version_str).1.drop 1).take 4 ≠
      EXACT_VERSION ∧
    CNN_Genome.read sample_codec id genome_checkpoint { buf := older_version_text } =
      Outcome.returned { genome_checkpoint with
        progress_function := none
        version_str :=
          (getline { buf := older_version_text } genome_checkpoint.version_str).1 } := by
  have hline : getline { buf := older_version_text } genome_checkpoint.version_str =
      (['v', '0', '.', '1', '8'], { buf := line (print_int 4) (line (print_int 7) []) }) :=
    getline_of_line _ _ _ (by decide)
  have h1 : (getline { buf := older_version_text } genome_checkpoint.version_str).1 ≠ [] := by
    rw [hline]
    decide
  have h2 : ((getline { buf := older_version_text }
      genome_checkpoint.version_str).1.drop 1).take 4 ≠ EXACT_VERSION := by
    rw [hline]
    decide
  exact ⟨h1, h2, (read_version_mismatch_reads_nothing sample_codec id genome_checkpoint
    { buf := older_version_text } h1 h2).1⟩

/-- C13 (the code misses a case): when the version line is empty, `read` does
not return: `version_str.substr(1,4)` of line 1508 starts past the end of the
string and throws `std::out_of_range`. That is so for an input without any
character, for an input that starts with an empty line, and for a stream
that is not good (a file that could not be opened) read into a genome whose
version string is still empty. -/
theorem read_empty_version_line_throws (K : Codec) (fresh : Nat → Nat)
    (this : CNN_Genome) (rest : List Char) (eof : Bool) :
    this.read K fresh { buf := [] } = Outcome.thrown ∧
    this.read K fresh { buf := '\n' :: rest } = Outcome.thrown ∧
    CNN_Genome.read K fresh { this with version_str := [] }
      { buf := rest, eof := eof, fail := true } = Outcome.thrown := by
  refine ⟨?_, ?_, ?_⟩
  · unfold CNN_Genome.read read_versioned
    simp [getline, IStream.good]
  · unfold CNN_Genome.read read_versioned
    rw [getline_empty_line]
    simp
  · unfold CNN_Genome.read read_versioned
    simp [getline, IStream.good]

/-! ### Training -/

theorem same_settings_refl (g : CNN_Genome) : same_settings g g :=
  ⟨g.heap, g.edges, g.rng, g.backprop_order, rfl⟩

theorem same_settings_trans {g g2 g3 : CNN_Genome} (h1 : same_settings g g2)
    (h2 : same_settings g2 g3) : same_settings g g3 := by
  obtain ⟨_, _, _, _, rfl⟩ := h1
  obtain ⟨_, _, _, _, rfl⟩ := h2
  exact ⟨_, _, _, _, rfl⟩

theorem after_image_same_settings (T : Trainer) (b : Bool) (j : Nat) (g : CNN_Genome)
    (out : Image_Evaluation) : same_settings g (after_image T b j g out) := by
  unfold after_image
  split
  · exact ⟨_, _, _, _, rfl⟩
  · exact ⟨_, _, _, _, rfl⟩

theorem evaluate_loop_same_settings (T : Trainer) (images : Images) (b : Bool)
    (order : List Int) : ∀ (j : Nat) (g : CNN_Genome) (r : Evaluation)
    (res : CNN_Genome × Evaluation),
    evaluate_loop T images b j order g r = some res → same_settings g res.1 := by
  induction order with
  | nil =>
    intro j g r res h
    simp only [evaluate_loop, Option.some.injEq] at h
    rw [← h]
    exact same_settings_refl g
  | cons o order ih =>
    intro j g r res h
    unfold evaluate_loop at h
    split at h
    · exact absurd h (by simp)
    · exact same_settings_trans (after_image_same_settings T b j g _) (ih _ _ _ _ h)

theorem evaluate_same_settings (T : Trainer) (images : Images) (b : Bool)
    (g : CNN_Genome) (res : CNN_Genome × Evaluation)
    (h : g.evaluate T images b = some res) : same_settings g res.1 :=
  evaluate_loop_same_settings T images b _ _ _ _ _ h

theorem same_settings_softmax_nodes {g g2 : CNN_Genome} (h : same_settings g g2) :
    g2.softmax_nodes = g.softmax_nodes := by
  obtain ⟨_, _, _, _, rfl⟩ := h
  rfl

theorem evaluate_loop_returns (T : Trainer) (images : Images)
    (b : Bool) (order : List Int) : ∀ (j : Nat) (g : CNN_Genome) (r : Evaluation),
    T.never_exits g.softmax_nodes →
    ∃ res, evaluate_loop T images b j order g r = some res := by
  induction order with
  | nil => exact fun j g r _ => ⟨_, rfl⟩
  | cons o order ih =>
    intro j g r hT
    obtain ⟨out, hout⟩ := Option.isSome_iff_exists.mp
      (hT g rfl (images.get_image o) r.class_error b (perform_dropout b) r.total_error)
    have hs : (after_image T b j g out).softmax_nodes = g.softmax_nodes :=
      same_settings_softmax_nodes (after_image_same_settings T b j g out)
    unfold evaluate_loop
    rw [hout]
    exact ih _ _ _ (hs ▸ hT)

theorem evaluate_returns (T : Trainer) (images : Images)
    (b : Bool) (g : CNN_Genome) (hT : T.never_exits g.softmax_nodes) :
    ∃ res, g.evaluate T images b = some res :=
  evaluate_loop_returns T images b _ _ _ _ hT

theorem measure_epoch_returns (T : Trainer) (images : Images)
    (g : CNN_Genome) (hT : T.never_exits g.softmax_nodes) :
    ∃ m, measure_epoch T images g = some m := by
  obtain ⟨trained, h1⟩ := evaluate_returns T images true (g.shuffle_order T) hT
  have hs : trained.1.softmax_nodes = (g.shuffle_order T).softmax_nodes :=
    same_settings_softmax_nodes (evaluate_same_settings T images true _ _ h1)
  obtain ⟨m, h2⟩ := evaluate_returns T images false trained.1 (hs ▸ hT)
  exact ⟨m, by unfold measure_epoch; rw [h1]; exact h2⟩

theorem measure_epoch_same_settings (T : Trainer) (images : Images) (g : CNN_Genome)
    (m : CNN_Genome × Evaluation) (h : measure_epoch T images g = some m) :
    same_settings g m.1 := by
  unfold measure_epoch at h
  split at h
  · exact absurd h (by simp)
  · rename_i trained h1
    have h2 : same_settings g (g.shuffle_order T) := ⟨_, _, _, _, rfl⟩
    exact same_settings_trans h2
      (same_settings_trans (evaluate_same_settings T images true _ _ h1)
        (evaluate_same_settings T images false _ _ h))

theorem epoch_of_measure (T : Trainer) (images : Images) (s : Training)
    (m : CNN_Genome × Evaluation) (h : measure_epoch T images s.genome = some m) :
    epoch T images s = some (conclude_epoch { s with genome := m.1 } m.2) := by
  unfold epoch
  rw [h]

theorem epoch_returns (T : Trainer) (images : Images)
    (s : Training) (hT : T.never_exits s.genome.softmax_nodes) :
    ∃ s1, epoch T images s = some s1 := by
  obtain ⟨m, hm⟩ := measure_epoch_returns T images s.genome hT
  exact ⟨_, epoch_of_measure T images s m hm⟩

theorem improve_or_roll_back_pos (s : Training) (r : Evaluation)
    (h : r.total_error < s.genome.best_error) :
    improve_or_roll_back s r =
      { genome := (record_best s.genome r).save_to_best
        effects :=
          write_if_named s.genome.output_filename (record_best s.genome r) s.effects ++
            [Effect.print_progress (record_best s.genome r).save_to_best
              r.total_predictions r.total_error] } := by
  unfold improve_or_roll_back
  rw [if_pos h]

theorem improve_or_roll_back_neg (s : Training) (r : Evaluation)
    (h : ¬ r.total_error < s.genome.best_error) :
    improve_or_roll_back s r =
      { genome := s.genome.set_to_best
        effects :=
          s.effects ++
            [Effect.print_progress s.genome r.total_predictions r.total_error] } := by
  unfold improve_or_roll_back
  rw [if_neg h]

theorem int_wrap_of_range (x : Int) (h1 : INT_MIN ≤ x) (h2 : x ≤ INT_MAX) :
    int_wrap x = x := by
  unfold int_wrap
  unfold INT_MIN at h1
  unfold INT_MAX at h2
  omega

theorem int_wrap_range (x : Int) : INT_MIN ≤ int_wrap x ∧ int_wrap x ≤ INT_MAX := by
  unfold int_wrap INT_MIN INT_MAX
  omega

/-- The members that the end of an epoch changes the same way with and
without an improvement, and those it leaves alone. -/
theorem conclude_epoch_settings (s : Training) (r : Evaluation) :
    (conclude_epoch s r).genome.epoch = int_wrap (s.genome.epoch + 1) ∧
    (conclude_epoch s r).genome.max_epochs = s.genome.max_epochs ∧
    (conclude_epoch s r).genome.progress_function = s.genome.progress_function ∧
    (conclude_epoch s r).genome.nodes = s.genome.nodes ∧
    (conclude_epoch s r).genome.mu_delta = s.genome.mu_delta ∧
    (conclude_epoch s r).genome.learning_rate_delta = s.genome.learning_rate_delta ∧
    (conclude_epoch s r).genome.weight_decay_delta = s.genome.weight_decay_delta ∧
    (conclude_epoch s r).genome.mu =
      99 / 100 - ((99 / 100 - s.genome.mu) * s.genome.mu_delta) ∧
    (conclude_epoch s r).genome.learning_rate =
      s.genome.learning_rate * s.genome.learning_rate_delta ∧
    (conclude_epoch s r).genome.weight_decay =
      s.genome.weight_decay * s.genome.weight_decay_delta := by
  by_cases h : r.total_error < s.genome.best_error
  · simp only [conclude_epoch, improve_or_roll_back_pos s r h]
    exact ⟨rfl, rfl, rfl, rfl, rfl, rfl, rfl, rfl, rfl, rfl⟩
  · simp only [conclude_epoch, improve_or_roll_back_neg s r h]
    exact ⟨rfl, rfl, rfl, rfl, rfl, rfl, rfl, rfl, rfl, rfl⟩

theorem conclude_epoch_softmax_nodes (s : Training) (r : Evaluation) :
    (conclude_epoch s r).genome.softmax_nodes = s.genome.softmax_nodes := by
  by_cases h : r.total_error < s.genome.best_error
  · simp only [conclude_epoch, improve_or_roll_back_pos s r h]
    rfl
  · simp only [conclude_epoch, improve_or_roll_back_neg s r h]
    rfl

/-- What one epoch does to the members `conclude_epoch_settings` lists. -/
theorem epoch_settings (T : Trainer) (images : Images) (s s1 : Training)
    (h : epoch T images s = some s1) :
    s1.genome.epoch = int_wrap (s.genome.epoch + 1) ∧
    s1.genome.max_epochs = s.genome.max_epochs ∧
    s1.genome.progress_function = s.genome.progress_function ∧
    s1.genome.nodes = s.genome.nodes ∧
    s1.genome.mu_delta = s.genome.mu_delta ∧
    s1.genome.learning_rate_delta = s.genome.learning_rate_delta ∧
    s1.genome.weight_decay_delta = s.genome.weight_decay_delta ∧
    s1.genome.mu = 99 / 100 - ((99 / 100 - s.genome.mu) * s.genome.mu_delta) ∧
    s1.genome.learning_rate = s.genome.learning_rate * s.genome.learning_rate_delta ∧
    s1.genome.weight_decay = s.genome.weight_decay * s.genome.weight_decay_delta := by
  unfold epoch at h
  split at h
  · exact absurd h (by simp)
  · rename_i m hm
    obtain ⟨heap, edges, rng, order, hm1⟩ := measure_epoch_same_settings T images _ m hm
    have hc := conclude_epoch_settings { s with genome := m.1 } m.2
    rw [Option.some.inj h] at hc
    simp only [hm1] at hc
    exact hc

theorem epoch_softmax_nodes (T : Trainer) (images : Images) (s s1 : Training)
    (h : epoch T images s = some s1) :
    s1.genome.softmax_nodes = s.genome.softmax_nodes := by
  unfold epoch at h
  split at h
  · exact absurd h (by simp)
  · rename_i m hm
    rw [← Option.some.inj h, conclude_epoch_softmax_nodes]
    exact same_settings_softmax_nodes (measure_epoch_same_settings T images _ m hm)

theorem epochs_softmax_nodes (T : Trainer) (images : Images) (n : Nat) :
    ∀ (s s2 : Training), epochs T images n s = some s2 →
      s2.genome.softmax_nodes = s.genome.softmax_nodes := by
  induction n with
  | zero =>
    intro s s2 h
    simp only [epochs, Option.some.injEq] at h
    rw [← h]
  | succ n ih =>
    intro s s2 h
    unfold epochs at h
    split at h
    · exact absurd h (by simp)
    · rename_i s1 h1
      exact (ih s1 s2 h).trans (epoch_softmax_nodes T images s s1 h1)

/-- The counter after `n` epochs that start within the range of an `int` and
do not leave it. -/
theorem epochs_counter (T : Trainer) (images : Images) (n : Nat) :
    ∀ (s s2 : Training), epochs T images n s = some s2 →
      INT_MIN ≤ s.genome.epoch → s.genome.epoch + n ≤ INT_MAX →
      s2.genome.epoch = s.genome.epoch + n ∧
      s2.genome.max_epochs = s.genome.max_epochs := by
  induction n with
  | zero =>
    intro s s2 h _ _
    simp only [epochs, Option.some.injEq] at h
    rw [← h]
    simp
  | succ n ih =>
    intro s s2 h hlow hhigh
    unfold epochs at h
    split at h
    · exact absurd h (by simp)
    · rename_i s1 h1
      have hs := epoch_settings T images s s1 h1
      push_cast at hhigh
      have hwrap : int_wrap (s.genome.epoch + 1) = s.genome.epoch + 1 :=
        int_wrap_of_range _ (by omega) (by omega)
      rw [hwrap] at hs
      have := ih s1 s2 h (by rw [hs.1]; omega) (by rw [hs.1]; omega)
      rw [this.1, this.2, hs.1, hs.2.1]
      push_cast
      exact ⟨by ring, rfl⟩

/-- The loop runs as many passes as `max_epochs - epoch + 1` says, and one
pass when that is less than one, when the epoch counter and `max_epochs` are
below the largest `int`: with at least that many passes allowed it returns
what that many passes leave, with fewer it is still running. -/
theorem epoch_loop_spec (T : Trainer) (images : Images)
    (fuel : Nat) : ∀ s : Training, T.never_exits s.genome.softmax_nodes →
    INT_MIN ≤ s.genome.epoch → s.genome.epoch < INT_MAX →
    s.genome.max_epochs < INT_MAX →
    ((max 1 (s.genome.max_epochs - s.genome.epoch + 1)).toNat ≤ fuel →
      ∃ s2, epoch_loop T images fuel s = Run.returned s2 ∧
        epochs T images (max 1 (s.genome.max_epochs - s.genome.epoch + 1)).toNat s =
          some s2) ∧
    (fuel < (max 1 (s.genome.max_epochs - s.genome.epoch + 1)).toNat →
      epoch_loop T images fuel s = Run.unfinished) := by
  induction fuel with
  | zero =>
    intro s _ _ _ _
    refine ⟨fun h => ?_, fun _ => rfl⟩
    have : 1 ≤ max 1 (s.genome.max_epochs - s.genome.epoch + 1) := le_max_left _ _
    omega
  | succ fuel ih =>
    intro s hT hlow hhigh hmax
    obtain ⟨s1, h1⟩ := epoch_returns T images s hT
    have hs := epoch_settings T images s s1 h1
    have hsoft := epoch_softmax_nodes T images s s1 h1
    have hwrap : int_wrap (s.genome.epoch + 1) = s.genome.epoch + 1 :=
      int_wrap_of_range _ (by omega) (by omega)
    rw [hwrap] at hs
    unfold epoch_loop
    rw [h1]
    dsimp only
    by_cases hlast : s1.genome.epoch > s1.genome.max_epochs
    · rw [if_pos hlast]
      rw [hs.1, hs.2.1] at hlast
      have hn : (max 1 (s.genome.max_epochs - s.genome.epoch + 1)).toNat = 1 := by
        rw [max_eq_left (by omega)]
        rfl
      rw [hn]
      refine ⟨fun _ => ⟨s1, rfl, ?_⟩, fun h => by omega⟩
      simp [epochs, h1]
    · rw [if_neg hlast]
      have hih := ih s1 (hsoft ▸ hT) (by rw [hs.1]; omega)
        (by rw [hs.1, hs.2.1] at hlast; rw [hs.1]; omega) (by rw [hs.2.1]; exact hmax)
      rw [hs.1, hs.2.1] at hlast hih
      have hn : (max 1 (s.genome.max_epochs - s.genome.epoch + 1)).toNat =
          (max 1 (s.genome.max_epochs - (s.genome.epoch + 1) + 1)).toNat + 1 := by
        rw [max_eq_right (by omega), max_eq_right (by omega)]
        omega
      rw [hn]
      refine ⟨fun h => ?_, fun h => hih.2 (by omega)⟩
      obtain ⟨s2, h2, h3⟩ := hih.1 (by omega)
      refine ⟨s2, h2, ?_⟩
      simp only [epochs, h1]
      exact h3

/-- A loop that returns has run at least one pass and as many passes as the
count allowed at most, and returns what they leave. -/
theorem epoch_loop_returned (T : Trainer) (images : Images) (fuel : Nat) :
    ∀ (s s2 : Training), epoch_loop T images fuel s = Run.returned s2 →
      ∃ n, 0 < n ∧ n ≤ fuel ∧ epochs T images n s = some s2 := by
  induction fuel with
  | zero =>
    intro s s2 h
    simp [epoch_loop] at h
  | succ fuel ih =>
    intro s s2 h
    unfold epoch_loop at h
    split at h
    · exact absurd h (by simp)
    · rename_i s1 h1
      split at h
      · refine ⟨1, Nat.one_pos, by omega, ?_⟩
        simp only [epochs, h1]
        exact congrArg some (Run.returned.inj h)
      · obtain ⟨n, hn1, hn2, hn3⟩ := ih s1 s2 h
        refine ⟨n + 1, Nat.succ_pos n, by omega, ?_⟩
        simp only [epochs, h1]
        exact hn3

theorem prepare_softmax_nodes (T : Trainer) (images : Images) (this : CNN_Genome) :
    (this.prepare T images).softmax_nodes = this.softmax_nodes := by
  unfold CNN_Genome.prepare CNN_Genome.fresh_start
  split <;> rfl

theorem loop_entry_returns (T : Trainer) (images : Images)
    (this : CNN_Genome) (hT : T.never_exits this.softmax_nodes) :
    ∃ s0, this.loop_entry T images = some s0 := by
  obtain ⟨first, h⟩ := evaluate_returns T images false (this.prepare T images)
    ((prepare_softmax_nodes T images this) ▸ hT)
  exact ⟨_, by unfold CNN_Genome.loop_entry; rw [h]⟩

theorem loop_entry_softmax_nodes (T : Trainer) (images : Images) (this : CNN_Genome)
    (s0 : Training) (h : this.loop_entry T images = some s0) :
    s0.genome.softmax_nodes = this.softmax_nodes := by
  unfold CNN_Genome.loop_entry at h
  split at h
  · exact absurd h (by simp)
  · rename_i first h1
    rw [← Option.some.inj h]
    exact (same_settings_softmax_nodes (evaluate_same_settings T images false _ _ h1)).trans
      (prepare_softmax_nodes T images this)

/-- The members with which the loop is entered: the counters and the
callback of the call, and `EXACT_MAX_DOUBLE` as `best_error` unless the genome
was started from a checkpoint. -/
theorem loop_entry_settings (T : Trainer) (images : Images) (this : CNN_Genome)
    (s0 : Training) (h : this.loop_entry T images = some s0) :
    s0.genome.epoch = this.epoch ∧ s0.genome.max_epochs = this.max_epochs ∧
    s0.genome.progress_function = this.progress_function ∧
    s0.genome.best_error_epoch = this.best_error_epoch ∧
    s0.genome.best_predictions = this.best_predictions ∧
    s0.genome.nodes = this.nodes ∧
    s0.genome.best_error =
      (if this.started_from_checkpoint then this.best_error else EXACT_MAX_DOUBLE) ∧
    progress_values s0.effects = [] := by
  unfold CNN_Genome.loop_entry at h
  split at h
  · exact absurd h (by simp)
  · rename_i first h1
    obtain ⟨heap, edges, rng, order, hf⟩ := evaluate_same_settings T images false _ _ h1
    rw [← Option.some.inj h]
    simp only [hf, CNN_Genome.prepare, CNN_Genome.fresh_start, progress_values]
    cases this.started_from_checkpoint <;> simp

/-- The method with its entry checks passed: the loop, entered in the state
`loop_entry`. -/
theorem stochastic_backpropagation_eq (T : Trainer) (images : Images)
    (this : CNN_Genome) (hchecks : entry_checks T this = true) (s0 : Training)
    (h : this.loop_entry T images = some s0) (fuel : Nat) :
    this.stochastic_backpropagation T fuel images = epoch_loop T images fuel s0 := by
  unfold CNN_Genome.stochastic_backpropagation
  rw [hchecks, h]
  rfl

/-! ### The sample trainer -/

theorem foldl_update_self (nodes : List Nat) (heap : Nat → CNN_Node) :
    nodes.foldl (fun heap a => Function.update heap a (heap a)) heap = heap := by
  induction nodes with
  | nil => rfl
  | cons a nodes ih =>
    rw [List.foldl_cons, Function.update_eq_self]
    exact ih

theorem sample_reset_velocities (g : CNN_Genome) :
    CNN_Genome.reset_velocities sample_trainer g = g := by
  unfold CNN_Genome.reset_velocities
  simp only [sample_trainer, foldl_update_self, List.map_id']

theorem sample_step_step (lr : ℚ) (edges : List CNN_Edge) :
    (edges.map (sample_step lr)).map (sample_step lr) = edges.map (sample_step lr) := by
  simp [sample_step, Function.comp_def]

/-- The measuring pass of `sample_trainer` leaves the genome as it is and
adds the sum of all weights once for every image. -/
theorem sample_evaluate_loop_false (images : Images) (order : List Int) :
    ∀ (j : Nat) (g : CNN_Genome) (r : Evaluation),
    evaluate_loop sample_trainer images false j order g r =
      some (g, { r with
        total_error := r.total_error + order.length * sample_error g.edges }) := by
  induction order with
  | nil =>
    intro j g r
    simp [evaluate_loop]
  | cons o order ih =>
    intro j g r
    have h1 : after_image sample_trainer false j g
        { predicted_class := (images.get_image o).classification + 1, heap := g.heap,
          edges := g.edges, generator := g.rng.generator, class_error := r.class_error,
          total_error := r.total_error + sample_error g.edges } = g := rfl
    have h2 : count_prediction (images.get_image o).classification
        { predicted_class := (images.get_image o).classification + 1, heap := g.heap,
          edges := g.edges, generator := g.rng.generator, class_error := r.class_error,
          total_error := r.total_error + sample_error g.edges } r =
        { r with total_error := r.total_error + sample_error g.edges } := by
      simp [count_prediction]
    have h3 : sample_trainer.evaluate_image g (images.get_image o) r.class_error false
        (perform_dropout false) r.total_error =
        some
          { predicted_class := (images.get_image o).classification + 1, heap := g.heap,
            edges := g.edges, generator := g.rng.generator, class_error := r.class_error,
            total_error := r.total_error + sample_error g.edges } := rfl
    unfold evaluate_loop
    rw [h3]
    dsimp only
    rw [h1, h2, ih]
    simp only [List.length_cons, Nat.cast_add, Nat.cast_one]
    congr 3
    ring

/-- The updating pass of `sample_trainer` over at least one image leaves
every weight at the learning rate and nothing else changed. -/
theorem sample_evaluate_loop_true (images : Images) (order : List Int) :
    ∀ (o : Int) (j : Nat) (g : CNN_Genome) (r : Evaluation),
    ∃ r2, evaluate_loop sample_trainer images true j (o :: order) g r =
      some ({ g with edges := g.edges.map (sample_step g.learning_rate) }, r2) := by
  induction order with
  | nil =>
    intro o j g r
    have h3 : sample_trainer.evaluate_image g (images.get_image o) r.class_error true
        (perform_dropout true) r.total_error =
        some
          { predicted_class := (images.get_image o).classification + 1, heap := g.heap,
            edges := g.edges.map (sample_step g.learning_rate),
            generator := g.rng.generator, class_error := r.class_error,
            total_error := r.total_error + sample_error g.edges } := rfl
    unfold evaluate_loop
    rw [h3]
    dsimp only
    unfold after_image
    split
    · rw [sample_reset_velocities]
      exact ⟨_, rfl⟩
    · exact ⟨_, rfl⟩
  | cons o2 order ih =>
    intro o j g r
    have h3 : sample_trainer.evaluate_image g (images.get_image o) r.class_error true
        (perform_dropout true) r.total_error =
        some
          { predicted_class := (images.get_image o).classification + 1, heap := g.heap,
            edges := g.edges.map (sample_step g.learning_rate),
            generator := g.rng.generator, class_error := r.class_error,
            total_error := r.total_error + sample_error g.edges } := rfl
    have h1 : ∀ out : Image_Evaluation, after_image sample_trainer true j g out =
        { g with heap := out.heap, edges := out.edges,
                 rng := { g.rng with generator := out.generator } } := by
      intro out
      unfold after_image
      split
      · rw [sample_reset_velocities]
      · rfl
    unfold evaluate_loop
    rw [h3]
    dsimp only
    rw [h1]
    obtain ⟨r2, hr2⟩ := ih o2 (j + 1)
      { g with heap := g.heap, edges := g.edges.map (sample_step g.learning_rate),
               rng := { g.rng with generator := g.rng.generator } }
      (count_prediction (images.get_image o).classification
        { predicted_class := (images.get_image o).classification + 1, heap := g.heap,
          edges := g.edges.map (sample_step g.learning_rate),
          generator := g.rng.generator, class_error := r.class_error,
          total_error := r.total_error + sample_error g.edges } r)
    refine ⟨r2, ?_⟩
    rw [hr2]
    simp only [sample_step_step]

/-- One epoch of `sample_trainer` up to the end of its measuring pass: the
order is reversed, the generator a step further, every weight at the
learning rate, and the total error the sum of all weights once per image. -/
theorem sample_measure_epoch (images : Images) (g : CNN_Genome)
    (h : g.backprop_order ≠ []) :
    measure_epoch sample_trainer images g =
      some ({ g with
          backprop_order := g.backprop_order.reverse
          rng := { g.rng with generator := minstd_rand0 g.rng.generator }
          edges := g.edges.map (sample_step g.learning_rate) },
        { class_error := List.replicate images.number_classes 0
          correct_predictions := List.replicate images.number_classes 0
          total_error := 0 + (g.backprop_order.length : ℚ) *
            sample_error (g.edges.map (sample_step g.learning_rate))
          total_predictions := 0 }) := by
  have hrev : g.backprop_order.reverse ≠ [] := by simpa using h
  obtain ⟨o, order, ho⟩ := List.exists_cons_of_ne_nil hrev
  obtain ⟨r2, hr2⟩ := sample_evaluate_loop_true images order o 0
    (g.shuffle_order sample_trainer)
    { class_error := List.replicate images.number_classes 0
      correct_predictions := List.replicate images.number_classes 0
      total_error := 0
      total_predictions := 0 }
  have h1 : (g.shuffle_order sample_trainer).evaluate sample_trainer images true =
      some ({ g.shuffle_order sample_trainer with
        edges := (g.shuffle_order sample_trainer).edges.map
          (sample_step (g.shuffle_order sample_trainer).learning_rate) }, r2) := by
    unfold CNN_Genome.evaluate
    have h2 : (g.shuffle_order sample_trainer).backprop_order = o :: order := ho
    rw [h2]
    exact hr2
  unfold measure_epoch
  rw [h1]
  dsimp only
  unfold CNN_Genome.evaluate
  rw [sample_evaluate_loop_false]
  have h3 : (g.shuffle_order sample_trainer).backprop_order.length =
      g.backprop_order.length := List.length_reverse _
  dsimp only
  rw [h3]
  rfl

theorem resize_length (n : Nat) (v : List Int) : (resize n v).length = n := by
  unfold resize
  simp only [List.length_take, List.length_append, List.length_replicate]
  omega

/-- The end of an epoch leaves the smaller of the old `best_error` and the
total error of the measuring pass as `best_error`. -/
theorem conclude_epoch_best_error (s : Training) (r : Evaluation) :
    (conclude_epoch s r).genome.best_error = min s.genome.best_error r.total_error := by
  by_cases h : r.total_error < s.genome.best_error
  · simp only [conclude_epoch, improve_or_roll_back_pos s r h]
    exact (min_eq_right (le_of_lt h)).symm
  · simp only [conclude_epoch, improve_or_roll_back_neg s r h]
    exact (min_eq_left (not_lt.mp h)).symm

theorem epoch_best_error (T : Trainer) (images : Images) (s : Training)
    (m : CNN_Genome × Evaluation) (hm : measure_epoch T images s.genome = some m) :
    (conclude_epoch { s with genome := m.1 } m.2).genome.best_error =
      min s.genome.best_error m.2.total_error := by
  obtain ⟨heap, edges, rng, order, hm1⟩ := measure_epoch_same_settings T images _ m hm
  rw [conclude_epoch_best_error]
  simp only [hm1]

/-- After `n` epochs `best_error` is the least of its value before them and
the total errors of their measuring passes. -/
theorem epochs_best_error (T : Trainer) (images : Images)
    (n : Nat) : ∀ (s s2 : Training), epochs T images n s = some s2 →
      (unbiased_errors T images n s).length = n ∧
      s2.genome.best_error = (unbiased_errors T images n s).foldl min s.genome.best_error := by
  induction n with
  | zero =>
    intro s s2 h
    simp only [epochs, Option.some.injEq] at h
    rw [← h]
    exact ⟨rfl, rfl⟩
  | succ n ih =>
    intro s s2 h
    cases hm : measure_epoch T images s.genome with
    | none =>
      simp only [epochs, epoch, hm] at h
      exact absurd h (by simp)
    | some m =>
      simp only [epochs, epoch_of_measure T images s m hm] at h
      obtain ⟨h2, h3⟩ := ih _ s2 h
      refine ⟨?_, ?_⟩
      · simp only [unbiased_errors, hm, List.length_cons, h2]
      · simp only [unbiased_errors, hm, List.foldl_cons]
        rw [h3, epoch_best_error T images s m hm]

/-- A loop that replaces the node object behind every pointer of `nodes` by
its image under `f` leaves `f` of the old object behind a pointer of the
list when applying `f` twice is applying it once, and the old object behind
any other pointer. -/
theorem foldl_update_apply (f : CNN_Node → CNN_Node) (hf : ∀ n, f (f n) = f n)
    (nodes : List Nat) : ∀ (heap : Nat → CNN_Node) (a : Nat),
    nodes.foldl (fun heap a => Function.update heap a (f (heap a))) heap a =
      if a ∈ nodes then f (heap a) else heap a := by
  induction nodes with
  | nil => exact fun heap a => by simp
  | cons b nodes ih =>
    intro heap a
    rw [List.foldl_cons, ih]
    by_cases hab : a = b
    · subst hab
      by_cases hmem : a ∈ nodes
      · simp [hmem, hf]
      · simp [hmem]
    · by_cases hmem : a ∈ nodes
      · simp [hmem, hab, Function.update_noteq hab]
      · simp [hmem, hab, Function.update_noteq hab]

/-- Such a loop keeps what `f` keeps. -/
theorem foldl_update_keeps {α : Type} (f : CNN_Node → CNN_Node) (p : CNN_Node → α)
    (hf : ∀ n, p (f n) = p n) (nodes : List Nat) :
    ∀ (heap : Nat → CNN_Node) (a : Nat),
    p (nodes.foldl (fun heap a => Function.update heap a (f (heap a))) heap a) =
      p (heap a) := by
  induction nodes with
  | nil => exact fun heap a => rfl
  | cons b nodes ih =>
    intro heap a
    rw [List.foldl_cons, ih]
    by_cases hab : a = b
    · subst hab
      rw [Function.update_same, hf]
    · rw [Function.update_noteq hab]

theorem after_image_keeps_best (T : Trainer) (hT : T.keeps_best) (b : Bool) (j : Nat)
    (g : CNN_Genome) (out : Image_Evaluation) :
    (after_image T b j g out).edges.map CNN_Edge.best_weights =
      out.edges.map CNN_Edge.best_weights ∧
    ∀ a, ((after_image T b j g out).heap a).best_bias = (out.heap a).best_bias := by
  unfold after_image
  split
  · constructor
    · simp only [CNN_Genome.reset_velocities, List.map_map]
      exact List.map_congr_left (fun e _ => hT.edge_reset_velocities e)
    · intro a
      exact foldl_update_keeps T.node_reset_velocities CNN_Node.best_bias
        hT.node_reset_velocities _ _ a
  · exact ⟨rfl, fun _ => rfl⟩

theorem evaluate_loop_keeps_best (T : Trainer) (hT : T.keeps_best) (images : Images)
    (b : Bool) (order : List Int) : ∀ (j : Nat) (g : CNN_Genome) (r : Evaluation)
    (res : CNN_Genome × Evaluation),
    evaluate_loop T images b j order g r = some res →
      res.1.edges.map CNN_Edge.best_weights = g.edges.map CNN_Edge.best_weights ∧
      ∀ a, (res.1.heap a).best_bias = (g.heap a).best_bias := by
  induction order with
  | nil =>
    intro j g r res h
    simp only [evaluate_loop, Option.some.injEq] at h
    rw [← h]
    exact ⟨rfl, fun _ => rfl⟩
  | cons o order ih =>
    intro j g r res h
    unfold evaluate_loop at h
    split at h
    · exact absurd h (by simp)
    · rename_i out hout
      have h1 := hT.evaluate_image _ _ _ _ _ _ _ hout
      have h2 := after_image_keeps_best T hT b j g out
      have h3 := ih _ _ _ _ h
      exact ⟨h3.1.trans (h2.1.trans h1.1),
        fun a => (h3.2 a).trans ((h2.2 a).trans (h1.2 a))⟩

/-- The two passes of an epoch leave the saved best values alone when the
calls into the nodes and edges do. -/
theorem measure_epoch_keeps_best (T : Trainer) (hT : T.keeps_best) (images : Images)
    (g : CNN_Genome) (m : CNN_Genome × Evaluation)
    (h : measure_epoch T images g = some m) :
    m.1.edges.map CNN_Edge.best_weights = g.edges.map CNN_Edge.best_weights ∧
    ∀ a, (m.1.heap a).best_bias = (g.heap a).best_bias := by
  unfold measure_epoch at h
  split at h
  · exact absurd h (by simp)
  · rename_i trained h1
    have h2 := evaluate_loop_keeps_best T hT images true _ _ _ _ _ h1
    have h3 := evaluate_loop_keeps_best T hT images false _ _ _ _ _ h
    exact ⟨h3.1.trans h2.1, fun a => (h3.2 a).trans (h2.2 a)⟩

/-- What `set_to_best` leaves: every edge has its best weights as weights,
every node of the node list its best bias as bias, and the best values are
as before. -/
theorem set_to_best_spec (g : CNN_Genome) :
    g.set_to_best.edges.map CNN_Edge.weights = g.edges.map CNN_Edge.best_weights ∧
    g.set_to_best.edges.map CNN_Edge.best_weights = g.edges.map CNN_Edge.best_weights ∧
    (∀ a ∈ g.nodes, (g.set_to_best.heap a).bias = (g.heap a).best_bias) ∧
    (∀ a, (g.set_to_best.heap a).best_bias = (g.heap a).best_bias) := by
  refine ⟨?_, ?_, ?_, ?_⟩
  · simp only [CNN_Genome.set_to_best, List.map_map]
    exact List.map_congr_left (fun _ _ => rfl)
  · simp only [CNN_Genome.set_to_best, List.map_map]
    exact List.map_congr_left (fun _ _ => rfl)
  · intro a ha
    simp only [CNN_Genome.set_to_best]
    rw [foldl_update_apply set_bias_to_best (fun _ => rfl), if_pos ha]
    rfl
  · intro a
    exact foldl_update_keeps set_bias_to_best CNN_Node.best_bias (fun _ => rfl) _ _ a

/-- What `save_to_best` leaves: every edge has its weights as best weights,
every node of the node list its bias as best bias, and weights and bias are
as before. -/
theorem save_to_best_spec (g : CNN_Genome) :
    g.save_to_best.edges.map CNN_Edge.best_weights = g.edges.map CNN_Edge.weights ∧
    g.save_to_best.edges.map CNN_Edge.weights = g.edges.map CNN_Edge.weights ∧
    (∀ a ∈ g.nodes, (g.save_to_best.heap a).best_bias = (g.heap a).bias) ∧
    (∀ a, (g.save_to_best.heap a).bias = (g.heap a).bias) := by
  refine ⟨?_, ?_, ?_, ?_⟩
  · simp only [CNN_Genome.save_to_best, List.map_map]
    exact List.map_congr_left (fun _ _ => rfl)
  · simp only [CNN_Genome.save_to_best, List.map_map]
    exact List.map_congr_left (fun _ _ => rfl)
  · intro a ha
    simp only [CNN_Genome.save_to_best]
    rw [foldl_update_apply save_best_bias (fun _ => rfl), if_pos ha]
    rfl
  · intro a
    exact foldl_update_keeps save_best_bias CNN_Node.bias (fun _ => rfl) _ _ a

theorem conclude_epoch_pos (s : Training) (r : Evaluation)
    (h : r.total_error < s.genome.best_error) :
    (conclude_epoch s r).genome = advance_epoch (record_best s.genome r).save_to_best := by
  simp only [conclude_epoch, improve_or_roll_back_pos s r h]

theorem conclude_epoch_neg (s : Training) (r : Evaluation)
    (h : ¬ r.total_error < s.genome.best_error) :
    (conclude_epoch s r).genome = advance_epoch s.genome.set_to_best := by
  simp only [conclude_epoch, improve_or_roll_back_neg s r h]

theorem sample_keeps_best : sample_trainer.keeps_best where
  evaluate_image g image class_error perform_backprop dropout total_error out h := by
    rw [← Option.some.inj h]
    refine ⟨?_, fun _ => rfl⟩
    cases perform_backprop
    · rfl
    · simp only [if_true, List.map_map]
      exact List.map_congr_left (fun _ _ => rfl)
  edge_reset_velocities _ := rfl
  node_reset_velocities _ := rfl

/-- C16: in an epoch whose measuring pass leaves a total error that is not
below `best_error`, with calls into the nodes and edges that leave the saved
best values alone: after the epoch the weights of every edge are the best
weights that edge had saved before the epoch, the bias of every node of the
node list is the best bias that node had saved, the saved best values are
unchanged, and so are `best_error`, `best_error_epoch`, `best_predictions`,
`best_predictions_epoch` and the two per-class vectors. -/
theorem epoch_without_improvement_rolls_back (T : Trainer) (hT : T.keeps_best)
    (images : Images) (s : Training) (m : CNN_Genome × Evaluation)
    (hm : measure_epoch T images s.genome = some m)
    (hno : ¬ m.2.total_error < s.genome.best_error) :
    ∃ s1, epoch T images s = some s1 ∧
      s1.genome.edges.map CNN_Edge.weights = s.genome.edges.map CNN_Edge.best_weights ∧
      s1.genome.edges.map CNN_Edge.best_weights =
        s.genome.edges.map CNN_Edge.best_weights ∧
      (∀ a ∈ s.genome.nodes, (s1.genome.heap a).bias = (s.genome.heap a).best_bias) ∧
      (∀ a, (s1.genome.heap a).best_bias = (s.genome.heap a).best_bias) ∧
      s1.genome.best_error = s.genome.best_error ∧
      s1.genome.best_error_epoch = s.genome.best_error_epoch ∧
      s1.genome.best_predictions = s.genome.best_predictions ∧
      s1.genome.best_predictions_epoch = s.genome.best_predictions_epoch ∧
      s1.genome.best_class_error = s.genome.best_class_error ∧
      s1.genome.best_correct_predictions = s.genome.best_correct_predictions := by
  have hk := measure_epoch_keeps_best T hT images _ m hm
  have hb := set_to_best_spec m.1
  obtain ⟨heap, edges, rng, order, hm1⟩ := measure_epoch_same_settings T images _ m hm
  have hno2 : ¬ m.2.total_error < ({ s with genome := m.1 } : Training).genome.best_error := by
    simp only [hm1]
    exact hno
  have hg := conclude_epoch_neg { s with genome := m.1 } m.2 hno2
  have hnodes : m.1.nodes = s.genome.nodes := by rw [hm1]
  refine ⟨_, epoch_of_measure T images s m hm, ?_, ?_, ?_, ?_, ?_⟩
  · rw [hg]
    exact hb.1.trans hk.1
  · rw [hg]
    exact hb.2.1.trans hk.1
  · intro a ha
    rw [hg]
    exact (hb.2.2.1 a (hnodes ▸ ha)).trans (hk.2 a)
  · intro a
    rw [hg]
    exact (hb.2.2.2 a).trans (hk.2 a)
  · rw [hg]
    simp only [hm1]
    exact ⟨rfl, rfl, rfl, rfl, rfl, rfl⟩

/-- C16 for `genome_training_behind`, trained by `sample_trainer`: the epoch
moves the weight to the learning rate 1/10 and measures the error 1/10, which
is not below 1/20; after the epoch the weight is the saved 4 again and the
biases are the saved 3 and 7. -/
theorem epoch_without_improvement_rolls_back_witness :
    sample_trainer.keeps_best ∧
    ∃ m, measure_epoch sample_trainer sample_images genome_training_behind = some m ∧
      m.1.edges.map CNN_Edge.weights = [[1 / 10]] ∧ m.2.total_error = 1 / 10 ∧
      ¬ m.2.total_error < genome_training_behind.best_error ∧
      ∃ s1, epoch sample_trainer sample_images { genome := genome_training_behind } =
          some s1 ∧
        s1.genome.edges.map CNN_Edge.weights = [[4]] ∧
        s1.genome.edges.map CNN_Edge.best_weights = [[4]] ∧
        (s1.genome.heap 0).bias = [3] ∧ (s1.genome.heap 1).bias = [7] ∧
        s1.genome.best_error = 1 / 20 ∧ s1.genome.best_error_epoch = -1 ∧
        s1.genome.best_predictions = 3 := by
  have hm := sample_measure_epoch sample_images genome_training_behind (by decide)
  have herr : (0 : ℚ) + ((genome_training_behind.backprop_order.length : ℕ) : ℚ) *
      sample_error (genome_training_behind.edges.map
        (sample_step genome_training_behind.learning_rate)) = 1 / 10 := by
    simp [genome_training_behind, genome_training, sample_error, sample_step]
  have hno : ¬ ((0 : ℚ) + ((genome_training_behind.backprop_order.length : ℕ) : ℚ) *
      sample_error (genome_training_behind.edges.map
        (sample_step genome_training_behind.learning_rate)) <
      genome_training_behind.best_error) := by
    rw [herr]
    simp [genome_training_behind]
    norm_num
  obtain ⟨s1, h1, h2, h3, h4, _, h5, h6, h7, _⟩ :=
    epoch_without_improvement_rolls_back sample_trainer sample_keeps_best sample_images
      { genome := genome_training_behind } _ hm hno
  exact ⟨sample_keeps_best, _, hm, rfl, herr, hno, s1, h1, h2, h3,
    h4 0 (by decide), h4 1 (by decide), h5, h6, h7⟩

/-- An epoch with an improvement: the best record is the one of this epoch,
and the saved best values are the values the two passes left. -/
theorem epoch_with_improvement (T : Trainer) (images : Images) (s : Training)
    (m : CNN_Genome × Evaluation) (hm : measure_epoch T images s.genome = some m)
    (h : m.2.total_error < s.genome.best_error) :
    ∃ s1, epoch T images s = some s1 ∧
      s1.genome.best_error = m.2.total_error ∧
      s1.genome.best_error_epoch = s.genome.epoch ∧
      s1.genome.best_predictions_epoch = s.genome.epoch ∧
      s1.genome.epoch = int_wrap (s.genome.epoch + 1) ∧
      (INT_MIN ≤ s.genome.epoch → s.genome.epoch < INT_MAX →
        s1.genome.epoch = s.genome.epoch + 1) ∧
      s1.genome.best_predictions = m.2.total_predictions ∧
      s1.genome.best_class_error = m.2.class_error ∧
      s1.genome.best_correct_predictions = m.2.correct_predictions ∧
      s1.genome.edges.map CNN_Edge.best_weights = s1.genome.edges.map CNN_Edge.weights ∧
      s1.genome.edges.map CNN_Edge.weights = m.1.edges.map CNN_Edge.weights ∧
      (∀ a ∈ s.genome.nodes, (s1.genome.heap a).best_bias = (s1.genome.heap a).bias) ∧
      (∀ a, (s1.genome.heap a).bias = (m.1.heap a).bias) := by
  have hb := save_to_best_spec (record_best m.1 m.2)
  obtain ⟨heap, edges, rng, order, hm1⟩ := measure_epoch_same_settings T images _ m hm
  have h2 : m.2.total_error < ({ s with genome := m.1 } : Training).genome.best_error := by
    simp only [hm1]
    exact h
  have hg := conclude_epoch_pos { s with genome := m.1 } m.2 h2
  have hnodes : m.1.nodes = s.genome.nodes := by rw [hm1]
  have hepoch : m.1.epoch = s.genome.epoch := by rw [hm1]
  refine ⟨_, epoch_of_measure T images s m hm, ?_⟩
  rw [hg]
  refine ⟨rfl, hepoch, hepoch, congrArg (fun e => int_wrap (e + 1)) hepoch,
    fun hlow hhigh => ?_, rfl, rfl, rfl,
    hb.1.trans hb.2.1.symm, hb.2.1, fun a ha => ?_, hb.2.2.2⟩
  · refine (congrArg (fun e => int_wrap (e + 1)) hepoch).trans ?_
    exact int_wrap_of_range _ (by omega) (by omega)
  exact (hb.2.2.1 a (hnodes ▸ ha)).trans (hb.2.2.2 a).symm

/-- An epoch without an improvement leaves the best record as it is. -/
theorem epoch_keeps_record (T : Trainer) (images : Images) (s : Training)
    (m : CNN_Genome × Evaluation) (hm : measure_epoch T images s.genome = some m)
    (h : ¬ m.2.total_error < s.genome.best_error) :
    ∃ s1, epoch T images s = some s1 ∧
      s1.genome.best_error = s.genome.best_error ∧
      s1.genome.best_error_epoch = s.genome.best_error_epoch ∧
      s1.genome.best_predictions_epoch = s.genome.best_predictions_epoch ∧
      s1.genome.best_predictions = s.genome.best_predictions ∧
      s1.genome.best_class_error = s.genome.best_class_error ∧
      s1.genome.best_correct_predictions = s.genome.best_correct_predictions ∧
      s1.genome.edges.map CNN_Edge.weights = m.1.edges.map CNN_Edge.best_weights ∧
      s1.genome.edges.map CNN_Edge.best_weights = m.1.edges.map CNN_Edge.best_weights := by
  have hb := set_to_best_spec m.1
  obtain ⟨heap, edges, rng, order, hm1⟩ := measure_epoch_same_settings T images _ m hm
  have h2 : ¬ m.2.total_error < ({ s with genome := m.1 } : Training).genome.best_error := by
    simp only [hm1]
    exact h
  have hg := conclude_epoch_neg { s with genome := m.1 } m.2 h2
  refine ⟨_, epoch_of_measure T images s m hm, ?_⟩
  rw [hg]
  refine ⟨?_, ?_, ?_, ?_, ?_, ?_, hb.1, hb.2.1⟩ <;> (rw [hm1]; rfl)

/-- C17: in an epoch the best record is replaced exactly when the total
error of the measuring pass is strictly below `best_error`. When it is,
`best_error` becomes that error, `best_error_epoch` and
`best_predictions_epoch` become the epoch counter as it was before its
increment, `best_predictions` becomes the number of correct predictions of
the measuring pass, the two per-class vectors become those of the pass, and
every edge and every node of the node list has its current value as saved
best value. When it is not (an equal error included), the best record is as
before. (The epoch counter is an `int`: after its increment it is one more
than before, unless it was the largest `int`.) -/
theorem epoch_updates_record_iff_improved (T : Trainer) (images : Images)
    (s : Training) (m : CNN_Genome × Evaluation)
    (hm : measure_epoch T images s.genome = some m) :
    ∃ s1, epoch T images s = some s1 ∧
      (m.2.total_error < s.genome.best_error →
        s1.genome.best_error = m.2.total_error ∧
        s1.genome.best_error_epoch = s.genome.epoch ∧
        s1.genome.best_predictions_epoch = s.genome.epoch ∧
        s1.genome.epoch = int_wrap (s.genome.epoch + 1) ∧
        (INT_MIN ≤ s.genome.epoch → s.genome.epoch < INT_MAX →
          s1.genome.epoch = s.genome.epoch + 1) ∧
        s1.genome.best_predictions = m.2.total_predictions ∧
        s1.genome.best_class_error = m.2.class_error ∧
        s1.genome.best_correct_predictions = m.2.correct_predictions ∧
        s1.genome.edges.map CNN_Edge.best_weights =
          s1.genome.edges.map CNN_Edge.weights ∧
        s1.genome.edges.map CNN_Edge.weights = m.1.edges.map CNN_Edge.weights ∧
        (∀ a ∈ s.genome.nodes, (s1.genome.heap a).best_bias = (s1.genome.heap a).bias) ∧
        (∀ a, (s1.genome.heap a).bias = (m.1.heap a).bias)) ∧
      (¬ m.2.total_error < s.genome.best_error →
        s1.genome.best_error = s.genome.best_error ∧
        s1.genome.best_error_epoch = s.genome.best_error_epoch ∧
        s1.genome.best_predictions_epoch = s.genome.best_predictions_epoch ∧
        s1.genome.best_predictions = s.genome.best_predictions ∧
        s1.genome.best_class_error = s.genome.best_class_error ∧
        s1.genome.best_correct_predictions = s.genome.best_correct_predictions ∧
        s1.genome.edges.map CNN_Edge.best_weights =
          m.1.edges.map CNN_Edge.best_weights) := by
  refine ⟨_, epoch_of_measure T images s m hm, fun h => ?_, fun h => ?_⟩
  · obtain ⟨s1, h1, h2⟩ := epoch_with_improvement T images s m hm h
    rw [epoch_of_measure T images s m hm] at h1
    rw [Option.some.inj h1]
    exact h2
  · obtain ⟨s1, h1, h2, h3, h4, h5, h6, h7, _, h8⟩ := epoch_keeps_record T images s m hm h
    rw [epoch_of_measure T images s m hm] at h1
    rw [Option.some.inj h1]
    exact ⟨h2, h3, h4, h5, h6, h7, h8⟩

/-- C17 for `genome_training` (epoch counter 0, `best_error` 1), where the
epoch measures the error 1/10 and records it with the weight 1/10, and for
`genome_training_behind` (`best_error` 1/20), where the record stays. -/
theorem epoch_updates_record_iff_improved_witness :
    (∃ m s1, measure_epoch sample_trainer sample_images genome_training = some m ∧
      epoch sample_trainer sample_images { genome := genome_training } = some s1 ∧
      m.2.total_error = 1 / 10 ∧ s1.genome.best_error = 1 / 10 ∧
      s1.genome.best_error_epoch = 0 ∧ s1.genome.best_predictions_epoch = 0 ∧
      s1.genome.epoch = 1 ∧ s1.genome.best_predictions = 0 ∧
      s1.genome.best_class_error = [0, 0] ∧
      s1.genome.edges.map CNN_Edge.best_weights = [[1 / 10]] ∧
      s1.genome.edges.map CNN_Edge.weights = [[1 / 10]]) ∧
    (∃ m s1, measure_epoch sample_trainer sample_images genome_training_behind = some m ∧
      epoch sample_trainer sample_images { genome := genome_training_behind } = some s1 ∧
      m.2.total_error = 1 / 10 ∧ s1.genome.best_error = 1 / 20 ∧
      s1.genome.best_error_epoch = -1 ∧ s1.genome.best_predictions = 3 ∧
      s1.genome.edges.map CNN_Edge.best_weights = [[4]]) := by
  have hm := sample_measure_epoch sample_images genome_training (by decide)
  have hm2 := sample_measure_epoch sample_images genome_training_behind (by decide)
  have herr : (0 : ℚ) + ((genome_training.backprop_order.length : ℕ) : ℚ) *
      sample_error (genome_training.edges.map
        (sample_step genome_training.learning_rate)) = 1 / 10 := by
    simp [genome_training, sample_error, sample_step]
  have herr2 : (0 : ℚ) + ((genome_training_behind.backprop_order.length : ℕ) : ℚ) *
      sample_error (genome_training_behind.edges.map
        (sample_step genome_training_behind.learning_rate)) = 1 / 10 := herr
  obtain ⟨s1, h1, h2, _⟩ :=
    epoch_updates_record_iff_improved sample_trainer sample_images
      { genome := genome_training } _ hm
  obtain ⟨s2, h3, _, h4⟩ :=
    epoch_updates_record_iff_improved sample_trainer sample_images
      { genome := genome_training_behind } _ hm2
  have hlt : (0 : ℚ) + ((genome_training.backprop_order.length : ℕ) : ℚ) *
      sample_error (genome_training.edges.map
        (sample_step genome_training.learning_rate)) < genome_training.best_error := by
    rw [herr]
    simp [genome_training]
    norm_num
  have hno : ¬ ((0 : ℚ) + ((genome_training_behind.backprop_order.length : ℕ) : ℚ) *
      sample_error (genome_training_behind.edges.map
        (sample_step genome_training_behind.learning_rate)) <
      genome_training_behind.best_error) := by
    rw [herr2]
    simp [genome_training_behind]
    norm_num
  obtain ⟨a1, a2, a3, a4, _, a5, a6, _, a7, a8, _⟩ := h2 hlt
  obtain ⟨b1, b2, _, b3, _, _, b4⟩ := h4 hno
  exact ⟨⟨_, s1, hm, h1, herr, a1.trans herr, a2, a3, a4.trans (by decide), a5, a6,
      a7.trans a8, a8⟩,
    ⟨_, s2, hm2, h3, herr2, b1, b2, b3, b4⟩⟩

/-- The hyperparameters after `k` epochs. -/
theorem epochs_schedule (T : Trainer) (images : Images) (k : Nat) :
    ∀ (s s2 : Training), epochs T images k s = some s2 →
      s2.genome.mu = 99 / 100 - (99 / 100 - s.genome.mu) * s.genome.mu_delta ^ k ∧
      s2.genome.learning_rate = s.genome.learning_rate * s.genome.learning_rate_delta ^ k ∧
      s2.genome.weight_decay = s.genome.weight_decay * s.genome.weight_decay_delta ^ k ∧
      s2.genome.mu_delta = s.genome.mu_delta := by
  induction k with
  | zero =>
    intro s s2 h
    simp only [epochs, Option.some.injEq] at h
    rw [← h]
    simp
  | succ k ih =>
    intro s s2 h
    unfold epochs at h
    split at h
    · exact absurd h (by simp)
    · rename_i s1 h1
      obtain ⟨_, _, _, _, hd1, hd2, hd3, hmu, hlr, hwd⟩ := epoch_settings T images s s1 h1
      obtain ⟨h2, h3, h4, h5⟩ := ih s1 s2 h
      rw [h2, h3, h4, h5, hd1, hd2, hd3, hmu, hlr, hwd]
      refine ⟨by ring, by ring, by ring, rfl⟩

theorem progress_values_append (l1 l2 : List Effect) :
    progress_values (l1 ++ l2) = progress_values l1 ++ progress_values l2 := by
  induction l1 with
  | nil => rfl
  | cons e l1 ih =>
    cases e <;> simp [progress_values, ih]

theorem progress_values_write_if_named (filename : List Char) (g : CNN_Genome)
    (effects : List Effect) :
    progress_values (write_if_named filename g effects) = progress_values effects := by
  unfold write_if_named
  split
  · rw [progress_values_append]
    simp [progress_values]
  · rfl

/-- The calls of the progress callback that the end of an epoch adds. -/
theorem conclude_epoch_progress (s : Training) (r : Evaluation) :
    progress_values (conclude_epoch s r).effects =
      progress_values s.effects ++
        (match s.genome.progress_function with
          | none => []
          | some _ =>
            [double_div ((int_wrap (s.genome.epoch + 1) : Int) : ℚ)
              ((s.genome.max_epochs : ℚ) + 1)]) := by
  have h1 : progress_values (improve_or_roll_back s r).effects =
      progress_values s.effects := by
    by_cases h : r.total_error < s.genome.best_error
    · rw [improve_or_roll_back_pos s r h]
      simp [progress_values_append, progress_values_write_if_named, progress_values]
    · rw [improve_or_roll_back_neg s r h]
      simp [progress_values_append, progress_values]
  have h2 : (advance_epoch (improve_or_roll_back s r).genome).progress_function =
      s.genome.progress_function := (conclude_epoch_settings s r).2.2.1
  have h3 : (advance_epoch (improve_or_roll_back s r).genome).epoch =
      int_wrap (s.genome.epoch + 1) := (conclude_epoch_settings s r).1
  have h4 : (advance_epoch (improve_or_roll_back s r).genome).max_epochs =
      s.genome.max_epochs := (conclude_epoch_settings s r).2.1
  simp only [conclude_epoch, report_progress]
  rw [h2, h3, h4]
  cases s.genome.progress_function with
  | none => simp [progress_values_write_if_named, h1]
  | some f =>
    simp [progress_values_append, progress_values_write_if_named, h1, progress_values]

theorem epoch_progress (T : Trainer) (images : Images) (s s1 : Training)
    (h : epoch T images s = some s1) :
    progress_values s1.effects =
      progress_values s.effects ++
        (match s.genome.progress_function with
          | none => []
          | some _ =>
            [double_div ((int_wrap (s.genome.epoch + 1) : Int) : ℚ)
              ((s.genome.max_epochs : ℚ) + 1)]) := by
  unfold epoch at h
  split at h
  · exact absurd h (by simp)
  · rename_i m hm
    obtain ⟨heap, edges, rng, order, hm1⟩ := measure_epoch_same_settings T images _ m hm
    have hc := conclude_epoch_progress { s with genome := m.1 } m.2
    rw [Option.some.inj h] at hc
    simp only [hm1] at hc
    exact hc

/-- The calls of the progress callback during `n` epochs that do not leave the
range of an `int`: one per epoch, with the epoch counter after its increment
over `max_epochs + 1`. -/
theorem epochs_progress (T : Trainer) (images : Images) (n : Nat) :
    ∀ (s s2 : Training), epochs T images n s = some s2 →
      (s.genome.progress_function = none →
        progress_values s2.effects = progress_values s.effects) ∧
      (s.genome.progress_function ≠ none → INT_MIN ≤ s.genome.epoch →
        s.genome.epoch + n ≤ INT_MAX →
        progress_values s2.effects = progress_values s.effects ++
          (List.range n).map (fun i : Nat =>
            double_div ((s.genome.epoch + 1 + (i : Int) : Int) : ℚ)
              ((s.genome.max_epochs : ℚ) + 1))) := by
  induction n with
  | zero =>
    intro s s2 h
    simp only [epochs, Option.some.injEq] at h
    rw [← h]
    simp
  | succ n ih =>
    intro s s2 h
    unfold epochs at h
    split at h
    · exact absurd h (by simp)
    · rename_i s1 h1
      have hs := epoch_settings T images s s1 h1
      have hp := epoch_progress T images s s1 h1
      have hih := ih s1 s2 h
      constructor
      · intro hnone
        rw [hnone] at hp
        rw [hih.1 (hs.2.2.1.trans hnone), hp]
        simp
      · intro hsome hlow hhigh
        push_cast at hhigh
        have hwrap : int_wrap (s.genome.epoch + 1) = s.genome.epoch + 1 :=
          int_wrap_of_range _ (by omega) (by omega)
        rw [hwrap] at hs hp
        have h2 := hih.2 (by rw [hs.2.2.1]; exact hsome) (by rw [hs.1]; omega)
          (by rw [hs.1]; omega)
        rw [hs.1, hs.2.1] at h2
        obtain ⟨f, hf⟩ := Option.ne_none_iff_exists'.mp hsome
        rw [hf] at hp
        rw [h2, hp, List.range_succ_eq_map, List.map_cons, List.map_map]
        simp only [List.append_assoc, List.singleton_append, Nat.cast_zero, add_zero,
          Function.comp_def, Nat.cast_succ]
        congr 2
        apply List.map_congr_left
        intro i _
        congr 2
        ring

/-- The calls of the progress callback during a whole call. -/
theorem stochastic_backpropagation_progress (T : Trainer) (images : Images)
    (this : CNN_Genome) (hT : T.never_exits this.softmax_nodes)
    (hchecks : entry_checks T this = true) (hlow : INT_MIN ≤ this.epoch)
    (hhigh : this.epoch < INT_MAX) (hmax : this.max_epochs < INT_MAX) :
    ∃ s2, this.stochastic_backpropagation T
        (max 1 (this.max_epochs - this.epoch + 1)).toNat images = Run.returned s2 ∧
      (this.progress_function = none → progress_values s2.effects = []) ∧
      (this.progress_function ≠ none →
        progress_values s2.effects =
          (List.range (max 1 (this.max_epochs - this.epoch + 1)).toNat).map (fun i : Nat =>
            double_div ((this.epoch + 1 + (i : Int) : Int) : ℚ)
              ((this.max_epochs : ℚ) + 1))) := by
  obtain ⟨s0, h0⟩ := loop_entry_returns T images this hT
  have hs0 := loop_entry_settings T images this s0 h0
  have hsoft := loop_entry_softmax_nodes T images this s0 h0
  have hloop := epoch_loop_spec T images
    (max 1 (this.max_epochs - this.epoch + 1)).toNat s0 (hsoft ▸ hT)
    (by rw [hs0.1]; exact hlow) (by rw [hs0.1]; exact hhigh) (by rw [hs0.2.1]; exact hmax)
  rw [hs0.1, hs0.2.1] at hloop
  obtain ⟨s2, h2, h3⟩ := hloop.1 (le_refl _)
  have hp := epochs_progress T images _ s0 s2 h3
  rw [hs0.1, hs0.2.1, hs0.2.2.1, hs0.2.2.2.2.2.2.2] at hp
  rw [stochastic_backpropagation_eq T images this hchecks s0 h0]
  have hcount : this.epoch + ((max 1 (this.max_epochs - this.epoch + 1)).toNat : Int) ≤
      INT_MAX := by
    rcases le_total this.epoch this.max_epochs with hle | hle
    · rw [max_eq_right (by omega)]
      omega
    · rw [max_eq_left (by omega)]
      have : ((1 : Int).toNat : Int) = 1 := rfl
      omega
  refine ⟨s2, h2, hp.1, fun h => ?_⟩
  rw [hp.2 h hlow hcount]
  rfl

/-! ### `outputs_connected` on edges in any order -/

/-- C30: whatever the order of the edge list, for a genome whose edge
endpoints, input nodes and softmax nodes are in its node list: when
`outputs_connected` returns true, every softmax node is an input node or is
reachable from an input node along a path of at least one enabled edge. The
converse needs the order: in `genome_unsorted_edges` the output node is
reachable along 0 -> 1 -> 2, and `outputs_connected` returns false. -/
theorem outputs_connected_never_over_reports (g : CNN_Genome)
    (hedges : ∀ e ∈ g.edges, e.input_node ∈ g.nodes ∧ e.output_node ∈ g.nodes)
    (_hinputs : ∀ i ∈ g.input_nodes, i ∈ g.nodes)
    (hsoftmax : ∀ s ∈ g.softmax_nodes, s ∈ g.nodes) :
    (g.outputs_connected = true →
      ∀ s ∈ g.softmax_nodes, s ∈ g.input_nodes ∨ reachable_by_edges g s) ∧
    (genome_unsorted_edges.outputs_connected = false ∧
      ∀ s ∈ genome_unsorted_edges.softmax_nodes,
        reachable_by_edges genome_unsorted_edges s) := by
  refine ⟨fun h s hs => ?_, by decide, ?_⟩
  · obtain ⟨i, hi, hpath⟩ :=
      outputs_connected_sound g (fun e he _ => (hedges e he).1) hsoftmax h s hs
    rcases Relation.reflTransGen_iff_eq_or_transGen.mp hpath with heq | htrans
    · exact Or.inl (heq ▸ hi)
    · exact Or.inr ⟨i, hi, htrans⟩
  · intro s hs
    have hs2 : s = 2 := by simpa [genome_unsorted_edges] using hs
    subst hs2
    have h01 : enabled_step genome_unsorted_edges 0 1 :=
      ⟨{ innovation_number := 1, input_node := 0, output_node := 1 }, by decide, rfl,
        rfl, rfl⟩
    have h12 : enabled_step genome_unsorted_edges 1 2 :=
      ⟨{ innovation_number := 2, input_node := 1, output_node := 2 }, by decide, rfl,
        rfl, rfl⟩
    exact ⟨0, by decide, Relation.TransGen.tail (Relation.TransGen.single h01) h12⟩

/-- C30 at `genome_connected`, which passes the check and whose output node is
reachable, and at `genome_disconnected`, whose output node is not an input
node and not reachable, so the check does not pass. -/
theorem outputs_connected_never_over_reports_witness :
    (∀ s ∈ genome_connected.softmax_nodes,
      s ∈ genome_connected.input_nodes ∨ reachable_by_edges genome_connected s) ∧
    genome_disconnected.outputs_connected = false :=
  ⟨(outputs_connected_never_over_reports genome_connected (by decide) (by decide)
      (by decide)).1 (by decide),
    by decide⟩

/-! ### The output file of an improving epoch -/

theorem write_if_named_append (filename : List Char) (g : CNN_Genome)
    (l1 l2 : List Effect) :
    write_if_named filename g (l1 ++ l2) = l1 ++ write_if_named filename g l2 := by
  unfold write_if_named
  split
  · rw [List.append_assoc]
  · rfl

theorem report_progress_append (g : CNN_Genome) (l1 l2 : List Effect) :
    report_progress g (l1 ++ l2) = l1 ++ report_progress g l2 := by
  unfold report_progress
  split
  · rfl
  · rw [List.append_assoc]

/-- The effects of an epoch with an improvement and an output file name: the
first new effect is the call of `write_to_file`, and the genome it writes is
the one with the new best record in which `save_to_best` has not run yet. -/
theorem improving_epoch_effects (T : Trainer) (images : Images) (s : Training)
    (m : CNN_Genome × Evaluation) (hm : measure_epoch T images s.genome = some m)
    (h : m.2.total_error < s.genome.best_error) (hname : s.genome.output_filename ≠ []) :
    ∃ s1 rest, epoch T images s = some s1 ∧
      s1.effects = s.effects ++
        Effect.write_to_file s.genome.output_filename (record_best m.1 m.2) :: rest ∧
      s1.genome.edges.map CNN_Edge.best_weights = m.1.edges.map CNN_Edge.weights := by
  obtain ⟨heap, edges, rng, order, hm1⟩ := measure_epoch_same_settings T images _ m hm
  have h2 : m.2.total_error < ({ s with genome := m.1 } : Training).genome.best_error := by
    simp only [hm1]
    exact h
  have hname2 : m.1.output_filename = s.genome.output_filename := by rw [hm1]
  have hb := save_to_best_spec (record_best m.1 m.2)
  have hw : write_if_named m.1.output_filename (record_best m.1 m.2) s.effects =
      s.effects ++ [Effect.write_to_file s.genome.output_filename (record_best m.1 m.2)] := by
    unfold write_if_named
    rw [hname2, if_pos hname]
  refine ⟨_, report_progress (advance_epoch (record_best m.1 m.2).save_to_best)
    (write_if_named (record_best m.1 m.2).save_to_best.checkpoint_filename
      (advance_epoch (record_best m.1 m.2).save_to_best)
      [Effect.print_progress (record_best m.1 m.2).save_to_best m.2.total_predictions
        m.2.total_error]), epoch_of_measure T images s m hm, ?_, ?_⟩
  · simp only [conclude_epoch, improve_or_roll_back_pos _ _ h2]
    rw [hw, List.append_assoc, write_if_named_append, report_progress_append,
      write_if_named_append, report_progress_append]
    rfl
  · rw [conclude_epoch_pos _ _ h2]
    exact hb.1

/-- C29 (the code misses the claim by the order of two statements): the
epoch of `genome_training` under `sample_trainer` improves on the best error
and the output file name is `best`. The genome is written first (line 1318)
and `save_to_best` runs afterwards (line 1321): the genome written has the new
`best_error` 1/10 and `best_error_epoch` 0 and the weight 1/10 of this epoch,
with the saved best weight still the 4 of before and the saved best biases
still 3 and 7 next to the biases 2 and 6; only the genome after the epoch has
1/10 as saved best weight. -/
theorem output_file_written_before_save :
    ∃ s1 written rest,
      epoch sample_trainer sample_images { genome := genome_training } = some s1 ∧
      s1.effects = Effect.write_to_file ['b', 'e', 's', 't'] written :: rest ∧
      written.best_error = 1 / 10 ∧ written.best_error_epoch = 0 ∧
      written.edges.map CNN_Edge.weights = [[1 / 10]] ∧
      written.edges.map CNN_Edge.best_weights = [[4]] ∧
      (written.heap 0).bias = [2] ∧ (written.heap 0).best_bias = [3] ∧
      (written.heap 1).bias = [6] ∧ (written.heap 1).best_bias = [7] ∧
      s1.genome.edges.map CNN_Edge.best_weights = [[1 / 10]] := by
  have hm := sample_measure_epoch sample_images genome_training (by decide)
  have herr : (0 : ℚ) + ((genome_training.backprop_order.length : ℕ) : ℚ) *
      sample_error (genome_training.edges.map
        (sample_step genome_training.learning_rate)) = 1 / 10 := by
    simp [genome_training, sample_error, sample_step]
  have hlt : (0 : ℚ) + ((genome_training.backprop_order.length : ℕ) : ℚ) *
      sample_error (genome_training.edges.map
        (sample_step genome_training.learning_rate)) < genome_training.best_error := by
    rw [herr]
    simp [genome_training]
    norm_num
  obtain ⟨s1, rest, h1, h2, h3⟩ := improving_epoch_effects sample_trainer sample_images
    { genome := genome_training } _ hm hlt (by decide)
  exact ⟨s1, _, rest, h1, h2, herr, rfl, rfl, rfl, rfl, rfl, rfl, rfl, h3⟩

/-! ### The positions of one pass of `evaluate` -/

/-- A loop that replaces the node object behind every pointer of a list
without repetitions by its image under `f` leaves `f` of the old object
behind a pointer of the list, and the old object behind any other pointer. -/
theorem foldl_update_nodup (f : CNN_Node → CNN_Node) (nodes : List Nat)
    (hnodup : nodes.Nodup) : ∀ (heap : Nat → CNN_Node) (a : Nat),
    nodes.foldl (fun heap a => Function.update heap a (f (heap a))) heap a =
      if a ∈ nodes then f (heap a) else heap a := by
  induction nodes with
  | nil => exact fun heap a => by simp
  | cons b nodes ih =>
    intro heap a
    have hb : b ∉ nodes := (List.nodup_cons.mp hnodup).1
    rw [List.foldl_cons, ih (List.nodup_cons.mp hnodup).2]
    by_cases hab : a = b
    · subst hab
      simp [hb]
    · by_cases hmem : a ∈ nodes
      · simp [hmem, hab, Function.update_noteq hab]
      · simp [hmem, hab, Function.update_noteq hab]

/-- The loop of `evaluate` over an order in two parts: the second part starts
at the position after the first part, with what the first part left. -/
theorem evaluate_loop_append (T : Trainer) (images : Images) (b : Bool)
    (l1 l2 : List Int) : ∀ (j : Nat) (g : CNN_Genome) (r : Evaluation),
    evaluate_loop T images b j (l1 ++ l2) g r =
      match evaluate_loop T images b j l1 g r with
      | none => none
      | some res => evaluate_loop T images b (j + l1.length) l2 res.1 res.2 := by
  induction l1 with
  | nil => exact fun j g r => rfl
  | cons o l1 ih =>
    intro j g r
    simp only [List.cons_append, evaluate_loop, List.length_cons]
    cases T.evaluate_image g (images.get_image o) r.class_error b (perform_dropout b)
      r.total_error with
    | none => rfl
    | some out =>
      have h := ih (j + 1) (after_image T b j g out)
        (count_prediction (images.get_image o).classification out r)
      rw [Nat.add_assoc, Nat.add_comm 1] at h
      exact h

/-- C28: in a pass of `evaluate` the entry at index `pre.length` of
`backprop_order` is evaluated at position `j = pre.length`. After the image
at position `j` the velocities are reset exactly when the pass performs
gradient updates, `velocity_reset > 0`, `j > 0` and `velocity_reset` divides
`j`; otherwise the genome is what `evaluate_image` left. So there is no reset
in a pass without updates, at position 0, or with `velocity_reset <= 0`. A
reset calls `reset_velocities` on every edge and, for a node list without
repetitions, once on every node of the list and on no other node. -/
theorem velocity_reset_schedule (T : Trainer) (images : Images) (b : Bool)
    (g : CNN_Genome) (r : Evaluation) (j : Nat) (out : Image_Evaluation)
    (pre post : List Int) (o : Int) :
    (evaluate_loop T images b 0 (pre ++ o :: post) g r =
      match evaluate_loop T images b 0 pre g r with
      | none => none
      | some res =>
        match T.evaluate_image res.1 (images.get_image o) res.2.class_error b
            (perform_dropout b) res.2.total_error with
        | none => none
        | some out =>
          evaluate_loop T images b (pre.length + 1) post
            (after_image T b pre.length res.1 out)
            (count_prediction (images.get_image o).classification out res.2)) ∧
    after_image T b j g out =
      (if b = true ∧ 0 < g.velocity_reset ∧ 0 < j ∧ g.velocity_reset ∣ (j : Int) then
        CNN_Genome.reset_velocities T
          { g with heap := out.heap, edges := out.edges,
                   rng := { g.rng with generator := out.generator } }
      else
        { g with heap := out.heap, edges := out.edges,
                 rng := { g.rng with generator := out.generator } }) ∧
    after_image T false j g out =
      { g with heap := out.heap, edges := out.edges,
               rng := { g.rng with generator := out.generator } } ∧
    after_image T b 0 g out =
      { g with heap := out.heap, edges := out.edges,
               rng := { g.rng with generator := out.generator } } ∧
    (g.velocity_reset ≤ 0 → after_image T b j g out =
      { g with heap := out.heap, edges := out.edges,
               rng := { g.rng with generator := out.generator } }) ∧
    (CNN_Genome.reset_velocities T g).edges = g.edges.map T.edge_reset_velocities ∧
    (g.nodes.Nodup → ∀ a, (CNN_Genome.reset_velocities T g).heap a =
      if a ∈ g.nodes then T.node_reset_velocities (g.heap a) else g.heap a) := by
  have hcond : (b && decide (g.velocity_reset > 0) && decide (j > 0) &&
      decide ((j : Int) % g.velocity_reset = 0)) = true ↔
      (b = true ∧ 0 < g.velocity_reset ∧ 0 < j ∧ g.velocity_reset ∣ (j : Int)) := by
    simp only [Bool.and_eq_true, decide_eq_true_eq, gt_iff_lt, and_assoc,
      Int.dvd_iff_emod_eq_zero]
  refine ⟨?_, ?_, ?_, ?_, ?_, rfl, fun hnodup a => ?_⟩
  · rw [evaluate_loop_append]
    cases evaluate_loop T images b 0 pre g r with
    | none => rfl
    | some res =>
      simp only [evaluate_loop, Nat.zero_add]
  · unfold after_image
    by_cases h : b = true ∧ 0 < g.velocity_reset ∧ 0 < j ∧ g.velocity_reset ∣ (j : Int)
    · rw [if_pos (hcond.mpr h), if_pos h]
    · rw [if_neg (fun hc => h (hcond.mp hc)), if_neg h]
  · unfold after_image
    simp
  · unfold after_image
    simp
  · intro hv
    unfold after_image
    have : ¬ g.velocity_reset > 0 := by omega
    simp [this]
  · exact foldl_update_nodup T.node_reset_velocities g.nodes hnodup g.heap a

/-! ### The order of the training samples -/

theorem resize_of_le (n : Nat) (v : List Int) (h : v.length ≤ n) :
    resize n v = v ++ List.replicate (n - v.length) 0 := by
  unfold resize
  apply List.take_of_length_le
  simp only [List.length_append, List.length_replicate]
  omega

theorem resize_of_ge (n : Nat) (v : List Int) (h : n ≤ v.length) :
    resize n v = v.take n := by
  unfold resize
  rw [List.take_append_of_le_length h]

theorem after_image_backprop_order (T : Trainer) (b : Bool) (j : Nat) (g : CNN_Genome)
    (out : Image_Evaluation) :
    (after_image T b j g out).backprop_order = g.backprop_order := by
  unfold after_image
  split <;> rfl

theorem evaluate_loop_backprop_order (T : Trainer) (images : Images) (b : Bool)
    (order : List Int) : ∀ (j : Nat) (g : CNN_Genome) (r : Evaluation)
    (res : CNN_Genome × Evaluation),
    evaluate_loop T images b j order g r = some res →
      res.1.backprop_order = g.backprop_order := by
  induction order with
  | nil =>
    intro j g r res h
    simp only [evaluate_loop, Option.some.injEq] at h
    rw [← h]
  | cons o order ih =>
    intro j g r res h
    unfold evaluate_loop at h
    split at h
    · exact absurd h (by simp)
    · exact (ih _ _ _ _ h).trans (after_image_backprop_order T b j g _)

theorem measure_epoch_backprop_order (T : Trainer) (images : Images) (g : CNN_Genome)
    (m : CNN_Genome × Evaluation) (h : measure_epoch T images g = some m) :
    m.1.backprop_order = (g.shuffle_order T).backprop_order := by
  unfold measure_epoch at h
  split at h
  · exact absurd h (by simp)
  · rename_i trained htrained
    exact (evaluate_loop_backprop_order T images false _ _ _ _ _ h).trans
      (evaluate_loop_backprop_order T images true _ _ _ _ _ htrained)

theorem conclude_epoch_backprop_order (s : Training) (r : Evaluation) :
    (conclude_epoch s r).genome.backprop_order = s.genome.backprop_order := by
  unfold conclude_epoch improve_or_roll_back
  split <;> rfl

/-- One pass through the loop body leaves a rearrangement of the order it
found, when the shuffle rearranges. -/
theorem epoch_backprop_order (T : Trainer) (hT : T.shuffles) (images : Images)
    (s s1 : Training) (h : epoch T images s = some s1) :
    s1.genome.backprop_order.Perm s.genome.backprop_order := by
  unfold epoch at h
  split at h
  · exact absurd h (by simp)
  · rename_i m hm
    simp only [Option.some.injEq] at h
    rw [← h, conclude_epoch_backprop_order]
    show m.1.backprop_order.Perm s.genome.backprop_order
    rw [measure_epoch_backprop_order T images s.genome m hm]
    exact hT _ _

theorem epochs_backprop_order (T : Trainer) (hT : T.shuffles) (images : Images) :
    ∀ (k : Nat) (s s1 : Training), epochs T images k s = some s1 →
      s1.genome.backprop_order.Perm s.genome.backprop_order := by
  intro k
  induction k with
  | zero =>
    intro s s1 h
    simp only [epochs, Option.some.injEq] at h
    rw [h]
  | succ k ih =>
    intro s s1 h
    unfold epochs at h
    split at h
    · exact absurd h (by simp)
    · rename_i s2 hs2
      exact (ih s2 s1 h).trans (epoch_backprop_order T hT images s s2 hs2)

theorem prepare_backprop_order (T : Trainer) (g : CNN_Genome) (images : Images)
    (hfresh : g.started_from_checkpoint = false) :
    (g.prepare T images).backprop_order =
      resize 2000 (T.fisher_yates_shuffle (minstd_rand0 g.rng.generator)
        ((List.range images.get_number_images).map Int.ofNat)).1 := by
  unfold CNN_Genome.prepare CNN_Genome.fresh_start
  rw [hfresh]
  rfl

theorem sample_shuffles : sample_trainer.shuffles :=
  fun _ order => List.reverse_perm order

/-- C21, the claim as stated fails: a fresh start of `genome_training` on the
three images of `sample_images`, with a shuffle that rearranges, trains on
the order `2, 1, 0` followed by 1997 entries `0`; it has 2000 entries for 3
images, and the index 0 occurs more than once. -/
theorem fresh_order_repeats_index :
    genome_training.started_from_checkpoint = false ∧
    sample_images.get_number_images = 3 ∧
    sample_trainer.shuffles ∧
    (genome_training.prepare sample_trainer sample_images).backprop_order =
      [2, 1, 0] ++ List.replicate 1997 0 ∧
    ¬ (genome_training.prepare sample_trainer sample_images).backprop_order.Nodup := by
  have horder : (genome_training.prepare sample_trainer sample_images).backprop_order =
      [2, 1, 0] ++ List.replicate 1997 0 := by
    rw [prepare_backprop_order sample_trainer genome_training sample_images rfl]
    have hs : (sample_trainer.fisher_yates_shuffle (minstd_rand0 genome_training.rng.generator)
        ((List.range sample_images.get_number_images).map Int.ofNat)).1 = [2, 1, 0] := rfl
    rw [hs, resize_of_le 2000 [2, 1, 0] (by decide)]
    rfl
  refine ⟨rfl, rfl, sample_shuffles, horder, ?_⟩
  rw [horder]
  intro hnodup
  exact List.disjoint_of_nodup_append hnodup (by decide : (0 : Int) ∈ [2, 1, 0])
    (List.mem_replicate.mpr ⟨by decide, rfl⟩)

/-- C21, amended: on a fresh start with `n >= 1` images and a shuffle that
rearranges, the order used for training has exactly 2000 entries, each a
valid index in `[0, n)`; there is a permutation `p` of `0..n-1` such that for
`n >= 2000` the order is the first 2000 entries of `p` and no index occurs
twice, and for `n < 2000` the order is `p` followed by `2000 - n` entries `0`,
in which index 0 repeats. The first evaluation leaves the order as it is and
every later epoch leaves a rearrangement of the order it found. -/
theorem backprop_order_working_set (T : Trainer) (hT : T.shuffles) (g : CNN_Genome)
    (images : Images) (hfresh : g.started_from_checkpoint = false)
    (hn : 0 < images.get_number_images) :
    (g.prepare T images).backprop_order.length = 2000 ∧
    (∀ o ∈ (g.prepare T images).backprop_order,
      0 ≤ o ∧ o < (images.get_number_images : Int)) ∧
    (∃ p : List Int, p.Perm ((List.range images.get_number_images).map Int.ofNat) ∧
      (2000 ≤ images.get_number_images →
        (g.prepare T images).backprop_order = p.take 2000 ∧
        (g.prepare T images).backprop_order.Nodup) ∧
      (images.get_number_images < 2000 →
        (g.prepare T images).backprop_order =
          p ++ List.replicate (2000 - images.get_number_images) 0 ∧
        ¬ (g.prepare T images).backprop_order.Nodup)) ∧
    (∀ s0, g.loop_entry T images = some s0 →
      s0.genome.backprop_order = (g.prepare T images).backprop_order) ∧
    (∀ (k : Nat) (s s1 : Training), epochs T images k s = some s1 →
      s1.genome.backprop_order.Perm s.genome.backprop_order) := by
  have hperm := hT (minstd_rand0 g.rng.generator)
    ((List.range images.get_number_images).map Int.ofNat)
  have horder := prepare_backprop_order T g images hfresh
  generalize (T.fisher_yates_shuffle (minstd_rand0 g.rng.generator)
    ((List.range images.get_number_images).map Int.ofNat)).1 = p at hperm horder
  have hlen : p.length = images.get_number_images := by
    rw [hperm.length_eq, List.length_map, List.length_range]
  have hmem : ∀ o ∈ p, 0 ≤ o ∧ o < (images.get_number_images : Int) := by
    intro o ho
    obtain ⟨i, hi, rfl⟩ := List.mem_map.mp (hperm.mem_iff.mp ho)
    have := List.mem_range.mp hi
    exact ⟨Int.ofNat_nonneg i, Int.ofNat_lt.mpr this⟩
  have hnodup : p.Nodup := by
    apply hperm.nodup_iff.mpr
    exact (List.nodup_range _).map (fun a b h => Int.ofNat.inj h)
  have hzero : (0 : Int) ∈ p := by
    apply hperm.mem_iff.mpr
    exact List.mem_map.mpr ⟨0, List.mem_range.mpr hn, rfl⟩
  refine ⟨?_, ?_, ⟨p, hperm, ?_, ?_⟩, ?_, epochs_backprop_order T hT images⟩
  · rw [horder, resize_length]
  · intro o ho
    rw [horder] at ho
    unfold resize at ho
    rcases List.mem_append.mp (List.mem_of_mem_take ho) with h | h
    · exact hmem o h
    · rw [(List.mem_replicate.mp h).2]
      exact ⟨le_refl 0, by exact_mod_cast hn⟩
  · intro hbig
    have h1 : (g.prepare T images).backprop_order = p.take 2000 := by
      rw [horder, resize_of_ge 2000 p (by omega)]
    exact ⟨h1, by rw [h1]; exact hnodup.sublist (List.take_sublist _ _)⟩
  · intro hsmall
    have h1 : (g.prepare T images).backprop_order =
        p ++ List.replicate (2000 - images.get_number_images) 0 := by
      rw [horder, resize_of_le 2000 p (by omega), hlen]
    refine ⟨h1, ?_⟩
    rw [h1]
    intro hn2
    exact List.disjoint_of_nodup_append hn2 hzero
      (List.mem_replicate.mpr ⟨by omega, rfl⟩)
  · intro s0 h0
    unfold CNN_Genome.loop_entry at h0
    split at h0
    · exact absurd h0 (by simp)
    · rename_i first hfirst
      simp only [Option.some.injEq] at h0
      rw [← h0]
      exact evaluate_loop_backprop_order T images false _ _ _ _ _ hfirst

/-- C21, amended, at `genome_training` with the three images of
`sample_images` under `sample_trainer`. -/
theorem backprop_order_working_set_witness :
    sample_trainer.shuffles ∧ genome_training.started_from_checkpoint = false ∧
    0 < sample_images.get_number_images ∧
    (genome_training.prepare sample_trainer sample_images).backprop_order.length = 2000 ∧
    (∀ o ∈ (genome_training.prepare sample_trainer sample_images).backprop_order,
      0 ≤ o ∧ o < 3) ∧
    (∀ (k : Nat) (s s1 : Training), epochs sample_trainer sample_images k s = some s1 →
      s1.genome.backprop_order.Perm s.genome.backprop_order) :=
  have h := backprop_order_working_set sample_trainer sample_shuffles genome_training
    sample_images rfl (by decide)
  ⟨sample_shuffles, rfl, by decide, h.1, h.2.1, h.2.2.2.2⟩

/-! ### Depth order of the node and edge sequences -/

/-- The binary search finds the index `k` when exactly the elements from
index `k` on compare above the value. -/
theorem upper_bound_loop_partition {α : Type} (comp : α → α → Bool) (v : List α)
    (value : α) (k : Nat)
    (hpart : ∀ i x, v[i]? = some x → (comp value x = true ↔ k ≤ i)) :
    ∀ (fuel first len : Nat), len ≤ fuel → first ≤ k → k ≤ first + len →
      first + len ≤ v.length → upper_bound_loop comp v value fuel first len = k := by
  intro fuel
  induction fuel with
  | zero =>
    intro first len h1 h2 h3 _
    simp only [upper_bound_loop]
    omega
  | succ fuel ih =>
    intro first len h1 h2 h3 h4
    unfold upper_bound_loop
    by_cases hlen : len = 0
    · rw [if_pos hlen]
      omega
    · rw [if_neg hlen]
      have hlt : first + len / 2 < v.length := by omega
      rw [List.getElem?_eq_getElem hlt]
      dsimp only
      have hp := hpart (first + len / 2) _ (List.getElem?_eq_getElem hlt)
      by_cases hc : comp value v[first + len / 2] = true
      · rw [if_pos hc]
        exact ih first (len / 2) (by omega) h2 (hp.mp hc) (by omega)
      · rw [if_neg hc]
        have : ¬ k ≤ first + len / 2 := fun h => hc (hp.mpr h)
        exact ih _ _ (by omega) (by omega) (by omega) (by omega)

/-- A sequence sorted by depth is its elements of at most a given depth
followed by its elements of greater depth. -/
theorem sorted_split {α : Type} (depth : α → Int) (value : α) (v : List α)
    (hv : v.Pairwise (fun a b => depth a ≤ depth b)) :
    v = v.filter (fun x => decide (depth x ≤ depth value)) ++
      v.filter (fun x => decide (depth value < depth x)) := by
  induction v with
  | nil => rfl
  | cons a t ih =>
    have hat := (List.pairwise_cons.mp hv).1
    have ht := ih (List.pairwise_cons.mp hv).2
    by_cases ha : depth a ≤ depth value
    · rw [List.filter_cons_of_pos (by simpa using ha),
        List.filter_cons_of_neg (by simpa using ha), List.cons_append, ← ht]
    · have h1 : (a :: t).filter (fun x => decide (depth x ≤ depth value)) = [] := by
        apply List.filter_eq_nil_iff.mpr
        intro x hx
        rcases List.mem_cons.mp hx with rfl | hx
        · simpa using ha
        · have := hat x hx
          simp only [decide_eq_true_eq]
          omega
      have h2 : (a :: t).filter (fun x => decide (depth value < depth x)) = a :: t := by
        apply List.filter_eq_self.mpr
        intro x hx
        rcases List.mem_cons.mp hx with rfl | hx
        · simp only [decide_eq_true_eq]
          omega
        · have := hat x hx
          simp only [decide_eq_true_eq]
          omega
      rw [h1, h2, List.nil_append]

theorem upper_bound_of_split {α : Type} (depth : α → Int) (comp : α → α → Bool)
    (hcomp : ∀ a b, comp a b = decide (depth a < depth b)) (value : α) (l1 l2 : List α)
    (h1 : ∀ x ∈ l1, depth x ≤ depth value) (h2 : ∀ x ∈ l2, depth value < depth x) :
    upper_bound comp (l1 ++ l2) value = l1.length := by
  unfold upper_bound
  apply upper_bound_loop_partition comp (l1 ++ l2) value l1.length
  · intro i x hx
    rw [hcomp, decide_eq_true_eq]
    by_cases hi : i < l1.length
    · rw [List.getElem?_append_left hi] at hx
      have := h1 x (List.getElem?_mem hx)
      omega
    · rw [List.getElem?_append_right (by omega)] at hx
      have := h2 x (List.getElem?_mem hx)
      omega
  · exact le_refl _
  · exact Nat.zero_le _
  · rw [List.length_append]
    omega
  · rw [Nat.zero_add]

theorem insert_at_append {α : Type} (l1 l2 : List α) (x : α) :
    insert_at (l1 ++ l2) l1.length x = l1 ++ x :: l2 := by
  unfold insert_at
  rw [List.take_left, List.drop_left]

theorem sorted_insert {α : Type} (depth : α → Int) (value : α) (l1 l2 : List α)
    (hv : (l1 ++ l2).Pairwise (fun a b => depth a ≤ depth b))
    (h1 : ∀ x ∈ l1, depth x ≤ depth value) (h2 : ∀ x ∈ l2, depth value < depth x) :
    (l1 ++ value :: l2).Pairwise (fun a b => depth a ≤ depth b) := by
  rw [List.pairwise_append] at hv ⊢
  refine ⟨hv.1, List.pairwise_cons.mpr ⟨fun x hx => le_of_lt (h2 x hx), hv.2.1⟩, ?_⟩
  intro a ha b hb
  rcases List.mem_cons.mp hb with rfl | hb
  · exact h1 a ha
  · exact hv.2.2 a ha b hb

/-- Inserting at the position that `upper_bound` finds in a sequence sorted by
depth, with a comparator that compares depths: the sequence is cut in two,
the new element goes in between, behind all elements of at most its depth and
before all elements of greater depth, and the result is sorted. -/
theorem insert_upper_bound_sorted {α : Type} (depth : α → Int) (comp : α → α → Bool)
    (hcomp : ∀ a b, comp a b = decide (depth a < depth b)) (v : List α)
    (hv : v.Pairwise (fun a b => depth a ≤ depth b)) (value : α) :
    ∃ l1 l2, v = l1 ++ l2 ∧
      insert_at v (upper_bound comp v value) value = l1 ++ value :: l2 ∧
      (∀ x ∈ l1, depth x ≤ depth value) ∧ (∀ x ∈ l2, depth value < depth x) ∧
      (l1 ++ value :: l2).Pairwise (fun a b => depth a ≤ depth b) := by
  have hsplit := sorted_split depth value v hv
  have h1 : ∀ x ∈ v.filter (fun x => decide (depth x ≤ depth value)),
      depth x ≤ depth value := fun x hx => by simpa using (List.mem_filter.mp hx).2
  have h2 : ∀ x ∈ v.filter (fun x => decide (depth value < depth x)),
      depth value < depth x := fun x hx => by simpa using (List.mem_filter.mp hx).2
  refine ⟨_, _, hsplit, ?_, h1, h2, ?_⟩
  · have hk := upper_bound_of_split depth comp hcomp value _ _ h1 h2
    rw [← hsplit] at hk
    rw [hk]
    exact (congrArg (fun w => insert_at w
      (v.filter (fun x => decide (depth x ≤ depth value))).length value) hsplit).trans
      (insert_at_append _ _ value)
  · exact sorted_insert depth value _ _ (by rw [← hsplit]; exact hv) h1 h2

theorem add_node_spec (B : Builder) (hB : B.Lawful) (g : CNN_Genome)
    (hnodes : nodes_sorted g) (node : Nat) :
    ∃ l1 l2, g.nodes = l1 ++ l2 ∧
      g.add_node B node = { g with nodes := l1 ++ node :: l2 } ∧
      (∀ a ∈ l1, (g.heap a).depth ≤ (g.heap node).depth) ∧
      (∀ a ∈ l2, (g.heap node).depth < (g.heap a).depth) ∧
      nodes_sorted (g.add_node B node) := by
  obtain ⟨l1, l2, h1, h2, h3, h4, h5⟩ := insert_upper_bound_sorted
    (fun a => (g.heap a).depth)
    (fun n1 n2 => B.sort_CNN_Nodes_by_depth (g.heap n1) (g.heap n2))
    (fun a b => hB.nodes_by_depth _ _) g.nodes hnodes node
  have heq : g.add_node B node = { g with nodes := l1 ++ node :: l2 } := by
    unfold CNN_Genome.add_node
    rw [h2]
  refine ⟨l1, l2, h1, heq, h3, h4, ?_⟩
  rw [heq]
  exact h5

theorem add_edge_spec (B : Builder) (hB : B.Lawful) (g : CNN_Genome)
    (hedges : edges_sorted g) (edge : CNN_Edge) :
    ∃ l1 l2, g.edges = l1 ++ l2 ∧
      g.add_edge B edge = { g with edges := l1 ++ edge :: l2 } ∧
      (∀ e ∈ l1, (g.heap e.input_node).depth ≤ (g.heap edge.input_node).depth) ∧
      (∀ e ∈ l2, (g.heap edge.input_node).depth < (g.heap e.input_node).depth) ∧
      edges_sorted (g.add_edge B edge) := by
  obtain ⟨l1, l2, h1, h2, h3, h4, h5⟩ := insert_upper_bound_sorted
    (fun (e : CNN_Edge) => (g.heap e.input_node).depth) (B.sort_CNN_Edges_by_depth g.heap)
    (fun a b => hB.edges_by_depth _ _ _) g.edges hedges edge
  have heq : g.add_edge B edge = { g with edges := l1 ++ edge :: l2 } := by
    unfold CNN_Genome.add_edge
    rw [h2]
  refine ⟨l1, l2, h1, heq, h3, h4, ?_⟩
  rw [heq]
  exact h5

theorem sample_builder_lawful : sample_builder.Lawful :=
  ⟨fun _ _ => rfl, fun _ _ _ => rfl, fun _ => rfl, fun _ => rfl⟩

/-- C24: with comparators that compare depths, `add_node(n)` on a genome whose
node list is sorted by depth, and `add_edge(e)` on a genome whose edge list is
sorted by the depth of the input nodes, change nothing but that list: the old
list is cut in two, its elements keeping their order, and the new element is
put in between, behind every old element of lower or equal depth and
before every old element of greater depth; the new list is sorted. -/
theorem add_keeps_depth_order (B : Builder) (hB : B.Lawful) (g : CNN_Genome)
    (hnodes : nodes_sorted g) (hedges : edges_sorted g) (node : Nat) (edge : CNN_Edge) :
    (∃ l1 l2, g.nodes = l1 ++ l2 ∧
      g.add_node B node = { g with nodes := l1 ++ node :: l2 } ∧
      (∀ a ∈ l1, (g.heap a).depth ≤ (g.heap node).depth) ∧
      (∀ a ∈ l2, (g.heap node).depth < (g.heap a).depth) ∧
      nodes_sorted (g.add_node B node)) ∧
    (∃ l1 l2, g.edges = l1 ++ l2 ∧
      g.add_edge B edge = { g with edges := l1 ++ edge :: l2 } ∧
      (∀ e ∈ l1, (g.heap e.input_node).depth ≤ (g.heap edge.input_node).depth) ∧
      (∀ e ∈ l2, (g.heap edge.input_node).depth < (g.heap e.input_node).depth) ∧
      edges_sorted (g.add_edge B edge)) :=
  ⟨add_node_spec B hB g hnodes node, add_edge_spec B hB g hedges edge⟩

/-- C24 at `genome_sorted` under `sample_builder`: the node 3, of depth 1, goes
behind the node 2 of the same depth and before the node 4, and an edge from
node 3 goes behind the edge from node 2 and before the edge from node 4. -/
theorem add_keeps_depth_order_witness :
    sample_builder.Lawful ∧ nodes_sorted genome_sorted ∧ edges_sorted genome_sorted ∧
    (genome_sorted.add_node sample_builder 3).nodes = [0, 1, 2, 3, 4, 5] ∧
    nodes_sorted (genome_sorted.add_node sample_builder 3) ∧
    (genome_sorted.add_edge sample_builder
      { innovation_number := 4, input_node := 3, output_node := 5 }).edges.map
        CNN_Edge.innovation_number = [1, 2, 4, 3] ∧
    edges_sorted (genome_sorted.add_edge sample_builder
      { innovation_number := 4, input_node := 3, output_node := 5 }) := by
  have h := add_keeps_depth_order sample_builder sample_builder_lawful genome_sorted
    (by decide) (by decide) 3 { innovation_number := 4, input_node := 3, output_node := 5 }
  obtain ⟨⟨_, _, _, _, _, _, h1⟩, ⟨_, _, _, _, _, _, h2⟩⟩ := h
  exact ⟨sample_builder_lawful, by decide, by decide, by decide, h1, by decide, h2⟩

theorem construct_node_loop_nodes (B : Builder) (fresh : Nat → Nat)
    (template : List CNN_Node) : ∀ this : CNN_Genome,
    (construct_node_loop B fresh template this).nodes =
      this.nodes ++
        (List.range template.length).map (fun i => fresh (this.nodes.length + i)) := by
  induction template with
  | nil => exact fun this => by simp [construct_node_loop]
  | cons node rest ih =>
    intro this
    rw [construct_node_loop, ih]
    dsimp only
    rw [List.length_append, List.length_singleton, List.length_cons,
      List.range_succ_eq_map, List.map_cons, List.map_map, List.append_assoc,
      List.singleton_append, Nat.add_zero]
    congr 2
    apply List.map_congr_left
    intro i _
    show fresh (this.nodes.length + 1 + i) = fresh (this.nodes.length + (i + 1))
    rw [Nat.add_assoc, Nat.add_comm 1]

theorem construct_node_loop_edges (B : Builder) (fresh : Nat → Nat)
    (template : List CNN_Node) : ∀ this : CNN_Genome,
    (construct_node_loop B fresh template this).edges = this.edges := by
  induction template with
  | nil => exact fun this => rfl
  | cons node rest ih =>
    intro this
    rw [construct_node_loop, ih]

theorem construct_node_loop_heap (B : Builder) (fresh : Nat → Nat)
    (hfresh : Function.Injective fresh) (template : List CNN_Node) :
    ∀ this : CNN_Genome,
    (∀ i (hi : i < template.length),
      (construct_node_loop B fresh template this).heap (fresh (this.nodes.length + i)) =
        B.node_copy template[i]) ∧
    (∀ k, k < this.nodes.length →
      (construct_node_loop B fresh template this).heap (fresh k) = this.heap (fresh k)) := by
  induction template with
  | nil =>
    intro this
    exact ⟨fun i hi => absurd hi (by simp), fun k _ => rfl⟩
  | cons node rest ih =>
    intro this
    rw [construct_node_loop]
    obtain ⟨h1, h2⟩ := ih
      { this with
        heap := Function.update this.heap (fresh this.nodes.length) (B.node_copy node)
        input_nodes :=
          if B.is_input (B.node_copy node) then
            this.input_nodes ++ [fresh this.nodes.length]
          else this.input_nodes
        softmax_nodes :=
          if B.is_softmax (B.node_copy node) then
            this.softmax_nodes ++ [fresh this.nodes.length]
          else this.softmax_nodes
        nodes := this.nodes ++ [fresh this.nodes.length] }
    simp only [List.length_append, List.length_singleton] at h1 h2
    constructor
    · intro i hi
      cases i with
      | zero =>
        rw [Nat.add_zero, h2 this.nodes.length (by omega), Function.update_same]
        rfl
      | succ i =>
        have := h1 i (by simpa using hi)
        rw [Nat.add_assoc, Nat.add_comm 1] at this
        rw [this]
        rfl
    · intro k hk
      rw [h2 k (by omega)]
      exact Function.update_noteq (fun h => by have := hfresh h; omega) _ _

/-- The first loop of the constructor, started with no node: the node objects
in the order of the node list are the copies of the nodes of the template in
the order of the template. -/
theorem construct_node_loop_objects (B : Builder) (fresh : Nat → Nat)
    (hfresh : Function.Injective fresh) (template : List CNN_Node) (this : CNN_Genome)
    (hthis : this.nodes = []) :
    (construct_node_loop B fresh template this).nodes.map
      (construct_node_loop B fresh template this).heap = template.map B.node_copy := by
  have hheap := (construct_node_loop_heap B fresh hfresh template this).1
  rw [construct_node_loop_nodes, hthis, List.nil_append, List.map_map]
  rw [hthis] at hheap
  apply List.ext_getElem
  · simp
  · intro i h1 h2
    simp only [List.length_map, List.length_range] at h1
    simp only [List.getElem_map, List.getElem_range, Function.comp_apply, List.length_nil]
    exact hheap i h1

theorem construct_edge_loop_spec (B : Builder) (K : Codec) (template : List CNN_Edge) :
    ∀ (this g : CNN_Genome), construct_edge_loop B K template this = some g →
      ∃ es, g = { this with edges := this.edges ++ es } ∧
        List.Forall₂
          (fun t e => K.set_nodes this.heap this.nodes (B.edge_copy t) = some e)
          template es := by
  induction template with
  | nil =>
    intro this g h
    simp only [construct_edge_loop, Option.some.injEq] at h
    exact ⟨[], by rw [← h, List.append_nil], List.Forall₂.nil⟩
  | cons edge rest ih =>
    intro this g h
    unfold construct_edge_loop at h
    split at h
    · exact absurd h (by simp)
    · rename_i edge_copy hcopy
      obtain ⟨es, h1, h2⟩ := ih _ g h
      refine ⟨edge_copy :: es, ?_, List.Forall₂.cons hcopy h2⟩
      rw [h1]
      simp only [List.append_assoc, List.singleton_append]

theorem construct_edge_loop_returns (B : Builder) (K : Codec)
    (hK : ∀ heap nodes e, (K.set_nodes heap nodes e).isSome = true)
    (template : List CNN_Edge) :
    ∀ this : CNN_Genome, ∃ g, construct_edge_loop B K template this = some g := by
  induction template with
  | nil => exact fun this => ⟨this, rfl⟩
  | cons edge rest ih =>
    intro this
    obtain ⟨e, he⟩ := Option.isSome_iff_exists.mp
      (hK this.heap this.nodes (B.edge_copy edge))
    unfold construct_edge_loop
    rw [he]
    exact ih _

theorem map_set_of_eq {α β : Type} (f : α → β) (a : α) :
    ∀ (l : List α) (i : Nat) (e : α), l[i]? = some e → f a = f e →
      (l.set i a).map f = l.map f := by
  intro l
  induction l with
  | nil => exact fun i e h _ => rfl
  | cons x t ih =>
    intro i e h hf
    cases i with
    | zero =>
      simp only [List.getElem?_cons_zero, Option.some.injEq] at h
      rw [List.set_cons_zero, List.map_cons, List.map_cons, hf, h]
    | succ i =>
      simp only [List.getElem?_cons_succ] at h
      rw [List.set_cons_succ, List.map_cons, List.map_cons, ih i e h hf]

/-- The method `disable_edge` returns true and leaves the node list, the node
objects and the input node of every edge. -/
theorem disable_edge_spec (B : Builder) (hB : B.Lawful) (g : CNN_Genome)
    (edge_position : Int) (b : Bool) (g2 : CNN_Genome)
    (h : g.disable_edge B edge_position = some (b, g2)) :
    b = true ∧ g2.nodes = g.nodes ∧ g2.heap = g.heap ∧
      g2.edges.map CNN_Edge.input_node = g.edges.map CNN_Edge.input_node := by
  unfold CNN_Genome.disable_edge at h
  split at h
  · split at h
    · exact absurd h (by simp)
    · rename_i edge hedge
      split at h
      · simp only [Option.some.injEq, Prod.mk.injEq] at h
        rw [← h.1, ← h.2]
        exact ⟨rfl, rfl, rfl, rfl⟩
      · simp only [Option.some.injEq, Prod.mk.injEq] at h
        rw [← h.1, ← h.2]
        exact ⟨rfl, rfl, rfl,
          map_set_of_eq CNN_Edge.input_node _ _ _ edge hedge (hB.disable_input_node edge)⟩
  · exact absurd h (by simp)

theorem edges_sorted_iff (g : CNN_Genome) :
    edges_sorted g ↔
      (g.edges.map CNN_Edge.input_node).Pairwise
        (fun a b => (g.heap a).depth ≤ (g.heap b).depth) := by
  unfold edges_sorted
  rw [List.pairwise_map]

/-- C25, the claim as stated fails: the constructor, given a template that
lists an output node of depth 2, a hidden node of depth 1 and an input node
of depth 0 in this order, with the edge from the hidden node before the edge
from the input node, returns a genome whose node sequence and edge sequence
are in the order of the template, neither of them sorted by depth. -/
theorem construct_keeps_unsorted_template :
    ∃ g, CNN_Genome.construct sample_builder sample_codec id 1 7 10 false 0
        (1 / 2) 1 (1 / 10) 1 (1 / 1000) 1 0 0
        [{ innovation_number := 2, depth := 2 }, { innovation_number := 1, depth := 1 },
         { innovation_number := 0, depth := 0 }]
        [{ innovation_number := 1, input_node := 1, output_node := 0 },
         { innovation_number := 2, input_node := 2, output_node := 1 }] = some g ∧
      g.nodes.map (fun a => (g.heap a).depth) = [2, 1, 0] ∧
      g.edges.map (fun e => (g.heap e.input_node).depth) = [1, 0] ∧
      ¬ nodes_sorted g ∧ ¬ edges_sorted g :=
  ⟨_, rfl, by decide, by decide, by decide, by decide⟩

/-- C25, amended: a genome that the constructor returns holds the copies of
the template's nodes in the order of the template, so its node sequence is
sorted by depth exactly when the template's node vector is, and it holds the
template's edges, bound to its nodes by `set_nodes`, in the order of the
template; the constructor returns whenever `set_nodes` accepts every edge.
On a genome whose two sequences are sorted, `add_node`, `add_edge` and
`disable_edge` leave both sequences sorted. -/
theorem sequences_keep_template_order (B : Builder) (hB : B.Lawful) (K : Codec)
    (fresh : Nat → Nat) (hfresh : Function.Injective fresh)
    (_generation_id seed _max_epochs : Int) (_reset_weights : Bool) (_velocity_reset : Int)
    (_mu _mu_delta _learning_rate _learning_rate_delta _weight_decay _weight_decay_delta
      _input_dropout_probability _hidden_dropout_probability : ℚ)
    (_nodes : List CNN_Node) (_edges : List CNN_Edge) :
    (∀ g, CNN_Genome.construct B K fresh _generation_id seed _max_epochs _reset_weights
        _velocity_reset _mu _mu_delta _learning_rate _learning_rate_delta _weight_decay
        _weight_decay_delta _input_dropout_probability _hidden_dropout_probability
        _nodes _edges = some g →
      g.nodes.map g.heap = _nodes.map B.node_copy ∧
      List.Forall₂ (fun t e => K.set_nodes g.heap g.nodes (B.edge_copy t) = some e)
        _edges g.edges ∧
      (nodes_sorted g ↔ _nodes.Pairwise (fun n1 n2 => n1.depth ≤ n2.depth))) ∧
    ((∀ heap nodes e, (K.set_nodes heap nodes e).isSome = true) →
      ∃ g, CNN_Genome.construct B K fresh _generation_id seed _max_epochs _reset_weights
        _velocity_reset _mu _mu_delta _learning_rate _learning_rate_delta _weight_decay
        _weight_decay_delta _input_dropout_probability _hidden_dropout_probability
        _nodes _edges = some g) ∧
    (∀ h : CNN_Genome, nodes_sorted h → edges_sorted h →
      (∀ node, nodes_sorted (h.add_node B node) ∧ edges_sorted (h.add_node B node)) ∧
      (∀ edge, nodes_sorted (h.add_edge B edge) ∧ edges_sorted (h.add_edge B edge)) ∧
      (∀ edge_position b h2, h.disable_edge B edge_position = some (b, h2) →
        b = true ∧ nodes_sorted h2 ∧ edges_sorted h2)) := by
  refine ⟨fun g hg => ?_, fun hK => construct_edge_loop_returns B K hK _ _, ?_⟩
  · unfold CNN_Genome.construct at hg
    obtain ⟨es, h1, h2⟩ := construct_edge_loop_spec B K _ _ g hg
    have hnodes : g.nodes.map g.heap = _nodes.map B.node_copy := by
      rw [h1]
      exact construct_node_loop_objects B fresh hfresh _nodes _ rfl
    refine ⟨hnodes, ?_, ?_⟩
    · rw [h1]
      show List.Forall₂ _ _edges (_ ++ es)
      rw [construct_node_loop_edges]
      exact h2
    · unfold nodes_sorted
      have : g.nodes.Pairwise (fun a b => (g.heap a).depth ≤ (g.heap b).depth) ↔
          (g.nodes.map g.heap).Pairwise (fun n1 n2 => n1.depth ≤ n2.depth) := by
        rw [List.pairwise_map]
      rw [this, hnodes, List.pairwise_map]
      simp only [hB.node_copy_depth]
  · intro h hnodes hedges
    refine ⟨fun node => ?_, fun edge => ?_, fun edge_position b h2 hd => ?_⟩
    · obtain ⟨l1, l2, _, heq, _, _, hs⟩ := add_node_spec B hB h hnodes node
      refine ⟨hs, ?_⟩
      rw [heq]
      exact hedges
    · obtain ⟨l1, l2, _, heq, _, _, hs⟩ := add_edge_spec B hB h hedges edge
      refine ⟨?_, hs⟩
      rw [heq]
      exact hnodes
    · obtain ⟨hb, h3, h4, h5⟩ := disable_edge_spec B hB h edge_position b h2 hd
      refine ⟨hb, ?_, ?_⟩
      · unfold nodes_sorted
        rw [h3, h4]
        exact hnodes
      · rw [edges_sorted_iff, h5, h4, ← edges_sorted_iff]
        exact hedges

/-- C25, amended, under `sample_builder` and `sample_codec`: a template in
depth order gives a genome with a sorted node sequence, and disabling the
second edge of `genome_sorted` leaves its sequences sorted. -/
theorem sequences_keep_template_order_witness :
    sample_builder.Lawful ∧ Function.Injective (id : Nat → Nat) ∧
    (∃ g, CNN_Genome.construct sample_builder sample_codec id 1 7 10 false 0
        (1 / 2) 1 (1 / 10) 1 (1 / 1000) 1 0 0
        [{ innovation_number := 0, depth := 0 }, { innovation_number := 1, depth := 1 }]
        [{ innovation_number := 1, input_node := 0, output_node := 1 }] = some g ∧
      nodes_sorted g) ∧
    (∃ h2, genome_sorted.disable_edge sample_builder 1 = some (true, h2) ∧
      nodes_sorted h2 ∧ edges_sorted h2) := by
  have h := sequences_keep_template_order sample_builder sample_builder_lawful
    sample_codec id Function.injective_id 1 7 10 false 0 (1 / 2) 1 (1 / 10) 1 (1 / 1000)
    1 0 0 [{ innovation_number := 0, depth := 0 }, { innovation_number := 1, depth := 1 }]
    [{ innovation_number := 1, input_node := 0, output_node := 1 }]
  obtain ⟨g, hg⟩ := h.2.1 (fun _ _ _ => rfl)
  have hd := (h.2.2 genome_sorted (by decide) (by decide)).2.2 1 true _ rfl
  exact ⟨sample_builder_lawful, Function.injective_id,
    ⟨g, hg, ((h.1 g hg).2.2).mpr (by decide)⟩, ⟨_, rfl, hd.2.1, hd.2.2⟩⟩

/-! ### The output normalisation of `evaluate_image` -/

theorem softmax_max_spec {F : Type} [LinearOrder F] (rest : List F) : ∀ first : F,
    first ≤ softmax_max first rest ∧ (∀ x ∈ rest, x ≤ softmax_max first rest) ∧
      softmax_max first rest ∈ first :: rest := by
  induction rest with
  | nil => exact fun first => ⟨le_refl _, fun x hx => absurd hx (List.not_mem_nil x),
      List.mem_singleton.mpr rfl⟩
  | cons y rest ih =>
    intro first
    unfold softmax_max
    rw [List.foldl_cons]
    by_cases h : y > first
    · rw [if_pos h]
      obtain ⟨h1, h2, h3⟩ := ih y
      refine ⟨le_trans (le_of_lt h) h1, ?_, List.mem_cons_of_mem _ h3⟩
      intro x hx
      rcases List.mem_cons.mp hx with rfl | hx
      · exact h1
      · exact h2 x hx
    · rw [if_neg h]
      obtain ⟨h1, h2, h3⟩ := ih first
      refine ⟨h1, ?_, ?_⟩
      · intro x hx
        rcases List.mem_cons.mp hx with rfl | hx
        · exact le_trans (not_lt.mp h) h1
        · exact h2 x hx
      · rcases List.mem_cons.mp h3 with h3 | h3
        · exact List.mem_cons.mpr (Or.inl h3)
        · exact List.mem_cons_of_mem _ (List.mem_cons_of_mem _ h3)

theorem foldl_add_eq_sum {F : Type} [AddCommMonoid F] (es : List F) : ∀ a : F,
    es.foldl (fun sum e => sum + e) a = a + es.sum := by
  induction es with
  | nil => exact fun a => by simp
  | cons e es ih =>
    intro a
    rw [List.foldl_cons, ih, List.sum_cons, add_assoc]

theorem softmax_sum_eq_sum {F : Type} [AddCommMonoid F] (es : List F) :
    softmax_sum es = es.sum := by
  unfold softmax_sum
  rw [foldl_add_eq_sum, zero_add]

theorem softmax_outputs_spec {F : Type} [LinearOrderedField F] (exp : F → F)
    (hpos : ∀ x, 0 < exp x) (hmono : ∀ x y, x ≤ y → exp x ≤ exp y)
    (first : F) (rest : List F) :
    softmax_max first rest ∈ first :: rest ∧
    (∀ x ∈ first :: rest, x ≤ softmax_max first rest) ∧
    softmax_sum (softmax_exponentials exp (softmax_max first rest) (first :: rest)) =
      ((first :: rest).map (fun x => exp (x - softmax_max first rest))).sum ∧
    0 < softmax_sum (softmax_exponentials exp (softmax_max first rest) (first :: rest)) ∧
    softmax_outputs exp (first :: rest) =
      (first :: rest).map (fun x => exp (x - softmax_max first rest) /
        softmax_sum (softmax_exponentials exp (softmax_max first rest) (first :: rest))) ∧
    (∀ x y, x ≤ y →
      exp (x - softmax_max first rest) /
          softmax_sum (softmax_exponentials exp (softmax_max first rest) (first :: rest)) ≤
        exp (y - softmax_max first rest) /
          softmax_sum (softmax_exponentials exp (softmax_max first rest) (first :: rest))) ∧
    (∀ y ∈ softmax_outputs exp (first :: rest), 0 < y ∧ y ≤ 1) ∧
    (softmax_outputs exp (first :: rest)).sum = 1 := by
  obtain ⟨hm1, hm2, hm3⟩ := softmax_max_spec rest first
  have hsum : softmax_sum (softmax_exponentials exp (softmax_max first rest) (first :: rest)) =
      ((first :: rest).map (fun x => exp (x - softmax_max first rest))).sum :=
    softmax_sum_eq_sum _
  have hS : 0 <
      softmax_sum (softmax_exponentials exp (softmax_max first rest) (first :: rest)) := by
    rw [hsum, List.map_cons, List.sum_cons]
    exact add_pos_of_pos_of_nonneg (hpos _)
      (List.sum_nonneg (fun e he => by
        obtain ⟨x, _, rfl⟩ := List.mem_map.mp he
        exact le_of_lt (hpos _)))
  have hout : softmax_outputs exp (first :: rest) =
      (first :: rest).map (fun x => exp (x - softmax_max first rest) /
        softmax_sum (softmax_exponentials exp (softmax_max first rest) (first :: rest))) := by
    simp only [softmax_outputs, softmax_exponentials, List.map_map]
    rfl
  refine ⟨hm3, ?_, hsum, hS, hout, ?_, ?_, ?_⟩
  · intro x hx
    rcases List.mem_cons.mp hx with rfl | hx
    · exact hm1
    · exact hm2 x hx
  · intro x y hxy
    exact div_le_div_of_nonneg_right (hmono _ _ (sub_le_sub_right hxy _)) (le_of_lt hS)
  · intro y hy
    rw [hout] at hy
    obtain ⟨x, hx, rfl⟩ := List.mem_map.mp hy
    refine ⟨div_pos (hpos _) hS, (div_le_one hS).mpr ?_⟩
    rw [hsum]
    exact List.single_le_sum (fun e he => by
        obtain ⟨x, _, rfl⟩ := List.mem_map.mp he
        exact le_of_lt (hpos _)) _ (List.mem_map.mpr ⟨x, hx, rfl⟩)
  · rw [hout]
    have : ((first :: rest).map (fun x => exp (x - softmax_max first rest) /
        softmax_sum (softmax_exponentials exp (softmax_max first rest) (first :: rest)))) =
        ((first :: rest).map (fun x => exp (x - softmax_max first rest))).map
          (fun e => e *
            (softmax_sum
              (softmax_exponentials exp (softmax_max first rest) (first :: rest)))⁻¹) := by
      rw [List.map_map]
      apply List.map_congr_left
      intro x _
      simp only [Function.comp_apply, div_eq_mul_inv]
    rw [this, List.sum_map_mul_right]
    have hid : ∀ l : List F, l.map (fun e => e) = l := fun l => List.map_id l
    rw [hid, ← hsum]
    exact mul_inv_cancel₀ (ne_of_gt hS)

theorem predict_spec {F : Type} [LinearOrder F] (ys : List F) :
    ∀ (i : Nat) (c : Int) (mv : F),
    mv ≤ (predict i ys (c, mv)).2 ∧ (∀ y ∈ ys, y ≤ (predict i ys (c, mv)).2) ∧
    ((predict i ys (c, mv) = (c, mv) ∧ ∀ y ∈ ys, y ≤ mv) ∨
      ∃ k, k < ys.length ∧ (predict i ys (c, mv)).1 = ((i + k : Nat) : Int) ∧
        ys[k]? = some (predict i ys (c, mv)).2 ∧ mv < (predict i ys (c, mv)).2 ∧
        ∀ j y, j < k → ys[j]? = some y → y < (predict i ys (c, mv)).2) := by
  induction ys with
  | nil =>
    intro i c mv
    exact ⟨le_refl _, fun y hy => absurd hy (List.not_mem_nil y),
      Or.inl ⟨rfl, fun y hy => absurd hy (List.not_mem_nil y)⟩⟩
  | cons y rest ih =>
    intro i c mv
    unfold predict
    by_cases h : y > mv
    · rw [if_pos h]
      obtain ⟨h1, h2, h3⟩ := ih (i + 1) (i : Int) y
      refine ⟨le_trans (le_of_lt h) h1, ?_, Or.inr ?_⟩
      · intro x hx
        rcases List.mem_cons.mp hx with rfl | hx
        · exact h1
        · exact h2 x hx
      · rcases h3 with ⟨h3, _⟩ | ⟨k, hk, hp, hy, hlt, hbefore⟩
        · refine ⟨0, Nat.succ_pos _, ?_, ?_, ?_, ?_⟩
          · rw [h3]
            rfl
          · rw [h3]
            exact List.getElem?_cons_zero
          · rw [h3]
            exact h
          · intro j z hj
            exact absurd hj (Nat.not_lt_zero j)
        · refine ⟨k + 1, Nat.succ_lt_succ hk, ?_, ?_, lt_trans h hlt, ?_⟩
          · rw [hp]
            congr 1
            omega
          · rw [List.getElem?_cons_succ]
            exact hy
          · intro j z hj hz
            cases j with
            | zero =>
              simp only [List.getElem?_cons_zero, Option.some.injEq] at hz
              rw [← hz]
              exact hlt
            | succ j =>
              rw [List.getElem?_cons_succ] at hz
              exact hbefore j z (by omega) hz
    · rw [if_neg h]
      obtain ⟨h1, h2, h3⟩ := ih (i + 1) c mv
      refine ⟨h1, ?_, ?_⟩
      · intro x hx
        rcases List.mem_cons.mp hx with rfl | hx
        · exact le_trans (not_lt.mp h) h1
        · exact h2 x hx
      · rcases h3 with ⟨h3, hall⟩ | ⟨k, hk, hp, hy, hlt, hbefore⟩
        · refine Or.inl ⟨h3, ?_⟩
          intro x hx
          rcases List.mem_cons.mp hx with rfl | hx
          · exact not_lt.mp h
          · exact hall x hx
        · refine Or.inr ⟨k + 1, Nat.succ_lt_succ hk, ?_, ?_, hlt, ?_⟩
          · rw [hp]
            congr 1
            omega
          · rw [List.getElem?_cons_succ]
            exact hy
          · intro j z hj hz
            cases j with
            | zero =>
              simp only [List.getElem?_cons_zero, Option.some.injEq] at hz
              rw [← hz]
              exact lt_of_le_of_lt (not_lt.mp h) hlt
            | succ j =>
              rw [List.getElem?_cons_succ] at hz
              exact hbefore j z (by omega) hz

theorem softmax_max_loop_eq (E : Evaluator) (heap : Nat → CNN_Node) (rest : List Nat) :
    ∀ m : ℚ, softmax_max_loop E heap rest m =
      softmax_max m (rest.map (fun a => E.get_value (heap a))) := by
  induction rest with
  | nil => exact fun m => rfl
  | cons a rest ih =>
    intro m
    rw [softmax_max_loop, ih]
    rfl

/-- The loop of lines 985-1018 over output nodes without repetitions: the sum
grows by the exponentials of the values the nodes held before, in turn, and
every output node holds its exponential afterwards. -/
theorem exponentiate_spec (E : Evaluator) (m : ℚ) (S : List Nat) (hS : S.Nodup) :
    ∀ s : (Nat → CNN_Node) × ℚ,
    (exponentiate E m S s).2 =
      (S.map (fun a => E.exact_exp (E.get_value (s.1 a) - m))).foldl
        (fun sum e => sum + e) s.2 ∧
    ∀ a, (exponentiate E m S s).1 a =
      if a ∈ S then E.set_value (E.exact_exp (E.get_value (s.1 a) - m)) (s.1 a)
      else s.1 a := by
  induction S with
  | nil => exact fun s => ⟨rfl, fun a => by simp [exponentiate]⟩
  | cons b rest ih =>
    intro s
    have hb : b ∉ rest := (List.nodup_cons.mp hS).1
    obtain ⟨h1, h2⟩ := ih (List.nodup_cons.mp hS).2
      (Function.update s.1 b (E.set_value (E.exact_exp (E.get_value (s.1 b) - m)) (s.1 b)),
       s.2 + E.exact_exp (E.get_value (s.1 b) - m))
    rw [exponentiate]
    constructor
    · rw [h1, List.map_cons, List.foldl_cons]
      congr 1
      apply List.map_congr_left
      intro a ha
      have hab : a ≠ b := fun h => hb (h ▸ ha)
      show E.exact_exp (E.get_value (Function.update s.1 b _ a) - m) = _
      rw [Function.update_noteq hab]
    · intro a
      rw [h2]
      by_cases hab : a = b
      · subst hab
        simp [hb]
      · by_cases hmem : a ∈ rest
        · simp [hmem, hab, Function.update_noteq hab]
        · simp [hmem, hab, Function.update_noteq hab]

/-- The loop of lines 1026-1070 over output nodes without repetitions:
`predicted_class` and `max_value` are those of `predict` on the normalised values;
every output node holds its normalised value afterwards, and no other node
object is touched. -/
theorem normalise_spec (E : Evaluator) (hE : E.Lawful) (sum : ℚ) (expected_class : Int)
    (S : List Nat) (hS : S.Nodup) : ∀ (i : Nat) (s : Softmax_State),
    ((normalise E sum expected_class i S s).predicted_class,
      (normalise E sum expected_class i S s).max_value) =
      predict i (S.map (fun a => E.get_value (s.heap a) / sum))
        (s.predicted_class, s.max_value) ∧
    (∀ a, a ∉ S → (normalise E sum expected_class i S s).heap a = s.heap a) ∧
    (∀ a ∈ S, E.get_value ((normalise E sum expected_class i S s).heap a) =
      E.get_value (s.heap a) / sum) := by
  induction S with
  | nil =>
    intro i s
    exact ⟨rfl, fun a _ => rfl, fun a ha => absurd ha (List.not_mem_nil a)⟩
  | cons b rest ih =>
    intro i s
    have hb : b ∉ rest := (List.nodup_cons.mp hS).1
    obtain ⟨h1, h2, h3⟩ := ih (List.nodup_cons.mp hS).2 (i + 1)
      (normalise_node E sum expected_class i b s)
    have hrest : rest.map
        (fun a => E.get_value ((normalise_node E sum expected_class i b s).heap a) / sum) =
        rest.map (fun a => E.get_value (s.heap a) / sum) := by
      apply List.map_congr_left
      intro a ha
      have hab : a ≠ b := fun h => hb (h ▸ ha)
      show E.get_value (Function.update s.heap b _ a) / sum = _
      rw [Function.update_noteq hab]
    rw [normalise]
    refine ⟨?_, ?_, ?_⟩
    · rw [h1, hrest, List.map_cons, predict]
      congr 1
      unfold normalise_node
      dsimp only
      split <;> rfl
    · intro a ha
      have hab : a ≠ b := fun h => ha (h ▸ List.mem_cons_self b rest)
      rw [h2 a (fun h => ha (List.mem_cons_of_mem b h))]
      exact Function.update_noteq hab _ _
    · intro a ha
      by_cases hab : a = b
      · subst hab
        rw [h2 a hb]
        show E.get_value (Function.update s.heap a _ a) = _
        rw [Function.update_same, hE.get_set_gradient, hE.get_set_error, hE.get_set_value]
      · rcases List.mem_cons.mp ha with h | h
        · exact absurd h hab
        · rw [h3 a h]
          show E.get_value (Function.update s.heap b _ a) / sum = _
          rw [Function.update_noteq hab]

theorem conclude_image_predicted_class (E : Evaluator) (g : CNN_Genome) (b : Bool)
    (edges : List CNN_Edge) (generator : Nat) (s : Softmax_State) :
    (conclude_image E g b edges generator s).predicted_class = s.predicted_class ∧
    (conclude_image E g b edges generator s).class_error = s.class_error ∧
    (conclude_image E g b edges generator s).total_error = s.total_error ∧
    (conclude_image E g b edges generator s).generator = generator := by
  unfold conclude_image
  split <;> exact ⟨rfl, rfl, rfl, rfl⟩

/-- For a genome with output nodes, listed without repetitions, and lawful
node accessors, `evaluate_image` returns: the sum it divides by is positive;
the class it returns is that of `predict` on the list `softmax_outputs` of the
values that the forward pass left in the output nodes; and without
backpropagation the output nodes hold the values of that list afterwards. -/
theorem evaluate_image_outputs (E : Evaluator) (hE : E.Lawful) (g : CNN_Genome)
    (hnodup : g.softmax_nodes.Nodup) (hne : g.softmax_nodes ≠ []) (image : Image)
    (class_error : List ℚ) (perform_backprop dropout : Bool) (total_error : ℚ) :
    ∃ out, g.evaluate_image E image class_error perform_backprop dropout total_error =
        some out ∧
      out.predicted_class =
        (predict 0
          (softmax_outputs E.exact_exp
            (g.softmax_nodes.map
              (fun a => E.get_value ((forward_pass E g image dropout).heap a))))
          ((-1 : Int), -DBL_MAX)).1 ∧
      (perform_backprop = false →
        g.softmax_nodes.map (fun a => E.get_value (out.heap a)) =
          softmax_outputs E.exact_exp
            (g.softmax_nodes.map
              (fun a => E.get_value ((forward_pass E g image dropout).heap a)))) := by
  unfold CNN_Genome.evaluate_image evaluate_output
  generalize forward_pass E g image dropout = fwd
  cases hsoft : g.softmax_nodes with
  | nil => exact absurd hsoft hne
  | cons first rest =>
    rw [hsoft] at hnodup
    dsimp only
    rw [softmax_max_loop_eq]
    obtain ⟨hsum, hheap⟩ := exponentiate_spec E
      (softmax_max (E.get_value (fwd.heap first))
        (rest.map (fun a => E.get_value (fwd.heap a))))
      (first :: rest) hnodup (fwd.heap, 0)
    obtain ⟨_, _, hsum2, hpos, hout, _, _, _⟩ := softmax_outputs_spec E.exact_exp
      hE.exp_pos hE.exp_mono (E.get_value (fwd.heap first))
      (rest.map (fun a => E.get_value (fwd.heap a)))
    have hxs : (first :: rest).map (fun a => E.get_value (fwd.heap a)) =
        E.get_value (fwd.heap first) :: rest.map (fun a => E.get_value (fwd.heap a)) :=
      rfl
    have hsum3 : (exponentiate E
        (softmax_max (E.get_value (fwd.heap first))
          (rest.map (fun a => E.get_value (fwd.heap a))))
        (first :: rest) (fwd.heap, 0)).2 =
        softmax_sum (softmax_exponentials E.exact_exp
          (softmax_max (E.get_value (fwd.heap first))
            (rest.map (fun a => E.get_value (fwd.heap a))))
          (E.get_value (fwd.heap first) :: rest.map (fun a => E.get_value (fwd.heap a)))) := by
      rw [hsum, ← hxs]
      unfold softmax_sum softmax_exponentials
      rw [List.map_map]
      rfl
    generalize exponentiate E
      (softmax_max (E.get_value (fwd.heap first))
        (rest.map (fun a => E.get_value (fwd.heap a))))
      (first :: rest) (fwd.heap, 0) = ex at hsum3 hheap
    unfold classify
    rw [if_neg (by rw [hsum3]; exact ne_of_gt hpos), hsoft]
    have hc : ∀ s, (conclude_image E g false fwd.edges fwd.generator s).heap = s.heap :=
      fun s => rfl
    obtain ⟨h1, h2, h3⟩ := normalise_spec E hE ex.2 image.classification (first :: rest)
      hnodup 0
      { heap := ex.1, class_error := class_error, total_error := total_error,
        predicted_class := -1, max_value := -DBL_MAX }
    have hys : (first :: rest).map (fun a => E.get_value (ex.1 a) / ex.2) =
        softmax_outputs E.exact_exp
          (E.get_value (fwd.heap first) :: rest.map (fun a => E.get_value (fwd.heap a))) := by
      rw [hout, ← hxs, List.map_map, hsum3]
      apply List.map_congr_left
      intro a ha
      show E.get_value (ex.1 a) / _ = _
      rw [hheap a, if_pos ha, hE.get_set_value]
      rfl
    refine ⟨_, rfl, ?_, ?_⟩
    · rw [(conclude_image_predicted_class E g perform_backprop _ _ _).1, hxs, ← hys]
      exact congrArg Prod.fst h1
    · intro hb
      rw [hb, hxs, ← hys]
      apply List.map_congr_left
      intro a ha
      rw [hc]
      exact h3 a ha

theorem sample_exp_pos (x : ℚ) : 0 < sample_exp x := by
  unfold sample_exp
  split
  · linarith
  · exact div_pos one_pos (by linarith)

theorem sample_exp_mono (x y : ℚ) (h : x ≤ y) : sample_exp x ≤ sample_exp y := by
  unfold sample_exp
  by_cases hx : 0 ≤ x
  · rw [if_pos hx, if_pos (le_trans hx h)]
    linarith
  · rw [if_neg hx]
    have hx1 : 0 < 1 - x := by linarith
    by_cases hy : 0 ≤ y
    · rw [if_pos hy]
      have : 1 / (1 - x) ≤ 1 := by
        rw [div_le_one hx1]
        linarith
      linarith
    · rw [if_neg hy]
      exact one_div_le_one_div_of_le (by linarith) (by linarith)

theorem sample_evaluator_lawful : sample_evaluator.Lawful :=
  ⟨fun _ _ => rfl, fun _ _ => rfl, fun _ _ => rfl, sample_exp_pos, sample_exp_mono⟩

/-- The forward pass of `genome_softmax` on `image_softmax` under `sample_evaluator`
leaves the channel values 2, 1 and 1/10 in the three output nodes. -/
theorem sample_forward_values (dropout : Bool) :
    genome_softmax.softmax_nodes.map
      (fun a => sample_evaluator.get_value
        ((forward_pass sample_evaluator genome_softmax image_softmax dropout).heap a)) =
      [2, 1, 1 / 10] := by
  simp [forward_pass, genome_softmax, forward_edge, set_input_values, reset_nodes,
    sample_evaluator, image_softmax, Function.update]

/-- With `sample_exp` the values 2, 1 and 1/10 are normalised to 58/107, 29/107
and 20/107. -/
theorem sample_softmax_outputs :
    softmax_outputs sample_exp [2, 1, 1 / 10] = [58 / 107, 29 / 107, 20 / 107] := by
  simp [softmax_outputs, softmax_exponentials, softmax_max, softmax_sum, sample_exp]
  norm_num

/-- C22: the arithmetic of the output normalisation in any ordered field `F`
with a positive, increasing `exp` (the real numbers with the exponential
function among them), for a first value and a list of further values: the
maximum that is subtracted is one of the values and no value is above it; the
sum that is divided by is the sum of the exponentials and is positive,
hence not zero; output `i` is `exp(x_i - max)` divided by that sum, which is
increasing in `x_i`; every output is in `(0, 1]`; and the outputs sum to
exactly 1. Moreover `evaluate_image`, for a genome with output nodes listed
without repetitions and lawful accessors, returns, and without
backpropagation the output nodes then hold exactly these outputs of the
values that the forward pass left in them. -/
theorem softmax_normalisation {F : Type} [LinearOrderedField F] (exp : F → F)
    (hpos : ∀ x, 0 < exp x) (hmono : ∀ x y, x ≤ y → exp x ≤ exp y)
    (first : F) (rest : List F) (E : Evaluator) (hE : E.Lawful) (g : CNN_Genome)
    (hnodup : g.softmax_nodes.Nodup) (hne : g.softmax_nodes ≠ []) (image : Image)
    (class_error : List ℚ) (dropout : Bool) (total_error : ℚ) :
    (softmax_max first rest ∈ first :: rest ∧
    (∀ x ∈ first :: rest, x ≤ softmax_max first rest) ∧
    softmax_sum (softmax_exponentials exp (softmax_max first rest) (first :: rest)) =
      ((first :: rest).map (fun x => exp (x - softmax_max first rest))).sum ∧
    0 < softmax_sum (softmax_exponentials exp (softmax_max first rest) (first :: rest)) ∧
    softmax_outputs exp (first :: rest) =
      (first :: rest).map (fun x => exp (x - softmax_max first rest) /
        softmax_sum (softmax_exponentials exp (softmax_max first rest) (first :: rest))) ∧
    (∀ x y, x ≤ y →
      exp (x - softmax_max first rest) /
          softmax_sum (softmax_exponentials exp (softmax_max first rest) (first :: rest)) ≤
        exp (y - softmax_max first rest) /
          softmax_sum (softmax_exponentials exp (softmax_max first rest) (first :: rest))) ∧
    (∀ y ∈ softmax_outputs exp (first :: rest), 0 < y ∧ y ≤ 1) ∧
    (softmax_outputs exp (first :: rest)).sum = 1) ∧
    ∃ out, g.evaluate_image E image class_error false dropout total_error = some out ∧
      g.softmax_nodes.map (fun a => E.get_value (out.heap a)) =
        softmax_outputs E.exact_exp
          (g.softmax_nodes.map
            (fun a => E.get_value ((forward_pass E g image dropout).heap a))) := by
  refine ⟨softmax_outputs_spec exp hpos hmono first rest, ?_⟩
  obtain ⟨out, h1, _, h3⟩ := evaluate_image_outputs E hE g hnodup hne image class_error
    false dropout total_error
  exact ⟨out, h1, h3 rfl⟩

/-- C22 for the three values 2, 1 and 1/10 over the real numbers with the
exponential function: the outputs are in `(0, 1]` and sum to exactly 1, and
the sum divided by is positive; and for `genome_softmax` under
`sample_evaluator`, where the three values are normalised to 58/107, 29/107 and
20/107. -/
theorem softmax_normalisation_witness :
    (∀ x : ℝ, 0 < Real.exp x) ∧ (∀ x y : ℝ, x ≤ y → Real.exp x ≤ Real.exp y) ∧
    sample_evaluator.Lawful ∧ genome_softmax.softmax_nodes.Nodup ∧
    genome_softmax.softmax_nodes ≠ [] ∧
    0 < softmax_sum (softmax_exponentials Real.exp (softmax_max 2 [1, 1 / 10])
      [2, 1, 1 / 10]) ∧
    (∀ y ∈ softmax_outputs Real.exp [2, 1, 1 / 10], 0 < y ∧ y ≤ 1) ∧
    (softmax_outputs Real.exp [2, 1, 1 / 10]).sum = 1 ∧
    (∀ x y : ℝ, x ≤ y →
      Real.exp (x - softmax_max 2 [1, 1 / 10]) /
          softmax_sum (softmax_exponentials Real.exp (softmax_max 2 [1, 1 / 10])
            [2, 1, 1 / 10]) ≤
        Real.exp (y - softmax_max 2 [1, 1 / 10]) /
          softmax_sum (softmax_exponentials Real.exp (softmax_max 2 [1, 1 / 10])
            [2, 1, 1 / 10])) ∧
    ∃ out, genome_softmax.evaluate_image sample_evaluator image_softmax [0, 0, 0] false
        false 0 = some out ∧
      genome_softmax.softmax_nodes.map (fun a => sample_evaluator.get_value (out.heap a)) =
        [58 / 107, 29 / 107, 20 / 107] := by
  have h := softmax_normalisation Real.exp Real.exp_pos
    (fun x y hxy => Real.exp_le_exp.mpr hxy) 2 [1, 1 / 10] sample_evaluator
    sample_evaluator_lawful genome_softmax (by decide) (by decide) image_softmax [0, 0, 0]
    false 0
  obtain ⟨⟨_, _, _, h4, _, h6, h7, h8⟩, out, h9, h10⟩ := h
  rw [sample_forward_values] at h10
  exact ⟨Real.exp_pos, fun x y hxy => Real.exp_le_exp.mpr hxy, sample_evaluator_lawful,
    by decide, by decide, h4, h7, h8, h6, out, h9, h10.trans sample_softmax_outputs⟩

theorem DBL_MAX_pos : (0 : ℚ) < DBL_MAX := by
  unfold DBL_MAX
  norm_num

/-- C23: for a genome with at least one output node, the output nodes listed
without repetitions, and lawful accessors, `evaluate_image` returns a class
that is an index into the output nodes, never -1: the normalised value `M` at
that index is the maximum of the normalised values, and every normalised
value at a lower index is strictly below `M`. The normalised values are the
list `softmax_outputs` of what the forward pass left in the output nodes, which
are the values that the output nodes hold after a call without
backpropagation. -/
theorem predicted_class_is_first_maximum (E : Evaluator) (hE : E.Lawful) (g : CNN_Genome)
    (hnodup : g.softmax_nodes.Nodup) (hne : g.softmax_nodes ≠ []) (image : Image)
    (class_error : List ℚ) (perform_backprop dropout : Bool) (total_error : ℚ) :
    ∃ out, g.evaluate_image E image class_error perform_backprop dropout total_error =
        some out ∧
      0 ≤ out.predicted_class ∧ out.predicted_class < g.softmax_nodes.length ∧
      (∃ M,
        (softmax_outputs E.exact_exp
          (g.softmax_nodes.map
            (fun a => E.get_value ((forward_pass E g image dropout).heap a))))[
              out.predicted_class.toNat]? = some M ∧
        (∀ y ∈ softmax_outputs E.exact_exp
          (g.softmax_nodes.map
            (fun a => E.get_value ((forward_pass E g image dropout).heap a))), y ≤ M) ∧
        (∀ j y, j < out.predicted_class.toNat →
          (softmax_outputs E.exact_exp
            (g.softmax_nodes.map
              (fun a => E.get_value ((forward_pass E g image dropout).heap a))))[j]? =
            some y → y < M)) ∧
      (perform_backprop = false →
        g.softmax_nodes.map (fun a => E.get_value (out.heap a)) =
          softmax_outputs E.exact_exp
            (g.softmax_nodes.map
              (fun a => E.get_value ((forward_pass E g image dropout).heap a)))) := by
  obtain ⟨out, h1, h2, h3⟩ := evaluate_image_outputs E hE g hnodup hne image class_error
    perform_backprop dropout total_error
  refine ⟨out, h1, ?_⟩
  have hlen : (softmax_outputs E.exact_exp
      (g.softmax_nodes.map
        (fun a => E.get_value ((forward_pass E g image dropout).heap a)))).length =
      g.softmax_nodes.length ∧
      ∀ y ∈ softmax_outputs E.exact_exp
        (g.softmax_nodes.map
          (fun a => E.get_value ((forward_pass E g image dropout).heap a))), 0 < y := by
    cases hsoft : g.softmax_nodes with
    | nil => exact absurd hsoft hne
    | cons first rest =>
      obtain ⟨_, _, _, _, hout, _, hy, _⟩ := softmax_outputs_spec E.exact_exp hE.exp_pos
        hE.exp_mono (E.get_value ((forward_pass E g image dropout).heap first))
        (rest.map (fun a => E.get_value ((forward_pass E g image dropout).heap a)))
      rw [List.map_cons]
      refine ⟨?_, fun y hy2 => (hy y hy2).1⟩
      rw [hout]
      simp
  generalize softmax_outputs E.exact_exp
    (g.softmax_nodes.map
      (fun a => E.get_value ((forward_pass E g image dropout).heap a))) = ys at h2 h3 hlen ⊢
  obtain ⟨hlen, hpos⟩ := hlen
  obtain ⟨_, hall, hcase⟩ := predict_spec ys 0 (-1) (-DBL_MAX)
  rcases hcase with ⟨_, hbad⟩ | ⟨k, hk, hp, hy, _, hbefore⟩
  · exfalso
    cases ys with
    | nil => exact hne (List.length_eq_zero.mp hlen.symm)
    | cons y rest =>
      have h5 := hbad y (List.mem_cons_self y rest)
      have h6 := hpos y (List.mem_cons_self y rest)
      have := DBL_MAX_pos
      linarith
  · rw [Nat.zero_add] at hp
    rw [← h2] at hp
    have hk2 : out.predicted_class.toNat = k := by
      rw [hp]
      exact Int.toNat_natCast k
    refine ⟨by rw [hp]; exact Int.natCast_nonneg k, ?_, ⟨_, ?_, hall, ?_⟩, h3⟩
    · rw [hp, ← hlen]
      exact_mod_cast hk
    · rw [hk2]
      exact hy
    · intro j y hj
      rw [hk2] at hj
      exact hbefore j y hj

/-- C23 at `genome_softmax` with the image of channel values 2, 1 and 1/10 under
`sample_evaluator`: the output nodes end with the values 58/107, 29/107 and
20/107, and the call returns the class 0. -/
theorem predicted_class_is_first_maximum_witness :
    sample_evaluator.Lawful ∧ genome_softmax.softmax_nodes.Nodup ∧
    genome_softmax.softmax_nodes ≠ [] ∧
    ∃ out, genome_softmax.evaluate_image sample_evaluator image_softmax [0, 0, 0] false
        false 0 = some out ∧
      genome_softmax.softmax_nodes.map (fun a => sample_evaluator.get_value (out.heap a)) =
        [58 / 107, 29 / 107, 20 / 107] ∧
      out.predicted_class = 0 := by
  obtain ⟨out, h1, h2, _, ⟨M, h4, h5, h6⟩, h7⟩ :=
    predicted_class_is_first_maximum sample_evaluator sample_evaluator_lawful
      genome_softmax (by decide) (by decide) image_softmax [0, 0, 0] false false 0
  rw [sample_forward_values] at h4 h5 h6 h7
  have hout : softmax_outputs sample_evaluator.exact_exp [2, 1, 1 / 10] =
      [58 / 107, 29 / 107, 20 / 107] := sample_softmax_outputs
  rw [hout] at h4 h5 h6 h7
  refine ⟨sample_evaluator_lawful, by decide, by decide, out, h1, h7 rfl, ?_⟩
  have hM : M ≤ 58 / 107 := by
    have hmem := List.getElem?_mem h4
    simp only [List.mem_cons, List.mem_singleton, List.not_mem_nil, or_false] at hmem
    rcases hmem with rfl | rfl | rfl <;> norm_num
  have hzero : out.predicted_class.toNat = 0 := by
    by_contra hpos
    have := h6 0 (58 / 107) (Nat.pos_of_ne_zero hpos) rfl
    linarith
  omega


/-! ### What an evaluation without backpropagation leaves alone -/

theorem set_input_values_keeps (E : Evaluator) (dropout : Bool) {α β : Type}
    (p : CNN_Node → α) (q : CNN_Edge → β) (hkeep : E.keeps dropout p q) (image : Image)
    (probability : ℚ) (inputs : List Nat) :
    ∀ (channel : Nat) (s : (Nat → CNN_Node) × Nat) (a : Nat),
    p ((set_input_values E image dropout probability channel inputs s).1 a) = p (s.1 a) := by
  induction inputs with
  | nil => exact fun channel s a => rfl
  | cons b rest ih =>
    intro channel s a
    rw [set_input_values, ih]
    by_cases hab : a = b
    · subst hab
      show p (Function.update s.1 a _ a) = _
      rw [Function.update_same, hkeep.set_values]
    · show p (Function.update s.1 b _ a) = _
      rw [Function.update_noteq hab]

theorem forward_edge_keeps (E : Evaluator) (dropout : Bool) {α β : Type}
    (p : CNN_Node → α) (q : CNN_Edge → β) (hkeep : E.keeps dropout p q) (probability : ℚ)
    (s : Forward_State) (e : CNN_Edge) :
    (∀ a, p ((forward_edge E dropout probability s e).heap a) = p (s.heap a)) ∧
    (forward_edge E dropout probability s e).edges.map q = s.edges.map q ++ [q e] := by
  constructor
  · intro a
    unfold forward_edge
    dsimp only
    by_cases ha : a = e.output_node
    · rw [ha, Function.update_same, hkeep.forward_output]
    · rw [Function.update_noteq ha]
      by_cases hb : a = e.input_node
      · rw [hb, Function.update_same, hkeep.forward_input]
      · rw [Function.update_noteq hb]
  · unfold forward_edge
    dsimp only
    rw [List.map_append, List.map_singleton, hkeep.forward_edge]

theorem forward_fold_keeps (E : Evaluator) (dropout : Bool) {α β : Type}
    (p : CNN_Node → α) (q : CNN_Edge → β) (hkeep : E.keeps dropout p q) (probability : ℚ)
    (edges : List CNN_Edge) : ∀ s : Forward_State,
    (∀ a, p ((edges.foldl (forward_edge E dropout probability) s).heap a) = p (s.heap a)) ∧
    (edges.foldl (forward_edge E dropout probability) s).edges.map q =
      s.edges.map q ++ edges.map q := by
  induction edges with
  | nil => exact fun s => ⟨fun a => rfl, by simp⟩
  | cons e rest ih =>
    intro s
    obtain ⟨h1, h2⟩ := ih (forward_edge E dropout probability s e)
    obtain ⟨h3, h4⟩ := forward_edge_keeps E dropout p q hkeep probability s e
    rw [List.foldl_cons]
    refine ⟨fun a => (h1 a).trans (h3 a), ?_⟩
    rw [h2, h4, List.append_assoc, List.singleton_append, List.map_cons]

theorem forward_pass_keeps (E : Evaluator) (dropout : Bool) {α β : Type}
    (p : CNN_Node → α) (q : CNN_Edge → β) (hkeep : E.keeps dropout p q) (g : CNN_Genome)
    (image : Image) :
    (∀ a, p ((forward_pass E g image dropout).heap a) = p (g.heap a)) ∧
    (forward_pass E g image dropout).edges.map q = g.edges.map q := by
  unfold forward_pass
  obtain ⟨h1, h2⟩ := forward_fold_keeps E dropout p q hkeep g.hidden_dropout_probability
    g.edges
    { edges := []
      heap := (set_input_values E image dropout g.input_dropout_probability 0
        g.input_nodes (reset_nodes E g.nodes g.heap, g.rng.generator)).1
      generator := (set_input_values E image dropout g.input_dropout_probability 0
        g.input_nodes (reset_nodes E g.nodes g.heap, g.rng.generator)).2 }
  refine ⟨fun a => ?_, ?_⟩
  · rw [h1 a]
    show p ((set_input_values E image dropout g.input_dropout_probability 0
      g.input_nodes (reset_nodes E g.nodes g.heap, g.rng.generator)).1 a) = _
    rw [set_input_values_keeps E dropout p q hkeep]
    exact foldl_update_keeps E.reset p hkeep.reset g.nodes g.heap a
  · rw [h2]
    rfl

theorem exponentiate_keeps (E : Evaluator) {α : Type} (p : CNN_Node → α)
    (hp : ∀ v n, p (E.set_value v n) = p n) (m : ℚ) (S : List Nat) :
    ∀ (s : (Nat → CNN_Node) × ℚ) (a : Nat), p ((exponentiate E m S s).1 a) = p (s.1 a) := by
  induction S with
  | nil => exact fun s a => rfl
  | cons b rest ih =>
    intro s a
    rw [exponentiate, ih]
    by_cases hab : a = b
    · subst hab
      show p (Function.update s.1 a _ a) = _
      rw [Function.update_same, hp]
    · show p (Function.update s.1 b _ a) = _
      rw [Function.update_noteq hab]

theorem normalise_keeps (E : Evaluator) {α : Type} (p : CNN_Node → α)
    (hv : ∀ v n, p (E.set_value v n) = p n) (he : ∀ v n, p (E.set_error v n) = p n)
    (hg : ∀ v n, p (E.set_gradient v n) = p n) (sum : ℚ) (expected_class : Int)
    (S : List Nat) : ∀ (i : Nat) (s : Softmax_State) (a : Nat),
    p ((normalise E sum expected_class i S s).heap a) = p (s.heap a) := by
  induction S with
  | nil => exact fun i s a => rfl
  | cons b rest ih =>
    intro i s a
    rw [normalise, ih]
    by_cases hab : a = b
    · subst hab
      show p (Function.update s.heap a _ a) = _
      rw [Function.update_same, hg, he, hv]
    · show p (Function.update s.heap b _ a) = _
      rw [Function.update_noteq hab]

/-- An evaluation without backpropagation that returns leaves, in every node
and every edge, what the methods of the forward pass leave. -/
theorem evaluate_image_keeps (E : Evaluator) (dropout : Bool) {α β : Type}
    (p : CNN_Node → α) (q : CNN_Edge → β) (hkeep : E.keeps dropout p q) (g : CNN_Genome)
    (image : Image) (class_error : List ℚ) (total_error : ℚ) (out : Image_Evaluation)
    (h : g.evaluate_image E image class_error false dropout total_error = some out) :
    (∀ a, p (out.heap a) = p (g.heap a)) ∧ out.edges.map q = g.edges.map q := by
  obtain ⟨h1, h2⟩ := forward_pass_keeps E dropout p q hkeep g image
  unfold CNN_Genome.evaluate_image evaluate_output at h
  split at h
  · exact absurd h (by simp)
  · unfold classify at h
    split at h
    · exact absurd h (by simp)
    · simp only [Option.some.injEq] at h
      rw [← h]
      refine ⟨fun a => ?_, h2⟩
      show p ((normalise E _ image.classification 0 g.softmax_nodes _).heap a) = _
      rw [normalise_keeps E p hkeep.set_value hkeep.set_error hkeep.set_gradient]
      show p ((exponentiate E _ g.softmax_nodes _).1 a) = _
      rw [exponentiate_keeps E p hkeep.set_value]
      exact h1 a

theorem evaluate_loop_keeps (T : Trainer) (E : Evaluator) {α β : Type}
    (p : CNN_Node → α) (q : CNN_Edge → β) (hkeep : E.keeps false p q) (images : Images)
    (order : List Int) : ∀ (j : Nat) (g : CNN_Genome) (r : Evaluation)
    (res : CNN_Genome × Evaluation),
    evaluate_loop (T.with_evaluator E) images false j order g r = some res →
      (∀ a, p (res.1.heap a) = p (g.heap a)) ∧ res.1.edges.map q = g.edges.map q := by
  induction order with
  | nil =>
    intro j g r res h
    simp only [evaluate_loop, Option.some.injEq] at h
    rw [← h]
    exact ⟨fun a => rfl, rfl⟩
  | cons o order ih =>
    intro j g r res h
    unfold evaluate_loop at h
    split at h
    · exact absurd h (by simp)
    · rename_i out hout
      obtain ⟨h1, h2⟩ := ih _ _ _ _ h
      obtain ⟨h3, h4⟩ := evaluate_image_keeps E false p q hkeep g (images.get_image o)
        r.class_error r.total_error out hout
      exact ⟨fun a => (h1 a).trans (h3 a), h2.trans h4⟩

/-- The loop of `evaluate` returns when `evaluate_image` returns for every genome
with the settings of the genome of the call. -/
theorem evaluate_loop_returns_of (T : Trainer) (images : Images) (b : Bool)
    (order : List Int) : ∀ (j : Nat) (g : CNN_Genome) (r : Evaluation),
    (∀ g2, same_settings g g2 → ∀ image class_error total_error,
      (T.evaluate_image g2 image class_error b (perform_dropout b) total_error).isSome =
        true) →
    ∃ res, evaluate_loop T images b j order g r = some res := by
  induction order with
  | nil => exact fun j g r _ => ⟨_, rfl⟩
  | cons o order ih =>
    intro j g r hT
    obtain ⟨out, hout⟩ := Option.isSome_iff_exists.mp
      (hT g (same_settings_refl g) (images.get_image o) r.class_error r.total_error)
    unfold evaluate_loop
    rw [hout]
    exact ih _ _ _ (fun g2 h2 =>
      hT g2 (same_settings_trans (after_image_same_settings T b j g out) h2))

theorem sample_evaluator_keeps (dropout : Bool) :
    sample_evaluator.keeps dropout (fun n => (n.bias, n.best_bias))
      (fun e => (e.weights, e.best_weights)) :=
  ⟨fun _ => rfl, fun _ _ _ _ _ _ _ => rfl, fun _ _ => rfl, fun _ _ => rfl, fun _ _ => rfl,
    fun _ _ _ _ _ => rfl, fun _ _ _ _ _ => rfl, fun _ _ _ _ _ => rfl⟩

/-- C27: the flag `perform_dropout` that `evaluate` passes to `evaluate_image` is its
argument `perform_backprop`, so a pass with updates runs with dropout and the
measuring pass without. For a genome with output nodes, listed without
repetitions, and lawful accessors the measuring pass returns, and it leaves
`mu`, `learning_rate`, `weight_decay`, `epoch` and `best_error` unchanged, as well
as every member `p` of a node and every member `q` of an edge (such as the bias
and the saved best bias, the weights and the saved best weights, a velocity)
that the methods of the forward pass without dropout and the stores into
the output nodes leave alone. -/
theorem measuring_pass_keeps_learned_state (T : Trainer) (E : Evaluator) (hE : E.Lawful)
    {α β : Type} (p : CNN_Node → α) (q : CNN_Edge → β) (hkeep : E.keeps false p q)
    (g : CNN_Genome) (hnodup : g.softmax_nodes.Nodup) (hne : g.softmax_nodes ≠ [])
    (images : Images) :
    (∀ b, perform_dropout b = b) ∧
    (∀ (b : Bool) (j : Nat) (o : Int) (order : List Int) (r : Evaluation),
      evaluate_loop (T.with_evaluator E) images b j (o :: order) g r =
        match g.evaluate_image E (images.get_image o) r.class_error b b r.total_error with
        | none => none
        | some out =>
          evaluate_loop (T.with_evaluator E) images b (j + 1) order
            (after_image (T.with_evaluator E) b j g out)
            (count_prediction (images.get_image o).classification out r)) ∧
    ∃ res, g.evaluate (T.with_evaluator E) images false = some res ∧
      (∀ a, p (res.1.heap a) = p (g.heap a)) ∧
      res.1.edges.map q = g.edges.map q ∧
      res.1.nodes = g.nodes ∧
      res.1.mu = g.mu ∧ res.1.learning_rate = g.learning_rate ∧
      res.1.weight_decay = g.weight_decay ∧ res.1.epoch = g.epoch ∧
      res.1.best_error = g.best_error := by
  have hdrop : ∀ b, perform_dropout b = b := fun b => by cases b <;> rfl
  refine ⟨hdrop, ?_, ?_⟩
  · intro b j o order r
    rw [evaluate_loop, hdrop]
    rfl
  · obtain ⟨res, hres⟩ := evaluate_loop_returns_of (T.with_evaluator E) images false
      g.backprop_order 0 g
      { class_error := List.replicate images.number_classes 0
        correct_predictions := List.replicate images.number_classes 0
        total_error := 0
        total_predictions := 0 }
      (fun g2 h2 image class_error total_error => by
        have hs : g2.softmax_nodes = g.softmax_nodes := by
          obtain ⟨_, _, _, _, h⟩ := h2
          rw [h]
        obtain ⟨out, hout, _⟩ := evaluate_image_outputs E hE g2 (by rw [hs]; exact hnodup)
          (by rw [hs]; exact hne) image class_error false (perform_dropout false) total_error
        exact Option.isSome_iff_exists.mpr ⟨out, hout⟩)
    obtain ⟨h1, h2⟩ := evaluate_loop_keeps T E p q hkeep images _ _ _ _ _ hres
    obtain ⟨_, _, _, _, h3⟩ := evaluate_loop_same_settings _ images false _ _ _ _ _ hres
    refine ⟨res, hres, h1, h2, ?_⟩
    rw [h3]
    exact ⟨rfl, rfl, rfl, rfl, rfl, rfl⟩

/-- C27 at `genome_softmax` with two evaluations of `image_softmax` under
`sample_evaluator`: the measuring pass returns and leaves the bias and the saved
best bias of every node and the weights and saved best weights of every
edge. -/
theorem measuring_pass_keeps_learned_state_witness :
    sample_evaluator.Lawful ∧
    sample_evaluator.keeps false (fun n => (n.bias, n.best_bias))
      (fun e => (e.weights, e.best_weights)) ∧
    genome_softmax.softmax_nodes.Nodup ∧ genome_softmax.softmax_nodes ≠ [] ∧
    ∃ res, genome_softmax.evaluate (sample_trainer.with_evaluator sample_evaluator)
        { number_classes := 3, images := [image_softmax] } false = some res ∧
      (∀ a, (res.1.heap a).bias = [0] ∧ (res.1.heap a).best_bias = [0]) ∧
      res.1.edges.map (fun e => (e.weights, e.best_weights)) =
        [([1], [1]), ([1], [1]), ([1], [1])] ∧
      res.1.mu = 1 / 2 ∧ res.1.learning_rate = 1 / 10 := by
  obtain ⟨_, _, res, h1, h2, h3, _, h4, h5, _⟩ :=
    measuring_pass_keeps_learned_state sample_trainer sample_evaluator
      sample_evaluator_lawful (fun n => (n.bias, n.best_bias))
      (fun e => (e.weights, e.best_weights)) (sample_evaluator_keeps false) genome_softmax
      (by decide) (by decide) { number_classes := 3, images := [image_softmax] }
  refine ⟨sample_evaluator_lawful, sample_evaluator_keeps false, by decide, by decide, res,
    h1, fun a => ?_, h3, h4, h5⟩
  have := h2 a
  simp only [Prod.mk.injEq] at this
  exact this

/-! ### Determinism of the forward pass -/

theorem set_input_values_untouched (E : Evaluator) (image : Image) (dropout : Bool)
    (probability : ℚ) (a : Nat) (inputs : List Nat) (ha : a ∉ inputs) :
    ∀ (channel : Nat) (s : (Nat → CNN_Node) × Nat),
    (set_input_values E image dropout probability channel inputs s).1 a = s.1 a := by
  induction inputs with
  | nil => exact fun channel s => rfl
  | cons b rest ih =>
    intro channel s
    rw [set_input_values, ih (fun h => ha (List.mem_cons_of_mem b h))]
    exact Function.update_noteq (fun h => ha (List.mem_cons.mpr (Or.inl h))) _ _

theorem forward_fold_untouched (E : Evaluator) (dropout : Bool) (probability : ℚ) (a : Nat)
    (edges : List CNN_Edge)
    (ha : ∀ e ∈ edges, a ≠ e.input_node ∧ a ≠ e.output_node) :
    ∀ s : Forward_State,
    (edges.foldl (forward_edge E dropout probability) s).heap a = s.heap a := by
  induction edges with
  | nil => exact fun s => rfl
  | cons e rest ih =>
    intro s
    rw [List.foldl_cons, ih (fun e2 h2 => ha e2 (List.mem_cons_of_mem e h2))]
    unfold forward_edge
    dsimp only
    rw [Function.update_noteq (ha e (List.mem_cons_self e rest)).2,
      Function.update_noteq (ha e (List.mem_cons_self e rest)).1]

theorem exponentiate_untouched (E : Evaluator) (m : ℚ) (a : Nat) (S : List Nat)
    (ha : a ∉ S) : ∀ s : (Nat → CNN_Node) × ℚ, (exponentiate E m S s).1 a = s.1 a := by
  induction S with
  | nil => exact fun s => rfl
  | cons b rest ih =>
    intro s
    rw [exponentiate, ih (fun h => ha (List.mem_cons_of_mem b h))]
    exact Function.update_noteq (fun h => ha (List.mem_cons.mpr (Or.inl h))) _ _

theorem normalise_untouched (E : Evaluator) (sum : ℚ) (expected_class : Int) (a : Nat)
    (S : List Nat) (ha : a ∉ S) : ∀ (i : Nat) (s : Softmax_State),
    (normalise E sum expected_class i S s).heap a = s.heap a := by
  induction S with
  | nil => exact fun i s => rfl
  | cons b rest ih =>
    intro i s
    rw [normalise, ih (fun h => ha (List.mem_cons_of_mem b h))]
    exact Function.update_noteq (fun h => ha (List.mem_cons.mpr (Or.inl h))) _ _

/-- An evaluation without backpropagation touches no node object outside the
node list, when the node list holds the input nodes, the output nodes and
the end nodes of the edges. -/
theorem evaluate_image_untouched (E : Evaluator) (hreset : ∀ n, E.reset (E.reset n) = E.reset n)
    (g : CNN_Genome) (hinputs : ∀ a ∈ g.input_nodes, a ∈ g.nodes)
    (hsoftmax : ∀ a ∈ g.softmax_nodes, a ∈ g.nodes)
    (hedges : ∀ e ∈ g.edges, e.input_node ∈ g.nodes ∧ e.output_node ∈ g.nodes)
    (image : Image) (class_error : List ℚ) (dropout : Bool) (total_error : ℚ)
    (out : Image_Evaluation)
    (h : g.evaluate_image E image class_error false dropout total_error = some out)
    (a : Nat) (ha : a ∉ g.nodes) : out.heap a = g.heap a := by
  have h1 : (forward_pass E g image dropout).heap a = g.heap a := by
    unfold forward_pass
    rw [forward_fold_untouched E dropout _ a g.edges
      (fun e he => ⟨fun h2 => ha (h2 ▸ (hedges e he).1), fun h2 => ha (h2 ▸ (hedges e he).2)⟩)]
    show (set_input_values E image dropout g.input_dropout_probability 0 g.input_nodes
      (reset_nodes E g.nodes g.heap, g.rng.generator)).1 a = _
    rw [set_input_values_untouched E image dropout _ a g.input_nodes
      (fun h2 => ha (hinputs a h2))]
    show reset_nodes E g.nodes g.heap a = _
    unfold reset_nodes
    rw [foldl_update_apply E.reset hreset, if_neg ha]
  unfold CNN_Genome.evaluate_image evaluate_output at h
  split at h
  · exact absurd h (by simp)
  · unfold classify at h
    split at h
    · exact absurd h (by simp)
    · simp only [Option.some.injEq] at h
      rw [← h]
      show (normalise E _ image.classification 0 g.softmax_nodes _).heap a = _
      rw [normalise_untouched E _ _ a g.softmax_nodes (fun h2 => ha (hsoftmax a h2))]
      show (exponentiate E _ g.softmax_nodes _).1 a = _
      rw [exponentiate_untouched E _ a g.softmax_nodes (fun h2 => ha (hsoftmax a h2))]
      exact h1

theorem set_input_values_generator (E : Evaluator) (hD : E.Deterministic) (image : Image)
    (probability : ℚ) (inputs : List Nat) :
    ∀ (channel : Nat) (heap : Nat → CNN_Node) (generator generator2 : Nat),
    set_input_values E image false probability channel inputs (heap, generator) =
      ((set_input_values E image false probability channel inputs (heap, generator2)).1,
        generator) := by
  induction inputs with
  | nil => exact fun channel heap generator generator2 => rfl
  | cons b rest ih =>
    intro channel heap generator generator2
    rw [set_input_values, set_input_values]
    dsimp only
    rw [hD.set_values_generator image channel _ _ generator generator2]
    dsimp only
    rw [ih (channel + 1) _ generator
      (E.set_values image channel (E.get_rows image) (E.get_cols image) false generator2
        probability (heap b)).2]

theorem forward_edge_generator (E : Evaluator) (hD : E.Deterministic) (probability : ℚ)
    (s : Forward_State) (generator : Nat) (e : CNN_Edge) :
    forward_edge E false probability { s with generator := generator } e =
      { forward_edge E false probability s e with generator := generator } := by
  unfold forward_edge
  dsimp only
  rw [hD.forward_generator generator s.generator]

theorem forward_fold_generator (E : Evaluator) (hD : E.Deterministic) (probability : ℚ)
    (edges : List CNN_Edge) : ∀ (s : Forward_State) (generator : Nat),
    edges.foldl (forward_edge E false probability) { s with generator := generator } =
      { edges.foldl (forward_edge E false probability) s with generator := generator } := by
  induction edges with
  | nil => exact fun s generator => rfl
  | cons e rest ih =>
    intro s generator
    rw [List.foldl_cons, List.foldl_cons, forward_edge_generator E hD, ih]

/-- Without dropout the forward pass ends with the generator it started with,
and what it leaves else does not depend on the generator. -/
theorem forward_pass_generator (E : Evaluator) (hD : E.Deterministic) (g : CNN_Genome)
    (image : Image) (generator : Nat) :
    forward_pass E { g with rng := { g.rng with generator := generator } } image false =
      { forward_pass E g image false with generator := generator } := by
  unfold forward_pass
  dsimp only
  rw [set_input_values_generator E hD image _ _ 0 _ generator g.rng.generator]
  exact forward_fold_generator E hD g.hidden_dropout_probability g.edges
    { edges := []
      heap := (set_input_values E image false g.input_dropout_probability 0
        g.input_nodes (reset_nodes E g.nodes g.heap, g.rng.generator)).1
      generator := (set_input_values E image false g.input_dropout_probability 0
        g.input_nodes (reset_nodes E g.nodes g.heap, g.rng.generator)).2 } generator

theorem getD_modify (l : List ℚ) (f : ℚ → ℚ) (i j : Nat) :
    (l.modify f i).getD j 0 =
      if j = i ∧ i < l.length then f (l.getD j 0) else l.getD j 0 := by
  rw [List.getD_eq_getElem?_getD, List.getD_eq_getElem?_getD, List.getElem?_modify]
  by_cases h : i = j
  · subst h
    by_cases h2 : i < l.length
    · simp [h2]
    · simp [h2, List.getElem?_eq_none (not_lt.mp h2)]
  · have h3 : ¬ j = i := fun h4 => h h4.symm
    simp [h, h3]

/-- The loop of lines 1026-1070 started with other values of the reference
arguments `class_error` and `total_error`: the node objects, `predicted_class` and
`max_value` come out the same, `total_error` is off by what it was off at the
start, and so is every entry of `class_error` when the two vectors have the
same length. -/
theorem normalise_shift (E : Evaluator) (sum : ℚ) (expected_class : Int) (S : List Nat) :
    ∀ (i : Nat) (s : Softmax_State) (c2 : List ℚ) (dt : ℚ),
    ∃ c3,
      normalise E sum expected_class i S
          { s with class_error := c2, total_error := s.total_error + dt } =
        { normalise E sum expected_class i S s with
          class_error := c3
          total_error := (normalise E sum expected_class i S s).total_error + dt } ∧
      (c2.length = s.class_error.length →
        ∀ j, c3.getD j 0 - c2.getD j 0 =
          (normalise E sum expected_class i S s).class_error.getD j 0 -
            s.class_error.getD j 0) := by
  induction S with
  | nil => exact fun i s c2 dt => ⟨c2, rfl, fun _ j => by simp [normalise]⟩
  | cons b rest ih =>
    intro i s c2 dt
    have hnode : normalise_node E sum expected_class i b
        { s with class_error := c2, total_error := s.total_error + dt } =
        { normalise_node E sum expected_class i b s with
          class_error := c2.modify
            (· + abs (E.get_value (s.heap b) / sum - target i expected_class)) i
          total_error := (normalise_node E sum expected_class i b s).total_error + dt } := by
      unfold normalise_node
      dsimp only
      congr 1
      ring
    obtain ⟨c3, h1, h2⟩ := ih (i + 1) (normalise_node E sum expected_class i b s)
      (c2.modify (· + abs (E.get_value (s.heap b) / sum - target i expected_class)) i) dt
    refine ⟨c3, ?_, ?_⟩
    · rw [normalise, normalise, hnode]
      exact h1
    · intro hlen j
      have hlen2 : (c2.modify
          (· + abs (E.get_value (s.heap b) / sum - target i expected_class)) i).length =
          (normalise_node E sum expected_class i b s).class_error.length := by
        unfold normalise_node
        dsimp only
        rw [List.length_modify, List.length_modify, hlen]
      have h3 := h2 hlen2 j
      rw [normalise]
      have h4 : (normalise_node E sum expected_class i b s).class_error =
          s.class_error.modify
            (· + abs (E.get_value (s.heap b) / sum - target i expected_class)) i := rfl
      rw [h4, getD_modify, getD_modify, hlen] at h3
      by_cases hj : j = i ∧ i < s.class_error.length
      · rw [if_pos hj, if_pos hj] at h3
        linarith
      · rw [if_neg hj, if_neg hj] at h3
        linarith

/-- A call of `evaluate_image` with other values of the reference arguments
`class_error` and `total_error`: it returns when the first call does, with the
same class, node objects, edges and generator, and it adds to `total_error`
and to every entry of `class_error` what the first call adds, when the two
vectors have the same length. -/
theorem evaluate_image_shift (E : Evaluator) (g : CNN_Genome) (image : Image)
    (class_error class_error2 : List ℚ) (perform_backprop dropout : Bool)
    (total_error total_error2 : ℚ) (out : Image_Evaluation)
    (h : g.evaluate_image E image class_error perform_backprop dropout total_error =
      some out)
    (hlen : class_error2.length = class_error.length) :
    ∃ out2, g.evaluate_image E image class_error2 perform_backprop dropout total_error2 =
        some out2 ∧
      out2.predicted_class = out.predicted_class ∧ out2.heap = out.heap ∧
      out2.edges = out.edges ∧ out2.generator = out.generator ∧
      out2.total_error - total_error2 = out.total_error - total_error ∧
      ∀ j, out2.class_error.getD j 0 - class_error2.getD j 0 =
        out.class_error.getD j 0 - class_error.getD j 0 := by
  unfold CNN_Genome.evaluate_image evaluate_output at h ⊢
  split at h
  · exact absurd h (by simp)
  · rename_i first rest hsoft
    rw [hsoft]
    unfold classify at h ⊢
    split at h
    · exact absurd h (by simp)
    · rename_i hsum
      rw [hsoft] at hsum h
      rw [hsoft, if_neg hsum]
      simp only [Option.some.injEq] at h
      rw [← h]
      obtain ⟨c3, h1, h2⟩ := normalise_shift E
        (exponentiate E
          (softmax_max_loop E (forward_pass E g image dropout).heap rest
            (E.get_value ((forward_pass E g image dropout).heap first)))
          (first :: rest) ((forward_pass E g image dropout).heap, 0)).2
        image.classification (first :: rest) 0
        { heap := (exponentiate E
            (softmax_max_loop E (forward_pass E g image dropout).heap rest
              (E.get_value ((forward_pass E g image dropout).heap first)))
            (first :: rest) ((forward_pass E g image dropout).heap, 0)).1
          class_error := class_error
          total_error := total_error
          predicted_class := -1
          max_value := -DBL_MAX }
        class_error2 (total_error2 - total_error)
      have h3 : total_error + (total_error2 - total_error) = total_error2 := by ring
      dsimp only at h1
      rw [h3] at h1
      refine ⟨_, rfl, ?_⟩
      rw [h1]
      unfold conclude_image
      split
      · refine ⟨rfl, rfl, rfl, rfl, ?_, h2 hlen⟩
        dsimp only
        ring
      · refine ⟨rfl, rfl, rfl, rfl, ?_, h2 hlen⟩
        dsimp only
        ring

theorem evaluate_output_generator (E : Evaluator) (g : CNN_Genome) (image : Image)
    (class_error : List ℚ) (perform_backprop : Bool) (total_error : ℚ) (s : Forward_State)
    (generator : Nat) :
    evaluate_output E g image class_error perform_backprop total_error
        { s with generator := generator } =
      (evaluate_output E g image class_error perform_backprop total_error s).map
        (fun out => { out with generator := generator }) := by
  unfold evaluate_output
  split
  · rfl
  · unfold classify
    dsimp only
    split
    · rfl
    · unfold conclude_image
      split <;> rfl

theorem forward_pass_heap (E : Evaluator) (g : CNN_Genome) (heap0 : Nat → CNN_Node)
    (hreset : reset_nodes E g.nodes heap0 = reset_nodes E g.nodes g.heap) (image : Image)
    (dropout : Bool) :
    forward_pass E { g with heap := heap0 } image dropout = forward_pass E g image dropout := by
  unfold forward_pass
  dsimp only
  rw [hreset]

/-- Without dropout and backpropagation `evaluate_image` looks at the node objects
only after the loop of `reset`, and does not look at the generator: started
with other node objects that the loop of `reset` takes to the same objects,
and with another state of the generator, it does the same and leaves the
generator as it is. -/
theorem evaluate_image_transient (E : Evaluator) (hD : E.Deterministic) (g : CNN_Genome)
    (heap0 : Nat → CNN_Node) (generator0 : Nat)
    (hreset : reset_nodes E g.nodes heap0 = reset_nodes E g.nodes g.heap) (image : Image)
    (class_error : List ℚ) (total_error : ℚ) :
    CNN_Genome.evaluate_image E
        { g with heap := heap0, rng := { g.rng with generator := generator0 } }
        image class_error false false total_error =
      (g.evaluate_image E image class_error false false total_error).map
        (fun out => { out with generator := generator0 }) := by
  have hf : forward_pass E
      { g with heap := heap0, rng := { g.rng with generator := generator0 } } image false =
      { forward_pass E g image false with generator := generator0 } := by
    rw [← forward_pass_heap E g heap0 hreset image false]
    exact forward_pass_generator E hD { g with heap := heap0 } image generator0
  unfold CNN_Genome.evaluate_image
  rw [hf]
  exact evaluate_output_generator E g image class_error false total_error _ generator0

theorem reset_nodes_eq (E : Evaluator) (hreset : ∀ n, E.reset (E.reset n) = E.reset n)
    (nodes : List Nat) (heap heap0 : Nat → CNN_Node)
    (h1 : ∀ a, a ∈ nodes → E.reset (heap0 a) = E.reset (heap a))
    (h2 : ∀ a, a ∉ nodes → heap0 a = heap a) :
    reset_nodes E nodes heap0 = reset_nodes E nodes heap := by
  funext a
  unfold reset_nodes
  rw [foldl_update_apply E.reset hreset, foldl_update_apply E.reset hreset]
  by_cases ha : a ∈ nodes
  · rw [if_pos ha, if_pos ha, h1 a ha]
  · rw [if_neg ha, if_neg ha, h2 a ha]

theorem normalise_length (E : Evaluator) (sum : ℚ) (expected_class : Int) (S : List Nat) :
    ∀ (i : Nat) (s : Softmax_State),
    (normalise E sum expected_class i S s).class_error.length = s.class_error.length := by
  induction S with
  | nil => exact fun i s => rfl
  | cons b rest ih =>
    intro i s
    rw [normalise, ih]
    exact List.length_modify _ _ _

/-- A call of `evaluate_image` leaves `class_error` with the length it had. -/
theorem evaluate_image_length (E : Evaluator) (g : CNN_Genome) (image : Image)
    (class_error : List ℚ) (perform_backprop dropout : Bool) (total_error : ℚ)
    (out : Image_Evaluation)
    (h : g.evaluate_image E image class_error perform_backprop dropout total_error =
      some out) :
    out.class_error.length = class_error.length := by
  unfold CNN_Genome.evaluate_image evaluate_output at h
  split at h
  · exact absurd h (by simp)
  · unfold classify at h
    split at h
    · exact absurd h (by simp)
    · simp only [Option.some.injEq] at h
      rw [← h, (conclude_image_predicted_class E g perform_backprop _ _ _).2.1,
        normalise_length]

theorem sample_evaluator_deterministic : sample_evaluator.Deterministic :=
  ⟨⟨fun _ => rfl, fun _ _ _ _ _ _ _ => rfl, fun _ _ => rfl, fun _ _ => rfl, fun _ _ => rfl,
    fun _ _ _ _ _ => rfl, fun _ _ _ _ _ => rfl, fun _ _ _ _ _ => rfl⟩,
   fun _ _ _ _ _ _ _ _ => rfl, fun _ _ _ _ _ _ => rfl⟩

/-- C26: for a genome whose node list holds its input nodes, its output nodes
(at least one, none twice) and the end nodes of its edges, with lawful
accessors and forward methods that without dropout are deterministic, a call
of `evaluate_image` without dropout and without backpropagation returns; it
leaves the generator and the edges as they were; the same call on the genome
as the first call left it returns the same class and leaves the same
`class_error` and `total_error`, and started with any other values of the two
accumulators (`class_error` of the same length, such as the first call left
it) it returns the same class and adds to `total_error` and to every entry of
`class_error` what the first call added; and a call on a genome with
other node objects that differ only by what `reset` erases, and with any other
state of the generator, returns the same result and leaves that state of
the generator. -/
theorem forward_pass_determinism (E : Evaluator) (hE : E.Lawful) (hD : E.Deterministic)
    (g : CNN_Genome) (hnodup : g.softmax_nodes.Nodup) (hne : g.softmax_nodes ≠ [])
    (hinputs : ∀ a ∈ g.input_nodes, a ∈ g.nodes)
    (hsoftmax : ∀ a ∈ g.softmax_nodes, a ∈ g.nodes)
    (hedges : ∀ e ∈ g.edges, e.input_node ∈ g.nodes ∧ e.output_node ∈ g.nodes)
    (image : Image) (class_error : List ℚ) (total_error : ℚ) :
    ∃ out, g.evaluate_image E image class_error false false total_error = some out ∧
      out.generator = g.rng.generator ∧ out.edges = g.edges ∧
      out.class_error.length = class_error.length ∧
      CNN_Genome.evaluate_image E
          { g with heap := out.heap, edges := out.edges,
                   rng := { g.rng with generator := out.generator } }
          image class_error false false total_error = some out ∧
      (∀ (class_error2 : List ℚ) (total_error2 : ℚ),
        class_error2.length = class_error.length →
        ∃ out2, CNN_Genome.evaluate_image E
            { g with heap := out.heap, edges := out.edges,
                     rng := { g.rng with generator := out.generator } }
            image class_error2 false false total_error2 = some out2 ∧
          out2.predicted_class = out.predicted_class ∧
          out2.total_error - total_error2 = out.total_error - total_error ∧
          ∀ j, out2.class_error.getD j 0 - class_error2.getD j 0 =
            out.class_error.getD j 0 - class_error.getD j 0) ∧
      (∀ (heap0 : Nat → CNN_Node) (generator0 : Nat),
        (∀ a, a ∈ g.nodes → E.reset (heap0 a) = E.reset (g.heap a)) →
        (∀ a, a ∉ g.nodes → heap0 a = g.heap a) →
        CNN_Genome.evaluate_image E
            { g with heap := heap0, rng := { g.rng with generator := generator0 } }
            image class_error false false total_error =
          some { out with generator := generator0 }) := by
  obtain ⟨out, hout, _⟩ := evaluate_image_outputs E hE g hnodup hne image class_error
    false false total_error
  have hgen : out.generator = g.rng.generator := by
    have h1 := evaluate_image_transient E hD g g.heap g.rng.generator rfl image class_error
      total_error
    rw [hout] at h1
    simp only [Option.map_some', Option.some.injEq] at h1
    exact congrArg Image_Evaluation.generator h1
  have hedge : out.edges = g.edges := by
    have h1 := (evaluate_image_keeps E false E.reset (fun e => e) hD.keeps g image
      class_error total_error out hout).2
    rw [List.map_id', List.map_id'] at h1
    exact h1
  have hany : ∀ (heap0 : Nat → CNN_Node) (generator0 : Nat),
      (∀ a, a ∈ g.nodes → E.reset (heap0 a) = E.reset (g.heap a)) →
      (∀ a, a ∉ g.nodes → heap0 a = g.heap a) →
      CNN_Genome.evaluate_image E
          { g with heap := heap0, rng := { g.rng with generator := generator0 } }
          image class_error false false total_error =
        some { out with generator := generator0 } := by
    intro heap0 generator0 h1 h2
    rw [evaluate_image_transient E hD g heap0 generator0
      (reset_nodes_eq E hD.keeps.reset g.nodes g.heap heap0 h1 h2), hout]
    rfl
  have hagain : CNN_Genome.evaluate_image E
      { g with heap := out.heap, edges := out.edges,
               rng := { g.rng with generator := out.generator } }
      image class_error false false total_error = some out := by
    have h1 := hany out.heap out.generator
      (fun a _ => (evaluate_image_keeps E false E.reset (fun e => e) hD.keeps g image
        class_error total_error out hout).1 a)
      (fun a ha => evaluate_image_untouched E hD.keeps.reset g hinputs hsoftmax hedges image
        class_error false total_error out hout a ha)
    rw [hedge]
    exact h1
  refine ⟨out, hout, hgen, hedge,
    evaluate_image_length E g image class_error false false total_error out hout, hagain, ?_,
    hany⟩
  intro class_error2 total_error2 hlen
  obtain ⟨out2, h1, h2, _, _, _, h3, h4⟩ := evaluate_image_shift E _ image class_error
    class_error2 false false total_error total_error2 out hagain hlen
  exact ⟨out2, h1, h2, h3, h4⟩

/-- C26 at `genome_softmax` with `image_softmax` under `sample_evaluator`: two calls in
succession return the same class 0, and the second call adds to the
accumulators what the first call added. -/
theorem forward_pass_determinism_witness :
    sample_evaluator.Lawful ∧ sample_evaluator.Deterministic ∧
    genome_softmax.softmax_nodes.Nodup ∧ genome_softmax.softmax_nodes ≠ [] ∧
    (∀ a ∈ genome_softmax.input_nodes, a ∈ genome_softmax.nodes) ∧
    (∀ a ∈ genome_softmax.softmax_nodes, a ∈ genome_softmax.nodes) ∧
    (∀ e ∈ genome_softmax.edges,
      e.input_node ∈ genome_softmax.nodes ∧ e.output_node ∈ genome_softmax.nodes) ∧
    ∃ out, genome_softmax.evaluate_image sample_evaluator image_softmax [0, 0, 0] false
        false 0 = some out ∧
      out.generator = 1 ∧
      ∃ out2, CNN_Genome.evaluate_image sample_evaluator
          { genome_softmax with
            heap := out.heap
            edges := out.edges
            rng := { genome_softmax.rng with generator := out.generator } }
          image_softmax out.class_error false false out.total_error = some out2 ∧
        out2.predicted_class = out.predicted_class ∧
        out2.total_error - out.total_error = out.total_error - 0 := by
  have hin : ∀ a ∈ genome_softmax.input_nodes, a ∈ genome_softmax.nodes := by decide
  have hso : ∀ a ∈ genome_softmax.softmax_nodes, a ∈ genome_softmax.nodes := by decide
  have hed : ∀ e ∈ genome_softmax.edges,
      e.input_node ∈ genome_softmax.nodes ∧ e.output_node ∈ genome_softmax.nodes := by
    decide
  obtain ⟨out, h1, h2, _, hlen, _, h3, _⟩ := forward_pass_determinism sample_evaluator
    sample_evaluator_lawful sample_evaluator_deterministic genome_softmax (by decide)
    (by decide) hin hso hed image_softmax [0, 0, 0] 0
  obtain ⟨out2, h4, h5, h6, _⟩ := h3 out.class_error out.total_error hlen
  exact ⟨sample_evaluator_lawful, sample_evaluator_deterministic, by decide, by decide,
    hin, hso, hed, out, h1, h2, out2, h4, h5, h6⟩

/-! ### Training with the embedded `evaluate_image` -/

/-- The sum that the loop of lines 985-1018 leaves is not below the sum it
found, and above it when there is an output node. -/
theorem exponentiate_sum (E : Evaluator) (hexp : ∀ x, 0 < E.exact_exp x) (m : ℚ)
    (S : List Nat) : ∀ s : (Nat → CNN_Node) × ℚ,
    s.2 ≤ (exponentiate E m S s).2 ∧ (S ≠ [] → s.2 < (exponentiate E m S s).2) := by
  induction S with
  | nil => exact fun s => ⟨le_refl _, fun h => absurd rfl h⟩
  | cons b rest ih =>
    intro s
    have h := (ih (Function.update s.1 b
      (E.set_value (E.exact_exp (E.get_value (s.1 b) - m)) (s.1 b)),
      s.2 + E.exact_exp (E.get_value (s.1 b) - m))).1
    have hp := hexp (E.get_value (s.1 b) - m)
    rw [exponentiate]
    dsimp only at h
    exact ⟨by linarith, fun _ => by linarith⟩

/-- After the loop of lines 985-1018 every output node holds a positive
value, and so does every node that held one before. -/
theorem exponentiate_values (E : Evaluator) (hE : E.Lawful) (m : ℚ) (S : List Nat) :
    ∀ (s : (Nat → CNN_Node) × ℚ) (a : Nat),
    (a ∈ S ∨ 0 < E.get_value (s.1 a)) →
      0 < E.get_value ((exponentiate E m S s).1 a) := by
  induction S with
  | nil =>
    intro s a h
    rcases h with h | h
    · exact absurd h (List.not_mem_nil a)
    · exact h
  | cons b rest ih =>
    intro s a h
    rw [exponentiate]
    apply ih
    by_cases hab : a = b
    · right
      subst hab
      show 0 < E.get_value (Function.update s.1 a _ a)
      rw [Function.update_same, hE.get_set_value]
      exact hE.exp_pos _
    · rcases h with h | h
      · rcases List.mem_cons.mp h with h | h
        · exact absurd h hab
        · exact Or.inl h
      · right
        show 0 < E.get_value (Function.update s.1 b _ a)
        rw [Function.update_noteq hab]
        exact h

/-- For a genome with an output node and a positive `exact_exp`, `evaluate_image`
does not reach the `exit(1)` of line 1023: the sum is positive, and the call
returns what the loop of lines 1026-1070 and the backward pass leave. -/
theorem evaluate_image_eq (E : Evaluator) (hexp : ∀ x, 0 < E.exact_exp x)
    (g : CNN_Genome) (hne : g.softmax_nodes ≠ []) (image : Image)
    (class_error : List ℚ) (perform_backprop dropout : Bool) (total_error : ℚ) :
    ∃ m : ℚ,
      0 < (exponentiate E m g.softmax_nodes
        ((forward_pass E g image dropout).heap, 0)).2 ∧
      g.evaluate_image E image class_error perform_backprop dropout total_error =
        some (conclude_image E g perform_backprop (forward_pass E g image dropout).edges
          (forward_pass E g image dropout).generator
          (normalise E
            (exponentiate E m g.softmax_nodes ((forward_pass E g image dropout).heap, 0)).2
            image.classification 0 g.softmax_nodes
            { heap := (exponentiate E m g.softmax_nodes
                ((forward_pass E g image dropout).heap, 0)).1
              class_error := class_error
              total_error := total_error
              predicted_class := -1
              max_value := -DBL_MAX })) := by
  unfold CNN_Genome.evaluate_image evaluate_output
  generalize forward_pass E g image dropout = fwd
  cases hsoft : g.softmax_nodes with
  | nil => exact absurd hsoft hne
  | cons first rest =>
    dsimp only
    have hpos := (exponentiate_sum E hexp
      (softmax_max_loop E fwd.heap rest (E.get_value (fwd.heap first))) (first :: rest)
      (fwd.heap, 0)).2 (List.cons_ne_nil _ _)
    refine ⟨softmax_max_loop E fwd.heap rest (E.get_value (fwd.heap first)), hpos, ?_⟩
    unfold classify
    rw [if_neg (ne_of_gt hpos), hsoft]

/-- The embedded `evaluate_image` does not end the process on a genome with an
output node, when `exact_exp` is positive. -/
theorem with_evaluator_never_exits (T : Trainer) (E : Evaluator)
    (hexp : ∀ x, 0 < E.exact_exp x) (softmax_nodes : List Nat)
    (hne : softmax_nodes ≠ []) : (T.with_evaluator E).never_exits softmax_nodes := by
  intro g hg image class_error perform_backprop dropout total_error
  obtain ⟨m, _, h⟩ := evaluate_image_eq E hexp g (hg ▸ hne) image class_error
    perform_backprop dropout total_error
  show (g.evaluate_image E image class_error perform_backprop dropout
    total_error).isSome = true
  rw [h]
  rfl

theorem epochs_returns (T : Trainer) (images : Images) (k : Nat) :
    ∀ s : Training, T.never_exits s.genome.softmax_nodes →
      ∃ s2, epochs T images k s = some s2 := by
  induction k with
  | zero => exact fun s _ => ⟨s, rfl⟩
  | succ k ih =>
    intro s hT
    obtain ⟨s1, h1⟩ := epoch_returns T images s hT
    obtain ⟨s2, h2⟩ := ih s1 ((epoch_softmax_nodes T images s s1 h1) ▸ hT)
    exact ⟨s2, by simp only [epochs, h1]; exact h2⟩

theorem epoch_loop_continue (T : Trainer) (images : Images) (fuel : Nat)
    (s s1 : Training) (h : epoch T images s = some s1)
    (hlast : ¬ s1.genome.epoch > s1.genome.max_epochs) :
    epoch_loop T images (fuel + 1) s = epoch_loop T images fuel s1 := by
  rw [epoch_loop, h]
  dsimp only
  rw [if_neg hlast]

/-- The count of the passes of a call whose counters are below the largest
`int`. -/
theorem stochastic_backpropagation_count (T : Trainer) (images : Images)
    (this : CNN_Genome) (hT : T.never_exits this.softmax_nodes)
    (hchecks : entry_checks T this = true) (hlow : INT_MIN ≤ this.epoch)
    (hhigh : this.epoch < INT_MAX) (hmax : this.max_epochs < INT_MAX) (fuel : Nat) :
    ∃ s0, this.loop_entry T images = some s0 ∧
      ((max 1 (this.max_epochs - this.epoch + 1)).toNat ≤ fuel →
        ∃ s2, this.stochastic_backpropagation T fuel images = Run.returned s2 ∧
          epochs T images (max 1 (this.max_epochs - this.epoch + 1)).toNat s0 = some s2 ∧
          s2.genome.epoch = max this.epoch this.max_epochs + 1) ∧
      (fuel < (max 1 (this.max_epochs - this.epoch + 1)).toNat →
        this.stochastic_backpropagation T fuel images = Run.unfinished) := by
  obtain ⟨s0, h0⟩ := loop_entry_returns T images this hT
  have hs0 := loop_entry_settings T images this s0 h0
  have hsoft := loop_entry_softmax_nodes T images this s0 h0
  have hloop := epoch_loop_spec T images fuel s0 (hsoft ▸ hT)
    (by rw [hs0.1]; exact hlow) (by rw [hs0.1]; exact hhigh) (by rw [hs0.2.1]; exact hmax)
  rw [hs0.1, hs0.2.1] at hloop
  rw [stochastic_backpropagation_eq T images this hchecks s0 h0]
  refine ⟨s0, h0, fun h => ?_, hloop.2⟩
  obtain ⟨s2, h2, h3⟩ := hloop.1 h
  have hcount : this.epoch + ((max 1 (this.max_epochs - this.epoch + 1)).toNat : Int) ≤
      INT_MAX := by
    rcases le_total this.epoch this.max_epochs with hle | hle
    · rw [max_eq_right (by omega)]
      omega
    · rw [max_eq_left (by omega)]
      have : ((1 : Int).toNat : Int) = 1 := rfl
      omega
  have hc := (epochs_counter T images _ s0 s2 h3 (by rw [hs0.1]; exact hlow)
    (by rw [hs0.1]; exact hcount)).1
  refine ⟨s2, h2, h3, ?_⟩
  rw [hc, hs0.1]
  rcases le_total this.epoch this.max_epochs with hle | hle
  · rw [max_eq_right hle, max_eq_right (by omega)]
    omega
  · rw [max_eq_left hle, max_eq_left (by omega)]
    rfl

/-- C14, as stated, fails for counters at the end of the range of an `int`,
under the embedded `evaluate_image` with `sample_evaluator`. For
`genome_last_epoch` (epoch counter 2147483647, `max_epochs = 0`) the claim
counts `max(1, 0 - 2147483647 + 1) = 1` epoch and a final counter of
2147483648: the one epoch leaves the counter at -2147483648, which is not
above `max_epochs`, and the call has not returned. For `genome_unbounded`
(epoch counter 2147483646, `max_epochs = 2147483647`) the claim counts 2 epochs:
they leave the counter at -2147483648 too, and the call has not returned. -/
theorem epoch_counter_overflows :
    (∃ s0 s1,
      genome_last_epoch.loop_entry (sample_trainer.with_evaluator sample_evaluator)
        sample_images = some s0 ∧
      (max 1 (genome_last_epoch.max_epochs - genome_last_epoch.epoch + 1)).toNat = 1 ∧
      epochs (sample_trainer.with_evaluator sample_evaluator) sample_images 1 s0 =
        some s1 ∧
      s1.genome.epoch = -2147483648 ∧
      s1.genome.epoch ≠ max genome_last_epoch.epoch genome_last_epoch.max_epochs + 1 ∧
      genome_last_epoch.stochastic_backpropagation
        (sample_trainer.with_evaluator sample_evaluator) 1 sample_images =
        Run.unfinished) ∧
    (∃ s0 s2,
      genome_unbounded.loop_entry (sample_trainer.with_evaluator sample_evaluator)
        sample_images = some s0 ∧
      (max 1 (genome_unbounded.max_epochs - genome_unbounded.epoch + 1)).toNat = 2 ∧
      epochs (sample_trainer.with_evaluator sample_evaluator) sample_images 2 s0 =
        some s2 ∧
      s2.genome.epoch = -2147483648 ∧
      s2.genome.epoch ≠ max genome_unbounded.epoch genome_unbounded.max_epochs + 1 ∧
      genome_unbounded.stochastic_backpropagation
        (sample_trainer.with_evaluator sample_evaluator) 2 sample_images =
        Run.unfinished) := by
  have hT : ∀ S : List Nat, S ≠ [] →
      (sample_trainer.with_evaluator sample_evaluator).never_exits S :=
    fun S hS => with_evaluator_never_exits sample_trainer sample_evaluator sample_exp_pos S hS
  constructor
  · obtain ⟨s0, h0⟩ := loop_entry_returns (sample_trainer.with_evaluator sample_evaluator)
      sample_images genome_last_epoch (hT _ (by decide))
    have hs0 := loop_entry_settings _ sample_images genome_last_epoch s0 h0
    have hsoft := loop_entry_softmax_nodes _ sample_images genome_last_epoch s0 h0
    obtain ⟨s1, h1⟩ := epoch_returns (sample_trainer.with_evaluator sample_evaluator)
      sample_images s0 (hT _ (by rw [hsoft]; decide))
    have hs := epoch_settings _ sample_images s0 s1 h1
    have he : s1.genome.epoch = -2147483648 := by
      rw [hs.1, hs0.1]
      decide
    have hm : s1.genome.max_epochs = 0 := by
      rw [hs.2.1, hs0.2.1]
      rfl
    refine ⟨s0, s1, h0, by decide, by simp only [epochs, h1], he, ?_, ?_⟩
    · rw [he]
      decide
    · rw [stochastic_backpropagation_eq _ sample_images genome_last_epoch (by decide) s0 h0,
        epoch_loop_continue _ sample_images 0 s0 s1 h1 (by rw [he, hm]; decide)]
      rfl
  · obtain ⟨s0, h0⟩ := loop_entry_returns (sample_trainer.with_evaluator sample_evaluator)
      sample_images genome_unbounded (hT _ (by decide))
    have hs0 := loop_entry_settings _ sample_images genome_unbounded s0 h0
    have hsoft := loop_entry_softmax_nodes _ sample_images genome_unbounded s0 h0
    obtain ⟨s1, h1⟩ := epoch_returns (sample_trainer.with_evaluator sample_evaluator)
      sample_images s0 (hT _ (by rw [hsoft]; decide))
    have hs := epoch_settings _ sample_images s0 s1 h1
    have hsoft1 := epoch_softmax_nodes _ sample_images s0 s1 h1
    obtain ⟨s2, h2⟩ := epoch_returns (sample_trainer.with_evaluator sample_evaluator)
      sample_images s1 (hT _ (by rw [hsoft1, hsoft]; decide))
    have hs2 := epoch_settings _ sample_images s1 s2 h2
    have he1 : s1.genome.epoch = 2147483647 := by
      rw [hs.1, hs0.1]
      decide
    have hm1 : s1.genome.max_epochs = 2147483647 := by
      rw [hs.2.1, hs0.2.1]
      rfl
    have he2 : s2.genome.epoch = -2147483648 := by
      rw [hs2.1, he1]
      decide
    have hm2 : s2.genome.max_epochs = 2147483647 := by
      rw [hs2.2.1, hm1]
    refine ⟨s0, s2, h0, by decide, by simp only [epochs, h1, h2], he2, ?_, ?_⟩
    · rw [he2]
      decide
    · rw [stochastic_backpropagation_eq _ sample_images genome_unbounded (by decide) s0 h0,
        epoch_loop_continue _ sample_images 1 s0 s1 h1 (by rw [he1, hm1]; decide),
        epoch_loop_continue _ sample_images 0 s1 s2 h2 (by rw [he2, hm2]; decide)]
      rfl

/-- C14, amended: under the embedded `evaluate_image`, for a genome with an
output node, a positive `exact_exp` and entry checks that pass (so that no
`exit(1)` is reached), `stochastic_backpropagation` returns for every starting
epoch counter and every `max_epochs` below the largest `int`: the loop is
entered in the state `s0`; allowed at least `max(1, max_epochs - epoch + 1)`
passes the call returns the state that exactly that many epochs leave, with
the epoch counter at `max(epoch, max_epochs) + 1`; allowed fewer passes it is
still running. -/
theorem stochastic_backpropagation_epoch_count (T : Trainer) (E : Evaluator)
    (hexp : ∀ x, 0 < E.exact_exp x) (images : Images) (this : CNN_Genome)
    (hne : this.softmax_nodes ≠ [])
    (hchecks : entry_checks (T.with_evaluator E) this = true)
    (hlow : INT_MIN ≤ this.epoch) (hhigh : this.epoch < INT_MAX)
    (hmax : this.max_epochs < INT_MAX) (fuel : Nat) :
    ∃ s0, this.loop_entry (T.with_evaluator E) images = some s0 ∧
      ((max 1 (this.max_epochs - this.epoch + 1)).toNat ≤ fuel →
        ∃ s2, this.stochastic_backpropagation (T.with_evaluator E) fuel images =
            Run.returned s2 ∧
          epochs (T.with_evaluator E) images
            (max 1 (this.max_epochs - this.epoch + 1)).toNat s0 = some s2 ∧
          s2.genome.epoch = max this.epoch this.max_epochs + 1) ∧
      (fuel < (max 1 (this.max_epochs - this.epoch + 1)).toNat →
        this.stochastic_backpropagation (T.with_evaluator E) fuel images =
          Run.unfinished) :=
  stochastic_backpropagation_count (T.with_evaluator E) images this
    (with_evaluator_never_exits T E hexp _ hne) hchecks hlow hhigh hmax fuel

/-- C14, amended, for the fresh genome `genome_training` (epoch counter 0,
`max_epochs = 0`) under the embedded `evaluate_image` with `sample_evaluator`: one
pass is enough, and the call returns with the epoch counter at 1. -/
theorem stochastic_backpropagation_epoch_count_witness :
    (∀ x, 0 < sample_evaluator.exact_exp x) ∧ genome_training.softmax_nodes ≠ [] ∧
    entry_checks (sample_trainer.with_evaluator sample_evaluator) genome_training = true ∧
    INT_MIN ≤ genome_training.epoch ∧ genome_training.epoch < INT_MAX ∧
    genome_training.max_epochs < INT_MAX ∧
    ∃ s0, genome_training.loop_entry (sample_trainer.with_evaluator sample_evaluator)
        sample_images = some s0 ∧
      ∃ s2, genome_training.stochastic_backpropagation
            (sample_trainer.with_evaluator sample_evaluator) 1 sample_images =
          Run.returned s2 ∧
        epochs (sample_trainer.with_evaluator sample_evaluator) sample_images 1 s0 =
          some s2 ∧
        s2.genome.epoch = 1 := by
  obtain ⟨s0, h0, h1, _⟩ := stochastic_backpropagation_epoch_count sample_trainer
    sample_evaluator sample_exp_pos sample_images genome_training (by decide) (by decide)
    (by decide) (by decide) (by decide) 1
  obtain ⟨s2, h2, h3, h4⟩ := h1 (by decide)
  exact ⟨sample_exp_pos, by decide, by decide, by decide, by decide, by decide,
    s0, h0, s2, h2, h3, h4⟩

/-- C15: under the embedded `evaluate_image`, with a positive `exact_exp`: every
epoch of a genome with an output node returns and leaves as `best_error` the
smaller of the value before the epoch and the total error of the epoch's
measuring pass, so it is at most that error and not above the value before;
and for a genome with an output node whose entry checks pass the loop is
entered, every call that returns has run at least one epoch and returns with
`best_error` the least of its value at loop entry and the total errors of the
measuring passes of all its epochs, and the call does return when its
counters are below the largest `int`. (Errors are rational numbers: totally
ordered, without NaN.) -/
theorem best_error_is_minimum (T : Trainer) (E : Evaluator)
    (hexp : ∀ x, 0 < E.exact_exp x) (images : Images)
    (s : Training) (hs : s.genome.softmax_nodes ≠ []) (this : CNN_Genome)
    (hne : this.softmax_nodes ≠ [])
    (hchecks : entry_checks (T.with_evaluator E) this = true) :
    (∃ m s1, measure_epoch (T.with_evaluator E) images s.genome = some m ∧
      epoch (T.with_evaluator E) images s = some s1 ∧
      s1.genome.best_error = min s.genome.best_error m.2.total_error ∧
      s1.genome.best_error ≤ m.2.total_error ∧
      s1.genome.best_error ≤ s.genome.best_error) ∧
    (∃ s0, this.loop_entry (T.with_evaluator E) images = some s0 ∧
      (∀ fuel s2,
        this.stochastic_backpropagation (T.with_evaluator E) fuel images =
          Run.returned s2 →
        ∃ n, 0 < n ∧ n ≤ fuel ∧ epochs (T.with_evaluator E) images n s0 = some s2 ∧
          (unbiased_errors (T.with_evaluator E) images n s0).length = n ∧
          s2.genome.best_error =
            (unbiased_errors (T.with_evaluator E) images n s0).foldl min
              s0.genome.best_error) ∧
      (INT_MIN ≤ this.epoch → this.epoch < INT_MAX → this.max_epochs < INT_MAX →
        ∃ s2, this.stochastic_backpropagation (T.with_evaluator E)
          (max 1 (this.max_epochs - this.epoch + 1)).toNat images = Run.returned s2)) := by
  constructor
  · obtain ⟨m, hm⟩ := measure_epoch_returns (T.with_evaluator E) images s.genome
      (with_evaluator_never_exits T E hexp _ hs)
    have hb := epoch_best_error (T.with_evaluator E) images s m hm
    exact ⟨m, _, hm, epoch_of_measure (T.with_evaluator E) images s m hm, hb,
      hb ▸ min_le_right _ _, hb ▸ min_le_left _ _⟩
  · have hT := with_evaluator_never_exits T E hexp _ hne
    obtain ⟨s0, h0⟩ := loop_entry_returns (T.with_evaluator E) images this hT
    refine ⟨s0, h0, fun fuel s2 h => ?_, fun hlow hhigh hmax => ?_⟩
    · rw [stochastic_backpropagation_eq (T.with_evaluator E) images this hchecks s0 h0] at h
      obtain ⟨n, hn1, hn2, hn3⟩ := epoch_loop_returned (T.with_evaluator E) images fuel s0 s2 h
      obtain ⟨h5, h6⟩ := epochs_best_error (T.with_evaluator E) images n s0 s2 hn3
      exact ⟨n, hn1, hn2, hn3, h5, h6⟩
    · obtain ⟨s1, h1, h2, _⟩ := stochastic_backpropagation_count (T.with_evaluator E) images
        this hT hchecks hlow hhigh hmax (max 1 (this.max_epochs - this.epoch + 1)).toNat
      rw [Option.some.inj (h0.symm.trans h1)] at *
      obtain ⟨s2, h3, _⟩ := h2 (le_refl _)
      exact ⟨s2, h3⟩

/-- C15 for `genome_training` (`best_error` 1, one image in its order) under the
embedded `evaluate_image` with `sample_evaluator`, as the state of an epoch and
as the genome of a call, which returns after one epoch. -/
theorem best_error_is_minimum_witness :
    (∀ x, 0 < sample_evaluator.exact_exp x) ∧ genome_training.softmax_nodes ≠ [] ∧
    entry_checks (sample_trainer.with_evaluator sample_evaluator) genome_training = true ∧
    (∃ m s1, measure_epoch (sample_trainer.with_evaluator sample_evaluator) sample_images
        genome_training = some m ∧
      epoch (sample_trainer.with_evaluator sample_evaluator) sample_images
        { genome := genome_training } = some s1 ∧
      s1.genome.best_error = min 1 m.2.total_error ∧
      s1.genome.best_error ≤ m.2.total_error ∧ s1.genome.best_error ≤ 1) ∧
    (∃ s0 s2, genome_training.loop_entry (sample_trainer.with_evaluator sample_evaluator)
        sample_images = some s0 ∧
      genome_training.stochastic_backpropagation
        (sample_trainer.with_evaluator sample_evaluator) 1 sample_images =
        Run.returned s2 ∧
      epochs (sample_trainer.with_evaluator sample_evaluator) sample_images 1 s0 =
        some s2 ∧
      (unbiased_errors (sample_trainer.with_evaluator sample_evaluator) sample_images 1
        s0).length = 1 ∧
      s2.genome.best_error =
        (unbiased_errors (sample_trainer.with_evaluator sample_evaluator) sample_images 1
          s0).foldl min s0.genome.best_error) := by
  obtain ⟨h1, s0, h0, h2, h3⟩ := best_error_is_minimum sample_trainer sample_evaluator
    sample_exp_pos sample_images { genome := genome_training } (by decide) genome_training
    (by decide) (by decide)
  obtain ⟨s2, h4⟩ := h3 (by decide) (by decide) (by decide)
  have hN : (max 1 (genome_training.max_epochs - genome_training.epoch + 1)).toNat = 1 := by
    decide
  rw [hN] at h4
  obtain ⟨n, hn1, hn2, h5, h6, h7⟩ := h2 1 s2 h4
  have hn : n = 1 := by omega
  subst hn
  exact ⟨sample_exp_pos, by decide, by decide, h1, s0, s2, h0, h4, h5, h6, h7⟩

/-- The reference argument `total_error` after one image is the one
`evaluate_image` left. -/
theorem count_prediction_total_error (expected_class : Int) (out : Image_Evaluation)
    (r : Evaluation) :
    (count_prediction expected_class out r).total_error = out.total_error := by
  unfold count_prediction
  split <;> rfl

/-- The loop of lines 1026-1070 adds at most `B` to `total_error`, when the
logarithm of a positive number is not below `-B`: the target is 1 at one index
at most, and the values of the output nodes are positive. -/
theorem normalise_total_error (E : Evaluator) (hE : E.Lawful) (B : ℚ) (hB : 0 ≤ B)
    (hlog : ∀ v, 0 < v → -B ≤ E.log v) (sum : ℚ) (hsum : 0 < sum)
    (expected_class : Int) (S : List Nat) : ∀ (i : Nat) (s : Softmax_State),
    (∀ a ∈ S, 0 < E.get_value (s.heap a)) →
    (normalise E sum expected_class i S s).total_error ≤
      s.total_error +
        (if (i : Int) ≤ expected_class ∧ expected_class < (i : Int) + S.length then B
         else 0) := by
  induction S with
  | nil =>
    intro i s _
    rw [normalise]
    split <;> linarith
  | cons b rest ih =>
    intro i s hpos
    have hv : 0 < E.get_value (s.heap b) / sum :=
      div_pos (hpos b (List.mem_cons_self b rest)) hsum
    have hstep : (normalise_node E sum expected_class i b s).total_error =
        s.total_error - target i expected_class *
          E.log (E.get_value (s.heap b) / sum) := rfl
    have hinv : ∀ a ∈ rest,
        0 < E.get_value ((normalise_node E sum expected_class i b s).heap a) := by
      intro a ha
      by_cases hab : a = b
      · subst hab
        show 0 < E.get_value (Function.update s.heap a _ a)
        rw [Function.update_same, hE.get_set_gradient, hE.get_set_error, hE.get_set_value]
        exact hv
      · show 0 < E.get_value (Function.update s.heap b _ a)
        rw [Function.update_noteq hab]
        exact hpos a (List.mem_cons_of_mem b ha)
    have h := ih (i + 1) (normalise_node E sum expected_class i b s) hinv
    have hl := hlog _ hv
    rw [normalise]
    refine le_trans h ?_
    rw [hstep]
    unfold target
    simp only [List.length_cons]
    push_cast
    split_ifs <;> first | linarith | omega

/-- One call of the embedded `evaluate_image` on a genome with an output node
returns and adds at most `B` to `total_error`, when the logarithm of a
positive number is not below `-B`. -/
theorem evaluate_image_total_error (E : Evaluator) (hE : E.Lawful) (B : ℚ) (hB : 0 ≤ B)
    (hlog : ∀ v, 0 < v → -B ≤ E.log v) (g : CNN_Genome) (hne : g.softmax_nodes ≠ [])
    (image : Image) (class_error : List ℚ) (perform_backprop dropout : Bool)
    (total_error : ℚ) :
    ∃ out, g.evaluate_image E image class_error perform_backprop dropout total_error =
        some out ∧
      out.total_error ≤ total_error + B := by
  obtain ⟨m, hpos, h⟩ := evaluate_image_eq E hE.exp_pos g hne image class_error
    perform_backprop dropout total_error
  refine ⟨_, h, ?_⟩
  rw [(conclude_image_predicted_class E g perform_backprop _ _ _).2.2.1]
  have hb := normalise_total_error E hE B hB hlog _ hpos image.classification
    g.softmax_nodes 0
    { heap := (exponentiate E m g.softmax_nodes
        ((forward_pass E g image dropout).heap, 0)).1
      class_error := class_error
      total_error := total_error
      predicted_class := -1
      max_value := -DBL_MAX }
    (fun a ha => exponentiate_values E hE m g.softmax_nodes _ a (Or.inl ha))
  refine le_trans hb ?_
  dsimp only
  split <;> linarith

/-- One pass of `evaluate` over the entries of `order` adds at most `B` for
each of them to `total_error`. -/
theorem evaluate_loop_total_error (T : Trainer) (E : Evaluator) (hE : E.Lawful) (B : ℚ)
    (hB : 0 ≤ B) (hlog : ∀ v, 0 < v → -B ≤ E.log v) (images : Images) (b : Bool)
    (order : List Int) : ∀ (j : Nat) (g : CNN_Genome) (r : Evaluation)
    (res : CNN_Genome × Evaluation), g.softmax_nodes ≠ [] →
    evaluate_loop (T.with_evaluator E) images b j order g r = some res →
      res.2.total_error ≤ r.total_error + B * order.length := by
  induction order with
  | nil =>
    intro j g r res _ h
    simp only [evaluate_loop, Option.some.injEq] at h
    rw [← h]
    simp
  | cons o order ih =>
    intro j g r res hne h
    obtain ⟨out, hout, hbound⟩ := evaluate_image_total_error E hE B hB hlog g hne
      (images.get_image o) r.class_error b (perform_dropout b) r.total_error
    have hout2 : (T.with_evaluator E).evaluate_image g (images.get_image o) r.class_error b
        (perform_dropout b) r.total_error = some out := hout
    have hs : (after_image (T.with_evaluator E) b j g out).softmax_nodes = g.softmax_nodes :=
      same_settings_softmax_nodes (after_image_same_settings (T.with_evaluator E) b j g out)
    unfold evaluate_loop at h
    rw [hout2] at h
    have h2 := ih _ _ _ _ (by rw [hs]; exact hne) h
    rw [count_prediction_total_error] at h2
    simp only [List.length_cons]
    push_cast
    linarith

/-- The measuring pass of an epoch leaves a total error of at most `B` for
each entry of `backprop_order`. -/
theorem measure_epoch_total_error (T : Trainer) (hT : T.shuffles) (E : Evaluator)
    (hE : E.Lawful) (B : ℚ) (hB : 0 ≤ B) (hlog : ∀ v, 0 < v → -B ≤ E.log v)
    (images : Images) (g : CNN_Genome) (hne : g.softmax_nodes ≠ [])
    (m : CNN_Genome × Evaluation)
    (h : measure_epoch (T.with_evaluator E) images g = some m) :
    m.2.total_error ≤ B * g.backprop_order.length := by
  unfold measure_epoch at h
  split at h
  · exact absurd h (by simp)
  · rename_i trained h1
    have hs : trained.1.softmax_nodes = (g.shuffle_order (T.with_evaluator E)).softmax_nodes :=
      same_settings_softmax_nodes
        (evaluate_same_settings (T.with_evaluator E) images true _ _ h1)
    have ho : trained.1.backprop_order =
        (g.shuffle_order (T.with_evaluator E)).backprop_order :=
      evaluate_loop_backprop_order (T.with_evaluator E) images true _ _ _ _ _ h1
    have hlen : trained.1.backprop_order.length = g.backprop_order.length := by
      rw [ho]
      exact (hT g.rng.generator g.backprop_order).length_eq
    have hb := evaluate_loop_total_error T E hE B hB hlog images false
      trained.1.backprop_order 0 trained.1 _ m (by rw [hs]; exact hne) h
    rw [hlen] at hb
    simpa using hb

/-- C18: on a fresh start (not from a checkpoint) of a genome with an output
node, under the embedded `evaluate_image` with lawful node accessors, a shuffle
that rearranges, and a `log` that is not below -745 on a positive `double` (the
least positive `double` is 2^-1074, and its logarithm is above -744.5): the
loop is entered with `best_error` reset to `EXACT_MAX_DOUBLE`, which is 10000000;
the first epoch returns, and the total error of its measuring pass over the
2000 entries of `backprop_order` is at most 2000 * 745 = 1490000, so it is
strictly below the sentinel; the epoch is recorded as best: `best_error` is
that error, `best_error_epoch` is the epoch counter of the call, every edge
and every node of the node list has its value saved as best, and the weights
and biases are those the two passes left, not rolled back. -/
theorem fresh_start_first_epoch (T : Trainer) (hT : T.shuffles) (E : Evaluator)
    (hE : E.Lawful) (hlog : ∀ v, 0 < v → -745 ≤ E.log v) (images : Images)
    (this : CNN_Genome) (hne : this.softmax_nodes ≠ [])
    (hfresh : this.started_from_checkpoint = false) :
    ∃ s0 m s1, this.loop_entry (T.with_evaluator E) images = some s0 ∧
      s0.genome.best_error = EXACT_MAX_DOUBLE ∧ EXACT_MAX_DOUBLE = 10000000 ∧
      measure_epoch (T.with_evaluator E) images s0.genome = some m ∧
      m.2.total_error ≤ 1490000 ∧ m.2.total_error < EXACT_MAX_DOUBLE ∧
      epoch (T.with_evaluator E) images s0 = some s1 ∧
      s1.genome.best_error = m.2.total_error ∧
      s1.genome.best_error_epoch = this.epoch ∧
      s1.genome.edges.map CNN_Edge.best_weights = s1.genome.edges.map CNN_Edge.weights ∧
      s1.genome.edges.map CNN_Edge.weights = m.1.edges.map CNN_Edge.weights ∧
      (∀ a ∈ this.nodes, (s1.genome.heap a).best_bias = (s1.genome.heap a).bias) ∧
      (∀ a, (s1.genome.heap a).bias = (m.1.heap a).bias) := by
  have hN := with_evaluator_never_exits T E hE.exp_pos _ hne
  obtain ⟨s0, h0⟩ := loop_entry_returns (T.with_evaluator E) images this hN
  have hs0 := loop_entry_settings (T.with_evaluator E) images this s0 h0
  have hsoft := loop_entry_softmax_nodes (T.with_evaluator E) images this s0 h0
  have hbest : s0.genome.best_error = EXACT_MAX_DOUBLE := by
    rw [hs0.2.2.2.2.2.2.1, hfresh]
    rfl
  have hlen : s0.genome.backprop_order.length = 2000 := by
    have h1 := h0
    unfold CNN_Genome.loop_entry at h1
    split at h1
    · exact absurd h1 (by simp)
    · rename_i first hfirst
      rw [← Option.some.inj h1]
      show first.1.backprop_order.length = 2000
      rw [evaluate_loop_backprop_order (T.with_evaluator E) images false _ _ _ _ _ hfirst]
      exact resize_length 2000 _
  obtain ⟨m, hm⟩ := measure_epoch_returns (T.with_evaluator E) images s0.genome
    (hsoft ▸ hN)
  have hbound := measure_epoch_total_error T hT E hE 745 (by norm_num) hlog images
    s0.genome (by rw [hsoft]; exact hne) m hm
  rw [hlen] at hbound
  have hmax : EXACT_MAX_DOUBLE = 10000000 := rfl
  have hle : m.2.total_error ≤ 1490000 := by
    refine le_trans hbound ?_
    norm_num
  have hlt : m.2.total_error < EXACT_MAX_DOUBLE := by
    rw [hmax]
    linarith
  obtain ⟨s1, h1, h2, h3, _, _, _, _, _, _, h4, h5, h6, h7⟩ :=
    epoch_with_improvement (T.with_evaluator E) images s0 m hm (hbest ▸ hlt)
  exact ⟨s0, m, s1, h0, hbest, hmax, hm, hle, hlt, h1, h2, h3.trans hs0.1, h4, h5,
    fun a ha => h6 a (hs0.2.2.2.2.2.1 ▸ ha), h7⟩

theorem sample_log_bound (v : ℚ) (h : 0 < v) : -745 ≤ sample_evaluator.log v := by
  show -745 ≤ v - 1
  linarith

/-- C18 for `genome_training`, trained from a fresh start under the embedded
`evaluate_image` with `sample_evaluator` (whose `log x` is `x - 1`) and
`sample_trainer` (whose shuffle reverses the order): the first epoch is
recorded as best, with an error below the sentinel 10000000. -/
theorem fresh_start_first_epoch_witness :
    sample_trainer.shuffles ∧ sample_evaluator.Lawful ∧
    (∀ v, 0 < v → -745 ≤ sample_evaluator.log v) ∧
    genome_training.softmax_nodes ≠ [] ∧
    genome_training.started_from_checkpoint = false ∧
    ∃ s0 m s1, genome_training.loop_entry (sample_trainer.with_evaluator sample_evaluator)
        sample_images = some s0 ∧
      s0.genome.best_error = 10000000 ∧
      measure_epoch (sample_trainer.with_evaluator sample_evaluator) sample_images
        s0.genome = some m ∧
      m.2.total_error < 10000000 ∧
      epoch (sample_trainer.with_evaluator sample_evaluator) sample_images s0 = some s1 ∧
      s1.genome.best_error = m.2.total_error ∧ s1.genome.best_error_epoch = 0 ∧
      s1.genome.edges.map CNN_Edge.best_weights =
        s1.genome.edges.map CNN_Edge.weights := by
  obtain ⟨s0, m, s1, h0, h1, h2, h3, _, h4, h5, h6, h7, h8, _⟩ :=
    fresh_start_first_epoch sample_trainer sample_shuffles sample_evaluator
      sample_evaluator_lawful sample_log_bound sample_images genome_training (by decide) rfl
  exact ⟨sample_shuffles, sample_evaluator_lawful, sample_log_bound, by decide, rfl,
    s0, m, s1, h0, h1.trans h2, h3, h2 ▸ h4, h5, h6, h7, h8⟩

/-- C19: under the embedded `evaluate_image`, with a positive `exact_exp` and a
genome with an output node, `k` epochs return, whether or not they improve on
the best error, and leave
`mu = 0.99 - (0.99 - mu0) * mu_delta^k`,
`learning_rate = lr0 * learning_rate_delta^k` and
`weight_decay = wd0 * weight_decay_delta^k` (in rational arithmetic). If
`mu0 <= 0.99` and `0 <= mu_delta <= 1`, then `mu` after `k` epochs is at least
`mu0` and at most 0.99, and the next epoch leaves a `mu` that is not smaller
and at most 0.99. -/
theorem hyperparameter_schedule (T : Trainer) (E : Evaluator)
    (hexp : ∀ x, 0 < E.exact_exp x) (images : Images)
    (s : Training) (hne : s.genome.softmax_nodes ≠ []) (k : Nat) :
    ∃ s2, epochs (T.with_evaluator E) images k s = some s2 ∧
      s2.genome.mu = 99 / 100 - (99 / 100 - s.genome.mu) * s.genome.mu_delta ^ k ∧
      s2.genome.learning_rate = s.genome.learning_rate * s.genome.learning_rate_delta ^ k ∧
      s2.genome.weight_decay = s.genome.weight_decay * s.genome.weight_decay_delta ^ k ∧
      (s.genome.mu ≤ 99 / 100 → 0 ≤ s.genome.mu_delta → s.genome.mu_delta ≤ 1 →
        s.genome.mu ≤ s2.genome.mu ∧ s2.genome.mu ≤ 99 / 100 ∧
        ∃ s3, epoch (T.with_evaluator E) images s2 = some s3 ∧
          s2.genome.mu ≤ s3.genome.mu ∧ s3.genome.mu ≤ 99 / 100) := by
  have hT := with_evaluator_never_exits T E hexp _ hne
  obtain ⟨s2, h2⟩ := epochs_returns (T.with_evaluator E) images k s hT
  have hsoft := epochs_softmax_nodes (T.with_evaluator E) images k s s2 h2
  obtain ⟨hmu, hlr, hwd, hd⟩ := epochs_schedule (T.with_evaluator E) images k s s2 h2
  refine ⟨s2, h2, hmu, hlr, hwd, fun h0 h1 h3 => ?_⟩
  have hpow0 : 0 ≤ s.genome.mu_delta ^ k := pow_nonneg h1 k
  have hpow1 : s.genome.mu_delta ^ k ≤ 1 := pow_le_one₀ h1 h3
  have hgap : 0 ≤ 99 / 100 - s.genome.mu := by linarith
  have hle : s2.genome.mu ≤ 99 / 100 := by
    rw [hmu]
    have := mul_nonneg hgap hpow0
    linarith
  have hge : s.genome.mu ≤ s2.genome.mu := by
    rw [hmu]
    have := mul_le_mul_of_nonneg_left hpow1 hgap
    linarith
  obtain ⟨s3, h4⟩ := epoch_returns (T.with_evaluator E) images s2 (hsoft ▸ hT)
  obtain ⟨_, _, _, _, _, _, _, hmu3, _, _⟩ :=
    epoch_settings (T.with_evaluator E) images s2 s3 h4
  refine ⟨hge, hle, s3, h4, ?_, ?_⟩
  · rw [hmu3, hd]
    have hgap2 : 0 ≤ 99 / 100 - s2.genome.mu := by linarith
    have := mul_le_mul_of_nonneg_left h3 hgap2
    linarith
  · rw [hmu3, hd]
    have hgap2 : 0 ≤ 99 / 100 - s2.genome.mu := by linarith
    have := mul_nonneg hgap2 h1
    linarith

/-- C19 for two epochs of `genome_training` (`mu` 1/2 with `mu_delta` 1/2, learning
rate 1/10 with factor 2, weight decay 1/1000 with factor 9/10) under the
embedded `evaluate_image` with `sample_evaluator`. -/
theorem hyperparameter_schedule_witness :
    (∀ x, 0 < sample_evaluator.exact_exp x) ∧ genome_training.softmax_nodes ≠ [] ∧
    ∃ s2, epochs (sample_trainer.with_evaluator sample_evaluator) sample_images 2
        { genome := genome_training } = some s2 ∧
      s2.genome.mu = 347 / 400 ∧ s2.genome.learning_rate = 2 / 5 ∧
      s2.genome.weight_decay = 81 / 100000 ∧
      (1 / 2 : ℚ) ≤ s2.genome.mu ∧ s2.genome.mu ≤ 99 / 100 ∧
      ∃ s3, epoch (sample_trainer.with_evaluator sample_evaluator) sample_images s2 =
          some s3 ∧
        s2.genome.mu ≤ s3.genome.mu ∧ s3.genome.mu ≤ 99 / 100 := by
  obtain ⟨s2, h1, h2, h3, h4, h5⟩ := hyperparameter_schedule sample_trainer
    sample_evaluator sample_exp_pos sample_images { genome := genome_training }
    (by decide) 2
  obtain ⟨h6, h7, h8⟩ := h5 (by norm_num [genome_training])
    (by norm_num [genome_training]) (by norm_num [genome_training])
  refine ⟨sample_exp_pos, by decide, s2, h1, ?_, ?_, ?_, h6, h7, h8⟩
  · rw [h2]
    norm_num [genome_training]
  · rw [h3]
    norm_num [genome_training]
  · rw [h4]
    norm_num [genome_training]

/-- C20, as stated, fails: `genome_resumed` comes from a checkpoint with the
epoch counter 5 and `max_epochs = 0`; under the embedded `evaluate_image` with
`sample_evaluator` the call runs one epoch and passes 6 to the progress
callback, which is not in the interval from 0 to 1. -/
theorem progress_above_one_when_resumed :
    ∃ s2, genome_resumed.stochastic_backpropagation
        (sample_trainer.with_evaluator sample_evaluator) 1 sample_images =
        Run.returned s2 ∧
      progress_values s2.effects = [some 6] ∧ ¬ ((6 : ℚ) ≤ 1) := by
  obtain ⟨s2, h1, _, h2⟩ := stochastic_backpropagation_progress
    (sample_trainer.with_evaluator sample_evaluator) sample_images genome_resumed
    (with_evaluator_never_exits sample_trainer sample_evaluator sample_exp_pos _
      (by decide))
    (by decide) (by decide) (by decide) (by decide)
  have hN : (max 1 (genome_resumed.max_epochs - genome_resumed.epoch + 1)).toNat = 1 := by
    decide
  rw [hN] at h1 h2
  refine ⟨s2, h1, ?_, by norm_num⟩
  have hr : List.range 1 = [0] := rfl
  rw [h2 (by decide), hr]
  simp [genome_resumed, genome_training, double_div]

/-- C20, amended: under the embedded `evaluate_image`, for a genome with an
output node, a positive `exact_exp`, entry checks that pass and counters below
the largest `int`, the call returns; without a progress callback nothing is
reported; with one, it is called exactly once in every epoch, with the epoch
counter after its increment divided by `max_epochs + 1`. For a call that
starts with `0 <= epoch <= max_epochs` every value passed is a fraction above 0
and at most 1. For a genome whose epoch counter is already above a
`max_epochs` that is not negative, the one value passed is above 1. -/
theorem progress_reported_once_per_epoch (T : Trainer) (E : Evaluator)
    (hexp : ∀ x, 0 < E.exact_exp x) (images : Images) (this : CNN_Genome)
    (hne : this.softmax_nodes ≠ [])
    (hchecks : entry_checks (T.with_evaluator E) this = true)
    (hlow : INT_MIN ≤ this.epoch) (hhigh : this.epoch < INT_MAX)
    (hmax : this.max_epochs < INT_MAX) :
    ∃ s2, this.stochastic_backpropagation (T.with_evaluator E)
        (max 1 (this.max_epochs - this.epoch + 1)).toNat images = Run.returned s2 ∧
      (this.progress_function = none → progress_values s2.effects = []) ∧
      (this.progress_function ≠ none →
        progress_values s2.effects =
          (List.range (max 1 (this.max_epochs - this.epoch + 1)).toNat).map
            (fun i : Nat => double_div ((this.epoch + 1 + (i : Int) : Int) : ℚ)
              ((this.max_epochs : ℚ) + 1)) ∧
        (progress_values s2.effects).length =
          (max 1 (this.max_epochs - this.epoch + 1)).toNat ∧
        (0 ≤ this.epoch → this.epoch ≤ this.max_epochs →
          ∀ v ∈ progress_values s2.effects, ∃ q : ℚ, v = some q ∧ 0 < q ∧ q ≤ 1) ∧
        (0 ≤ this.max_epochs → this.max_epochs < this.epoch →
          ∃ q : ℚ, progress_values s2.effects = [some q] ∧ 1 < q)) := by
  obtain ⟨s2, h1, h2, h3⟩ := stochastic_backpropagation_progress (T.with_evaluator E)
    images this (with_evaluator_never_exits T E hexp _ hne) hchecks hlow hhigh hmax
  refine ⟨s2, h1, h2, fun h => ⟨h3 h, ?_, ?_, ?_⟩⟩
  · rw [h3 h, List.length_map, List.length_range]
  · intro he hm v hv
    rw [h3 h, List.mem_map] at hv
    obtain ⟨i, hi, hv⟩ := hv
    rw [List.mem_range, max_eq_right (by omega)] at hi
    have hpos : (0 : ℚ) < (this.max_epochs : ℚ) + 1 := by
      have : (0 : ℚ) ≤ (this.max_epochs : ℚ) := by exact_mod_cast (le_trans he hm)
      linarith
    have hnum : (0 : ℚ) < ((this.epoch + 1 + (i : Int) : Int) : ℚ) := by
      have : (0 : Int) < this.epoch + 1 + (i : Int) := by omega
      exact_mod_cast this
    have hle : ((this.epoch + 1 + (i : Int) : Int) : ℚ) ≤ (this.max_epochs : ℚ) + 1 := by
      have : this.epoch + 1 + (i : Int) ≤ this.max_epochs + 1 := by omega
      exact_mod_cast this
    refine ⟨_, ?_, div_pos hnum hpos, (div_le_one hpos).mpr hle⟩
    rw [← hv, double_div, if_neg (ne_of_gt hpos)]
  · intro hm he
    have hN : (max 1 (this.max_epochs - this.epoch + 1)).toNat = 1 := by
      rw [max_eq_left (by omega)]
      rfl
    have hpos : (0 : ℚ) < (this.max_epochs : ℚ) + 1 := by
      have : (0 : ℚ) ≤ (this.max_epochs : ℚ) := by exact_mod_cast hm
      linarith
    have hgt : (this.max_epochs : ℚ) + 1 < ((this.epoch + 1 + ((0 : Nat) : Int) : Int) : ℚ) := by
      have : this.max_epochs + 1 < this.epoch + 1 + ((0 : Nat) : Int) := by omega
      exact_mod_cast this
    have hr : List.range 1 = [0] := rfl
    refine ⟨_, ?_, (one_lt_div hpos).mpr hgt⟩
    rw [h3 h, hN, hr, List.map_singleton, double_div, if_neg (ne_of_gt hpos)]

/-- C20, amended, for `genome_three_epochs` (epoch counter 0, `max_epochs = 2`, a
callback set) under the embedded `evaluate_image` with `sample_evaluator`: three
epochs run and the callback receives 1/3, 2/3 and 1. -/
theorem progress_reported_once_per_epoch_witness :
    (∀ x, 0 < sample_evaluator.exact_exp x) ∧ genome_three_epochs.softmax_nodes ≠ [] ∧
    entry_checks (sample_trainer.with_evaluator sample_evaluator) genome_three_epochs =
      true ∧
    INT_MIN ≤ genome_three_epochs.epoch ∧ genome_three_epochs.epoch < INT_MAX ∧
    genome_three_epochs.max_epochs < INT_MAX ∧
    ∃ s2, genome_three_epochs.stochastic_backpropagation
        (sample_trainer.with_evaluator sample_evaluator) 3 sample_images =
        Run.returned s2 ∧
      progress_values s2.effects = [some (1 / 3), some (2 / 3), some 1] ∧
      (progress_values s2.effects).length = 3 ∧
      ∀ v ∈ progress_values s2.effects, ∃ q : ℚ, v = some q ∧ 0 < q ∧ q ≤ 1 := by
  obtain ⟨s2, h1, _, h2⟩ := progress_reported_once_per_epoch sample_trainer
    sample_evaluator sample_exp_pos sample_images genome_three_epochs (by decide)
    (by decide) (by decide) (by decide) (by decide)
  have hN : (max 1 (genome_three_epochs.max_epochs - genome_three_epochs.epoch + 1)).toNat =
      3 := by decide
  rw [hN] at h1 h2
  obtain ⟨h3, h4, h5, _⟩ := h2 (by decide)
  refine ⟨sample_exp_pos, by decide, by decide, by decide, by decide, by decide,
    s2, h1, ?_, h4, h5 (by decide) (by decide)⟩
  rw [h3]
  simp [genome_three_epochs, genome_training, double_div, List.range_succ]
  norm_num

end ExactSho
